import Mathlib

/-!
# fissile: the compilation scheduler (`compilator/compilator.go`) and the docker manager (`docker/docker.go`)

A shallow embedding of the package-compilation engine.  The Go functions are
translated statement by statement; everything the engine reaches through the
operating system, the docker manager, the script assets and the package model
is an explicit parameter (`Env`) acting on an explicit host state (`World`).
The docker manager of `docker/docker.go` is embedded on its own over the
answers of the docker client (`Client`), and `CreateCompilationBase` over the
answers of the compilator's manager (`BaseEnv`) and a daemon state (`Daemon`).
The worker goroutines of `Compile` are followed one after the other by
`Compile` itself, which is the run of the program for one worker, and under an
explicit schedule of their critical sections by `Pool` and `RacePool`.

Conventions
* a Go `error` is an `Option String`: `none` is `nil`, `some msg` is an error
  whose `Error()` text is `msg`;
* a `*model.Package` is a `Ptr`; `Env.heap` dereferences it, so two packages
  are the same key of a map exactly when their pointers are equal;
* a Go map is a function into `Option`; reading a missing key of a
  `map[..]bool` gives `false`, of a `map[..]*sync.Mutex` gives the nil mutex;
* a run that dereferences a nil mutex panics: `Except.error Abort.nilMutex`;
* loops that Go leaves unbounded take a `fuel`; a run that exhausts it ends in
  `Abort.outOfFuel` and still shows the events it produced;
* `log` output is not part of the model.
-/

namespace Fissile

/-! ## Go values -/

/-- Go `error`: `none` is nil, `some msg` an error with text `msg`. -/
abbrev GoError := Option String

/-- Address of a `model.Package`. -/
abbrev Ptr := Nat

/-- Modelled from the spec: `model.Package` (the package model is not among the
sources): a named, versioned unit with an ordered list of dependency
references. -/
structure Package where
  Name : String
  Version : String
  Dependencies : List Ptr

/-- Modelled from the spec: `model.Release`: a named, versioned ordered
collection of packages. -/
structure Release where
  Name : String
  Version : String
  Packages : List Ptr

/-! ## Host state and external operations -/

/-- Answer of `os.Stat`. -/
inductive StatResult
  | notExist
  | failed (msg : String)
  | info (isDir : Bool)
  deriving DecidableEq, Repr

/-- Error value of `f.Readdir(1)`: nil (an entry was read), `io.EOF`, or any
other error. -/
inductive ReaddirResult
  | entry
  | eof
  | failed (msg : String)
  deriving DecidableEq, Repr

/-- Answer of `os.Open` together with the first `Readdir(1)` on the handle. -/
inductive OpenResult
  | failed (msg : String)
  | opened (r : ReaddirResult)
  deriving DecidableEq, Repr

/-- The host as the `os` package observes it. -/
structure World where
  Stat : String → StatResult
  Open : String → OpenResult

/-- Result of `DockerManager.RunInContainer`: exit code, container handle
(the container ID, `none` for a nil handle) and error. -/
structure RunResult where
  exitCode : Int
  container : Option String
  err : GoError
  deriving DecidableEq, Repr

/-- Everything outside `compilator.go`: the package heap, `filepath.Join`,
the file-system mutators, the script assets, `pkg.Extract` and the docker
manager.  Each mutator returns its error and the host state it leaves. -/
structure Env where
  heap : Ptr → Package
  Join : List String → String
  MkdirAll : World → String → GoError × World
  RemoveAll : World → String → GoError × World
  CopyTree : World → String → String → GoError × World
  CompilationScript : String
  SaveScript : World → String → String → String → GoError × World
  Extract : World → Ptr → String → GoError × World
  RunInContainer : World → String → String → List String → String → String → RunResult × World
  RemoveContainer : World → String → GoError × World

/-- What a run does, in order: every external call with the answer it got,
every status probe with its answer, every entry into `compilePackage`
(line 124) and every backoff sleep.  In `RunInContainer` the first field is
the package the container is run for; it is not an argument of the call. -/
inductive Event
  | getPackageStatus (pkg : Ptr) (state : Nat) (err : GoError)
  | MkdirAll (path : String) (err : GoError)
  | RemoveAll (path : String) (err : GoError)
  | CopyTree (src dst : String) (err : GoError)
  | SaveScript (baseType script path : String) (err : GoError)
  | Extract (pkg : Ptr) (dir : String) (err : GoError)
  | RunInContainer (pkg : Ptr) (name image : String) (cmd : List String)
      (inPath outPath : String) (r : RunResult)
  | RemoveContainer (id : String) (err : GoError)
  | compilePackage (pkg : Ptr)
  | Sleep (seconds : Nat)
  deriving DecidableEq, Repr

/-- Why a run produced no result: a nil mutex was locked, or the fuel ran out
after the given events. -/
inductive Abort
  | nilMutex
  | outOfFuel (events : List Event)
  deriving DecidableEq, Repr

/-! ## Constants -/

def ContainerPackagesDir : String := "/var/vcap/packages"

def sleepTimeWhileCantCompileSec : Nat := 5

/-- Constant `docker.ContainerInPath`. -/
def ContainerInPath : String := "/fissile-in"

def packageError : Nat := 0
def packageNone : Nat := 1
def packageCompiling : Nat := 2
def packageCompiled : Nat := 3

/-! ## The compilator -/

structure Compilator where
  Release : Release
  HostWorkDir : String
  DockerRepository : String
  BaseType : String
  packageLock : Ptr → Option Unit
  packageCompiling : Ptr → Option Bool

/-- Go map assignment `m[k] = v`. -/
def mapSet {β : Type} (m : Ptr → Option β) (k : Ptr) (v : β) : Ptr → Option β :=
  fun q => if q = k then some v else m q

/-- Lines 67-70 of `NewCompilator`: one lock and one cleared flag per package. -/
def registerPackages : List Ptr → Compilator → Compilator
  | [], c => c
  | pkg :: rest, c =>
    registerPackages rest
      { c with packageLock := mapSet c.packageLock pkg (),
               packageCompiling := mapSet c.packageCompiling pkg false }

def NewCompilator (release : Release) (hostWorkDir dockerRepository baseType : String) :
    Compilator × GoError :=
  let compilator : Compilator :=
    { Release := release, HostWorkDir := hostWorkDir, DockerRepository := dockerRepository,
      BaseType := baseType, packageLock := fun _ => none, packageCompiling := fun _ => none }
  (registerPackages release.Packages compilator, none)

/-- The engine's state: the compilator (its flag map changes), the host, and
the events so far. -/
structure State where
  c : Compilator
  w : World
  events : List Event

/-! ## Path and name helpers -/

def getTargetPackageSourcesDir (env : Env) (c : Compilator) (pkg : Ptr) : String :=
  env.Join [c.HostWorkDir, (env.heap pkg).Name, "sources"]

def getPackageCompiledDir (env : Env) (c : Compilator) (pkg : Ptr) : String :=
  env.Join [c.HostWorkDir, (env.heap pkg).Name, "compiled"]

def getDependenciesPackageDir (env : Env) (c : Compilator) (pkg : Ptr) : String :=
  env.Join [getTargetPackageSourcesDir env c pkg, "var", "vcap", "packages"]

def getSourcePackageDir (env : Env) (c : Compilator) (pkg : Ptr) : String :=
  env.Join [getTargetPackageSourcesDir env c pkg, "var", "vcap", "source"]

def getPackageContainerName (env : Env) (c : Compilator) (pkg : Ptr) : String :=
  c.DockerRepository ++ "-" ++ c.Release.Name ++ "-" ++ c.Release.Version ++ "-pkg-" ++
    (env.heap pkg).Name

def BaseCompilationContainerName (c : Compilator) : String :=
  c.DockerRepository ++ "-" ++ c.Release.Name ++ "-" ++ c.Release.Version ++ "-cbase"

def BaseCompilationImageTag (c : Compilator) : String :=
  c.Release.Name ++ "-" ++ c.Release.Version ++ "-cbase"

/-! ## Status probe -/

def validatePath (w : World) (path : String) (shouldBeDir : Bool) (pathDescription : String) :
    Bool × GoError :=
  match w.Stat path with
  | StatResult.notExist => (false, none)
  | StatResult.failed msg => (false, some msg)
  | StatResult.info isDir =>
    if isDir && !shouldBeDir then
      (false, some ("Path " ++ path ++ " (" ++ pathDescription ++
        ") points to a directory. It should be a a file. %!s(MISSING)"))
    else if !isDir && shouldBeDir then
      (false, some ("Path " ++ path ++ " (" ++ pathDescription ++
        ") points to a file. It should be a directory."))
    else (true, none)

def isDirEmpty (w : World) (path : String) : Bool × GoError :=
  match w.Open path with
  | OpenResult.failed msg => (true, some msg)
  | OpenResult.opened ReaddirResult.eof => (true, none)
  | OpenResult.opened ReaddirResult.entry => (false, none)
  | OpenResult.opened (ReaddirResult.failed msg) => (false, some msg)

/-- The probe.  `c.packageLock[pkg].Lock()` on a missing entry dereferences a
nil mutex; in a single thread of control every `Lock` is matched by its
`Unlock` before the next `Lock`, so a present mutex is always free here. -/
def getPackageStatus (env : Env) (c : Compilator) (w : World) (pkg : Ptr) :
    Except Abort (Nat × GoError) :=
  match c.packageLock pkg with
  | none => Except.error Abort.nilMutex
  | some _ =>
    if (c.packageCompiling pkg).getD false then
      Except.ok (packageCompiling, none)
    else
      let compiledPackagePath := env.Join [c.HostWorkDir, (env.heap pkg).Name, "compiled"]
      match validatePath w compiledPackagePath true "package path" with
      | (_, some err) => Except.ok (packageError, some err)
      | (compiledPackagePathExists, none) =>
        if compiledPackagePathExists then
          match isDirEmpty w compiledPackagePath with
          | (_, some err) => Except.ok (packageError, some err)
          | (compiledDirEmpty, none) =>
            if !compiledDirEmpty then Except.ok (packageCompiled, none)
            else Except.ok (packageNone, none)
        else Except.ok (packageNone, none)

/-! ## Compiling one package -/

/-- Record an external call and adopt the host state it leaves. -/
def State.step (s : State) (w : World) (ev : Event) : State :=
  { s with w := w, events := s.events ++ [ev] }

/-- Record an event that leaves the host as it is. -/
def State.log (s : State) (ev : Event) : State :=
  { s with events := s.events ++ [ev] }

/-- Lines 276-286 of `compilePackage`, the loop over `pkg.Dependencies`:
`some r` is the early `return r`, `none` means the loop ran to its end. -/
def checkDependencies (env : Env) : List Ptr → State → Except Abort (Option GoError × State)
  | [], s => Except.ok (none, s)
  | dep :: rest, s =>
    match getPackageStatus env s.c s.w dep with
    | Except.error a => Except.error a
    | Except.ok (packageStatus, some err) =>
      Except.ok (some (some err), s.log (Event.getPackageStatus dep packageStatus (some err)))
    | Except.ok (packageStatus, none) =>
      if packageStatus ≠ packageCompiled then
        Except.ok (some none, s.log (Event.getPackageStatus dep packageStatus none))
      else checkDependencies env rest (s.log (Event.getPackageStatus dep packageStatus none))

def createCompilationDirStructure (env : Env) (s : State) (pkg : Ptr) : GoError × State :=
  let dependenciesPackageDir := getDependenciesPackageDir env s.c pkg
  let sourcePackageDir := getSourcePackageDir env s.c pkg
  match env.MkdirAll s.w dependenciesPackageDir with
  | (some err, w1) => (some err, s.step w1 (Event.MkdirAll dependenciesPackageDir (some err)))
  | (none, w1) =>
    match env.MkdirAll w1 sourcePackageDir with
    | (some err, w2) =>
      (some err, (s.step w1 (Event.MkdirAll dependenciesPackageDir none)).step w2
        (Event.MkdirAll sourcePackageDir (some err)))
    | (none, w2) =>
      (none, (s.step w1 (Event.MkdirAll dependenciesPackageDir none)).step w2
        (Event.MkdirAll sourcePackageDir none))

/-- The loop of `copyDependencies` over the remaining dependencies. -/
def copyDependenciesLoop (env : Env) (pkg : Ptr) : List Ptr → State → GoError × State
  | [], s => (none, s)
  | dep :: rest, s =>
    let depCompiledPath := getPackageCompiledDir env s.c dep
    let depDestinationPath := env.Join [getDependenciesPackageDir env s.c pkg, (env.heap dep).Name]
    match env.RemoveAll s.w depDestinationPath with
    | (some err, w1) => (some err, s.step w1 (Event.RemoveAll depDestinationPath (some err)))
    | (none, w1) =>
      match env.CopyTree w1 depCompiledPath depDestinationPath with
      | (some err, w2) =>
        (some err, (s.step w1 (Event.RemoveAll depDestinationPath none)).step w2
          (Event.CopyTree depCompiledPath depDestinationPath (some err)))
      | (none, w2) =>
        copyDependenciesLoop env pkg rest
          ((s.step w1 (Event.RemoveAll depDestinationPath none)).step w2
            (Event.CopyTree depCompiledPath depDestinationPath none))

def copyDependencies (env : Env) (s : State) (pkg : Ptr) : GoError × State :=
  copyDependenciesLoop env pkg (env.heap pkg).Dependencies s

/-- Lines 289-310 of `compilePackage`: the staging steps, up to and including
the extraction of the package. -/
def stagePackage (env : Env) (s : State) (pkg : Ptr) : GoError × State :=
  match createCompilationDirStructure env s pkg with
  | (some err, s1) => (some err, s1)
  | (none, s1) =>
    match copyDependencies env s1 pkg with
    | (some err, s2) => (some err, s2)
    | (none, s2) =>
      let targetScriptName := "compile.sh"
      let hostScriptPath := env.Join [getTargetPackageSourcesDir env s2.c pkg, targetScriptName]
      match env.SaveScript s2.w s2.c.BaseType env.CompilationScript hostScriptPath with
      | (some err, w3) =>
        (some err,
          s2.step w3 (Event.SaveScript s2.c.BaseType env.CompilationScript hostScriptPath
            (some err)))
      | (none, w3) =>
        let extractDir := getSourcePackageDir env s2.c pkg
        match env.Extract w3 pkg extractDir with
        | (some err, w4) =>
          (some err,
            (s2.step w3 (Event.SaveScript s2.c.BaseType env.CompilationScript hostScriptPath
              none)).step w4 (Event.Extract pkg extractDir (some err)))
        | (none, w4) =>
          (none,
            (s2.step w3 (Event.SaveScript s2.c.BaseType env.CompilationScript hostScriptPath
              none)).step w4 (Event.Extract pkg extractDir none))

/-- The deferred function of `compilePackage` (lines 333-344), run on the
pending result `err` with the container handle of the run. -/
def removeContainerDeferred (env : Env) (s : State) (container : Option String) (err : GoError) :
    GoError × State :=
  match container with
  | none => (err, s)
  | some id =>
    match env.RemoveContainer s.w id with
    | (none, w1) => (err, s.step w1 (Event.RemoveContainer id none))
    | (some removeErr, w1) =>
      match err with
      | none => (some removeErr, s.step w1 (Event.RemoveContainer id (some removeErr)))
      | some e =>
        (some ("Error compiling package: " ++ e ++ ". Error removing package: " ++ removeErr),
          s.step w1 (Event.RemoveContainer id (some removeErr)))

/-- The error of line 351. -/
def exitCodeError (name : String) (exitCode : Int) : String :=
  "Error - compilation for package " ++ name ++ " exited with code " ++ toString exitCode

/-- Lines 312-355 of `compilePackage`: run the build in a container, settle
the result, then run the deferred removal on it. -/
def runCompilation (env : Env) (s : State) (pkg : Ptr) : GoError × State :=
  let containerScriptPath := env.Join [ContainerInPath, "compile.sh"]
  let containerName := getPackageContainerName env s.c pkg
  let imageName := s.c.DockerRepository ++ ":" ++ BaseCompilationImageTag s.c
  let cmd := ["bash", containerScriptPath, (env.heap pkg).Name, (env.heap pkg).Version]
  let inPath := getTargetPackageSourcesDir env s.c pkg
  let outPath := getPackageCompiledDir env s.c pkg
  match env.RunInContainer s.w containerName imageName cmd inPath outPath with
  | (r, w1) =>
    let s1 := s.step w1 (Event.RunInContainer pkg containerName imageName cmd inPath outPath r)
    match r.err with
    | some err => removeContainerDeferred env s1 r.container (some err)
    | none =>
      if r.exitCode ≠ 0 then
        removeContainerDeferred env s1 r.container
          (some (exitCodeError (env.heap pkg).Name r.exitCode))
      else removeContainerDeferred env s1 r.container none

def compilePackage (env : Env) (s : State) (pkg : Ptr) : Except Abort (GoError × State) :=
  match checkDependencies env (env.heap pkg).Dependencies s with
  | Except.error a => Except.error a
  | Except.ok (some r, s0) => Except.ok (r, s0)
  | Except.ok (none, s0) =>
    match stagePackage env s0 pkg with
    | (some err, s1) => Except.ok (some err, s1)
    | (none, s1) => Except.ok (runCompilation env s1 pkg)

/-! ## The worker loop and `Compile` -/

/-- A worker goroutine: the state it shares with the other workers (the
engine state and the aggregate `result`, the list of the errors appended to
it, `[]` being nil) and its own `hasWork`. -/
structure Worker where
  s : State
  result : List String
  hasWork : Bool

/-- How a `for ... range` loop was left. -/
inductive LoopExit
  | completed
  | broke
  | returned
  deriving DecidableEq, Repr

/-- Lock the package's mutex, write its flag, unlock (lines 109-113 and
116-120). -/
def setCompiling (c : Compilator) (pkg : Ptr) (v : Bool) : Except Abort Compilator :=
  match c.packageLock pkg with
  | none => Except.error Abort.nilMutex
  | some _ => Except.ok { c with packageCompiling := mapSet c.packageCompiling pkg v }

/-- Lines 107-135: one build attempt on `pkg`, a package just probed
`pkgState`. -/
def attemptPackage (env : Env) (wk : Worker) (pkg : Ptr) (pkgState : Nat) :
    Except Abort Worker :=
  match setCompiling wk.s.c pkg true with
  | Except.error a => Except.error a
  | Except.ok c1 =>
    if pkgState = packageNone then
      match compilePackage env
          { wk.s with c := c1, events := wk.s.events ++ [Event.compilePackage pkg] } pkg with
      | Except.error a => Except.error a
      | Except.ok (workerErr, s2) =>
        match setCompiling s2.c pkg false with
        | Except.error a => Except.error a
        | Except.ok c3 =>
          Except.ok
            { s := { s2 with c := c3 },
              result := match workerErr with
                | some e => wk.result ++ [e]
                | none => wk.result,
              hasWork := true }
    else
      match setCompiling c1 pkg false with
      | Except.error a => Except.error a
      | Except.ok c3 => Except.ok { wk with s := { wk.s with c := c3 } }

/-- Lines 99-140: the scan of the release's packages. -/
def scanPackages (env : Env) : List Ptr → Worker → Except Abort (LoopExit × Worker)
  | [], wk => Except.ok (LoopExit.completed, wk)
  | pkg :: rest, wk =>
    match getPackageStatus env wk.s.c wk.s.w pkg with
    | Except.error a => Except.error a
    | Except.ok (pkgState, some workerErr) =>
      Except.ok (LoopExit.returned,
        { wk with s := wk.s.log (Event.getPackageStatus pkg pkgState (some workerErr)),
                  result := wk.result ++ [workerErr] })
    | Except.ok (pkgState, none) =>
      if pkgState = packageNone then
        match attemptPackage env
            { wk with s := wk.s.log (Event.getPackageStatus pkg pkgState none) } pkg pkgState with
        | Except.error a => Except.error a
        | Except.ok wk1 =>
          if wk1.result ≠ [] then Except.ok (LoopExit.broke, wk1)
          else scanPackages env rest wk1
      else scanPackages env rest { wk with s := wk.s.log (Event.getPackageStatus pkg pkgState none) }

/-- Outcome of the completion check (lines 146-159): the worker returned with
a probe error, or the loop ended with this value of `done`. -/
inductive DoneCheck
  | returned (err : String)
  | done (d : Bool)
  deriving DecidableEq, Repr

/-- Lines 146-159. -/
def checkDone (env : Env) : List Ptr → State → Except Abort (DoneCheck × State)
  | [], s => Except.ok (DoneCheck.done true, s)
  | pkg :: rest, s =>
    match getPackageStatus env s.c s.w pkg with
    | Except.error a => Except.error a
    | Except.ok (pkgState, some workerErr) =>
      Except.ok (DoneCheck.returned workerErr,
        s.log (Event.getPackageStatus pkg pkgState (some workerErr)))
    | Except.ok (pkgState, none) =>
      if pkgState ≠ packageCompiled then
        Except.ok (DoneCheck.done false, s.log (Event.getPackageStatus pkg pkgState none))
      else checkDone env rest (s.log (Event.getPackageStatus pkg pkgState none))

/-- Lines 91-166: the body of a worker goroutine; `fuel` bounds the number of
passes of `for done == false`. -/
def workerLoop (env : Env) : Nat → Worker → Except Abort Worker
  | 0, wk => Except.error (Abort.outOfFuel wk.s.events)
  | fuel + 1, wk =>
    match scanPackages env wk.s.c.Release.Packages { wk with hasWork := false } with
    | Except.error a => Except.error a
    | Except.ok (LoopExit.returned, wk1) => Except.ok wk1
    | Except.ok (_, wk1) =>
      if wk1.result ≠ [] then Except.ok wk1
      else
        match checkDone env wk1.s.c.Release.Packages wk1.s with
        | Except.error a => Except.error a
        | Except.ok (DoneCheck.returned workerErr, s2) =>
          Except.ok { wk1 with s := s2, result := wk1.result ++ [workerErr] }
        | Except.ok (DoneCheck.done d, s2) =>
          if d then Except.ok { wk1 with s := s2 }
          else if !wk1.hasWork then
            workerLoop env fuel
              { wk1 with s := s2.log (Event.Sleep sleepTimeWhileCantCompileSec) }
          else workerLoop env fuel { wk1 with s := s2 }

/-- The workers of `Compile`, in the schedule where goroutine `idx` runs to
its end before goroutine `idx + 1` starts; they share the engine state and
`result`. -/
def runWorkers (env : Env) (fuel : Nat) : Nat → State → List String →
    Except Abort (List String × State)
  | 0, s, result => Except.ok (result, s)
  | n + 1, s, result =>
    match workerLoop env fuel { s := s, result := result, hasWork := false } with
    | Except.error a => Except.error a
    | Except.ok wk => runWorkers env fuel n wk.s wk.result

/-- The entry point `Compile(workerCount)` on compilator `c` and host `w`:
the aggregate error it returns (the list of the appended errors, `[]` being
nil) and the state it leaves, whose events are those of the run.  With
`workerCount = 1` this is the run of the program; with more workers it is the
run in which the goroutines happen to execute one after the other.  The
goroutines of the source share the flag map and `result` without a common
lock, so this is one of their runs only; their interleavings are followed by
`Pool.run` and `RacePool.run`. -/
def Compile (env : Env) (fuel : Nat) (c : Compilator) (w : World) (workerCount : Int) :
    Except Abort (List String × State) :=
  runWorkers env fuel workerCount.toNat { c := c, w := w, events := [] } []

/-- The events of a run, whether it returned or ran out of fuel. -/
def runEvents : Except Abort (List String × State) → List Event
  | Except.ok (_, s) => s.events
  | Except.error (Abort.outOfFuel events) => events
  | Except.error Abort.nilMutex => []

/-! ## Vocabulary of the statements -/

/-- The state with further events recorded. -/
def State.addEvents (s : State) (evs : List Event) : State :=
  { s with events := s.events ++ evs }

/-- The event is a status probe. -/
def Event.isProbe : Event → Bool
  | Event.getPackageStatus _ _ _ => true
  | _ => false

/-- The directory exists and holds at least one entry. -/
def Populated (w : World) (path : String) : Prop :=
  w.Stat path = StatResult.info true ∧ w.Open path = OpenResult.opened ReaddirResult.entry

/-- The directory is absent, or present and empty. -/
def AbsentOrEmpty (w : World) (path : String) : Prop :=
  w.Stat path = StatResult.notExist ∨
    (w.Stat path = StatResult.info true ∧ w.Open path = OpenResult.opened ReaddirResult.eof)

/-- What the arguments of the external calls are made from: everything of the
compilator but its lock and flag maps. -/
def Compilator.site (c : Compilator) : Fissile.Release × String × String × String :=
  (c.Release, c.HostWorkDir, c.DockerRepository, c.BaseType)

/-- The answer of the container run of `compilePackage(pkg)` on the host `w`,
with the arguments of lines 312-331, and the host it leaves. -/
def containerRun (env : Env) (c : Compilator) (pkg : Ptr) (w : World) : RunResult × World :=
  env.RunInContainer w (getPackageContainerName env c pkg)
    (c.DockerRepository ++ ":" ++ BaseCompilationImageTag c)
    ["bash", env.Join [ContainerInPath, "compile.sh"], (env.heap pkg).Name,
      (env.heap pkg).Version]
    (getTargetPackageSourcesDir env c pkg) (getPackageCompiledDir env c pkg)

/-- One external call of `compilePackage(pkg)` on the compilator `c` takes the
host from `w` to `w2`.  These are the calls the code makes, each with the
arguments the code gives it: the two `MkdirAll` of
`createCompilationDirStructure`, the `RemoveAll` and the `CopyTree` of
`copyDependencies` for a dependency of `pkg`, the script, the extraction, the
container run, and the removal of the container that run handed back. -/
inductive ExtStep (env : Env) (c : Compilator) (pkg : Ptr) : World → World → Prop
  | MkdirAllDependencies (w : World) :
      ExtStep env c pkg w (env.MkdirAll w (getDependenciesPackageDir env c pkg)).2
  | MkdirAllSource (w : World) :
      ExtStep env c pkg w (env.MkdirAll w (getSourcePackageDir env c pkg)).2
  | RemoveAll (w : World) (dep : Ptr) (hdep : dep ∈ (env.heap pkg).Dependencies) :
      ExtStep env c pkg w
        (env.RemoveAll w
          (env.Join [getDependenciesPackageDir env c pkg, (env.heap dep).Name])).2
  | CopyTree (w : World) (dep : Ptr) (hdep : dep ∈ (env.heap pkg).Dependencies) :
      ExtStep env c pkg w
        (env.CopyTree w (getPackageCompiledDir env c dep)
          (env.Join [getDependenciesPackageDir env c pkg, (env.heap dep).Name])).2
  | SaveScript (w : World) :
      ExtStep env c pkg w
        (env.SaveScript w c.BaseType env.CompilationScript
          (env.Join [getTargetPackageSourcesDir env c pkg, "compile.sh"])).2
  | Extract (w : World) :
      ExtStep env c pkg w (env.Extract w pkg (getSourcePackageDir env c pkg)).2
  | RunInContainer (w : World) : ExtStep env c pkg w (containerRun env c pkg w).2
  | RemoveContainer (w : World) (id : String)
      (hid : (containerRun env c pkg w).1.container = some id) :
      ExtStep env c pkg (containerRun env c pkg w).2
        (env.RemoveContainer (containerRun env c pkg w).2 id).2

/-- The host `w2` is reached from `w` by external calls of
`compilePackage(pkg)` on the compilator `c`. -/
def Reach (env : Env) (c : Compilator) (pkg : Ptr) : World → World → Prop :=
  Relation.ReflTransGen (ExtStep env c pkg)

/-- The host `w2` is reached from `w` by external calls of `compilePackage`
on the compilator `c`, for whatever packages. -/
def ReachAny (env : Env) (c : Compilator) : World → World → Prop :=
  Relation.ReflTransGen (fun w w2 => ∃ pkg, ExtStep env c pkg w w2)

/-- From `s` to `sf` the compilator is unchanged, the host moves by external
calls of `compilePackage(pkg)` only, and every event added satisfies `P`. -/
def Evolves (env : Env) (pkg : Ptr) (P : Event → Prop) (s sf : State) : Prop :=
  sf.c = s.c ∧ Reach env s.c pkg s.w sf.w ∧
    ∃ evs : List Event, sf.events = s.events ++ evs ∧ ∀ ev ∈ evs, P ev

/-- The event is one of the staging calls (directory creation, dependency
copy, script materialisation, extraction). -/
def Event.isStaging : Event → Bool
  | Event.MkdirAll _ _ => true
  | Event.RemoveAll _ _ => true
  | Event.CopyTree _ _ _ => true
  | Event.SaveScript _ _ _ _ => true
  | Event.Extract _ _ _ => true
  | _ => false

/-- The state of `compilePackage` after a dependency check that found every
dependency Compiled. -/
def readyState (env : Env) (s : State) (pkg : Ptr) : State :=
  s.addEvents ((env.heap pkg).Dependencies.map
    (fun d => Event.getPackageStatus d packageCompiled none))

/-- The state in which `compilePackage` invokes the container: after the
dependency check and the staging steps. -/
def stagedState (env : Env) (s : State) (pkg : Ptr) : State :=
  (stagePackage env (readyState env s pkg) pkg).2

/-- The answer of the `RunInContainer` call that `compilePackage` makes for
`pkg` in state `s` (lines 314-332), and the host it leaves. -/
def buildResult (env : Env) (s : State) (pkg : Ptr) : RunResult × World :=
  env.RunInContainer s.w (getPackageContainerName env s.c pkg)
    (s.c.DockerRepository ++ ":" ++ BaseCompilationImageTag s.c)
    ["bash", env.Join [ContainerInPath, "compile.sh"], (env.heap pkg).Name,
      (env.heap pkg).Version]
    (getTargetPackageSourcesDir env s.c pkg) (getPackageCompiledDir env s.c pkg)

/-- The event recording that call. -/
def buildEvent (env : Env) (s : State) (pkg : Ptr) : Event :=
  Event.RunInContainer pkg (getPackageContainerName env s.c pkg)
    (s.c.DockerRepository ++ ":" ++ BaseCompilationImageTag s.c)
    ["bash", env.Join [ContainerInPath, "compile.sh"], (env.heap pkg).Name,
      (env.heap pkg).Version]
    (getTargetPackageSourcesDir env s.c pkg) (getPackageCompiledDir env s.c pkg)
    (buildResult env s pkg).1

/-- The pending result of `compilePackage` when its deferred function starts
(lines 346-354): the run error, else the exit-code error, else nil. -/
def primaryError (name : String) (r : RunResult) : GoError :=
  match r.err with
  | some err => some err
  | none => if r.exitCode ≠ 0 then some (exitCodeError name r.exitCode) else none

/-- The compilator with the flag of `pkg` written. -/
def Compilator.withFlag (c : Compilator) (pkg : Ptr) (v : Bool) : Compilator :=
  { c with packageCompiling := mapSet c.packageCompiling pkg v }

/-- The events of the deferred removal (lines 333-344) for the container
handle of a run that left the host in `w`. -/
def removalEvents (env : Env) (w : World) : Option String → List Event
  | none => []
  | some id => [Event.RemoveContainer id (env.RemoveContainer w id).1]

/-- The result the deferred removal leaves (lines 336-341). -/
def mergeRemoval (err removeErr : GoError) : GoError :=
  match removeErr with
  | none => err
  | some re =>
    match err with
    | none => some re
    | some e => some ("Error compiling package: " ++ e ++ ". Error removing package: " ++ re)

/-- The error of the removal of the container `container`, nil when there is
no container to remove. -/
def removalError (env : Env) (w : World) : Option String → GoError
  | none => none
  | some id => (env.RemoveContainer w id).1

/-- The host after the removal of the container `container`. -/
def removalWorld (env : Env) (w : World) : Option String → World
  | none => w
  | some id => (env.RemoveContainer w id).2

/-- One step of a run, at the grain of the worker loop: a status probe is
made and recorded (its error, if any, joins the aggregate), a package probed
None is attempted, the worker sleeps, or it resets its `hasWork`. -/
inductive Step (env : Env) : Worker → Worker → Prop
  | probe (wk : Worker) (pkg : Ptr) (st : Nat) (err : GoError) :
      getPackageStatus env wk.s.c wk.s.w pkg = Except.ok (st, err) →
      Step env wk { wk with s := wk.s.log (Event.getPackageStatus pkg st err),
                            result := wk.result ++ err.toList }
  | attempt (wk wk1 : Worker) (pkg : Ptr) :
      getPackageStatus env wk.s.c wk.s.w pkg = Except.ok (packageNone, none) →
      attemptPackage env wk pkg packageNone = Except.ok wk1 →
      Step env wk wk1
  | sleep (wk : Worker) :
      Step env wk { wk with s := wk.s.log (Event.Sleep sleepTimeWhileCantCompileSec) }
  | hasWork (wk : Worker) (b : Bool) : Step env wk { wk with hasWork := b }

/-- A run of steps. -/
def Steps (env : Env) : Worker → Worker → Prop := Relation.ReflTransGen (Step env)

/-- The event is one that `compilePackage` produces: a probe, a staging
call, a container run or a container removal. -/
def Event.inAttempt : Event → Bool
  | Event.compilePackage _ => false
  | Event.Sleep _ => false
  | _ => true

/-- The error the completion check appends to the aggregate, if any. -/
def DoneCheck.errors : DoneCheck → List String
  | DoneCheck.returned e => [e]
  | DoneCheck.done _ => []

/-- The event is a container run. -/
def Event.isRun : Event → Bool
  | Event.RunInContainer _ _ _ _ _ _ _ => true
  | _ => false

/-- The probe event of a dependency found Compiled. -/
def compiledProbe (d : Ptr) : Event := Event.getPackageStatus d packageCompiled none

/-- The state from which `Compile` starts. -/
def initialWorker (c : Compilator) (w : World) : Worker :=
  { s := { c := c, w := w, events := [] }, result := [], hasWork := false }

/-- The package a container-run event is for. -/
def Event.runOf : Event → Option Ptr
  | Event.RunInContainer pkg _ _ _ _ _ _ => some pkg
  | _ => none

/-- In the sequence `evs`, every container run for `B` comes after a probe
that found `A` Compiled. -/
def ProbedBefore (A B : Ptr) (evs : List Event) : Prop :=
  ∀ (pre : List Event) (ev : Event) (post : List Event),
    evs = pre ++ ev :: post → ev.runOf = some B → compiledProbe A ∈ pre

/-- In the sequence `evs`, no container run for `A` comes after a container
run for `B`. -/
def NoRunAfter (A B : Ptr) (evs : List Event) : Prop :=
  evs.Pairwise (fun e1 e2 => ¬ (e1.runOf = some B ∧ e2.runOf = some A))

/-- The status probe of the directory does not fail: the path is a populated
directory, an empty directory, or absent. -/
def ProbeSound (w : World) (path : String) : Prop :=
  Populated w path ∨ AbsentOrEmpty w path

/-- Every staging step and every build on the compilator `c` succeeds: each
staging call of `compilePackage`, with the arguments the code gives it,
returns no error; each container run returns no error, exits with code 0 and
leaves the output directory of its package populated; the removal of the
container a run handed back returns no error. -/
structure AllSucceed (env : Env) (c : Compilator) : Prop where
  mkdirAllDependencies : ∀ w pkg,
    (env.MkdirAll w (getDependenciesPackageDir env c pkg)).1 = none
  mkdirAllSource : ∀ w pkg, (env.MkdirAll w (getSourcePackageDir env c pkg)).1 = none
  removeAll : ∀ w pkg, ∀ dep ∈ (env.heap pkg).Dependencies,
    (env.RemoveAll w
      (env.Join [getDependenciesPackageDir env c pkg, (env.heap dep).Name])).1 = none
  copyTree : ∀ w pkg, ∀ dep ∈ (env.heap pkg).Dependencies,
    (env.CopyTree w (getPackageCompiledDir env c dep)
      (env.Join [getDependenciesPackageDir env c pkg, (env.heap dep).Name])).1 = none
  saveScript : ∀ w pkg,
    (env.SaveScript w c.BaseType env.CompilationScript
      (env.Join [getTargetPackageSourcesDir env c pkg, "compile.sh"])).1 = none
  extract : ∀ w pkg, (env.Extract w pkg (getSourcePackageDir env c pkg)).1 = none
  runInContainer : ∀ w pkg,
    (containerRun env c pkg w).1.err = none ∧
    (containerRun env c pkg w).1.exitCode = 0 ∧
    Populated (containerRun env c pkg w).2 (getPackageCompiledDir env c pkg)
  removeContainer : ∀ w pkg id, (containerRun env c pkg w).1.container = some id →
    (env.RemoveContainer (containerRun env c pkg w).2 id).1 = none

/-- No external call that `compilePackage` makes on the compilator `c`, for
whatever package, empties the directory `path` once it is populated or makes
its probe fail. -/
def Undisturbed (env : Env) (c : Compilator) (path : String) : Prop :=
  ∀ pkg w1 w2, ExtStep env c pkg w1 w2 →
    (Populated w1 path → Populated w2 path) ∧ (ProbeSound w1 path → ProbeSound w2 path)

/-- The compilator holds a lock for every package that has a flag. -/
def Compilator.WellFormed (c : Compilator) : Prop :=
  ∀ pkg, c.packageCompiling pkg ≠ none → c.packageLock pkg = some ()

/-- Between two build attempts of a run on `release` under `hostWorkDir`:
the compilator is the one built for the release, every package of the release
has its lock, no flag is set, and no output directory has a failing probe. -/
structure Ready (env : Env) (release : Release) (hostWorkDir : String) (c : Compilator)
    (w : World) : Prop where
  release_eq : c.Release = release
  hostWorkDir_eq : c.HostWorkDir = hostWorkDir
  locks : ∀ p ∈ release.Packages, c.packageLock p = some ()
  flags : ∀ p, (c.packageCompiling p).getD false = false
  sound : ∀ p ∈ release.Packages,
    ProbeSound w (env.Join [hostWorkDir, (env.heap p).Name, "compiled"])

/-- `sub` occurs in `text`. -/
def Mentions (text sub : String) : Prop := sub.data <:+: text.data

/-! ## Example host

A two-package release: package `1` ("A") has no dependency, package `2` ("B")
depends on `1`.  Paths are joined with `/`; `RunInContainer` answers with the
exit code `exitOf name` and populates the output directory when that code
is `0`. -/

def exampleHeap : Ptr → Package
  | 1 => { Name := "A", Version := "1", Dependencies := [] }
  | 2 => { Name := "B", Version := "1", Dependencies := [1] }
  | 4 => { Name := "D", Version := "1", Dependencies := [3, 1] }
  | _ => { Name := "C", Version := "1", Dependencies := [] }

def exampleRelease : Release := { Name := "rel", Version := "7", Packages := [2, 1] }

/-- A release that also holds package `3` ("C", no dependency) and package
`4` ("D", depending on `3` and `1`, in that order). -/
def wideRelease : Release := { Name := "rel", Version := "7", Packages := [4, 3, 2, 1] }

def wideCompilator : Compilator := (NewCompilator wideRelease "/w" "repo" "ubuntu").1

/-- A host on which `path` is a regular file. -/
def putFile (w : World) (path : String) : World :=
  { Stat := fun q => if q = path then StatResult.info false else w.Stat q,
    Open := fun q => if q = path then OpenResult.opened (ReaddirResult.failed "not a directory")
      else w.Open q }

/-- An empty host work root: nothing exists. -/
def emptyWorld : World :=
  { Stat := fun _ => StatResult.notExist, Open := fun _ => OpenResult.failed "no such file" }

/-- The host after `path` became a directory holding an entry. -/
def populate (w : World) (path : String) : World :=
  { Stat := fun q => if q = path then StatResult.info true else w.Stat q,
    Open := fun q => if q = path then OpenResult.opened ReaddirResult.entry else w.Open q }

def exampleEnv (exitOf : String → Int) (removeErr : GoError) : Env :=
  { heap := exampleHeap,
    Join := fun parts => "/".intercalate parts,
    MkdirAll := fun w _ => (none, w),
    RemoveAll := fun w _ => (none, w),
    CopyTree := fun w _ _ => (none, w),
    CompilationScript := "compile",
    SaveScript := fun w _ _ _ => (none, w),
    Extract := fun w _ _ => (none, w),
    RunInContainer := fun w name _ _ _ outPath =>
      ({ exitCode := exitOf name, container := some ("id-" ++ name), err := none },
        if exitOf name = 0 then populate w outPath else w),
    RemoveContainer := fun w _ => (removeErr, w) }

def exampleCompilator : Compilator := (NewCompilator exampleRelease "/w" "repo" "ubuntu").1

def exampleState (w : World) : State := { c := exampleCompilator, w := w, events := [] }

/-! ## The docker manager (`docker/docker.go`)

The manager reaches the docker daemon through `dockerclient.Client` and, in
keep-alive mode, through a `docker exec` child process; both are parameters
(`Client`).  Error values of this file are `ErrorValue`s, so that a sentinel
is told from an error made on the spot.  The output processors are assumed to
return once their stream is closed, and the late write of the attach goroutine
to `err` (a data race) is left out. -/

/-- Constant `docker.ContainerOutPath`. -/
def ContainerOutPath : String := "/fissile-out"

/-- A Go error value of the docker layer: one of the two package-level
sentinels, or an error made on the spot with the given text. -/
inductive ErrorValue
  | ErrNoSuchImage
  | ErrImageNotFound
  | made (text : String)
  deriving DecidableEq, Repr

/-- The text of `err.Error()`. -/
def ErrorValue.Error : ErrorValue → String
  | ErrorValue.ErrNoSuchImage => "no such image"
  | ErrorValue.ErrImageNotFound => "Image not found"
  | ErrorValue.made text => text

/-- The part of `dockerclient.Image` that is used: its ID. -/
structure Image where
  ID : String
  deriving DecidableEq, Repr

/-- The part of `dockerclient.Container` that is used: its ID. -/
structure Container where
  ID : String
  deriving DecidableEq, Repr

/-- The fields of `dockerclient.Config` that `RunInContainer` sets. -/
structure ContainerConfig where
  Tty : Bool
  AttachStdin : Bool
  AttachStdout : Bool
  AttachStderr : Bool
  Hostname : String
  Domainname : String
  Cmd : List String
  WorkingDir : String
  Image : String
  Env : List String
  deriving DecidableEq, Repr

/-- The fields of `dockerclient.HostConfig` that `RunInContainer` sets. -/
structure HostConfig where
  Privileged : Bool
  Binds : List String
  ReadonlyRootfs : Bool
  deriving DecidableEq, Repr

structure CreateContainerOptions where
  Name : String
  Config : ContainerConfig
  HostConfig : HostConfig
  deriving DecidableEq, Repr

/-- The fields of `dockerclient.CommitContainerOptions` that `CreateImage`
sets; `RunCmd` is the `Cmd` of its `Run` configuration. -/
structure CommitContainerOptions where
  Container : String
  Repository : String
  Tag : String
  Author : String
  Message : String
  RunCmd : List String
  deriving DecidableEq, Repr

/-- Answers of the docker client, of the operating system and of the
`docker exec` child process.  `AttachToContainer` tells whether the client
signals a successful attach on the `attached` channel; without that signal
line 224 never proceeds.  The child process is known by its arguments. -/
structure Client where
  Geteuid : Int
  Getegid : Int
  InspectImage : String → Option Image × Option ErrorValue
  CreateContainer : CreateContainerOptions → Except String Container
  AttachToContainer : String → Bool
  StartContainer : String → GoError
  WaitContainer : String → Int × GoError
  KillContainer : String → GoError
  RemoveContainer : String → Bool → GoError
  CommitContainer : CommitContainerOptions → Option Image × GoError
  StdoutPipe : List String → GoError
  StderrPipe : List String → GoError
  StdinPipe : List String → GoError
  Start : List String → GoError
  Wait : List String → GoError

/-- The manager holds the docker client. -/
structure ImageManager where
  client : Client

/-- What `RunInContainer` does, in order: its calls to the docker client, the
start and the wait of the child process `name args`, and its writes to
standard error. -/
inductive DockerCall
  | CreateContainer (opts : CreateContainerOptions)
  | AttachToContainer (id : String) (stdout stderr : Bool)
  | StartContainer (id : String)
  | WaitContainer (id : String)
  | ExecStart (name : String) (args : List String)
  | ExecWait (name : String) (args : List String)
  | KillContainer (id : String)
  | RemoveContainer (id : String) (force : Bool)
  | Stderr (text : String)
  deriving DecidableEq, Repr

/-- How a call of `RunInContainer` ends: it returns its three results, or it
never returns. -/
inductive Outcome
  | returned (exitCode : Int) (container : Option Container) (err : GoError)
  | blocked
  deriving DecidableEq, Repr

def ImageManager.FindImage (d : ImageManager) (imageName : String) :
    Option Image × Option ErrorValue :=
  match d.client.InspectImage imageName with
  | (image, err) =>
    if err = some ErrorValue.ErrNoSuchImage then (none, some ErrorValue.ErrImageNotFound)
    else
      match err with
      | some e =>
        (none, some (ErrorValue.made ("Error looking up image " ++ imageName ++ ": " ++ e.Error)))
      | none => (image, none)

def ImageManager.RemoveContainer (d : ImageManager) (containerID : String) : GoError :=
  d.client.RemoveContainer containerID true

def ImageManager.CreateImage (d : ImageManager) (containerID repository tag message : String)
    (cmd : List String) : Option Image × GoError :=
  d.client.CommitContainer
    { Container := containerID, Repository := repository, Tag := tag, Author := "fissile",
      Message := message, RunCmd := cmd }

/-- Lines 174-180 of `RunInContainer`: the bind mounts. -/
def containerBinds (inPath outPath : String) : List String :=
  (if inPath ≠ "" then [inPath ++ ":" ++ ContainerInPath ++ ":ro"] else []) ++
    (if outPath ≠ "" then [outPath ++ ":" ++ ContainerOutPath] else [])

/-- Lines 150-180 of `RunInContainer`: the options the container is created
with. -/
def createContainerOptions (d : ImageManager) (containerName imageName : String)
    (containerCmd : List String) (inPath outPath : String) : CreateContainerOptions :=
  { Config :=
      { Tty := false, AttachStdin := false, AttachStdout := true, AttachStderr := true,
        Hostname := "compiler", Domainname := "fissile", Cmd := containerCmd,
        WorkingDir := "/", Image := imageName,
        Env := ["HOST_USERID=" ++ toString d.client.Geteuid,
                "HOST_USERGID=" ++ toString d.client.Getegid] },
    HostConfig := { Privileged := false, Binds := containerBinds inPath outPath,
                    ReadonlyRootfs := false },
    Name := containerName }

/-- Lines 278-326 of `RunInContainer`, the keep-alive mode, after the
container was started; `calls` are the calls made so far. -/
def execInContainer (d : ImageManager) (container : Container) (actualCmd : List String)
    (stdoutProcessor stderrProcessor : Bool) (calls : List DockerCall) :
    Outcome × List DockerCall :=
  let cmdArgs := ["exec", "-i", container.ID] ++ actualCmd
  match (if stdoutProcessor then d.client.StdoutPipe cmdArgs else none) with
  | some err => (Outcome.returned (-1) (some container) (some err), calls)
  | none =>
    match (if stderrProcessor then d.client.StderrPipe cmdArgs else none) with
    | some err => (Outcome.returned (-1) (some container) (some err), calls)
    | none =>
      match d.client.StdinPipe cmdArgs with
      | some err => (Outcome.returned (-1) (some container) (some err), calls)
      | none =>
        match d.client.Start cmdArgs with
        | some err =>
          (Outcome.returned (-1) (some container) (some err),
            calls ++ [DockerCall.ExecStart "docker" cmdArgs])
        | none =>
          match d.client.Wait cmdArgs with
          | some err =>
            (Outcome.returned (-1) (some container) (some err),
              calls ++ [DockerCall.ExecStart "docker" cmdArgs,
                DockerCall.ExecWait "docker" cmdArgs])
          | none =>
            match d.client.KillContainer container.ID with
            | some err =>
              (Outcome.returned (-1) (some container) (some err),
                calls ++ [DockerCall.ExecStart "docker" cmdArgs,
                  DockerCall.ExecWait "docker" cmdArgs, DockerCall.KillContainer container.ID])
            | none =>
              match d.RemoveContainer container.ID with
              | some err =>
                (Outcome.returned 0 (some container) none,
                  calls ++ [DockerCall.ExecStart "docker" cmdArgs,
                    DockerCall.ExecWait "docker" cmdArgs, DockerCall.KillContainer container.ID,
                    DockerCall.RemoveContainer container.ID true,
                    DockerCall.Stderr
                      ("fissile: unexpected condition: client.RemoveContainer failed, err:" ++
                        err ++ "\n")])
              | none =>
                (Outcome.returned 0 (some container) none,
                  calls ++ [DockerCall.ExecStart "docker" cmdArgs,
                    DockerCall.ExecWait "docker" cmdArgs, DockerCall.KillContainer container.ID,
                    DockerCall.RemoveContainer container.ID true])

/-- The manager's `RunInContainer`; `stdoutProcessor` and `stderrProcessor` tell whether
the two processors are non-nil. -/
def ImageManager.RunInContainer (d : ImageManager) (containerName imageName : String)
    (cmd : List String) (inPath outPath : String) (keepContainer : Bool)
    (stdoutProcessor stderrProcessor : Bool) : Outcome × List DockerCall :=
  let containerCmd := if keepContainer then ["sleep", "365d"] else cmd
  let actualCmd := if keepContainer then cmd else []
  let cco := createContainerOptions d containerName imageName containerCmd inPath outPath
  match d.client.CreateContainer cco with
  | Except.error err => (Outcome.returned (-1) none (some err), [DockerCall.CreateContainer cco])
  | Except.ok container =>
    if !d.client.AttachToContainer container.ID then
      (Outcome.blocked,
        [DockerCall.CreateContainer cco,
          DockerCall.AttachToContainer container.ID stdoutProcessor stderrProcessor])
    else
      match d.client.StartContainer container.ID with
      | some err =>
        (Outcome.returned (-1) (some container) (some err),
          [DockerCall.CreateContainer cco,
            DockerCall.AttachToContainer container.ID stdoutProcessor stderrProcessor,
            DockerCall.StartContainer container.ID])
      | none =>
        if !keepContainer then
          match d.client.WaitContainer container.ID with
          | (_, some err) =>
            (Outcome.returned (-1) (some container) (some err),
              [DockerCall.CreateContainer cco,
                DockerCall.AttachToContainer container.ID stdoutProcessor stderrProcessor,
                DockerCall.StartContainer container.ID, DockerCall.WaitContainer container.ID])
          | (exitCode, none) =>
            (Outcome.returned exitCode (some container) none,
              [DockerCall.CreateContainer cco,
                DockerCall.AttachToContainer container.ID stdoutProcessor stderrProcessor,
                DockerCall.StartContainer container.ID, DockerCall.WaitContainer container.ID])
        else
          execInContainer d container actualCmd stdoutProcessor stderrProcessor
            [DockerCall.CreateContainer cco,
              DockerCall.AttachToContainer container.ID stdoutProcessor stderrProcessor,
              DockerCall.StartContainer container.ID]

/-! ## The compilation base image (`CreateCompilationBase`)

The compilator's `DockerManager` and the helpers `ioutil.TempDir` and
`compilation.SaveScript` are parameters (`BaseEnv`); the docker daemon is a
state (`Daemon`) that the manager's calls read and change. -/

/-- The docker daemon as `CreateCompilationBase` observes it: the answer of
`DockerManager.FindImage` for every image name. -/
structure Daemon where
  FindImage : String → Option Image × GoError

/-- Everything `CreateCompilationBase` calls outside `compilator.go`. -/
structure BaseEnv where
  Join : List String → String
  PreprequisitesScript : String
  TempDir : String → String → String × GoError
  SaveScript : String → String → String → GoError
  RunInContainer : Daemon → String → String → List String → String → String → RunResult × Daemon
  RemoveContainer : Daemon → String → GoError × Daemon
  CreateImage : Daemon → String → String → String → String → List String →
    (Option Image × GoError) × Daemon

/-- What `CreateCompilationBase` does, in order: every external call, and for
the container calls the answer it got. -/
inductive BaseEvent
  | FindImage (imageName : String)
  | TempDir (dir pfx : String)
  | SaveScript (baseType script path : String)
  | RunInContainer (name image : String) (cmd : List String) (inPath outPath : String)
      (r : RunResult)
  | RemoveContainer (id : String) (err : GoError)
  | CreateImage (containerID repository tag message : String) (cmd : List String)
  deriving DecidableEq, Repr

/-- How a call of `CreateCompilationBase` ends: it returns its two results, or
it panics on a nil pointer. -/
inductive BaseOutcome
  | returned (image : Option Image) (err : GoError)
  | panic
  deriving DecidableEq, Repr

/-- The deferred function of lines 227-242, run on the way out with the
results `(image, err)` set by the `return` statement. -/
def removeBaseContainer (env : BaseEnv) (d : Daemon) (container : Option String)
    (image : Option Image) (err : GoError) (events : List BaseEvent) :
    BaseOutcome × Daemon × List BaseEvent :=
  match container with
  | none => (BaseOutcome.returned image err, d, events)
  | some id =>
    match env.RemoveContainer d id with
    | (none, d1) =>
      (BaseOutcome.returned image err, d1, events ++ [BaseEvent.RemoveContainer id none])
    | (some removeErr, d1) =>
      (BaseOutcome.returned image
        (match err with
          | none => some removeErr
          | some e =>
            some ("Image creation error: " ++ e ++ ". Image removal error: " ++ removeErr ++ ".")),
        d1, events ++ [BaseEvent.RemoveContainer id (some removeErr)])

/-- Lines 208-270: the run of the prerequisites script and the commit. -/
def buildBaseImage (env : BaseEnv) (c : Compilator) (d : Daemon) (baseImageName : String)
    (tempScriptDir containerScriptPath : String) (events : List BaseEvent) :
    BaseOutcome × Daemon × List BaseEvent :=
  let cmd := ["bash", "-c", containerScriptPath]
  match env.RunInContainer d (BaseCompilationContainerName c) baseImageName cmd
      tempScriptDir "" with
  | (r, d1) =>
    let events1 := events ++
      [BaseEvent.RunInContainer (BaseCompilationContainerName c) baseImageName cmd
        tempScriptDir "" r]
    match r.err with
    | some e => removeBaseContainer env d1 r.container none (some ("Error running script: " ++ e))
        events1
    | none =>
      if r.exitCode ≠ 0 then
        removeBaseContainer env d1 r.container none
          (some ("Error - script script exited with code " ++ toString r.exitCode)) events1
      else
        match r.container with
        | none => (BaseOutcome.panic, d1, events1)
        | some id =>
          match env.CreateImage d1 id c.DockerRepository (BaseCompilationImageTag c) "" [] with
          | ((_, some e), d2) =>
            removeBaseContainer env d2 (some id) none (some ("Error creating image " ++ e))
              (events1 ++
                [BaseEvent.CreateImage id c.DockerRepository (BaseCompilationImageTag c) "" []])
          | ((image, none), d2) =>
            removeBaseContainer env d2 (some id) image none
              (events1 ++
                [BaseEvent.CreateImage id c.DockerRepository (BaseCompilationImageTag c) "" []])

def CreateCompilationBase (env : BaseEnv) (c : Compilator) (d : Daemon)
    (baseImageName : String) : BaseOutcome × Daemon × List BaseEvent :=
  let imageTag := BaseCompilationImageTag c
  let imageName := c.DockerRepository ++ ":" ++ imageTag
  match d.FindImage imageName with
  | (some image, none) =>
    (BaseOutcome.returned (some image) none, d, [BaseEvent.FindImage imageName])
  | (none, none) => (BaseOutcome.panic, d, [BaseEvent.FindImage imageName])
  | (_, some _) =>
    match env.TempDir "" "fissile-compilation" with
    | (tempScriptDir, some err) =>
      (BaseOutcome.returned none
        (some ("Could not create temp dir " ++ tempScriptDir ++ ": " ++ err)), d,
        [BaseEvent.FindImage imageName, BaseEvent.TempDir "" "fissile-compilation"])
    | (tempScriptDir, none) =>
      let targetScriptName := "compilation-prerequisites.sh"
      let containerScriptPath := env.Join [ContainerInPath, targetScriptName]
      let hostScriptPath := env.Join [tempScriptDir, targetScriptName]
      match env.SaveScript c.BaseType env.PreprequisitesScript hostScriptPath with
      | some err =>
        (BaseOutcome.returned none (some ("Error saving script asset: " ++ err)), d,
          [BaseEvent.FindImage imageName, BaseEvent.TempDir "" "fissile-compilation",
            BaseEvent.SaveScript c.BaseType env.PreprequisitesScript hostScriptPath])
      | none =>
        buildBaseImage env c d baseImageName tempScriptDir containerScriptPath
          [BaseEvent.FindImage imageName, BaseEvent.TempDir "" "fissile-compilation",
            BaseEvent.SaveScript c.BaseType env.PreprequisitesScript hostScriptPath]

/-! ## Workers side by side

The goroutines of `Compile` share the compilator, the host and `result`.
A schedule lets one goroutine at a time take a step; a step is a critical
section (the probe of lines 100 and 415-446, the flag write of lines 109-113)
or the rest of an attempt (lines 122-134 with the deferred flag write of lines
116-120).  Every schedule is one way the goroutines can run; a single scan of
the packages (lines 99-140) is followed. -/

/-- Where a goroutine stands in its scan: about to probe the head of `rest`;
having probed `pkg` None, about to set its flag; having set the flag, about to
call `compilePackage`; or out of the loop. -/
inductive Position
  | probing (rest : List Ptr)
  | claiming (pkg : Ptr) (rest : List Ptr)
  | attempting (pkg : Ptr) (rest : List Ptr)
  | left (how : LoopExit)
  deriving DecidableEq, Repr

/-- A worker goroutine's own state. -/
structure Goroutine where
  pos : Position
  hasWork : Bool
  deriving DecidableEq, Repr

/-- The goroutines and what they share. -/
structure Pool where
  s : State
  result : List String
  workers : List Goroutine

/-- One step of a goroutine on the shared state; `none` when the goroutine has
left the loop or panics on a missing mutex. -/
def Goroutine.step (env : Env) (s : State) (result : List String) (g : Goroutine) :
    Option (State × List String × Goroutine) :=
  match g.pos with
  | Position.probing [] => some (s, result, { g with pos := Position.left LoopExit.completed })
  | Position.probing (pkg :: rest) =>
    match getPackageStatus env s.c s.w pkg with
    | Except.error _ => none
    | Except.ok (pkgState, some workerErr) =>
      some (s.log (Event.getPackageStatus pkg pkgState (some workerErr)), result ++ [workerErr],
        { g with pos := Position.left LoopExit.returned })
    | Except.ok (pkgState, none) =>
      some (s.log (Event.getPackageStatus pkg pkgState none), result,
        { g with pos := if pkgState = packageNone then Position.claiming pkg rest
                        else Position.probing rest })
  | Position.claiming pkg rest =>
    match setCompiling s.c pkg true with
    | Except.error _ => none
    | Except.ok c1 => some ({ s with c := c1 }, result, { g with pos := Position.attempting pkg rest })
  | Position.attempting pkg rest =>
    match compilePackage env { s with events := s.events ++ [Event.compilePackage pkg] } pkg with
    | Except.error _ => none
    | Except.ok (workerErr, s2) =>
      match setCompiling s2.c pkg false with
      | Except.error _ => none
      | Except.ok c3 =>
        let result1 := match workerErr with
          | some e => result ++ [e]
          | none => result
        some ({ s2 with c := c3 }, result1,
          { pos := if result1 ≠ [] then Position.left LoopExit.broke else Position.probing rest,
            hasWork := true })
  | Position.left _ => none

/-- Goroutine number `i` takes a step. -/
def Pool.step (env : Env) (i : Nat) (p : Pool) : Option Pool :=
  match p.workers.get? i with
  | none => none
  | some g =>
    match g.step env p.s p.result with
    | none => none
    | some (s1, result1, g1) => some { s := s1, result := result1, workers := p.workers.set i g1 }

/-- The goroutines step in the order of the schedule. -/
def Pool.run (env : Env) : List Nat → Pool → Option Pool
  | [], p => some p
  | i :: schedule, p =>
    match p.step env i with
    | none => none
    | some p1 => Pool.run env schedule p1

/-- The `workerCount` goroutines as `Compile` starts them (lines 87-99). -/
def Pool.start (c : Compilator) (w : World) (workerCount : Nat) : Pool :=
  { s := { c := c, w := w, events := [] }, result := [],
    workers := List.replicate workerCount
      { pos := Position.probing c.Release.Packages, hasWork := false } }

/-- The package whose attempt the goroutine is inside, between the flag write
of lines 109-113 and the one of lines 116-120. -/
def Goroutine.attempts (g : Goroutine) : Option Ptr :=
  match g.pos with
  | Position.attempting pkg _ => some pkg
  | _ => none

/-- The container removals among the events of an attempt. -/
def Event.isRemoval : Event → Bool
  | Event.RemoveContainer _ _ => true
  | _ => false

/-- A docker-manager call that removes a container. -/
def DockerCall.isRemoval : DockerCall → Bool
  | DockerCall.RemoveContainer _ _ => true
  | _ => false

/-- A docker-manager call that kills a container. -/
def DockerCall.isKill : DockerCall → Bool
  | DockerCall.KillContainer _ => true
  | _ => false

/-- An event of `CreateCompilationBase` that runs a container or commits an
image. -/
def BaseEvent.isBuild : BaseEvent → Bool
  | BaseEvent.RunInContainer _ _ _ _ _ _ => true
  | BaseEvent.CreateImage _ _ _ _ _ => true
  | _ => false

def BaseEvent.isRun : BaseEvent → Bool
  | BaseEvent.RunInContainer _ _ _ _ _ _ => true
  | _ => false

def BaseEvent.isCreateImage : BaseEvent → Bool
  | BaseEvent.CreateImage _ _ _ _ _ => true
  | _ => false

/-- A bind mount is read-only when it ends in `:ro`. -/
def readOnlyBind (b : String) : Prop := ":ro".data <:+ b.data

/-- An example docker client: container `box` is created, attach and start
succeed, the container exits with `exitCode`, the child process works, and
kill and removal answer `killErr` and `removeErr`. -/
def exampleClient (exitCode : Int) (killErr removeErr : GoError) : Client :=
  { Geteuid := 1000, Getegid := 1000,
    InspectImage := fun _ => (none, some ErrorValue.ErrNoSuchImage),
    CreateContainer := fun _ => Except.ok { ID := "box" },
    AttachToContainer := fun _ => true,
    StartContainer := fun _ => none,
    WaitContainer := fun _ => (exitCode, none),
    KillContainer := fun _ => killErr,
    RemoveContainer := fun _ _ => removeErr,
    CommitContainer := fun _ => (some { ID := "img" }, none),
    StdoutPipe := fun _ => none, StderrPipe := fun _ => none, StdinPipe := fun _ => none,
    Start := fun _ => none, Wait := fun _ => none }

def exampleManager (exitCode : Int) (killErr removeErr : GoError) : ImageManager :=
  { client := exampleClient exitCode killErr removeErr }

/-- The first failure among the steps of the child process (lines 283-305):
the pipes of the processors that are not nil, the standard input pipe, the
start and the wait. -/
def execFailure (d : ImageManager) (cmdArgs : List String)
    (stdoutProcessor stderrProcessor : Bool) : GoError :=
  match (if stdoutProcessor then d.client.StdoutPipe cmdArgs else none) with
  | some err => some err
  | none =>
    match (if stderrProcessor then d.client.StderrPipe cmdArgs else none) with
    | some err => some err
    | none =>
      match d.client.StdinPipe cmdArgs with
      | some err => some err
      | none =>
        match d.client.Start cmdArgs with
        | some err => some err
        | none => d.client.Wait cmdArgs

/-- An example daemon that holds no image. -/
def exampleDaemon : Daemon := { FindImage := fun _ => (none, some "Image not found") }

/-- The daemon after `image` was committed under `imageName`. -/
def commitImage (d : Daemon) (imageName : String) (image : Image) : Daemon :=
  { FindImage := fun q => if q = imageName then (some image, none) else d.FindImage q }

/-- An example environment of `CreateCompilationBase`: the script runs in
container `base-box` and exits with `exitCode`; a commit makes image `img`
known under `<repository>:<tag>`; removal answers `removeErr`. -/
def exampleBaseEnv (exitCode : Int) (removeErr : GoError) : BaseEnv :=
  { Join := fun parts => "/".intercalate parts,
    PreprequisitesScript := "prerequisites",
    TempDir := fun _ pfx => ("/tmp/" ++ pfx, none),
    SaveScript := fun _ _ _ => none,
    RunInContainer := fun d _ _ _ _ _ =>
      ({ exitCode := exitCode, container := some "base-box", err := none }, d),
    RemoveContainer := fun d _ => (removeErr, d),
    CreateImage := fun d _ repository tag _ _ =>
      ((some { ID := "img" }, none), commitImage d (repository ++ ":" ++ tag) { ID := "img" }) }

/-! ## More of the example host -/

/-- The release that lists package `1` ("A") before package `2` ("B"). -/
def orderedRelease : Release := { Name := "rel", Version := "7", Packages := [1, 2] }

def orderedCompilator : Compilator := (NewCompilator orderedRelease "/w" "repo" "ubuntu").1

/-- A package model with a dependency cycle: "A" depends on "B" and "B" on
"A". -/
def cyclicHeap : Ptr → Package
  | 1 => { Name := "A", Version := "1", Dependencies := [2] }
  | _ => { Name := "B", Version := "1", Dependencies := [1] }

/-- The example host with the cyclic package model. -/
def cyclicEnv : Env := { exampleEnv (fun _ => 0) none with heap := cyclicHeap }

/-- The backoff sleeps among the events. -/
def Event.isSleep : Event → Bool
  | Event.Sleep _ => true
  | _ => false

/-- The package a status-probe event is for. -/
def Event.probeOf : Event → Option Ptr
  | Event.getPackageStatus pkg _ _ => some pkg
  | _ => none

/-- A container run that answered an error or a non-zero exit code. -/
def Event.isFailedRun : Event → Bool
  | Event.RunInContainer _ _ _ _ _ _ r => r.err.isSome || r.exitCode != 0
  | _ => false

/-- Every dependency of every package of the release is itself a package of
the release. -/
def Closed (env : Env) (release : Release) : Prop :=
  ∀ p ∈ release.Packages, ∀ d ∈ (env.heap p).Dependencies, d ∈ release.Packages

/-- The daemon as the compilator sees it through a manager of
`docker/docker.go`: `FindImage` answers what the manager's `FindImage`
answers, an error by its text. -/
def daemonOf (m : ImageManager) : Daemon :=
  { FindImage := fun imageName =>
      ((m.FindImage imageName).1, (m.FindImage imageName).2.map ErrorValue.Error) }

/-- The two maps of `c` have the keys of the maps of `c0`, and the same
locks. -/
def sameKeys (c0 c : Compilator) : Prop :=
  ∀ p, c.packageLock p = c0.packageLock p ∧
    (c.packageCompiling p).isSome = (c0.packageCompiling p).isSome

/-- An example manager whose image lookup fails for a reason other than
absence. -/
def brokenManager : ImageManager :=
  { client := { exampleClient 0 none none with
      InspectImage := fun _ => (none, some (ErrorValue.made "connection refused")) } }

/-- In the events, nothing but the removal of the container follows a failed
container run. -/
def EndsAtFailure (evs : List Event) : Prop :=
  ∀ (pre : List Event) (ev : Event) (post : List Event),
    evs = pre ++ ev :: post → ev.isFailedRun = true → ∀ ev2 ∈ post, ev2.isRemoval = true

/-- The events hold no failed container run. -/
def NoFailedRun (evs : List Event) : Prop := ∀ ev ∈ evs, ev.isFailedRun = false

/-- The compilator holds a lock for every package of `pkgs` and for each of
their dependencies. -/
def Locked (env : Env) (pkgs : List Ptr) (c : Compilator) : Prop :=
  ∀ p ∈ pkgs, c.packageLock p = some () ∧
    ∀ d ∈ (env.heap p).Dependencies, c.packageLock d = some ()

/-- A release whose only package is `4` ("D"): its dependencies `3` and `1`
are not packages of the release. -/
def openRelease : Release := { Name := "rel", Version := "7", Packages := [4] }

def openCompilator : Compilator := (NewCompilator openRelease "/w" "repo" "ubuntu").1

/-- A worker on the cyclic example between two steps of its loop: the
ordered release with its two locks, no flag set, nothing on the host, a nil
aggregate, and no backoff sleep among the events so far. -/
structure CyclicIdle (wk : Worker) : Prop where
  release_eq : wk.s.c.Release = orderedRelease
  lock1 : wk.s.c.packageLock 1 = some ()
  lock2 : wk.s.c.packageLock 2 = some ()
  flags : ∀ p, (wk.s.c.packageCompiling p).getD false = false
  host : wk.s.w = emptyWorld
  result_nil : wk.result = []
  awake : ∀ ev ∈ wk.s.events, ev.isSleep = false

/-! ## The unguarded append (line 132)

The statement `result = multierror.Append(result, workerErr)` reads the
shared variable `result` and then writes it.  No lock is held meanwhile: the
package mutex was released at line 113 and is taken again only by the
deferred function of lines 116-120, and it is another mutex for another
package anyway.  Here a goroutine is followed as in `Goroutine.step`, but with
that statement as two steps, the read and the write.  The aggregate is still
the list of its errors: appending to the nil aggregate that was read makes a
fresh aggregate holding `workerErr` alone. -/

/-- Where a goroutine stands: in its scan, as in `Position`; or inside
line 132 for the package `pkg`, having read `seen` from `result` and made
`multierror.Append(seen, workerErr)`, about to assign it to `result`. -/
inductive RacePosition
  | scanning (pos : Position)
  | appending (pkg : Ptr) (rest : List Ptr) (workerErr : String) (seen : List String)
  deriving DecidableEq, Repr

/-- A worker goroutine's own state. -/
structure RaceGoroutine where
  pos : RacePosition
  hasWork : Bool
  deriving DecidableEq, Repr

/-- The goroutines and what they share. -/
structure RacePool where
  s : State
  result : List String
  workers : List RaceGoroutine

/-- One step of a goroutine on the shared state.  A goroutine about to call
`compilePackage` calls it and, on an error, reads `result` (line 132, right
hand side); its next step assigns the aggregate made from what it read, after
which the closure returns, the deferred function clears the flag (lines
116-120) and line 133 finds `result` non-nil.  Every other step is that of
`Goroutine.step`. -/
def RaceGoroutine.step (env : Env) (s : State) (result : List String) (g : RaceGoroutine) :
    Option (State × List String × RaceGoroutine) :=
  match g.pos with
  | RacePosition.scanning (Position.attempting pkg rest) =>
    match compilePackage env { s with events := s.events ++ [Event.compilePackage pkg] } pkg with
    | Except.error _ => none
    | Except.ok (some workerErr, s2) =>
      some (s2, result,
        { pos := RacePosition.appending pkg rest workerErr result, hasWork := true })
    | Except.ok (none, s2) =>
      match setCompiling s2.c pkg false with
      | Except.error _ => none
      | Except.ok c3 =>
        some ({ s2 with c := c3 }, result,
          { pos := RacePosition.scanning
              (if result ≠ [] then Position.left LoopExit.broke else Position.probing rest),
            hasWork := true })
  | RacePosition.scanning pos =>
    match Goroutine.step env s result { pos := pos, hasWork := g.hasWork } with
    | none => none
    | some (s1, result1, g1) =>
      some (s1, result1, { pos := RacePosition.scanning g1.pos, hasWork := g1.hasWork })
  | RacePosition.appending pkg _ workerErr seen =>
    match setCompiling s.c pkg false with
    | Except.error _ => none
    | Except.ok c3 =>
      some ({ s with c := c3 }, seen ++ [workerErr],
        { pos := RacePosition.scanning (Position.left LoopExit.broke), hasWork := g.hasWork })

/-- Goroutine number `i` takes a step. -/
def RacePool.step (env : Env) (i : Nat) (p : RacePool) : Option RacePool :=
  match p.workers.get? i with
  | none => none
  | some g =>
    match g.step env p.s p.result with
    | none => none
    | some (s1, result1, g1) => some { s := s1, result := result1, workers := p.workers.set i g1 }

/-- The goroutines step in the order of the schedule. -/
def RacePool.run (env : Env) : List Nat → RacePool → Option RacePool
  | [], p => some p
  | i :: schedule, p =>
    match p.step env i with
    | none => none
    | some p1 => RacePool.run env schedule p1

/-- The `workerCount` goroutines as `Compile` starts them (lines 87-99). -/
def RacePool.start (c : Compilator) (w : World) (workerCount : Nat) : RacePool :=
  { s := { c := c, w := w, events := [] }, result := [],
    workers := List.replicate workerCount
      { pos := RacePosition.scanning (Position.probing c.Release.Packages), hasWork := false } }

/-- Every goroutine has left its loop: `workersGroup.Wait()` returns and
`Compile` returns `result`. -/
def RacePool.finished (p : RacePool) : Bool :=
  p.workers.all (fun g =>
    match g.pos with
    | RacePosition.scanning (Position.left _) => true
    | _ => false)

/-- A release of two packages without dependencies: `3` ("C") and `1`
("A"). -/
def pairRelease : Release := { Name := "rel", Version := "7", Packages := [3, 1] }

def pairCompilator : Compilator := (NewCompilator pairRelease "/w" "repo" "ubuntu").1

/-- Build scripts that fail: the container of package "C" exits with code 3,
every other container with code 4. -/
def failingExit (name : String) : Int := if name = "repo-rel-7-pkg-C" then 3 else 4

/-! ## A host whose file operations act on the paths they are given -/

/-- The path `q` is `path` or lies under it. -/
def underPath (path q : String) : Bool :=
  q = path || (path ++ "/").data.isPrefixOf q.data

/-- The host after `os.RemoveAll(path)`: `path` and everything under it is
gone. -/
def removeTree (w : World) (path : String) : World :=
  { Stat := fun q => if underPath path q then StatResult.notExist else w.Stat q,
    Open := fun q => if underPath path q then OpenResult.failed "no such file" else w.Open q }

/-- The host after `os.MkdirAll(path)`: `path` is an empty directory if
nothing was there, and what it was otherwise. -/
def makeDir (w : World) (path : String) : World :=
  match w.Stat path with
  | StatResult.notExist =>
    { Stat := fun q => if q = path then StatResult.info true else w.Stat q,
      Open := fun q => if q = path then OpenResult.opened ReaddirResult.eof else w.Open q }
  | _ => w

/-- The host after `shutil.CopyTree(src, dst)`: `dst` is what `src` is. -/
def copyTree (w : World) (src dst : String) : World :=
  { Stat := fun q => if q = dst then w.Stat src else w.Stat q,
    Open := fun q => if q = dst then w.Open src else w.Open q }

/-- An example host on the package model of `exampleHeap` whose file
operations change the host at the path they are given: `RemoveAll` removes
the tree, `MkdirAll` makes the directory, `CopyTree` copies, the script is
written as a regular file, the extraction fills its directory, and a
container that exits with code 0 fills its output directory. -/
def diskEnv (exitOf : String → Int) : Env :=
  { heap := exampleHeap,
    Join := fun parts => "/".intercalate parts,
    MkdirAll := fun w path => (none, makeDir w path),
    RemoveAll := fun w path => (none, removeTree w path),
    CopyTree := fun w src dst => (none, copyTree w src dst),
    CompilationScript := "compile",
    SaveScript := fun w _ _ path => (none, putFile w path),
    Extract := fun w _ dir => (none, populate w dir),
    RunInContainer := fun w name _ _ _ outPath =>
      ({ exitCode := exitOf name, container := some ("id-" ++ name), err := none },
        if exitOf name = 0 then populate w outPath else w),
    RemoveContainer := fun w _ => (none, w) }

/-- An example host on which the removal of a container takes the output of
its build with it: every build exits with code 0 and leaves its output
directory populated, and after `RemoveContainer`, which returns no error,
nothing is left on the host. -/
def volatileEnv : Env :=
  { exampleEnv (fun _ => 0) none with RemoveContainer := fun _ _ => (none, emptyWorld) }

/-- A release of the single package `1` ("A", no dependency). -/
def soloRelease : Release := { Name := "rel", Version := "7", Packages := [1] }

def soloCompilator : Compilator := (NewCompilator soloRelease "/w" "repo" "ubuntu").1

/-- A worker on the volatile host between two passes of its loop: the release
of the single package `1` with its lock, no flag set, nothing on the host and
a nil aggregate. -/
structure VolatileIdle (wk : Worker) : Prop where
  release_eq : wk.s.c.Release = soloRelease
  lock1 : wk.s.c.packageLock 1 = some ()
  flags : ∀ p, (wk.s.c.packageCompiling p).getD false = false
  host : wk.s.w = emptyWorld
  result_nil : wk.result = []

/-! ## The status probe (C2, C3, C4) -/

theorem getPackageStatus_flag_clear (env : Env) (c : Compilator) (w : World) (pkg : Ptr)
    (hlock : c.packageLock pkg = some ())
    (hflag : (c.packageCompiling pkg).getD false = false) :
    getPackageStatus env c w pkg =
      match validatePath w (getPackageCompiledDir env c pkg) true "package path" with
      | (_, some err) => Except.ok (packageError, some err)
      | (true, none) =>
        (match isDirEmpty w (getPackageCompiledDir env c pkg) with
          | (_, some err) => Except.ok (packageError, some err)
          | (false, none) => Except.ok (packageCompiled, none)
          | (true, none) => Except.ok (packageNone, none))
      | (false, none) => Except.ok (packageNone, none) := by
  unfold getPackageStatus getPackageCompiledDir
  simp only [hlock, hflag]
  rcases validatePath w (env.Join [c.HostWorkDir, (env.heap pkg).Name, "compiled"]) true
    "package path" with ⟨b, _ | e⟩
  · cases b
    · simp
    · rcases isDirEmpty w (env.Join [c.HostWorkDir, (env.heap pkg).Name, "compiled"]) with
        ⟨b2, _ | e2⟩
      · cases b2 <;> simp
      · simp
  · simp

theorem getPackageStatus_absent (env : Env) (c : Compilator) (w : World) (pkg : Ptr)
    (hlock : c.packageLock pkg = some ())
    (hflag : (c.packageCompiling pkg).getD false = false)
    (h : w.Stat (getPackageCompiledDir env c pkg) = StatResult.notExist) :
    getPackageStatus env c w pkg = Except.ok (packageNone, none) := by
  rw [getPackageStatus_flag_clear env c w pkg hlock hflag]
  simp [validatePath, h]

theorem getPackageStatus_empty (env : Env) (c : Compilator) (w : World) (pkg : Ptr)
    (hlock : c.packageLock pkg = some ())
    (hflag : (c.packageCompiling pkg).getD false = false)
    (h1 : w.Stat (getPackageCompiledDir env c pkg) = StatResult.info true)
    (h2 : w.Open (getPackageCompiledDir env c pkg) = OpenResult.opened ReaddirResult.eof) :
    getPackageStatus env c w pkg = Except.ok (packageNone, none) := by
  rw [getPackageStatus_flag_clear env c w pkg hlock hflag]
  simp [validatePath, isDirEmpty, h1, h2]

theorem getPackageStatus_populated (env : Env) (c : Compilator) (w : World) (pkg : Ptr)
    (hlock : c.packageLock pkg = some ())
    (hflag : (c.packageCompiling pkg).getD false = false)
    (h1 : w.Stat (getPackageCompiledDir env c pkg) = StatResult.info true)
    (h2 : w.Open (getPackageCompiledDir env c pkg) = OpenResult.opened ReaddirResult.entry) :
    getPackageStatus env c w pkg = Except.ok (packageCompiled, none) := by
  rw [getPackageStatus_flag_clear env c w pkg hlock hflag]
  simp [validatePath, isDirEmpty, h1, h2]

theorem getPackageStatus_compiled_iff (env : Env) (c : Compilator) (w : World) (pkg : Ptr)
    (hlock : c.packageLock pkg = some ())
    (hflag : (c.packageCompiling pkg).getD false = false) :
    getPackageStatus env c w pkg = Except.ok (packageCompiled, none) ↔
      Populated w (getPackageCompiledDir env c pkg) := by
  rw [getPackageStatus_flag_clear env c w pkg hlock hflag]
  unfold validatePath isDirEmpty Populated
  cases hs : w.Stat (getPackageCompiledDir env c pkg) with
  | notExist => simp [packageNone, packageCompiled]
  | failed msg => simp [packageError, packageCompiled]
  | info isDir =>
    cases isDir
    · simp [packageError, packageCompiled]
    · cases ho : w.Open (getPackageCompiledDir env c pkg) with
      | failed msg => simp [packageError, packageCompiled]
      | opened r =>
        cases r <;> simp [packageError, packageNone, packageCompiled]

/-! ### The lock map covers the flag map -/

theorem registerPackages_wellFormed (l : List Ptr) (c : Compilator) (h : c.WellFormed) :
    (registerPackages l c).WellFormed := by
  induction l generalizing c with
  | nil => exact h
  | cons pkg rest ih =>
    unfold registerPackages
    apply ih
    intro q hq
    by_cases hqp : q = pkg
    · simp [mapSet, hqp]
    · simp only [mapSet, hqp, if_false] at hq ⊢
      exact h q hq

theorem NewCompilator_wellFormed (release : Release) (hostWorkDir dockerRepository baseType : String) :
    (NewCompilator release hostWorkDir dockerRepository baseType).1.WellFormed := by
  unfold NewCompilator
  apply registerPackages_wellFormed
  intro q hq
  exact absurd rfl hq

theorem setCompiling_wellFormed (c c2 : Compilator) (pkg : Ptr) (v : Bool) (h : c.WellFormed)
    (h2 : setCompiling c pkg v = Except.ok c2) : c2.WellFormed := by
  unfold setCompiling at h2
  split at h2
  · cases h2
  · next u hl =>
    cases h2
    intro q hq
    by_cases hqp : q = pkg
    · subst hqp; exact hl
    · simp only [mapSet, hqp, if_false] at hq
      exact h q hq

/-- C2: for a package whose in-progress flag is clear, the probe is a
function of the output directory `<HostWorkDir>/<pkg.Name>/compiled` alone:
absent gives None, present and empty gives None, present with an entry gives
Compiled, each with a nil error; Compiled is reported exactly for a present
directory holding an entry; and two hosts that agree on that directory give
the same answer. -/
theorem C2_status_is_function_of_output_dir (env : Env) (c : Compilator) (w : World) (pkg : Ptr)
    (hwf : c.WellFormed)
    (hflag : c.packageCompiling pkg = some false) :
    (w.Stat (getPackageCompiledDir env c pkg) = StatResult.notExist →
      getPackageStatus env c w pkg = Except.ok (packageNone, none)) ∧
    (w.Stat (getPackageCompiledDir env c pkg) = StatResult.info true →
      w.Open (getPackageCompiledDir env c pkg) = OpenResult.opened ReaddirResult.eof →
      getPackageStatus env c w pkg = Except.ok (packageNone, none)) ∧
    (w.Stat (getPackageCompiledDir env c pkg) = StatResult.info true →
      w.Open (getPackageCompiledDir env c pkg) = OpenResult.opened ReaddirResult.entry →
      getPackageStatus env c w pkg = Except.ok (packageCompiled, none)) ∧
    (getPackageStatus env c w pkg = Except.ok (packageCompiled, none) ↔
      w.Stat (getPackageCompiledDir env c pkg) = StatResult.info true ∧
      w.Open (getPackageCompiledDir env c pkg) = OpenResult.opened ReaddirResult.entry) ∧
    (∀ w2 : World,
      w2.Stat (getPackageCompiledDir env c pkg) = w.Stat (getPackageCompiledDir env c pkg) →
      w2.Open (getPackageCompiledDir env c pkg) = w.Open (getPackageCompiledDir env c pkg) →
      getPackageStatus env c w2 pkg = getPackageStatus env c w pkg) := by
  have hlock : c.packageLock pkg = some () := hwf pkg (by rw [hflag]; simp)
  have hflag2 : (c.packageCompiling pkg).getD false = false := by rw [hflag]; rfl
  refine ⟨getPackageStatus_absent env c w pkg hlock hflag2,
    getPackageStatus_empty env c w pkg hlock hflag2,
    getPackageStatus_populated env c w pkg hlock hflag2,
    getPackageStatus_compiled_iff env c w pkg hlock hflag2, ?_⟩
  intro w2 h1 h2
  rw [getPackageStatus_flag_clear env c w pkg hlock hflag2,
    getPackageStatus_flag_clear env c w2 pkg hlock hflag2]
  unfold validatePath isDirEmpty
  rw [h1, h2]

theorem C2_witness :
    getPackageStatus (exampleEnv (fun _ => 0) none) exampleCompilator emptyWorld 1 =
        Except.ok (packageNone, none) ∧
    getPackageStatus (exampleEnv (fun _ => 0) none) exampleCompilator
        (populate emptyWorld "/w/A/compiled") 1 = Except.ok (packageCompiled, none) :=
  ⟨(C2_status_is_function_of_output_dir (exampleEnv (fun _ => 0) none) exampleCompilator
      emptyWorld 1 (NewCompilator_wellFormed _ _ _ _) (by decide)).1 (by rfl),
   (C2_status_is_function_of_output_dir (exampleEnv (fun _ => 0) none) exampleCompilator
      (populate emptyWorld "/w/A/compiled") 1 (NewCompilator_wellFormed _ _ _ _)
      (by decide)).2.2.1 (by decide) (by decide)⟩

/-- C3: a package whose Compiling flag is set is reported Compiling with a nil
error on every host, hence never None and never Compiled. -/
theorem C3_flag_set_reports_compiling (env : Env) (c : Compilator) (w : World) (pkg : Ptr)
    (hwf : c.WellFormed)
    (hflag : c.packageCompiling pkg = some true) :
    getPackageStatus env c w pkg = Except.ok (packageCompiling, none) ∧
    getPackageStatus env c w pkg ≠ Except.ok (packageNone, none) ∧
    getPackageStatus env c w pkg ≠ Except.ok (packageCompiled, none) := by
  have hlock : c.packageLock pkg = some () := hwf pkg (by rw [hflag]; simp)
  have h : getPackageStatus env c w pkg = Except.ok (packageCompiling, none) := by
    unfold getPackageStatus
    simp [hlock, hflag]
  rw [h]
  refine ⟨rfl, ?_, ?_⟩ <;> simp [packageCompiling, packageNone, packageCompiled]

theorem C3_witness :
    ∃ c : Compilator, setCompiling exampleCompilator 1 true = Except.ok c ∧
      getPackageStatus (exampleEnv (fun _ => 0) none) c
        (populate emptyWorld "/w/A/compiled") 1 = Except.ok (packageCompiling, none) :=
  ⟨_, rfl,
    (C3_flag_set_reports_compiling (exampleEnv (fun _ => 0) none)
      (exampleCompilator.withFlag 1 true)
      (populate emptyWorld "/w/A/compiled") 1
      (setCompiling_wellFormed exampleCompilator _ 1 true (NewCompilator_wellFormed _ _ _ _) rfl)
      (by decide)).1⟩

/-! ## How the steps of a build attempt change the state -/

theorem Reach.reach_step {env : Env} {c : Compilator} {pkg : Ptr} {w w1 w2 : World}
    (h : Reach env c pkg w w1) (h2 : ExtStep env c pkg w1 w2) :
    Reach env c pkg w w2 := Relation.ReflTransGen.tail h h2

theorem Reach.reach_refl {env : Env} {c : Compilator} {pkg : Ptr} {w : World} :
    Reach env c pkg w w := Relation.ReflTransGen.refl

theorem Reach.reach_trans {env : Env} {c : Compilator} {pkg : Ptr} {w w1 w2 : World}
    (h : Reach env c pkg w w1) (h2 : Reach env c pkg w1 w2) :
    Reach env c pkg w w2 := Relation.ReflTransGen.trans h h2

/-- The external calls depend on the compilator through its site only. -/
theorem ExtStep.extStep_site {env : Env} {c c2 : Compilator} {pkg : Ptr} {w w2 : World}
    (hsite : c2.site = c.site) (h : ExtStep env c2 pkg w w2) : ExtStep env c pkg w w2 := by
  obtain ⟨R, H, D, B, l, f⟩ := c
  obtain ⟨R2, H2, D2, B2, l2, f2⟩ := c2
  simp only [Compilator.site, Prod.mk.injEq] at hsite
  obtain ⟨rfl, rfl, rfl, rfl⟩ := hsite
  cases h with
  | MkdirAllDependencies w => exact ExtStep.MkdirAllDependencies w
  | MkdirAllSource w => exact ExtStep.MkdirAllSource w
  | RemoveAll w dep hdep => exact ExtStep.RemoveAll w dep hdep
  | CopyTree w dep hdep => exact ExtStep.CopyTree w dep hdep
  | SaveScript w => exact ExtStep.SaveScript w
  | Extract w => exact ExtStep.Extract w
  | RunInContainer w => exact ExtStep.RunInContainer w
  | RemoveContainer w id hid => exact ExtStep.RemoveContainer w id hid

theorem Reach.reach_site {env : Env} {c c2 : Compilator} {pkg : Ptr} {w w2 : World}
    (hsite : c2.site = c.site) (h : Reach env c2 pkg w w2) : Reach env c pkg w w2 := by
  induction h with
  | refl => exact Reach.reach_refl
  | tail _ hbc ih => exact Reach.reach_step ih (ExtStep.extStep_site hsite hbc)

theorem addEvents_nil (s : State) : s.addEvents [] = s := by
  cases s; simp [State.addEvents]

theorem addEvents_addEvents (s : State) (a b : List Event) :
    (s.addEvents a).addEvents b = s.addEvents (a ++ b) := by
  simp [State.addEvents, List.append_assoc]

theorem log_eq_addEvents (s : State) (ev : Event) : s.log ev = s.addEvents [ev] := rfl

/-- The dependency check only probes: it leaves the compilator and the host
alone, records one probe per dependency visited, and runs to its end exactly
when every dependency is probed Compiled. -/
theorem checkDependencies_spec (env : Env) (deps : List Ptr) (s sf : State) (r : Option GoError)
    (h : checkDependencies env deps s = Except.ok (r, sf)) :
    ∃ probes : List Event, sf = s.addEvents probes ∧ (∀ ev ∈ probes, ev.isProbe = true) ∧
      (r = none → probes = deps.map (fun d => Event.getPackageStatus d packageCompiled none) ∧
        ∀ d ∈ deps, getPackageStatus env s.c s.w d = Except.ok (packageCompiled, none)) ∧
      (∀ e, r = some e →
        ∃ d ∈ deps, getPackageStatus env s.c s.w d ≠ Except.ok (packageCompiled, none)) := by
  induction deps generalizing s with
  | nil =>
    unfold checkDependencies at h
    cases h
    refine ⟨[], (addEvents_nil _).symm, by simp, fun _ => ⟨rfl, by simp⟩, ?_⟩
    intro e he; cases he
  | cons dep rest ih =>
    unfold checkDependencies at h
    split at h
    · cases h
    · next st err hst =>
      cases h
      refine ⟨[Event.getPackageStatus dep st (some err)], rfl, by simp [Event.isProbe], ?_, ?_⟩
      · intro h0; cases h0
      · intro e _
        exact ⟨dep, List.mem_cons_self _ _, by rw [hst]; simp⟩
    · next st hst =>
      split at h
      · next hne =>
        cases h
        refine ⟨[Event.getPackageStatus dep st none], rfl, by simp [Event.isProbe], ?_, ?_⟩
        · intro h0; cases h0
        · intro e _
          refine ⟨dep, List.mem_cons_self _ _, ?_⟩
          rw [hst]
          intro h1
          exact hne (congrArg Prod.fst (Except.ok.inj h1))
      · next hne =>
        have hst2 : st = packageCompiled := by simpa using hne
        subst hst2
        obtain ⟨probes, h1, h2, h3, h4⟩ := ih _ h
        refine ⟨Event.getPackageStatus dep packageCompiled none :: probes, ?_, ?_, ?_, ?_⟩
        · rw [h1, log_eq_addEvents, addEvents_addEvents]; rfl
        · intro ev hev
          rcases List.mem_cons.mp hev with rfl | hev
          · rfl
          · exact h2 ev hev
        · intro hr
          obtain ⟨h5, h6⟩ := h3 hr
          refine ⟨by rw [h5]; rfl, ?_⟩
          intro d hd
          rcases List.mem_cons.mp hd with rfl | hd
          · exact hst
          · exact h6 d hd
        · intro e he
          obtain ⟨d, hd, hne2⟩ := h4 e he
          exact ⟨d, List.mem_cons_of_mem _ hd, hne2⟩

theorem checkDependencies_all_compiled (env : Env) (deps : List Ptr) (s : State)
    (h : ∀ d ∈ deps, getPackageStatus env s.c s.w d = Except.ok (packageCompiled, none)) :
    checkDependencies env deps s = Except.ok (none,
      s.addEvents (deps.map (fun d => Event.getPackageStatus d packageCompiled none))) := by
  induction deps generalizing s with
  | nil => unfold checkDependencies; rw [List.map_nil, addEvents_nil]
  | cons dep rest ih =>
    unfold checkDependencies
    rw [h dep (List.mem_cons_self _ _)]
    simp only [ne_eq, not_true_eq_false, if_false]
    rw [ih (s.log (Event.getPackageStatus dep packageCompiled none))
      (fun d hd => h d (List.mem_cons_of_mem _ hd)), log_eq_addEvents, addEvents_addEvents]
    rfl

theorem checkDependencies_not_ready (env : Env) (s : State)
    (pre post : List Ptr) (D : Ptr) (st : Nat)
    (hpre : ∀ d ∈ pre, ∃ sd, getPackageStatus env s.c s.w d = Except.ok (sd, none))
    (hD : getPackageStatus env s.c s.w D = Except.ok (st, none))
    (hst : st ≠ packageCompiled) :
    ∃ probes : List Event,
      checkDependencies env (pre ++ D :: post) s = Except.ok (some none, s.addEvents probes) := by
  induction pre generalizing s with
  | nil =>
    refine ⟨[Event.getPackageStatus D st none], ?_⟩
    simp only [List.nil_append]
    unfold checkDependencies
    rw [hD]
    simp [hst, log_eq_addEvents]
  | cons dep rest ih =>
    obtain ⟨sd, hsd⟩ := hpre dep (List.mem_cons_self _ _)
    simp only [List.cons_append]
    unfold checkDependencies
    rw [hsd]
    simp only
    split
    · exact ⟨[Event.getPackageStatus dep sd none], rfl⟩
    · obtain ⟨probes, hp⟩ := ih (s.log (Event.getPackageStatus dep sd none))
        (fun d hd => hpre d (List.mem_cons_of_mem _ hd)) hD
      refine ⟨Event.getPackageStatus dep sd none :: probes, ?_⟩
      rw [hp, log_eq_addEvents, addEvents_addEvents]
      rfl

theorem Evolves.evolves_refl (env : Env) (pkg : Ptr) (P : Event → Prop) (s : State) :
    Evolves env pkg P s s :=
  ⟨rfl, Reach.reach_refl, [], by simp, by simp⟩

theorem Evolves.evolves_trans {env : Env} {pkg : Ptr} {P : Event → Prop} {s s1 s2 : State}
    (h1 : Evolves env pkg P s s1) (h2 : Evolves env pkg P s1 s2) : Evolves env pkg P s s2 := by
  obtain ⟨hc1, hr1, e1, he1, hp1⟩ := h1
  obtain ⟨hc2, hr2, e2, he2, hp2⟩ := h2
  rw [hc1] at hr2
  refine ⟨hc2.trans hc1, hr1.reach_trans hr2, e1 ++ e2, ?_, ?_⟩
  · rw [he2, he1, List.append_assoc]
  · intro ev hev
    rcases List.mem_append.mp hev with h | h
    · exact hp1 ev h
    · exact hp2 ev h

theorem Evolves.evolves_mono {env : Env} {pkg : Ptr} {P Q : Event → Prop} {s sf : State}
    (h : Evolves env pkg P s sf) (hpq : ∀ ev, P ev → Q ev) : Evolves env pkg Q s sf := by
  obtain ⟨hc, hr, e, he, hp⟩ := h
  exact ⟨hc, hr, e, he, fun ev hev => hpq ev (hp ev hev)⟩

theorem Evolves.evolves_step {env : Env} {pkg : Ptr} {P : Event → Prop} (s : State) (w1 : World)
    (ev : Event) (hw : ExtStep env s.c pkg s.w w1) (hp : P ev) :
    Evolves env pkg P s (s.step w1 ev) :=
  ⟨rfl, Reach.reach_step Reach.reach_refl hw, [ev], rfl, by simpa using hp⟩

theorem Evolves.evolves_addEvents {env : Env} {pkg : Ptr} {P : Event → Prop} (s : State)
    (evs : List Event) (hp : ∀ ev ∈ evs, P ev) : Evolves env pkg P s (s.addEvents evs) :=
  ⟨rfl, Reach.reach_refl, evs, rfl, hp⟩

theorem ExtStep.of_MkdirAllDependencies {env : Env} {c : Compilator} {pkg : Ptr} {w w1 : World}
    {e : GoError} (h : env.MkdirAll w (getDependenciesPackageDir env c pkg) = (e, w1)) :
    ExtStep env c pkg w w1 := by
  have := @ExtStep.MkdirAllDependencies env c pkg w
  rwa [h] at this

theorem ExtStep.of_MkdirAllSource {env : Env} {c : Compilator} {pkg : Ptr} {w w1 : World}
    {e : GoError} (h : env.MkdirAll w (getSourcePackageDir env c pkg) = (e, w1)) :
    ExtStep env c pkg w w1 := by
  have := @ExtStep.MkdirAllSource env c pkg w
  rwa [h] at this

theorem ExtStep.of_RemoveAll {env : Env} {c : Compilator} {pkg dep : Ptr} {w w1 : World}
    {e : GoError} (hdep : dep ∈ (env.heap pkg).Dependencies)
    (h : env.RemoveAll w
      (env.Join [getDependenciesPackageDir env c pkg, (env.heap dep).Name]) = (e, w1)) :
    ExtStep env c pkg w w1 := by
  have := @ExtStep.RemoveAll env c pkg w dep hdep
  rwa [h] at this

theorem ExtStep.of_CopyTree {env : Env} {c : Compilator} {pkg dep : Ptr} {w w1 : World}
    {e : GoError} (hdep : dep ∈ (env.heap pkg).Dependencies)
    (h : env.CopyTree w (getPackageCompiledDir env c dep)
      (env.Join [getDependenciesPackageDir env c pkg, (env.heap dep).Name]) = (e, w1)) :
    ExtStep env c pkg w w1 := by
  have := @ExtStep.CopyTree env c pkg w dep hdep
  rwa [h] at this

theorem ExtStep.of_SaveScript {env : Env} {c : Compilator} {pkg : Ptr} {w w1 : World}
    {e : GoError}
    (h : env.SaveScript w c.BaseType env.CompilationScript
      (env.Join [getTargetPackageSourcesDir env c pkg, "compile.sh"]) = (e, w1)) :
    ExtStep env c pkg w w1 := by
  have := @ExtStep.SaveScript env c pkg w
  rwa [h] at this

theorem ExtStep.of_Extract {env : Env} {c : Compilator} {pkg : Ptr} {w w1 : World}
    {e : GoError} (h : env.Extract w pkg (getSourcePackageDir env c pkg) = (e, w1)) :
    ExtStep env c pkg w w1 := by
  have := @ExtStep.Extract env c pkg w
  rwa [h] at this

theorem Evolves.evolves_staging {env : Env} {pkg : Ptr} (s : State) (w1 : World) (ev : Event)
    (hw : ExtStep env s.c pkg s.w w1) (hp : ev.isStaging = true) :
    Evolves env pkg (fun ev => ev.isStaging = true) s (s.step w1 ev) :=
  Evolves.evolves_step s w1 ev hw hp

theorem createCompilationDirStructure_evolves (env : Env) (s : State) (pkg : Ptr) :
    Evolves env pkg (fun ev => ev.isStaging = true) s
      (createCompilationDirStructure env s pkg).2 := by
  unfold createCompilationDirStructure
  simp only
  split
  · next h => exact Evolves.evolves_staging s _ _ (ExtStep.of_MkdirAllDependencies h) (by rfl)
  · next h =>
    split
    · next h2 =>
      exact (Evolves.evolves_staging s _ _ (ExtStep.of_MkdirAllDependencies h)
        (by rfl)).evolves_trans
        (Evolves.evolves_staging _ _ _ (ExtStep.of_MkdirAllSource h2) (by rfl))
    · next h2 =>
      exact (Evolves.evolves_staging s _ _ (ExtStep.of_MkdirAllDependencies h)
        (by rfl)).evolves_trans
        (Evolves.evolves_staging _ _ _ (ExtStep.of_MkdirAllSource h2) (by rfl))

theorem copyDependenciesLoop_evolves (env : Env) (pkg : Ptr) (deps : List Ptr) (s : State)
    (hsub : ∀ d ∈ deps, d ∈ (env.heap pkg).Dependencies) :
    Evolves env pkg (fun ev => ev.isStaging = true) s
      (copyDependenciesLoop env pkg deps s).2 := by
  induction deps generalizing s with
  | nil => exact Evolves.evolves_refl _ _ _ _
  | cons dep rest ih =>
    have hdep := hsub dep (List.mem_cons_self _ _)
    have hrest : ∀ d ∈ rest, d ∈ (env.heap pkg).Dependencies :=
      fun d hd => hsub d (List.mem_cons_of_mem _ hd)
    unfold copyDependenciesLoop
    simp only
    split
    · next h => exact Evolves.evolves_staging s _ _ (ExtStep.of_RemoveAll hdep h) (by rfl)
    · next h =>
      split
      · next h2 =>
        exact (Evolves.evolves_staging s _ _ (ExtStep.of_RemoveAll hdep h)
          (by rfl)).evolves_trans
          (Evolves.evolves_staging _ _ _ (ExtStep.of_CopyTree hdep h2) (by rfl))
      · next h2 =>
        exact ((Evolves.evolves_staging s _ _ (ExtStep.of_RemoveAll hdep h)
          (by rfl)).evolves_trans
          (Evolves.evolves_staging _ _ _ (ExtStep.of_CopyTree hdep h2) (by rfl))).evolves_trans
            (ih _ hrest)

theorem stagePackage_evolves (env : Env) (s : State) (pkg : Ptr) :
    Evolves env pkg (fun ev => ev.isStaging = true) s (stagePackage env s pkg).2 := by
  unfold stagePackage
  have h1 := createCompilationDirStructure_evolves env s pkg
  split
  · next heq => rw [heq] at h1; exact h1
  · next s1 heq =>
    rw [heq] at h1
    have h2 := copyDependenciesLoop_evolves env pkg (env.heap pkg).Dependencies s1
      (fun _ hd => hd)
    unfold copyDependencies
    split
    · next heq2 => rw [heq2] at h2; exact h1.evolves_trans h2
    · next s2 heq2 =>
      rw [heq2] at h2
      simp only
      split
      · next h3 =>
        exact (h1.evolves_trans h2).evolves_trans
          (Evolves.evolves_staging _ _ _ (ExtStep.of_SaveScript h3) (by rfl))
      · next h3 =>
        split
        · next h4 =>
          exact ((h1.evolves_trans h2).evolves_trans
            (Evolves.evolves_staging _ _ _ (ExtStep.of_SaveScript h3) (by rfl))).evolves_trans
            (Evolves.evolves_staging _ _ _ (ExtStep.of_Extract h4) (by rfl))
        · next h4 =>
          exact ((h1.evolves_trans h2).evolves_trans
            (Evolves.evolves_staging _ _ _ (ExtStep.of_SaveScript h3) (by rfl))).evolves_trans
            (Evolves.evolves_staging _ _ _ (ExtStep.of_Extract h4) (by rfl))

/-! ## The container run of a build attempt (C8, C10) -/

theorem runCompilation_eq (env : Env) (s : State) (pkg : Ptr) :
    runCompilation env s pkg =
      removeContainerDeferred env (s.step (buildResult env s pkg).2 (buildEvent env s pkg))
        (buildResult env s pkg).1.container
        (primaryError (env.heap pkg).Name (buildResult env s pkg).1) := by
  unfold runCompilation primaryError buildEvent buildResult
  simp only
  split
  · next h => simp only [h]
  · next h =>
    simp only [h]
    split <;> rfl

theorem compilePackage_ready (env : Env) (s : State) (pkg : Ptr)
    (hdeps : ∀ d ∈ (env.heap pkg).Dependencies,
      getPackageStatus env s.c s.w d = Except.ok (packageCompiled, none))
    (hstage : (stagePackage env (readyState env s pkg) pkg).1 = none) :
    compilePackage env s pkg = Except.ok (runCompilation env (stagedState env s pkg) pkg) := by
  unfold compilePackage
  rw [checkDependencies_all_compiled env _ s hdeps]
  simp only
  unfold stagedState
  unfold readyState at hstage ⊢
  split
  · next heq => rw [heq] at hstage; cases hstage
  · next heq => rw [heq]

theorem Mentions.mentions_mid (a b c : String) : Mentions (a ++ b ++ c) b :=
  ⟨a.data, c.data, by simp [String.data_append]⟩

theorem Mentions.mentions_last (a b : String) : Mentions (a ++ b) b :=
  ⟨a.data, [], by simp [String.data_append]⟩

theorem Mentions.mentions_trans {a b c : String} (h1 : Mentions a b) (h2 : Mentions b c) :
    Mentions a c := List.IsInfix.trans h2 h1

theorem exitCodeError_mentions (name : String) (k : Int) :
    Mentions (exitCodeError name k) name ∧ Mentions (exitCodeError name k) (toString k) :=
  ⟨⟨"Error - compilation for package ".data, (" exited with code " ++ toString k).data,
      by simp [exitCodeError, String.data_append]⟩,
    Mentions.mentions_last _ _⟩

/-- C8: when the dependencies of `P` are Compiled, staging succeeds, and the
build container of `P` exits with a non-zero code `k` without a run error and
is removed without error, `compilePackage(P)` returns the error whose text is
exactly "Error - compilation for package <P.Name> exited with code <k>". -/
theorem C8_nonzero_exit_is_build_failure (env : Env) (s : State) (pkg : Ptr) (k : Int)
    (hdeps : ∀ d ∈ (env.heap pkg).Dependencies,
      getPackageStatus env s.c s.w d = Except.ok (packageCompiled, none))
    (hstage : (stagePackage env (readyState env s pkg) pkg).1 = none)
    (herr : (buildResult env (stagedState env s pkg) pkg).1.err = none)
    (hk : (buildResult env (stagedState env s pkg) pkg).1.exitCode = k)
    (hk0 : k ≠ 0)
    (hrm : ∀ id, (buildResult env (stagedState env s pkg) pkg).1.container = some id →
      (env.RemoveContainer (buildResult env (stagedState env s pkg) pkg).2 id).1 = none) :
    ∃ sf, compilePackage env s pkg =
      Except.ok (some ("Error - compilation for package " ++ (env.heap pkg).Name ++
        " exited with code " ++ toString k), sf) := by
  rw [compilePackage_ready env s pkg hdeps hstage, runCompilation_eq]
  have hp : primaryError (env.heap pkg).Name (buildResult env (stagedState env s pkg) pkg).1 =
      some ("Error - compilation for package " ++ (env.heap pkg).Name ++
        " exited with code " ++ toString k) := by
    unfold primaryError
    rw [herr, hk]
    simp [hk0, exitCodeError]
  rw [hp]
  unfold removeContainerDeferred
  cases hc : (buildResult env (stagedState env s pkg) pkg).1.container with
  | none => exact ⟨_, rfl⟩
  | some id =>
    have h1 := hrm id hc
    simp only
    split
    · exact ⟨_, rfl⟩
    · next removeErr w1 heq =>
      simp only [State.step] at heq
      rw [heq] at h1
      cases h1

theorem C8_witness :
    ∃ sf, compilePackage (exampleEnv (fun _ => 3) none) (exampleState emptyWorld) 1 =
      Except.ok (some ("Error - compilation for package " ++ "A" ++
        " exited with code " ++ toString (3 : Int)), sf) :=
  C8_nonzero_exit_is_build_failure (exampleEnv (fun _ => 3) none) (exampleState emptyWorld) 1 3
    (by intro d hd; cases hd) rfl rfl rfl (by decide) (by intro id _; rfl)

theorem removeContainerDeferred_failed (env : Env) (s : State) (id removeErr : String)
    (err : GoError) (hrm : (env.RemoveContainer s.w id).1 = some removeErr) :
    (removeContainerDeferred env s (some id) err).1 =
      match err with
      | none => some removeErr
      | some e =>
        some ("Error compiling package: " ++ e ++ ". Error removing package: " ++ removeErr) := by
  unfold removeContainerDeferred
  simp only
  split
  · next heq => rw [heq] at hrm; cases hrm
  · next re w1 heq =>
    rw [heq] at hrm
    cases hrm
    cases err <;> rfl

theorem merged_mentions (e removeErr : String) :
    Mentions ("Error compiling package: " ++ e ++ ". Error removing package: " ++ removeErr) e ∧
    Mentions ("Error compiling package: " ++ e ++ ". Error removing package: " ++ removeErr)
      removeErr :=
  ⟨⟨"Error compiling package: ".data, (". Error removing package: " ++ removeErr).data,
      by simp [String.data_append]⟩,
    Mentions.mentions_last _ _⟩

/-- C10: when the dependencies of `P` are Compiled and staging succeeds, so
that the container is run, and the removal of that container fails with
`removeErr`: after a run without error that exited 0, `compilePackage`
returns the removal error itself; after a run error `e` it returns an error
whose text contains both `e` and `removeErr`; after a non-zero exit code it
returns an error whose text contains both the exit-code error and
`removeErr`. -/
theorem C10_removal_failure_never_dropped (env : Env) (s : State) (pkg : Ptr)
    (id removeErr : String)
    (hdeps : ∀ d ∈ (env.heap pkg).Dependencies,
      getPackageStatus env s.c s.w d = Except.ok (packageCompiled, none))
    (hstage : (stagePackage env (readyState env s pkg) pkg).1 = none)
    (hc : (buildResult env (stagedState env s pkg) pkg).1.container = some id)
    (hrm : (env.RemoveContainer (buildResult env (stagedState env s pkg) pkg).2 id).1 =
      some removeErr) :
    ∃ (msg : String) (sf : State), compilePackage env s pkg = Except.ok (some msg, sf) ∧
      ((buildResult env (stagedState env s pkg) pkg).1.err = none →
        (buildResult env (stagedState env s pkg) pkg).1.exitCode = 0 → msg = removeErr) ∧
      (∀ e, (buildResult env (stagedState env s pkg) pkg).1.err = some e →
        msg = "Error compiling package: " ++ e ++ ". Error removing package: " ++ removeErr ∧
        Mentions msg e ∧ Mentions msg removeErr) ∧
      ((buildResult env (stagedState env s pkg) pkg).1.err = none →
        (buildResult env (stagedState env s pkg) pkg).1.exitCode ≠ 0 →
        msg = "Error compiling package: " ++
          exitCodeError (env.heap pkg).Name
            (buildResult env (stagedState env s pkg) pkg).1.exitCode ++
          ". Error removing package: " ++ removeErr ∧
        Mentions msg (exitCodeError (env.heap pkg).Name
          (buildResult env (stagedState env s pkg) pkg).1.exitCode) ∧
        Mentions msg removeErr) := by
  rw [compilePackage_ready env s pkg hdeps hstage, runCompilation_eq, hc]
  have h1 := removeContainerDeferred_failed env
    ((stagedState env s pkg).step (buildResult env (stagedState env s pkg) pkg).2
      (buildEvent env (stagedState env s pkg) pkg)) id removeErr
    (primaryError (env.heap pkg).Name (buildResult env (stagedState env s pkg) pkg).1) hrm
  cases he : (buildResult env (stagedState env s pkg) pkg).1.err with
  | some e =>
    have hp : primaryError (env.heap pkg).Name (buildResult env (stagedState env s pkg) pkg).1 =
        some e := by unfold primaryError; rw [he]
    rw [hp] at h1 ⊢
    refine ⟨_, _, Prod.ext h1 rfl |> congrArg Except.ok, ?_, ?_, ?_⟩
    · intro h; cases h
    · intro e2 h2
      cases h2
      exact ⟨rfl, merged_mentions e removeErr⟩
    · intro h; cases h
  | none =>
    by_cases hk : (buildResult env (stagedState env s pkg) pkg).1.exitCode = 0
    · have hp : primaryError (env.heap pkg).Name
          (buildResult env (stagedState env s pkg) pkg).1 = none := by
        unfold primaryError; rw [he]; simp [hk]
      rw [hp] at h1 ⊢
      refine ⟨_, _, Prod.ext h1 rfl |> congrArg Except.ok, ?_, ?_, ?_⟩
      · intro _ _; rfl
      · intro e2 h2; cases h2
      · intro _ h3; exact absurd hk h3
    · have hp : primaryError (env.heap pkg).Name
          (buildResult env (stagedState env s pkg) pkg).1 =
          some (exitCodeError (env.heap pkg).Name
            (buildResult env (stagedState env s pkg) pkg).1.exitCode) := by
        unfold primaryError; rw [he]; simp [hk]
      rw [hp] at h1 ⊢
      refine ⟨_, _, Prod.ext h1 rfl |> congrArg Except.ok, ?_, ?_, ?_⟩
      · intro _ h3; exact absurd h3 hk
      · intro e2 h2; cases h2
      · intro _ _
        exact ⟨rfl, merged_mentions _ removeErr⟩

theorem C10_witness :
    ∃ (msg : String) (sf : State),
      compilePackage (exampleEnv (fun _ => 3) (some "no such container"))
        (exampleState emptyWorld) 1 = Except.ok (some msg, sf) ∧
      msg = "Error compiling package: Error - compilation for package A exited with code 3" ++
        ". Error removing package: no such container" := by
  obtain ⟨msg, sf, h, _, _, h3⟩ :=
    C10_removal_failure_never_dropped (exampleEnv (fun _ => 3) (some "no such container"))
      (exampleState emptyWorld) 1 "id-repo-rel-7-pkg-A" "no such container"
      (by intro d hd; cases hd) rfl rfl rfl
  refine ⟨msg, sf, h, ?_⟩
  rw [(h3 rfl (by decide)).1]
  decide

/-! ## The dependency check of `compilePackage` (C1) -/

/-- A build attempt that finds a dependency not probed Compiled only probes. -/
theorem compilePackage_unready (env : Env) (s sf : State) (pkg : Ptr) (r : GoError)
    (h : compilePackage env s pkg = Except.ok (r, sf))
    (hne : ∃ d ∈ (env.heap pkg).Dependencies,
      getPackageStatus env s.c s.w d ≠ Except.ok (packageCompiled, none)) :
    ∃ probes : List Event, sf = s.addEvents probes ∧ ∀ ev ∈ probes, ev.isProbe = true := by
  unfold compilePackage at h
  split at h
  · cases h
  · next r2 s0 heq =>
    cases h
    obtain ⟨probes, h1, h2, _, _⟩ := checkDependencies_spec env _ s _ _ heq
    exact ⟨probes, h1, h2⟩
  · next s0 heq =>
    obtain ⟨probes, _, _, h3, _⟩ := checkDependencies_spec env _ s _ _ heq
    obtain ⟨d, hd, hd2⟩ := hne
    exact absurd ((h3 rfl).2 d hd) hd2

/-- The status of a package whose output directory is absent or empty is
Compiling or None, never Compiled, and carries no error. -/
theorem getPackageStatus_not_compiled (env : Env) (c : Compilator) (w : World) (D : Ptr)
    (hlock : c.packageLock D = some ())
    (hD : AbsentOrEmpty w (getPackageCompiledDir env c D)) :
    ∃ st, getPackageStatus env c w D = Except.ok (st, none) ∧ st ≠ packageCompiled := by
  cases hf : (c.packageCompiling D).getD false with
  | true =>
    refine ⟨packageCompiling, ?_, by decide⟩
    unfold getPackageStatus
    simp [hlock, hf]
  | false =>
    refine ⟨packageNone, ?_, by decide⟩
    rcases hD with h | ⟨h1, h2⟩
    · exact getPackageStatus_absent env c w D hlock hf h
    · exact getPackageStatus_empty env c w D hlock hf h1 h2

/-- C1 as stated fails.  Package `4` depends on `3` and `1`, in that order;
every dependency has its lock; the output directory of `1` is absent; but the
output path of `3` is a regular file, so the probe of `3` fails and
`compilePackage(4)` returns that error instead of nil. -/
theorem C1_counterexample :
    (exampleEnv (fun _ => 0) none).heap 4 = { Name := "D", Version := "1", Dependencies := [3, 1] } ∧
    (putFile emptyWorld "/w/C/compiled").Stat
      (getPackageCompiledDir (exampleEnv (fun _ => 0) none) wideCompilator 1) =
        StatResult.notExist ∧
    wideCompilator.packageLock 3 = some () ∧ wideCompilator.packageLock 1 = some () ∧
    compilePackage (exampleEnv (fun _ => 0) none)
        { c := wideCompilator, w := putFile emptyWorld "/w/C/compiled", events := [] } 4 =
      Except.ok
        (some "Path /w/C/compiled (package path) points to a file. It should be a directory.",
          { c := wideCompilator, w := putFile emptyWorld "/w/C/compiled",
            events := [Event.getPackageStatus 3 packageError
              (some ("Path /w/C/compiled (package path) points to a file. " ++
                "It should be a directory."))] }) :=
  ⟨rfl, by decide, by decide, by decide, rfl⟩

/-- C1 (amended): if a direct dependency `D` of `P` has an absent or empty
output directory and the probes of the dependencies listed before `D` return
no error, `compilePackage(P)` returns nil as a no-op: the compilator and the
host are left as they were and nothing but status probes took place (no
directory created, nothing copied or extracted, no container run).  In every
case an attempt that finds a dependency not probed Compiled does nothing but
probe, so a staging call or a container run is made only if every direct
dependency was probed Compiled at the start of the attempt. -/
theorem C1_noop_when_dependency_not_compiled (env : Env) (s : State) (pkg : Ptr) :
    (∀ (pre post : List Ptr) (D : Ptr),
      (env.heap pkg).Dependencies = pre ++ D :: post →
      (∀ d ∈ pre, ∃ sd, getPackageStatus env s.c s.w d = Except.ok (sd, none)) →
      s.c.packageLock D = some () →
      AbsentOrEmpty s.w (getPackageCompiledDir env s.c D) →
      ∃ probes : List Event,
        compilePackage env s pkg = Except.ok (none, s.addEvents probes) ∧
        ∀ ev ∈ probes, ev.isProbe = true) ∧
    (∀ (r : GoError) (sf : State), compilePackage env s pkg = Except.ok (r, sf) →
      (∃ d ∈ (env.heap pkg).Dependencies,
        getPackageStatus env s.c s.w d ≠ Except.ok (packageCompiled, none)) →
      ∃ probes : List Event, sf = s.addEvents probes ∧ ∀ ev ∈ probes, ev.isProbe = true) ∧
    (∀ (r : GoError) (sf : State), compilePackage env s pkg = Except.ok (r, sf) →
      (∃ ev ∈ sf.events.drop s.events.length, ev.isProbe = false) →
      ∀ d ∈ (env.heap pkg).Dependencies,
        getPackageStatus env s.c s.w d = Except.ok (packageCompiled, none)) := by
  refine ⟨?_, fun r sf h hne => compilePackage_unready env s sf pkg r h hne, ?_⟩
  · intro pre post D hdeps hpre hlock hD
    obtain ⟨st, hst, hne⟩ := getPackageStatus_not_compiled env s.c s.w D hlock hD
    obtain ⟨probes, hc⟩ := checkDependencies_not_ready env s pre post D st hpre hst hne
    have hc2 := hc
    rw [← hdeps] at hc2
    obtain ⟨probes2, h1, h2, _, _⟩ := checkDependencies_spec env _ s _ _ hc2
    refine ⟨probes2, ?_, h2⟩
    unfold compilePackage
    rw [hc2, h1]
  · intro r sf h ⟨ev, hev, hev2⟩ d hd
    by_contra hne
    obtain ⟨probes, h1, h2⟩ := compilePackage_unready env s sf pkg r h ⟨d, hd, hne⟩
    rw [h1] at hev
    simp only [State.addEvents, List.drop_left] at hev
    rw [h2 ev hev] at hev2
    cases hev2

theorem C1_witness :
    ∃ probes : List Event,
      compilePackage (exampleEnv (fun _ => 0) none) (exampleState emptyWorld) 2 =
        Except.ok (none, (exampleState emptyWorld).addEvents probes) ∧
      ∀ ev ∈ probes, ev.isProbe = true :=
  (C1_noop_when_dependency_not_compiled (exampleEnv (fun _ => 0) none)
    (exampleState emptyWorld) 2).1 [] [] 1 rfl (by intro d hd; cases hd) (by decide)
    (Or.inl (by decide))

/-! ## The shape of a build attempt -/

theorem removeContainerDeferred_eq (env : Env) (s : State) (container : Option String)
    (err : GoError) :
    removeContainerDeferred env s container err =
      (mergeRemoval err (removalError env s.w container),
        { c := s.c, w := removalWorld env s.w container,
          events := s.events ++ removalEvents env s.w container }) := by
  unfold removeContainerDeferred
  cases container with
  | none =>
    cases s
    simp [mergeRemoval, removalError, removalWorld, removalEvents]
  | some id =>
    simp only [removalError, removalWorld, removalEvents]
    rcases hx : env.RemoveContainer s.w id with ⟨e, w1⟩
    cases e with
    | none => simp [mergeRemoval, State.step]
    | some re => cases err <;> simp [mergeRemoval, State.step]

theorem runCompilation_result (env : Env) (s : State) (pkg : Ptr) :
    runCompilation env s pkg =
      (mergeRemoval (primaryError (env.heap pkg).Name (buildResult env s pkg).1)
          (removalError env (buildResult env s pkg).2 (buildResult env s pkg).1.container),
        { c := s.c,
          w := removalWorld env (buildResult env s pkg).2 (buildResult env s pkg).1.container,
          events := s.events ++ buildEvent env s pkg ::
            removalEvents env (buildResult env s pkg).2 (buildResult env s pkg).1.container }) := by
  rw [runCompilation_eq, removeContainerDeferred_eq]
  simp [State.step]

theorem buildResult_eq (env : Env) (s : State) (pkg : Ptr) :
    buildResult env s pkg = containerRun env s.c pkg s.w := rfl

theorem buildResult_reach (env : Env) (s : State) (pkg : Ptr) :
    Reach env s.c pkg s.w (buildResult env s pkg).2 :=
  Reach.reach_step Reach.reach_refl (ExtStep.RunInContainer _)

/-- The removal of the container that the run of `pkg` handed back is a call
of `compilePackage(pkg)`. -/
theorem removalWorld_reach (env : Env) (s : State) (pkg : Ptr) :
    Reach env s.c pkg (buildResult env s pkg).2
      (removalWorld env (buildResult env s pkg).2 (buildResult env s pkg).1.container) := by
  cases hc : (buildResult env s pkg).1.container with
  | none => exact Reach.reach_refl
  | some id =>
    exact Reach.reach_step Reach.reach_refl (ExtStep.RemoveContainer s.w id hc)

/-- The three ways `compilePackage` returns: it found a dependency not probed
Compiled and only probed; staging failed; or the container was run. -/
theorem compilePackage_cases (env : Env) (s sf : State) (pkg : Ptr) (r : GoError)
    (h : compilePackage env s pkg = Except.ok (r, sf)) :
    ((∃ d ∈ (env.heap pkg).Dependencies,
        getPackageStatus env s.c s.w d ≠ Except.ok (packageCompiled, none)) ∧
      ∃ probes : List Event, sf = s.addEvents probes ∧ ∀ ev ∈ probes, ev.isProbe = true) ∨
    ((∀ d ∈ (env.heap pkg).Dependencies,
        getPackageStatus env s.c s.w d = Except.ok (packageCompiled, none)) ∧
      ∃ e, r = some e ∧ stagePackage env (readyState env s pkg) pkg = (some e, sf)) ∨
    ((∀ d ∈ (env.heap pkg).Dependencies,
        getPackageStatus env s.c s.w d = Except.ok (packageCompiled, none)) ∧
      (stagePackage env (readyState env s pkg) pkg).1 = none ∧
      runCompilation env (stagedState env s pkg) pkg = (r, sf)) := by
  unfold compilePackage at h
  split at h
  · cases h
  · next r2 s0 heq =>
    cases h
    obtain ⟨probes, h1, h2, _, h4⟩ := checkDependencies_spec env _ s _ _ heq
    exact Or.inl ⟨h4 _ rfl, probes, h1, h2⟩
  · next s0 heq =>
    obtain ⟨probes, h1, _, h3, _⟩ := checkDependencies_spec env _ s _ _ heq
    obtain ⟨h5, h6⟩ := h3 rfl
    have hs0 : s0 = readyState env s pkg := by rw [h1, h5]; rfl
    subst hs0
    right
    split at h
    · next e s1 heq2 =>
      cases h
      exact Or.inl ⟨h6, _, rfl, heq2⟩
    · next s1 heq2 =>
      refine Or.inr ⟨h6, by rw [heq2], ?_⟩
      have : stagedState env s pkg = s1 := by unfold stagedState; rw [heq2]
      rw [this]
      exact Except.ok.inj h

theorem compilePackage_evolves (env : Env) (s sf : State) (pkg : Ptr) (r : GoError)
    (h : compilePackage env s pkg = Except.ok (r, sf)) :
    Evolves env pkg (fun ev => ev.inAttempt = true) s sf := by
  have hstage : Evolves env pkg (fun ev => ev.inAttempt = true) s
      (stagePackage env (readyState env s pkg) pkg).2 := by
    have h1 : Evolves env pkg (fun ev => ev.inAttempt = true) s (readyState env s pkg) := by
      refine Evolves.evolves_addEvents s _ ?_
      intro ev hev
      obtain ⟨d, _, rfl⟩ := List.mem_map.mp hev
      rfl
    refine h1.evolves_trans ((stagePackage_evolves env _ pkg).evolves_mono ?_)
    intro ev hev
    cases ev <;> first | rfl | cases hev
  rcases compilePackage_cases env s sf pkg r h with ⟨_, probes, h1, h2⟩ | ⟨_, e, _, h2⟩ |
    ⟨_, _, h3⟩
  · rw [h1]
    refine Evolves.evolves_addEvents s _ ?_
    intro ev hev
    have := h2 ev hev
    cases ev <;> first | rfl | cases this
  · rw [h2] at hstage
    exact hstage
  · rw [runCompilation_result] at h3
    have h4 := congrArg Prod.snd h3
    simp only at h4
    rw [← h4]
    refine hstage.evolves_trans ⟨rfl, ?_, _, rfl, ?_⟩
    · exact (buildResult_reach env _ pkg).reach_trans (removalWorld_reach env _ _)
    · intro ev hev
      rcases List.mem_cons.mp hev with rfl | hev
      · rfl
      · cases hc : (buildResult env (stagedState env s pkg) pkg).1.container with
        | none => rw [hc] at hev; cases hev
        | some id =>
          rw [hc] at hev
          simp only [removalEvents, List.mem_singleton] at hev
          rw [hev]
          rfl

theorem setCompiling_eq (c : Compilator) (pkg : Ptr) (v : Bool)
    (h : c.packageLock pkg = some ()) : setCompiling c pkg v = Except.ok (c.withFlag pkg v) := by
  unfold setCompiling
  rw [h]
  rfl

/-- What an attempt on a package probed None does: the package has its lock;
the flag is set, `compilePackage` is entered, its error (if any) joins the
aggregate, and the flag is cleared. -/
theorem attemptPackage_spec (env : Env) (wk wk1 : Worker) (pkg : Ptr)
    (h : attemptPackage env wk pkg packageNone = Except.ok wk1) :
    wk.s.c.packageLock pkg = some () ∧
    ∃ (r : GoError) (sf : State),
      compilePackage env
        { c := wk.s.c.withFlag pkg true, w := wk.s.w,
          events := wk.s.events ++ [Event.compilePackage pkg] } pkg = Except.ok (r, sf) ∧
      wk1 = { s := { c := (wk.s.c.withFlag pkg true).withFlag pkg false, w := sf.w,
                     events := sf.events },
              result := wk.result ++ r.toList, hasWork := true } := by
  unfold attemptPackage at h
  cases hl : wk.s.c.packageLock pkg with
  | none => simp [setCompiling, hl] at h
  | some u =>
    refine ⟨rfl, ?_⟩
    rw [setCompiling_eq _ _ _ hl] at h
    simp only [if_true] at h
    split at h
    · cases h
    · next r sf hc =>
      have hcc : sf.c = wk.s.c.withFlag pkg true := (compilePackage_evolves env _ sf pkg r hc).1
      have hl2 : sf.c.packageLock pkg = some () := by rw [hcc]; exact hl
      rw [setCompiling_eq _ _ _ hl2] at h
      refine ⟨r, sf, hc, ?_⟩
      have h2 := (Except.ok.inj h).symm
      rw [h2, hcc]
      cases r <;> simp

/-! ## Error state (C4) -/

theorem attemptPackage_flag_cleared (env : Env) (wk wk1 : Worker) (pkg : Ptr)
    (h : attemptPackage env wk pkg packageNone = Except.ok wk1) :
    wk1.s.c.packageLock pkg = some () ∧ (wk1.s.c.packageCompiling pkg).getD false = false := by
  obtain ⟨hl, r, sf, _, h2⟩ := attemptPackage_spec env wk wk1 pkg h
  rw [h2]
  exact ⟨hl, by simp [Compilator.withFlag, mapSet]⟩

/-- C4: the probe answers Error exactly when it returns a non-nil error; such
an error comes from the probe of the output directory itself (the stat fails,
the path is not a directory, or opening or reading the directory fails); and a
build attempt leaves no marker: whenever the output directory is still absent
or empty after an attempt (failed or not), the next probe answers None with a
nil error. -/
theorem C4_error_state_only_from_failed_probe (env : Env) (c : Compilator) (w : World)
    (pkg : Ptr) :
    (∀ st err, getPackageStatus env c w pkg = Except.ok (st, err) →
      (st = packageError ↔ err ≠ none)) ∧
    (∀ st e, getPackageStatus env c w pkg = Except.ok (st, some e) →
      w.Stat (getPackageCompiledDir env c pkg) = StatResult.failed e ∨
      w.Stat (getPackageCompiledDir env c pkg) = StatResult.info false ∨
      (w.Stat (getPackageCompiledDir env c pkg) = StatResult.info true ∧
        (w.Open (getPackageCompiledDir env c pkg) = OpenResult.failed e ∨
         w.Open (getPackageCompiledDir env c pkg) =
          OpenResult.opened (ReaddirResult.failed e)))) ∧
    (∀ wk wk1 : Worker, attemptPackage env wk pkg packageNone = Except.ok wk1 →
      AbsentOrEmpty wk1.s.w (getPackageCompiledDir env wk1.s.c pkg) →
      getPackageStatus env wk1.s.c wk1.s.w pkg = Except.ok (packageNone, none)) := by
  refine ⟨?_, ?_, ?_⟩
  · intro st err h
    unfold getPackageStatus at h
    split at h
    · cases h
    · split at h
      · cases h; simp [packageCompiling, packageError]
      · simp only at h
        split at h
        · cases h; simp
        · split at h
          · split at h
            · cases h; simp
            · split at h <;> cases h <;> simp [packageCompiled, packageNone, packageError]
          · cases h; simp [packageNone, packageError]
  · intro st e h
    unfold getPackageStatus at h
    split at h
    · cases h
    · split at h
      · cases h
      · simp only at h
        unfold getPackageCompiledDir
        unfold validatePath isDirEmpty at h
        cases hs : w.Stat (env.Join [c.HostWorkDir, (env.heap pkg).Name, "compiled"]) with
        | notExist => simp [hs] at h
        | failed msg =>
          simp [hs] at h
          left; rw [h.2]
        | info isDir =>
          cases isDir
          · right; left; rfl
          · right; right
            refine ⟨rfl, ?_⟩
            simp only [hs] at h
            cases ho : w.Open (env.Join [c.HostWorkDir, (env.heap pkg).Name, "compiled"]) with
            | failed msg =>
              simp [ho] at h
              left; rw [h.2]
            | opened r =>
              cases r with
              | entry => simp [ho] at h
              | eof => simp [ho] at h
              | failed msg =>
                simp [ho] at h
                right; rw [h.2]
  · intro wk wk1 h hdir
    obtain ⟨hlock, hflag⟩ := attemptPackage_flag_cleared env wk wk1 pkg h
    rcases hdir with h3 | ⟨h3, h4⟩
    · exact getPackageStatus_absent env wk1.s.c wk1.s.w pkg hlock hflag h3
    · exact getPackageStatus_empty env wk1.s.c wk1.s.w pkg hlock hflag h3 h4

theorem C4_witness :
    ∃ wk1 : Worker,
      attemptPackage (exampleEnv (fun _ => 3) none)
        { s := exampleState emptyWorld, result := [], hasWork := false } 1 packageNone =
          Except.ok wk1 ∧
      wk1.result = ["Error - compilation for package A exited with code 3"] ∧
      getPackageStatus (exampleEnv (fun _ => 3) none) wk1.s.c wk1.s.w 1 =
        Except.ok (packageNone, none) :=
  ⟨_, rfl, by decide,
    (C4_error_state_only_from_failed_probe (exampleEnv (fun _ => 3) none) exampleCompilator
      emptyWorld 1).2.2 { s := exampleState emptyWorld, result := [], hasWork := false } _ rfl
      (Or.inl rfl)⟩

/-! ## Runs as sequences of steps -/

theorem Steps.steps_refl {env : Env} {wk : Worker} : Steps env wk wk := Relation.ReflTransGen.refl

theorem Steps.steps_trans {env : Env} {a b c : Worker} (h1 : Steps env a b) (h2 : Steps env b c) :
    Steps env a c := Relation.ReflTransGen.trans h1 h2

theorem Steps.steps_one {env : Env} {a b : Worker} (h : Step env a b) : Steps env a b :=
  Relation.ReflTransGen.single h

/-- An invariant of the steps is an invariant of the runs. -/
theorem Steps.steps_inv {env : Env} (I : Worker → Prop)
    (hstep : ∀ a b, Step env a b → I a → I b) {a b : Worker} (h : Steps env a b) (ha : I a) :
    I b := by
  induction h with
  | refl => exact ha
  | tail _ hbc ih => exact hstep _ _ hbc ih

theorem scanPackages_steps (env : Env) (l : List Ptr) (wk wk1 : Worker) (x : LoopExit)
    (h : scanPackages env l wk = Except.ok (x, wk1)) : Steps env wk wk1 := by
  induction l generalizing wk with
  | nil =>
    unfold scanPackages at h
    cases h
    exact Steps.steps_refl
  | cons pkg rest ih =>
    unfold scanPackages at h
    split at h
    · cases h
    · next st e hst =>
      cases h
      exact Steps.steps_one (Step.probe wk pkg st (some e) hst)
    · next st hst =>
      have hp : Steps env wk { wk with s := wk.s.log (Event.getPackageStatus pkg st none) } := by
        have := Step.probe wk pkg st none hst
        simp only [Option.toList, List.append_nil] at this
        exact Steps.steps_one this
      split at h
      · next hnone =>
        subst hnone
        split at h
        · cases h
        · next wk2 hatt =>
          have ha : Steps env { wk with s := wk.s.log (Event.getPackageStatus pkg packageNone none) }
              wk2 := Steps.steps_one (Step.attempt _ wk2 pkg hst hatt)
          split at h
          · cases h
            exact hp.steps_trans ha
          · exact (hp.steps_trans ha).steps_trans (ih _ h)
      · exact hp.steps_trans (ih _ h)

theorem checkDone_steps (env : Env) (l : List Ptr) (s s2 : State) (d : DoneCheck)
    (result : List String) (hw : Bool)
    (h : checkDone env l s = Except.ok (d, s2)) :
    Steps env { s := s, result := result, hasWork := hw }
      { s := s2,
        result := result ++ d.errors,
        hasWork := hw } := by
  induction l generalizing s with
  | nil =>
    unfold checkDone at h
    cases h
    simp only [DoneCheck.errors, List.append_nil]
    exact Steps.steps_refl
  | cons pkg rest ih =>
    unfold checkDone at h
    split at h
    · cases h
    · next st e hst =>
      cases h
      exact Steps.steps_one (Step.probe { s := s, result := result, hasWork := hw } pkg st (some e) hst)
    · next st hst =>
      have hp : Steps env { s := s, result := result, hasWork := hw }
          { s := s.log (Event.getPackageStatus pkg st none), result := result, hasWork := hw } := by
        have := Step.probe { s := s, result := result, hasWork := hw } pkg st none hst
        simp only [Option.toList, List.append_nil] at this
        exact Steps.steps_one this
      split at h
      · cases h
        simp only [DoneCheck.errors, List.append_nil]
        exact hp
      · exact hp.steps_trans (ih _ h)

/-! ### Only the worker loop consumes fuel -/

theorem getPackageStatus_error (env : Env) (c : Compilator) (w : World) (pkg : Ptr) (a : Abort)
    (h : getPackageStatus env c w pkg = Except.error a) : a = Abort.nilMutex := by
  unfold getPackageStatus at h
  split at h
  · cases h; rfl
  · split at h
    · cases h
    · simp only at h
      split at h
      · cases h
      · split at h
        · split at h
          · cases h
          · split at h <;> cases h
        · cases h

theorem checkDependencies_error (env : Env) (deps : List Ptr) (s : State) (a : Abort)
    (h : checkDependencies env deps s = Except.error a) : a = Abort.nilMutex := by
  induction deps generalizing s with
  | nil => unfold checkDependencies at h; cases h
  | cons dep rest ih =>
    unfold checkDependencies at h
    split at h
    · next a2 hst =>
      cases h
      exact getPackageStatus_error env _ _ _ _ hst
    · cases h
    · split at h
      · cases h
      · exact ih _ h

theorem compilePackage_error (env : Env) (s : State) (pkg : Ptr) (a : Abort)
    (h : compilePackage env s pkg = Except.error a) : a = Abort.nilMutex := by
  unfold compilePackage at h
  split at h
  · next a2 hc =>
    cases h
    exact checkDependencies_error env _ _ _ hc
  · cases h
  · split at h <;> cases h

theorem setCompiling_error (c : Compilator) (pkg : Ptr) (v : Bool) (a : Abort)
    (h : setCompiling c pkg v = Except.error a) : a = Abort.nilMutex := by
  unfold setCompiling at h
  split at h
  · cases h; rfl
  · cases h

theorem attemptPackage_error (env : Env) (wk : Worker) (pkg : Ptr) (st : Nat) (a : Abort)
    (h : attemptPackage env wk pkg st = Except.error a) : a = Abort.nilMutex := by
  unfold attemptPackage at h
  split at h
  · next a2 hs => cases h; exact setCompiling_error _ _ _ _ hs
  · split at h
    · split at h
      · next a2 hc => cases h; exact compilePackage_error env _ _ _ hc
      · split at h
        · next a2 hs => cases h; exact setCompiling_error _ _ _ _ hs
        · cases h
    · split at h
      · next a2 hs => cases h; exact setCompiling_error _ _ _ _ hs
      · cases h

theorem scanPackages_error (env : Env) (l : List Ptr) (wk : Worker) (a : Abort)
    (h : scanPackages env l wk = Except.error a) : a = Abort.nilMutex := by
  induction l generalizing wk with
  | nil => unfold scanPackages at h; cases h
  | cons pkg rest ih =>
    unfold scanPackages at h
    split at h
    · next a2 hst => cases h; exact getPackageStatus_error env _ _ _ _ hst
    · cases h
    · split at h
      · split at h
        · next a2 ha => cases h; exact attemptPackage_error env _ _ _ _ ha
        · split at h
          · cases h
          · exact ih _ h
      · exact ih _ h

theorem checkDone_error (env : Env) (l : List Ptr) (s : State) (a : Abort)
    (h : checkDone env l s = Except.error a) : a = Abort.nilMutex := by
  induction l generalizing s with
  | nil => unfold checkDone at h; cases h
  | cons pkg rest ih =>
    unfold checkDone at h
    split at h
    · next a2 hst => cases h; exact getPackageStatus_error env _ _ _ _ hst
    · cases h
    · split at h
      · cases h
      · exact ih _ h

/-- A worker that returns has made a run of steps; a worker that runs out
of fuel has made a run of steps to a state with a nil aggregate (or had no
fuel at all), and shows the events of that state. -/
theorem workerLoop_outcome (env : Env) (fuel : Nat) (wk : Worker) :
    (∀ wk1, workerLoop env fuel wk = Except.ok wk1 → Steps env wk wk1) ∧
    (∀ evs, workerLoop env fuel wk = Except.error (Abort.outOfFuel evs) →
      ∃ wk1, Steps env wk wk1 ∧ wk1.s.events = evs ∧
        (wk1.result = [] ∨ (fuel = 0 ∧ wk1 = wk))) := by
  induction fuel generalizing wk with
  | zero =>
    refine ⟨?_, ?_⟩
    · intro wk1 h
      unfold workerLoop at h
      cases h
    · intro evs h
      unfold workerLoop at h
      cases h
      exact ⟨wk, Steps.steps_refl, rfl, Or.inr ⟨rfl, rfl⟩⟩
  | succ fuel ih =>
    have hreset : Steps env wk { wk with hasWork := false } := Steps.steps_one (Step.hasWork wk false)
    refine ⟨?_, ?_⟩
    · intro wkf h
      unfold workerLoop at h
      split at h
      · cases h
      · next wk1 hscan =>
        cases h
        exact hreset.steps_trans (scanPackages_steps env _ _ _ _ hscan)
      · next x wk1 _ hscan =>
        have hs := hreset.steps_trans (scanPackages_steps env _ _ _ _ hscan)
        split at h
        · cases h; exact hs
        · split at h
          · cases h
          · next e s2 hcd =>
            cases h
            exact hs.steps_trans (checkDone_steps env _ _ _ _ wk1.result wk1.hasWork hcd)
          · next d s2 hcd =>
            have hd := hs.steps_trans (checkDone_steps env _ _ _ _ wk1.result wk1.hasWork hcd)
            simp only [DoneCheck.errors, List.append_nil] at hd
            split at h
            · cases h; exact hd
            · split at h
              · exact (hd.steps_trans (Steps.steps_one (Step.sleep _))).steps_trans ((ih _).1 _ h)
              · exact hd.steps_trans ((ih _).1 _ h)
    · intro evs h
      unfold workerLoop at h
      split at h
      · next a hscan =>
        cases h
        cases scanPackages_error env _ _ _ hscan
      · cases h
      · next x wk1 _ hscan =>
        have hs := hreset.steps_trans (scanPackages_steps env _ _ _ _ hscan)
        split at h
        · cases h
        · next hres =>
          have hres2 : wk1.result = [] := by simpa using hres
          split at h
          · next a hcd =>
            cases h
            cases checkDone_error env _ _ _ hcd
          · cases h
          · next d s2 hcd =>
            have hd := hs.steps_trans (checkDone_steps env _ _ _ _ wk1.result wk1.hasWork hcd)
            simp only [DoneCheck.errors, List.append_nil] at hd
            split at h
            · cases h
            · split at h
              · obtain ⟨wk2, h1, h2, h3⟩ := (ih _).2 _ h
                refine ⟨wk2, (hd.steps_trans (Steps.steps_one (Step.sleep _))).steps_trans h1, h2, ?_⟩
                rcases h3 with h3 | ⟨_, h3⟩
                · exact Or.inl h3
                · left; rw [h3]; exact hres2
              · obtain ⟨wk2, h1, h2, h3⟩ := (ih _).2 _ h
                refine ⟨wk2, hd.steps_trans h1, h2, ?_⟩
                rcases h3 with h3 | ⟨_, h3⟩
                · exact Or.inl h3
                · left; rw [h3]; exact hres2

theorem workerLoop_steps (env : Env) (fuel : Nat) (wk wk1 : Worker)
    (h : workerLoop env fuel wk = Except.ok wk1) : Steps env wk wk1 :=
  (workerLoop_outcome env fuel wk).1 wk1 h

theorem runWorkers_steps (env : Env) (fuel n : Nat) (s sf : State) (result res : List String)
    (h : runWorkers env fuel n s result = Except.ok (res, sf)) :
    ∃ hw, Steps env { s := s, result := result, hasWork := false }
      { s := sf, result := res, hasWork := hw } := by
  induction n generalizing s result with
  | zero =>
    unfold runWorkers at h
    cases h
    exact ⟨false, Steps.steps_refl⟩
  | succ n ih =>
    unfold runWorkers at h
    split at h
    · cases h
    · next wk hwk =>
      obtain ⟨hw, h2⟩ := ih _ _ h
      refine ⟨hw, (workerLoop_steps env fuel _ wk hwk).steps_trans ?_⟩
      exact (Steps.steps_one (Step.hasWork wk false)).steps_trans h2

theorem runWorkers_outOfFuel (env : Env) (fuel n : Nat) (s : State) (result : List String)
    (evs : List Event)
    (h : runWorkers env fuel n s result = Except.error (Abort.outOfFuel evs)) :
    ∃ wk1, Steps env { s := s, result := result, hasWork := false } wk1 ∧ wk1.s.events = evs ∧
      (wk1.result = [] ∨
        (fuel = 0 ∧ wk1 = { s := s, result := result, hasWork := false })) := by
  induction n generalizing s result with
  | zero => unfold runWorkers at h; cases h
  | succ n ih =>
    unfold runWorkers at h
    split at h
    · next a hwk =>
      cases h
      obtain ⟨wk1, h1, h2, h3⟩ := (workerLoop_outcome env fuel _).2 _ hwk
      refine ⟨wk1, h1, h2, ?_⟩
      rcases h3 with h3 | ⟨h3, h4⟩
      · exact Or.inl h3
      · right; exact ⟨h3, h4⟩
    · next wk hwk =>
      obtain ⟨wk1, h1, h2, h3⟩ := ih _ _ h
      have hfuel : fuel ≠ 0 := by
        intro h0
        subst h0
        unfold workerLoop at hwk
        cases hwk
      refine ⟨wk1, ((workerLoop_steps env fuel _ wk hwk).steps_trans
        (Steps.steps_one (Step.hasWork wk false))).steps_trans h1, h2, ?_⟩
      rcases h3 with h3 | ⟨h3, _⟩
      · exact Or.inl h3
      · exact absurd h3 hfuel

/-- The events of a build attempt: either none of them is a container run,
or they are the Compiled probes of all dependencies, then staging calls, then
the container run, then the removal of its container; in the second case the
result is the pending error of the run merged with the removal error. -/
theorem compilePackage_trace (env : Env) (s sf : State) (pkg : Ptr) (r : GoError)
    (h : compilePackage env s pkg = Except.ok (r, sf)) :
    (∃ evs : List Event, sf.events = s.events ++ evs ∧
      ∀ ev ∈ evs, ev.isRun = false ∧ ev.inAttempt = true) ∨
    (∃ stage : List Event,
      sf.events = s.events ++ ((env.heap pkg).Dependencies.map compiledProbe ++ stage ++
        buildEvent env (stagedState env s pkg) pkg ::
          removalEvents env (buildResult env (stagedState env s pkg) pkg).2
            (buildResult env (stagedState env s pkg) pkg).1.container) ∧
      (∀ ev ∈ stage, ev.isStaging = true) ∧
      (∀ d ∈ (env.heap pkg).Dependencies,
        getPackageStatus env s.c s.w d = Except.ok (packageCompiled, none)) ∧
      r = mergeRemoval
        (primaryError (env.heap pkg).Name (buildResult env (stagedState env s pkg) pkg).1)
        (removalError env (buildResult env (stagedState env s pkg) pkg).2
          (buildResult env (stagedState env s pkg) pkg).1.container)) := by
  have hst := stagePackage_evolves env (readyState env s pkg) pkg
  obtain ⟨_, _, stage, hstage, hstage2⟩ := hst
  rcases compilePackage_cases env s sf pkg r h with ⟨_, probes, h1, h2⟩ | ⟨_, e, _, h2⟩ |
    ⟨hdeps, _, h3⟩
  · left
    refine ⟨probes, by rw [h1]; rfl, ?_⟩
    intro ev hev
    have := h2 ev hev
    cases ev <;> first | exact ⟨rfl, rfl⟩ | cases this
  · left
    rw [h2] at hstage
    refine ⟨(env.heap pkg).Dependencies.map compiledProbe ++ stage, ?_, ?_⟩
    · rw [hstage, ← List.append_assoc]; rfl
    · intro ev hev
      rcases List.mem_append.mp hev with hev | hev
      · obtain ⟨d, _, rfl⟩ := List.mem_map.mp hev
        exact ⟨rfl, rfl⟩
      · have := hstage2 ev hev
        cases ev <;> first | exact ⟨rfl, rfl⟩ | cases this
  · right
    rw [runCompilation_result] at h3
    refine ⟨stage, ?_, hstage2, hdeps, (congrArg Prod.fst h3).symm⟩
    have h4 := congrArg (fun x => x.2.events) h3
    simp only at h4
    rw [← h4]
    unfold stagedState
    rw [hstage]
    simp only [readyState, State.addEvents, List.append_assoc]
    rfl

theorem Compile_run (env : Env) (fuel : Nat) (c : Compilator) (w : World) (n : Int) :
    ∃ wk1 : Worker, Steps env (initialWorker c w) wk1 ∧
      wk1.s.events = runEvents (Compile env fuel c w n) ∧
      (Compile env fuel c w n = Except.ok (wk1.result, wk1.s) ∨ wk1.result = []) := by
  unfold Compile
  cases hX : runWorkers env fuel n.toNat { c := c, w := w, events := [] } [] with
  | ok x =>
    obtain ⟨res, sf⟩ := x
    obtain ⟨hw, h1⟩ := runWorkers_steps env fuel _ _ _ _ _ hX
    exact ⟨_, h1, rfl, Or.inl rfl⟩
  | error a =>
    cases a with
    | nilMutex => exact ⟨initialWorker c w, Steps.steps_refl, rfl, Or.inr rfl⟩
    | outOfFuel evs =>
      obtain ⟨wk1, h1, h2, h3⟩ := runWorkers_outOfFuel env fuel _ _ _ _ hX
      refine ⟨wk1, h1, h2, Or.inr ?_⟩
      rcases h3 with h3 | ⟨_, h4⟩
      · exact h3
      · rw [h4]

/-! ## A failed build is reported (C9) -/

theorem mergeRemoval_mentions (e : String) (removeErr : GoError) (sub : String)
    (h : Mentions e sub) : ∃ msg, mergeRemoval (some e) removeErr = some msg ∧ Mentions msg sub := by
  cases removeErr with
  | none => exact ⟨e, rfl, h⟩
  | some re => exact ⟨_, rfl, Mentions.mentions_trans (merged_mentions e re).1 h⟩

/-- Every step keeps this true: each build of `C` recorded as exiting with
the non-zero code `k` without a run error has an error in the aggregate whose
text contains the name of `C` and `k`. -/
theorem Step.step_reported (env : Env) (C : Ptr) (k : Int) (hk : k ≠ 0) (a b : Worker)
    (h : Step env a b)
    (ha : ∀ n i c x y res, Event.RunInContainer C n i c x y res ∈ a.s.events →
      res.err = none → res.exitCode = k →
      ∃ msg ∈ a.result, Mentions msg (env.heap C).Name ∧ Mentions msg (toString k)) :
    ∀ n i c x y res, Event.RunInContainer C n i c x y res ∈ b.s.events →
      res.err = none → res.exitCode = k →
      ∃ msg ∈ b.result, Mentions msg (env.heap C).Name ∧ Mentions msg (toString k) := by
  intro n i c x y res hev herr hcode
  cases h with
  | probe pkg st err hst =>
    simp only [State.log, List.mem_append, List.mem_singleton] at hev
    rcases hev with hev | hev
    · obtain ⟨msg, hm, h2⟩ := ha n i c x y res hev herr hcode
      exact ⟨msg, List.mem_append_left _ hm, h2⟩
    · cases hev
  | sleep =>
    simp only [State.log, List.mem_append, List.mem_singleton] at hev
    rcases hev with hev | hev
    · exact ha n i c x y res hev herr hcode
    · cases hev
  | hasWork v => exact ha n i c x y res hev herr hcode
  | attempt _ pkg hst hatt =>
    obtain ⟨_, r, sf, hc, hb⟩ := attemptPackage_spec env a b pkg hatt
    subst hb
    simp only at hev ⊢
    have hold : Event.RunInContainer C n i c x y res ∈ a.s.events →
        ∃ msg ∈ a.result ++ r.toList,
          Mentions msg (env.heap C).Name ∧ Mentions msg (toString k) := by
      intro h1
      obtain ⟨msg, hm, h2⟩ := ha n i c x y res h1 herr hcode
      exact ⟨msg, List.mem_append_left _ hm, h2⟩
    rcases compilePackage_trace env _ sf pkg r hc with ⟨evs, h1, h2⟩ | ⟨stage, h1, h2, _, h4⟩
    · rw [h1] at hev
      dsimp only at hev
      rcases List.mem_append.mp hev with hev | hev
      · rcases List.mem_append.mp hev with hev | hev
        · exact hold hev
        · cases List.mem_singleton.mp hev
      · have := (h2 _ hev).1
        cases this
    · rw [h1] at hev
      dsimp only at hev
      rcases List.mem_append.mp hev with hev | hev
      · rcases List.mem_append.mp hev with hev | hev
        · exact hold hev
        · cases List.mem_singleton.mp hev
      · rcases List.mem_append.mp hev with hev | hev
        · rcases List.mem_append.mp hev with hev | hev
          · obtain ⟨d, _, hd⟩ := List.mem_map.mp hev
            cases hd
          · have := h2 _ hev
            cases this
        · rcases List.mem_cons.mp hev with hev | hev
          · unfold buildEvent at hev
            injection hev with e1 e2 e3 e4 e5 e6 e7
            subst e1
            rw [← e7] at h4
            have hp : primaryError (env.heap C).Name res =
                some (exitCodeError (env.heap C).Name k) := by
              unfold primaryError
              rw [herr, hcode]
              simp [hk]
            rw [hp] at h4
            obtain ⟨m1, hm1, hm2⟩ := mergeRemoval_mentions _
              (removalError env
                (buildResult env
                  (stagedState env
                    { c := a.s.c.withFlag C true, w := a.s.w,
                      events := a.s.events ++ [Event.compilePackage C] } C) C).2 res.container)
              _ (exitCodeError_mentions (env.heap C).Name k).1
            obtain ⟨m2, hm3, hm4⟩ := mergeRemoval_mentions _
              (removalError env
                (buildResult env
                  (stagedState env
                    { c := a.s.c.withFlag C true, w := a.s.w,
                      events := a.s.events ++ [Event.compilePackage C] } C) C).2 res.container)
              _ (exitCodeError_mentions (env.heap C).Name k).2
            rw [hm1] at hm3
            cases hm3
            refine ⟨m1, ?_, hm2, hm4⟩
            rw [h4, hm1]
            simp
          · cases hc2 : (buildResult env (stagedState env
                { c := a.s.c.withFlag pkg true, w := a.s.w,
                  events := a.s.events ++ [Event.compilePackage pkg] } pkg) pkg).1.container with
            | none => rw [hc2] at hev; cases hev
            | some id =>
              rw [hc2] at hev
              simp only [removalEvents, List.mem_singleton] at hev
              cases hev

/-- With the goroutines one after the other (one worker, or several that do
not overlap): if, within the given fuel, a run of `Compile` comes to build
package `C` and that build exits with a non-zero code `k` (no run error),
then `Compile` returns within that fuel, and what it returns is a non-nil
aggregate holding an error whose text contains both the name of `C` and
`k`. -/
theorem failed_build_is_reported_in_sequence (env : Env) (fuel : Nat) (c : Compilator) (w : World)
    (workerCount : Int) (C : Ptr) (k : Int) (name image : String) (cmd : List String)
    (inPath outPath : String) (res : RunResult)
    (hk : k ≠ 0)
    (hev : Event.RunInContainer C name image cmd inPath outPath res ∈
      runEvents (Compile env fuel c w workerCount))
    (herr : res.err = none) (hcode : res.exitCode = k) :
    ∃ (result : List String) (sf : State),
      Compile env fuel c w workerCount = Except.ok (result, sf) ∧ result ≠ [] ∧
      ∃ msg ∈ result, Mentions msg (env.heap C).Name ∧ Mentions msg (toString k) := by
  obtain ⟨wk1, hsteps, hevs, hres⟩ := Compile_run env fuel c w workerCount
  have hinv := Steps.steps_inv
    (fun wk : Worker =>
      ∀ n i c x y res, Event.RunInContainer C n i c x y res ∈ wk.s.events →
        res.err = none → res.exitCode = k →
        ∃ msg ∈ wk.result, Mentions msg (env.heap C).Name ∧ Mentions msg (toString k))
    (fun a b hab ha => Step.step_reported env C k hk a b hab ha) hsteps
    (by intro n i c x y res h; cases h)
  rw [← hevs] at hev
  obtain ⟨msg, hm, h2⟩ := hinv name image cmd inPath outPath res hev herr hcode
  have hne : wk1.result ≠ [] := by
    intro h0
    rw [h0] at hm
    cases hm
  rcases hres with hres | hres
  · exact ⟨wk1.result, wk1.s, hres, hne, msg, hm, h2⟩
  · exact absurd hres hne

/-- C9: two workers on the release `[C, A]`, neither package with a
dependency, on an empty host work root; the build of `C` exits with code 3
and the build of `A` with code 4.  Worker 0 takes `C` and worker 1 takes `A`.
Both builds fail, and each worker reads `result`, still nil, for its
`multierror.Append` before the other has assigned (line 132).  Worker 0
assigns the aggregate holding the error of `C`, then worker 1 assigns the one
holding the error of `A` alone.  Both workers leave their loops and `Compile`
returns the aggregate of the last assignment: the build of `C` exited with
code 3, and no error of what is returned contains the name of `C` or the
code 3. -/
theorem C9_failed_build_missing_from_the_error :
    ∃ p : RacePool,
      RacePool.run (exampleEnv failingExit none) [0, 0, 1, 1, 1, 0, 1, 0, 1]
        (RacePool.start pairCompilator emptyWorld 2) = some p ∧
      p.finished = true ∧
      Event.RunInContainer 3 "repo-rel-7-pkg-C" "repo:rel-7-cbase"
        ["bash", "/fissile-in/compile.sh", "C", "1"] "/w/C/sources" "/w/C/compiled"
        { exitCode := 3, container := some "id-repo-rel-7-pkg-C", err := none } ∈ p.s.events ∧
      p.result = ["Error - compilation for package A exited with code 4"] ∧
      ((exampleEnv failingExit none).heap 3).Name = "C" ∧
      ∀ msg ∈ p.result, ¬ Mentions msg "C" ∧ ¬ Mentions msg (toString (3 : Int)) :=
  ⟨_, rfl, rfl, by decide, rfl, rfl, by
    intro msg hmsg
    have h2 : msg ∈ ["Error - compilation for package A exited with code 4"] := hmsg
    rw [List.mem_singleton] at h2
    subst h2
    unfold Mentions
    exact ⟨by decide, by decide⟩⟩


/-! ## Resuming (C7) -/

theorem site_withFlag (c : Compilator) (p : Ptr) (v : Bool) : (c.withFlag p v).site = c.site :=
  rfl

theorem getPackageCompiledDir_site (env : Env) (c c2 : Compilator) (q : Ptr)
    (h : c2.site = c.site) : getPackageCompiledDir env c2 q = getPackageCompiledDir env c q := by
  unfold getPackageCompiledDir
  have h2 : c2.HostWorkDir = c.HostWorkDir := congrArg (fun x => x.2.1) h
  rw [h2]

/-- A step of a run leaves the site of the compilator as it is. -/
theorem Step.step_site {env : Env} (a b : Worker) (h : Step env a b) :
    b.s.c.site = a.s.c.site := by
  cases h with
  | probe pkg st err hst => rfl
  | attempt _ pkg hst hatt =>
    obtain ⟨_, r, sf, _, hb⟩ := attemptPackage_spec env a b pkg hatt
    subst hb
    rfl
  | sleep => rfl
  | hasWork b => rfl

theorem reach_keeps (env : Env) (c : Compilator) (pkg : Ptr) (P : World → Prop)
    (hkeep : ∀ w1 w2, ExtStep env c pkg w1 w2 → P w1 → P w2) {w w2 : World}
    (h : Reach env c pkg w w2) (hw : P w) : P w2 := by
  induction h with
  | refl => exact hw
  | tail _ hbc ih => exact hkeep _ _ hbc ih

/-- A call that leaves the answers of `Stat` and `Open` at `path` as they
were keeps the directory populated and its probe sound. -/
theorem untouched_frame (w w2 : World) (path : String) (hs : w2.Stat path = w.Stat path)
    (ho : w2.Open path = w.Open path) :
    (Populated w path → Populated w2 path) ∧ (ProbeSound w path → ProbeSound w2 path) := by
  unfold ProbeSound Populated AbsentOrEmpty
  rw [hs, ho]
  exact ⟨fun h => h, fun h => h⟩

/-- Filling a directory keeps every populated directory populated and every
sound probe sound. -/
theorem populate_frame (w : World) (o path : String) :
    (Populated w path → Populated (populate w o) path) ∧
    (ProbeSound w path → ProbeSound (populate w o) path) := by
  by_cases ho : path = o
  · subst ho
    have hp : Populated (populate w path) path := by simp [Populated, populate]
    exact ⟨fun _ => hp, fun _ => Or.inl hp⟩
  · exact untouched_frame w _ path (by simp only [populate, ho, if_false])
      (by simp only [populate, ho, if_false])

theorem exampleHeap_name (p : Ptr) : (exampleHeap p).Name ∈ ["A", "B", "C", "D"] := by
  unfold exampleHeap
  split <;> simp

/-- Under the work root `/w`, the output directory of a package of the
example model is none of the paths that staging writes for a package of the
model, and does not lie under the copy of a dependency. -/
theorem output_apart_from_staging :
    ∀ n ∈ ["A", "B", "C", "D"], ∀ m ∈ ["A", "B", "C", "D"],
      "/".intercalate ["/w", n, "compiled"] ≠
        "/".intercalate ["/".intercalate ["/w", m, "sources"], "var", "vcap", "packages"] ∧
      "/".intercalate ["/w", n, "compiled"] ≠
        "/".intercalate ["/".intercalate ["/w", m, "sources"], "var", "vcap", "source"] ∧
      "/".intercalate ["/w", n, "compiled"] ≠
        "/".intercalate ["/".intercalate ["/w", m, "sources"], "compile.sh"] ∧
      ∀ d ∈ ["A", "B", "C", "D"],
        "/".intercalate ["/w", n, "compiled"] ≠
          "/".intercalate
            ["/".intercalate ["/".intercalate ["/w", m, "sources"], "var", "vcap", "packages"],
              d] ∧
        underPath
          ("/".intercalate
            ["/".intercalate ["/".intercalate ["/w", m, "sources"], "var", "vcap", "packages"],
              d])
          ("/".intercalate ["/w", n, "compiled"]) = false := by
  decide

theorem makeDir_other (w : World) (t path : String) (h : path ≠ t) :
    (makeDir w t).Stat path = w.Stat path ∧ (makeDir w t).Open path = w.Open path := by
  unfold makeDir
  split
  · simp only [h, if_false, and_self]
  · exact ⟨rfl, rfl⟩

theorem removeTree_other (w : World) (t path : String) (h : underPath t path = false) :
    (removeTree w t).Stat path = w.Stat path ∧ (removeTree w t).Open path = w.Open path := by
  unfold removeTree
  simp only [h, Bool.false_eq_true, if_false, and_self]

theorem copyTree_other (w : World) (src t path : String) (h : path ≠ t) :
    (copyTree w src t).Stat path = w.Stat path ∧
    (copyTree w src t).Open path = w.Open path := by
  unfold copyTree
  simp only [h, if_false, and_self]

theorem putFile_other (w : World) (t path : String) (h : path ≠ t) :
    (putFile w t).Stat path = w.Stat path ∧ (putFile w t).Open path = w.Open path := by
  unfold putFile
  simp only [h, if_false, and_self]

/-- On the disk host under the work root `/w`, no call that `compilePackage`
makes disturbs the output directory of a package of the example model. -/
theorem diskEnv_undisturbed (exitOf : String → Int) (c : Compilator)
    (hc : c.HostWorkDir = "/w") (n : String) (hn : n ∈ ["A", "B", "C", "D"]) :
    Undisturbed (diskEnv exitOf) c ("/".intercalate ["/w", n, "compiled"]) := by
  intro pkg w1 w2 h
  have hm := exampleHeap_name pkg
  obtain ⟨h1, h2, h3, h4⟩ := output_apart_from_staging n hn _ hm
  have hdeps : getDependenciesPackageDir (diskEnv exitOf) c pkg =
      "/".intercalate ["/".intercalate ["/w", (exampleHeap pkg).Name, "sources"], "var", "vcap",
        "packages"] := by
    unfold getDependenciesPackageDir getTargetPackageSourcesDir
    rw [hc]
    rfl
  have hsrc : getSourcePackageDir (diskEnv exitOf) c pkg =
      "/".intercalate ["/".intercalate ["/w", (exampleHeap pkg).Name, "sources"], "var", "vcap",
        "source"] := by
    unfold getSourcePackageDir getTargetPackageSourcesDir
    rw [hc]
    rfl
  have hscr : (diskEnv exitOf).Join [getTargetPackageSourcesDir (diskEnv exitOf) c pkg,
      "compile.sh"] =
      "/".intercalate ["/".intercalate ["/w", (exampleHeap pkg).Name, "sources"],
        "compile.sh"] := by
    unfold getTargetPackageSourcesDir
    rw [hc]
    rfl
  have hrun : ∀ w,
      (Populated w ("/".intercalate ["/w", n, "compiled"]) →
        Populated (containerRun (diskEnv exitOf) c pkg w).2
          ("/".intercalate ["/w", n, "compiled"])) ∧
      (ProbeSound w ("/".intercalate ["/w", n, "compiled"]) →
        ProbeSound (containerRun (diskEnv exitOf) c pkg w).2
          ("/".intercalate ["/w", n, "compiled"])) := by
    intro w
    simp only [containerRun, diskEnv]
    split
    · exact populate_frame w _ _
    · exact ⟨fun h => h, fun h => h⟩
  cases h with
  | MkdirAllDependencies =>
    rw [hdeps]
    exact untouched_frame w1 _ _ (makeDir_other w1 _ _ h1).1 (makeDir_other w1 _ _ h1).2
  | MkdirAllSource =>
    rw [hsrc]
    exact untouched_frame w1 _ _ (makeDir_other w1 _ _ h2).1 (makeDir_other w1 _ _ h2).2
  | RemoveAll _ dep hdep =>
    rw [hdeps]
    have hd := (h4 _ (exampleHeap_name dep)).2
    exact untouched_frame w1 _ _ (removeTree_other w1 _ _ hd).1 (removeTree_other w1 _ _ hd).2
  | CopyTree _ dep hdep =>
    rw [hdeps]
    have hd := (h4 _ (exampleHeap_name dep)).1
    exact untouched_frame w1 _ _ (copyTree_other w1 _ _ _ hd).1 (copyTree_other w1 _ _ _ hd).2
  | SaveScript =>
    rw [hscr]
    exact untouched_frame w1 _ _ (putFile_other w1 _ _ h3).1 (putFile_other w1 _ _ h3).2
  | Extract =>
    exact populate_frame w1 _ _
  | RunInContainer => exact hrun w1
  | RemoveContainer w id hid => exact ⟨fun h => h, fun h => h⟩

/-- On the disk host every call succeeds when every build script exits with
code 0. -/
theorem diskEnv_allSucceed (c : Compilator) : AllSucceed (diskEnv (fun _ => 0)) c := by
  refine ⟨fun _ _ => rfl, fun _ _ => rfl, fun _ _ _ _ => rfl, fun _ _ _ _ => rfl,
    fun _ _ => rfl, fun _ _ => rfl, ?_, fun _ _ _ _ => rfl⟩
  intro w pkg
  refine ⟨rfl, rfl, ?_⟩
  simp [containerRun, diskEnv, Populated, populate]

/-- A package whose output directory is populated is never probed None. -/
theorem getPackageStatus_populated_ne_none (env : Env) (c : Compilator) (w : World) (pkg : Ptr)
    (h : Populated w (getPackageCompiledDir env c pkg)) :
    getPackageStatus env c w pkg ≠ Except.ok (packageNone, none) := by
  intro hst
  unfold getPackageStatus at hst
  split at hst
  · cases hst
  · split at hst
    · cases hst
    · simp only at hst
      unfold getPackageCompiledDir Populated at h
      unfold validatePath isDirEmpty at hst
      rw [h.1, h.2] at hst
      simp at hst
      cases hst

/-- Every step keeps this true: the output directory `dir` of `P` is
populated, and no event is an entry into `compilePackage(P)` or a container
run for `P`. -/
theorem Step.step_skips (env : Env) (c : Compilator) (P : Ptr)
    (hkeep : ∀ Q, Q ≠ P → ∀ w1 w2, ExtStep env c Q w1 w2 →
      Populated w1 (getPackageCompiledDir env c P) →
      Populated w2 (getPackageCompiledDir env c P))
    (a b : Worker) (h : Step env a b)
    (ha : a.s.c.site = c.site ∧
      Populated a.s.w (getPackageCompiledDir env c P) ∧
      ∀ ev ∈ a.s.events, ev ≠ Event.compilePackage P ∧
        ∀ n i cmd x y r, ev ≠ Event.RunInContainer P n i cmd x y r) :
    b.s.c.site = c.site ∧
      Populated b.s.w (getPackageCompiledDir env c P) ∧
      ∀ ev ∈ b.s.events, ev ≠ Event.compilePackage P ∧
        ∀ n i cmd x y r, ev ≠ Event.RunInContainer P n i cmd x y r := by
  obtain ⟨hdir, hpop, hevs⟩ := ha
  cases h with
  | probe pkg st err hst =>
    refine ⟨hdir, hpop, ?_⟩
    intro ev hev
    rcases List.mem_append.mp hev with hev | hev
    · exact hevs ev hev
    · cases List.mem_singleton.mp hev
      exact ⟨(by intro h; cases h), (by intro n i cmd x y r h; cases h)⟩
  | sleep =>
    refine ⟨hdir, hpop, ?_⟩
    intro ev hev
    rcases List.mem_append.mp hev with hev | hev
    · exact hevs ev hev
    · cases List.mem_singleton.mp hev
      exact ⟨(by intro h; cases h), (by intro n i cmd x y r h; cases h)⟩
  | hasWork v => exact ⟨hdir, hpop, hevs⟩
  | attempt _ pkg hst hatt =>
    have hne : pkg ≠ P := by
      intro hp
      subst hp
      refine getPackageStatus_populated_ne_none env a.s.c a.s.w pkg ?_ hst
      rw [getPackageCompiledDir_site env c a.s.c pkg hdir]
      exact hpop
    obtain ⟨_, r, sf, hc, hb⟩ := attemptPackage_spec env a b pkg hatt
    subst hb
    obtain ⟨_, hreach, _⟩ := compilePackage_evolves env _ sf pkg r hc
    have hreach2 : Reach env c pkg a.s.w sf.w :=
      @Reach.reach_site env c (a.s.c.withFlag pkg true) pkg _ _ hdir hreach
    refine ⟨hdir, reach_keeps env c pkg _ (hkeep pkg hne) hreach2 hpop, ?_⟩
    intro ev hev
    dsimp only at hev
    rcases compilePackage_trace env _ sf pkg r hc with ⟨evs, h1, h2⟩ | ⟨stage, h1, h2, _, _⟩
    · rw [h1] at hev
      dsimp only at hev
      rcases List.mem_append.mp hev with hev | hev
      · rcases List.mem_append.mp hev with hev | hev
        · exact hevs ev hev
        · cases List.mem_singleton.mp hev
          exact ⟨(by intro h; exact hne (by injection h)), (by intro n i cmd x y r h; cases h)⟩
      · obtain ⟨h3, h4⟩ := h2 _ hev
        refine ⟨?_, ?_⟩
        · intro h; rw [h] at h4; cases h4
        · intro n i cmd x y r h; rw [h] at h3; cases h3
    · rw [h1] at hev
      dsimp only at hev
      rcases List.mem_append.mp hev with hev | hev
      · rcases List.mem_append.mp hev with hev | hev
        · exact hevs ev hev
        · cases List.mem_singleton.mp hev
          exact ⟨(by intro h; exact hne (by injection h)), (by intro n i cmd x y r h; cases h)⟩
      · rcases List.mem_append.mp hev with hev | hev
        · rcases List.mem_append.mp hev with hev | hev
          · obtain ⟨d, _, hd⟩ := List.mem_map.mp hev
            subst hd
            exact ⟨(by intro h; cases h), (by intro n i cmd x y r h; cases h)⟩
          · have h3 := h2 _ hev
            refine ⟨?_, ?_⟩
            · intro h; rw [h] at h3; cases h3
            · intro n i cmd x y r h; rw [h] at h3; cases h3
        · rcases List.mem_cons.mp hev with hev | hev
          · subst hev
            refine ⟨(by intro h; cases h), ?_⟩
            intro n i cmd x y r h
            unfold buildEvent at h
            injection h with e1
            exact hne e1
          · cases hc2 : (buildResult env (stagedState env
                { c := a.s.c.withFlag pkg true, w := a.s.w,
                  events := a.s.events ++ [Event.compilePackage pkg] } pkg) pkg).1.container with
            | none => rw [hc2] at hev; cases hev
            | some id =>
              rw [hc2] at hev
              simp only [removalEvents, List.mem_singleton] at hev
              subst hev
              exact ⟨(by intro h; cases h), (by intro n i cmd x y r h; cases h)⟩


/-- A call of `compilePackage` for a package other than `P` keeps this true:
the output directory of `P` is populated, and no event is an entry into
`compilePackage(P)` or a container run for `P`. -/
theorem compilePackage_skips (env : Env) (c : Compilator) (P : Ptr)
    (hkeep : ∀ Q, Q ≠ P → ∀ w1 w2, ExtStep env c Q w1 w2 →
      Populated w1 (getPackageCompiledDir env c P) →
      Populated w2 (getPackageCompiledDir env c P))
    (s sf : State) (pkg : Ptr) (r : GoError) (hne : pkg ≠ P)
    (hc : compilePackage env s pkg = Except.ok (r, sf))
    (ha : s.c.site = c.site ∧
      Populated s.w (getPackageCompiledDir env c P) ∧
      ∀ ev ∈ s.events, ev ≠ Event.compilePackage P ∧
        ∀ n i cmd x y r, ev ≠ Event.RunInContainer P n i cmd x y r) :
    sf.c = s.c ∧
      Populated sf.w (getPackageCompiledDir env c P) ∧
      ∀ ev ∈ sf.events, ev ≠ Event.compilePackage P ∧
        ∀ n i cmd x y r, ev ≠ Event.RunInContainer P n i cmd x y r := by
  obtain ⟨hdir, hpop, hevs⟩ := ha
  obtain ⟨hcc, hreach, _⟩ := compilePackage_evolves env s sf pkg r hc
  have hreach2 : Reach env c pkg s.w sf.w := Reach.reach_site hdir hreach
  refine ⟨hcc, reach_keeps env c pkg _ (hkeep pkg hne) hreach2 hpop, ?_⟩
  intro ev hev
  rcases compilePackage_trace env s sf pkg r hc with ⟨evs, h1, h2⟩ | ⟨stage, h1, h2, _, _⟩
  · rw [h1] at hev
    rcases List.mem_append.mp hev with hev | hev
    · exact hevs ev hev
    · obtain ⟨h3, h4⟩ := h2 _ hev
      refine ⟨?_, ?_⟩
      · intro h; rw [h] at h4; cases h4
      · intro n i cmd x y r h; rw [h] at h3; cases h3
  · rw [h1] at hev
    rcases List.mem_append.mp hev with hev | hev
    · exact hevs ev hev
    · rcases List.mem_append.mp hev with hev | hev
      · rcases List.mem_append.mp hev with hev | hev
        · obtain ⟨d, _, hd⟩ := List.mem_map.mp hev
          subst hd
          exact ⟨(by intro h; cases h), (by intro n i cmd x y r h; cases h)⟩
        · have h3 := h2 _ hev
          refine ⟨?_, ?_⟩
          · intro h; rw [h] at h3; cases h3
          · intro n i cmd x y r h; rw [h] at h3; cases h3
      · rcases List.mem_cons.mp hev with hev | hev
        · subst hev
          refine ⟨(by intro h; cases h), ?_⟩
          intro n i cmd x y r h
          unfold buildEvent at h
          injection h with e1
          exact hne e1
        · cases hc2 : (buildResult env (stagedState env s pkg) pkg).1.container with
          | none => rw [hc2] at hev; cases hev
          | some id =>
            rw [hc2] at hev
            simp only [removalEvents, List.mem_singleton] at hev
            subst hev
            exact ⟨(by intro h; cases h), (by intro n i cmd x y r h; cases h)⟩

theorem setCompiling_site (c c1 : Compilator) (pkg : Ptr) (v : Bool)
    (h : setCompiling c pkg v = Except.ok c1) : c1.site = c.site := by
  unfold setCompiling at h
  split at h
  · cases h
  · cases h
    rfl

/-- A step of a goroutine keeps this true, whatever the other goroutines have
done meanwhile: the output directory of `P` is populated, no event is an
entry into `compilePackage(P)` or a container run for `P`, and the goroutine
has not taken `P`. -/
theorem Goroutine.goroutine_skips (env : Env) (c : Compilator) (P : Ptr)
    (hkeep : ∀ Q, Q ≠ P → ∀ w1 w2, ExtStep env c Q w1 w2 →
      Populated w1 (getPackageCompiledDir env c P) →
      Populated w2 (getPackageCompiledDir env c P))
    (s s1 : State) (result result1 : List String) (g g1 : Goroutine)
    (h : g.step env s result = some (s1, result1, g1))
    (hg : ∀ rest, g.pos ≠ Position.claiming P rest ∧ g.pos ≠ Position.attempting P rest)
    (ha : s.c.site = c.site ∧
      Populated s.w (getPackageCompiledDir env c P) ∧
      ∀ ev ∈ s.events, ev ≠ Event.compilePackage P ∧
        ∀ n i cmd x y r, ev ≠ Event.RunInContainer P n i cmd x y r) :
    (∀ rest, g1.pos ≠ Position.claiming P rest ∧ g1.pos ≠ Position.attempting P rest) ∧
    s1.c.site = c.site ∧
      Populated s1.w (getPackageCompiledDir env c P) ∧
      ∀ ev ∈ s1.events, ev ≠ Event.compilePackage P ∧
        ∀ n i cmd x y r, ev ≠ Event.RunInContainer P n i cmd x y r := by
  obtain ⟨hdir, hpop, hevs⟩ := ha
  have hlog : ∀ (pkg : Ptr) (st : Nat) (err : GoError),
      ∀ ev ∈ (s.log (Event.getPackageStatus pkg st err)).events,
        ev ≠ Event.compilePackage P ∧
        ∀ n i cmd x y r, ev ≠ Event.RunInContainer P n i cmd x y r := by
    intro pkg st err ev hev
    rcases List.mem_append.mp hev with hev | hev
    · exact hevs ev hev
    · cases List.mem_singleton.mp hev
      exact ⟨(by intro h; cases h), (by intro n i cmd x y r h; cases h)⟩
  unfold Goroutine.step at h
  split at h
  · -- the scan is over
    cases h
    exact ⟨fun rest => ⟨by simp, by simp⟩, hdir, hpop, hevs⟩
  · next pkg rest hpos =>
    -- a probe
    split at h
    · cases h
    · cases h
      exact ⟨fun rest => ⟨by simp, by simp⟩, hdir, hpop, hlog _ _ _⟩
    · next pkgState hst =>
      cases h
      refine ⟨?_, hdir, hpop, hlog _ _ _⟩
      intro rest2
      by_cases hnone : pkgState = packageNone
      · subst hnone
        have hne : pkg ≠ P := by
          intro hp
          subst hp
          refine getPackageStatus_populated_ne_none env s.c s.w pkg ?_ hst
          rw [getPackageCompiledDir_site env c s.c pkg hdir]
          exact hpop
        simp only [if_true]
        exact ⟨by intro h; injection h with h1 _; exact hne h1, by simp⟩
      · simp only [hnone, if_false]
        exact ⟨by simp, by simp⟩
  · next pkg rest hpos =>
    -- the flag is set
    have hne : pkg ≠ P := by
      intro hp
      subst hp
      exact (hg rest).1 hpos
    split at h
    · cases h
    · next c1 hc1 =>
      cases h
      refine ⟨?_, (setCompiling_site _ _ _ _ hc1).trans hdir, hpop, hevs⟩
      intro rest2
      exact ⟨by simp, by intro h; injection h with h1 _; exact hne h1⟩
  · next pkg rest hpos =>
    -- the call of `compilePackage`
    have hne : pkg ≠ P := by
      intro hp
      subst hp
      exact (hg rest).2 hpos
    split at h
    · cases h
    · next workerErr s2 hcp =>
      split at h
      · cases h
      · next c3 hc3 =>
        cases h
        obtain ⟨hcc, hpop2, hevs2⟩ := compilePackage_skips env c P hkeep _ s2 pkg workerErr hne
          hcp ⟨hdir, hpop, by
            intro ev hev
            rcases List.mem_append.mp hev with hev | hev
            · exact hevs ev hev
            · cases List.mem_singleton.mp hev
              exact ⟨(by intro h; exact hne (by injection h)),
                (by intro n i cmd x y r h; cases h)⟩⟩
        refine ⟨?_, ?_, hpop2, hevs2⟩
        · intro rest2
          dsimp only
          split <;> exact ⟨by simp, by simp⟩
        · have h1 := setCompiling_site _ _ _ _ hc3
          rw [hcc] at h1
          exact h1.trans hdir
  · cases h

theorem mem_of_mem_set {α : Type} (l : List α) (i : Nat) (a x : α) (h : x ∈ l.set i a) :
    x = a ∨ x ∈ l := by
  induction l generalizing i with
  | nil => cases h
  | cons y rest ih =>
    cases i with
    | zero =>
      rcases List.mem_cons.mp h with h | h
      · exact Or.inl h
      · exact Or.inr (List.mem_cons_of_mem _ h)
    | succ j =>
      rcases List.mem_cons.mp h with h | h
      · exact Or.inr (by rw [h]; exact List.mem_cons_self _ _)
      · rcases ih j h with h2 | h2
        · exact Or.inl h2
        · exact Or.inr (List.mem_cons_of_mem _ h2)

theorem mem_of_get? {α : Type} (l : List α) (i : Nat) (x : α) (h : l.get? i = some x) :
    x ∈ l := by
  induction l generalizing i with
  | nil => cases h
  | cons y rest ih =>
    cases i with
    | zero =>
      cases h
      exact List.mem_cons_self _ _
    | succ j => exact List.mem_cons_of_mem _ (ih j h)

/-- In every interleaving of the goroutines, a package whose output directory
is populated at the start is never taken by any of them. -/
theorem Pool.run_skips (env : Env) (c : Compilator) (P : Ptr)
    (hkeep : ∀ Q, Q ≠ P → ∀ w1 w2, ExtStep env c Q w1 w2 →
      Populated w1 (getPackageCompiledDir env c P) →
      Populated w2 (getPackageCompiledDir env c P))
    (schedule : List Nat) (p q : Pool) (h : Pool.run env schedule p = some q)
    (hg : ∀ g ∈ p.workers, ∀ rest,
      g.pos ≠ Position.claiming P rest ∧ g.pos ≠ Position.attempting P rest)
    (ha : p.s.c.site = c.site ∧
      Populated p.s.w (getPackageCompiledDir env c P) ∧
      ∀ ev ∈ p.s.events, ev ≠ Event.compilePackage P ∧
        ∀ n i cmd x y r, ev ≠ Event.RunInContainer P n i cmd x y r) :
    ∀ ev ∈ q.s.events, ev ≠ Event.compilePackage P ∧
      ∀ n i cmd x y r, ev ≠ Event.RunInContainer P n i cmd x y r := by
  induction schedule generalizing p with
  | nil =>
    unfold Pool.run at h
    cases h
    exact ha.2.2
  | cons i rest ih =>
    unfold Pool.run at h
    split at h
    · cases h
    · next p1 hp1 =>
      unfold Pool.step at hp1
      split at hp1
      · cases hp1
      · next g hget =>
        split at hp1
        · cases hp1
        · next s1 result1 g1 hstep =>
          cases hp1
          obtain ⟨hg1, ha1⟩ := Goroutine.goroutine_skips env c P hkeep _ _ _ _ _ _ hstep
            (hg g (mem_of_get? _ _ _ hget)) ha
          refine ih _ h ?_ ha1
          intro g2 hg2
          rcases mem_of_mem_set _ _ _ _ hg2 with h2 | h2
          · rw [h2]; exact hg1
          · exact hg g2 h2


theorem scanPackages_all_compiled (env : Env) (l : List Ptr) (wk : Worker)
    (h : ∀ p ∈ l, getPackageStatus env wk.s.c wk.s.w p = Except.ok (packageCompiled, none)) :
    scanPackages env l wk =
      Except.ok (LoopExit.completed, { wk with s := wk.s.addEvents (l.map compiledProbe) }) := by
  induction l generalizing wk with
  | nil =>
    unfold scanPackages
    rw [List.map_nil, addEvents_nil]
  | cons pkg rest ih =>
    unfold scanPackages
    rw [h pkg (List.mem_cons_self _ _)]
    have hne : ¬ packageCompiled = packageNone := by decide
    simp only [hne, if_false]
    rw [ih { wk with s := wk.s.log (Event.getPackageStatus pkg packageCompiled none) }
      (fun p hp => h p (List.mem_cons_of_mem _ hp))]
    simp only [log_eq_addEvents, addEvents_addEvents]
    rfl

theorem checkDone_all_compiled (env : Env) (l : List Ptr) (s : State)
    (h : ∀ p ∈ l, getPackageStatus env s.c s.w p = Except.ok (packageCompiled, none)) :
    checkDone env l s = Except.ok (DoneCheck.done true, s.addEvents (l.map compiledProbe)) := by
  induction l generalizing s with
  | nil =>
    unfold checkDone
    rw [List.map_nil, addEvents_nil]
  | cons pkg rest ih =>
    unfold checkDone
    rw [h pkg (List.mem_cons_self _ _)]
    simp only [ne_eq, not_true_eq_false, if_false]
    rw [ih (s.log (Event.getPackageStatus pkg packageCompiled none))
      (fun p hp => h p (List.mem_cons_of_mem _ hp))]
    simp only [log_eq_addEvents, addEvents_addEvents]
    rfl

/-- A worker that finds every package Compiled and the aggregate nil only
probes, twice over the release, and leaves its loop. -/
theorem workerLoop_all_compiled (env : Env) (fuel : Nat) (wk : Worker)
    (hres : wk.result = [])
    (h : ∀ p ∈ wk.s.c.Release.Packages,
      getPackageStatus env wk.s.c wk.s.w p = Except.ok (packageCompiled, none)) :
    workerLoop env (fuel + 1) wk =
      Except.ok { s := wk.s.addEvents (wk.s.c.Release.Packages.map compiledProbe ++
                    wk.s.c.Release.Packages.map compiledProbe),
                  result := [], hasWork := false } := by
  unfold workerLoop
  rw [scanPackages_all_compiled env _ { wk with hasWork := false } h]
  simp only [hres, ne_eq, not_true_eq_false, if_false]
  have h2 := checkDone_all_compiled env wk.s.c.Release.Packages
    (wk.s.addEvents (wk.s.c.Release.Packages.map compiledProbe)) h
  have h3 : (wk.s.addEvents (wk.s.c.Release.Packages.map compiledProbe)).c = wk.s.c := rfl
  rw [h3, h2]
  simp only [if_true, addEvents_addEvents]

theorem runWorkers_all_compiled (env : Env) (fuel n : Nat) (s : State)
    (h : ∀ p ∈ s.c.Release.Packages,
      getPackageStatus env s.c s.w p = Except.ok (packageCompiled, none)) :
    ∃ evs : List Event, runWorkers env (fuel + 1) n s [] = Except.ok ([], s.addEvents evs) ∧
      ∀ ev ∈ evs, ev.isProbe = true := by
  induction n generalizing s with
  | zero =>
    refine ⟨[], ?_, by simp⟩
    unfold runWorkers
    rw [addEvents_nil]
  | succ n ih =>
    unfold runWorkers
    rw [workerLoop_all_compiled env fuel { s := s, result := [], hasWork := false } rfl h]
    simp only
    obtain ⟨evs, h1, h2⟩ := ih (s.addEvents (s.c.Release.Packages.map compiledProbe ++
      s.c.Release.Packages.map compiledProbe)) h
    refine ⟨(s.c.Release.Packages.map compiledProbe ++
      s.c.Release.Packages.map compiledProbe) ++ evs, ?_, ?_⟩
    · rw [h1, addEvents_addEvents]
    · intro ev hev
      rcases List.mem_append.mp hev with hev | hev
      · rcases List.mem_append.mp hev with hev | hev <;>
        · obtain ⟨d, _, hd⟩ := List.mem_map.mp hev
          subst hd
          rfl
      · exact h2 ev hev

/-- C7: a package `P` whose output directory is populated when `Compile` is
called is skipped: no run of `Compile` enters `compilePackage` for it or runs
a container for it, and neither does any interleaving of the worker
goroutines (every schedule of the critical sections of their scans).  The
host is assumed to keep the packages apart: the calls that `compilePackage`
makes for another package `Q` (its staging under `<Q>/sources`, its container
bound to `<Q>/sources` and `<Q>/compiled`, the removal of that container) do
not empty the output directory of `P`.  When every package of the release is
probed Compiled, `Compile` returns nil, leaves the host as it is and does
nothing but probe: no container is invoked. -/
theorem C7_compiled_is_resumable (env : Env) (c : Compilator) (w : World) :
    (∀ P : Ptr, Populated w (getPackageCompiledDir env c P) →
      (∀ Q : Ptr, Q ≠ P → ∀ w1 w2, ExtStep env c Q w1 w2 →
        Populated w1 (getPackageCompiledDir env c P) →
        Populated w2 (getPackageCompiledDir env c P)) →
      (∀ (fuel : Nat) (workerCount : Int),
        ∀ ev ∈ runEvents (Compile env fuel c w workerCount),
          ev ≠ Event.compilePackage P ∧
          ∀ n i cmd x y r, ev ≠ Event.RunInContainer P n i cmd x y r) ∧
      (∀ (schedule : List Nat) (workerCount : Nat) (p : Pool),
        Pool.run env schedule (Pool.start c w workerCount) = some p →
        ∀ ev ∈ p.s.events,
          ev ≠ Event.compilePackage P ∧
          ∀ n i cmd x y r, ev ≠ Event.RunInContainer P n i cmd x y r)) ∧
    ((∀ p ∈ c.Release.Packages,
        getPackageStatus env c w p = Except.ok (packageCompiled, none)) →
      ∀ (fuel : Nat) (workerCount : Int), 1 ≤ fuel →
        ∃ sf : State, Compile env fuel c w workerCount = Except.ok ([], sf) ∧ sf.w = w ∧
          ∀ ev ∈ sf.events, ev.isProbe = true) := by
  refine ⟨?_, ?_⟩
  · intro P hpop hkeep
    refine ⟨?_, ?_⟩
    swap
    · intro schedule workerCount p hrun
      refine Pool.run_skips env c P hkeep schedule _ p hrun ?_
        ⟨rfl, hpop, by intro ev hev; cases hev⟩
      intro g hg rest
      have hg2 := List.eq_of_mem_replicate hg
      rw [hg2]
      exact ⟨by simp, by simp⟩
    intro fuel workerCount
    obtain ⟨wk1, hsteps, hevs, _⟩ := Compile_run env fuel c w workerCount
    have hinv := Steps.steps_inv
      (fun wk : Worker =>
        wk.s.c.site = c.site ∧
        Populated wk.s.w (getPackageCompiledDir env c P) ∧
        ∀ ev ∈ wk.s.events, ev ≠ Event.compilePackage P ∧
          ∀ n i cmd x y r, ev ≠ Event.RunInContainer P n i cmd x y r)
      (fun a b hab ha => Step.step_skips env c P hkeep a b hab ha) hsteps
      ⟨rfl, hpop, by intro ev hev; cases hev⟩
    rw [← hevs]
    exact hinv.2.2
  · intro hall fuel workerCount hfuel
    obtain ⟨f, rfl⟩ : ∃ f, fuel = f + 1 := ⟨fuel - 1, by omega⟩
    obtain ⟨evs, h1, h2⟩ := runWorkers_all_compiled env f workerCount.toNat
      { c := c, w := w, events := [] } hall
    refine ⟨_, h1, rfl, ?_⟩
    intro ev hev
    exact h2 ev (by simpa [State.addEvents] using hev)

theorem C7_witness :
    ((∀ (fuel : Nat) (workerCount : Int),
      ∀ ev ∈ runEvents (Compile (diskEnv (fun _ => 0)) fuel exampleCompilator
          (populate emptyWorld "/w/A/compiled") workerCount),
        ev ≠ Event.compilePackage 1 ∧
        ∀ n i cmd x y r, ev ≠ Event.RunInContainer 1 n i cmd x y r) ∧
     (∀ (schedule : List Nat) (workerCount : Nat) (p : Pool),
        Pool.run (diskEnv (fun _ => 0)) schedule
          (Pool.start exampleCompilator (populate emptyWorld "/w/A/compiled") workerCount) =
            some p →
        ∀ ev ∈ p.s.events,
          ev ≠ Event.compilePackage 1 ∧
          ∀ n i cmd x y r, ev ≠ Event.RunInContainer 1 n i cmd x y r)) ∧
    ∃ sf : State,
      Compile (diskEnv (fun _ => 0)) 1 exampleCompilator
        (populate (populate emptyWorld "/w/A/compiled") "/w/B/compiled") 2 =
          Except.ok ([], sf) ∧
      sf.w = populate (populate emptyWorld "/w/A/compiled") "/w/B/compiled" ∧
      ∀ ev ∈ sf.events, ev.isProbe = true :=
  ⟨(C7_compiled_is_resumable (diskEnv (fun _ => 0)) exampleCompilator
      (populate emptyWorld "/w/A/compiled")).1 1 ⟨by decide, by decide⟩
      (fun Q _ w1 w2 h =>
        (diskEnv_undisturbed (fun _ => 0) exampleCompilator rfl "A" (by decide) Q w1 w2 h).1),
   (C7_compiled_is_resumable (diskEnv (fun _ => 0)) exampleCompilator
      (populate (populate emptyWorld "/w/A/compiled") "/w/B/compiled")).2
      (by
        intro p hp
        have hl : exampleCompilator.Release.Packages = [2, 1] := rfl
        rw [hl] at hp
        rcases List.mem_cons.mp hp with rfl | hp
        · rfl
        · rcases List.mem_cons.mp hp with rfl | hp
          · rfl
          · cases hp)
      1 2 (by decide)⟩


/-! ## Dependencies first (C6) -/

theorem split_append {α : Type} (l1 l2 pre post : List α) (x : α)
    (h : l1 ++ l2 = pre ++ x :: post) :
    (∃ post2, l1 = pre ++ x :: post2 ∧ post = post2 ++ l2) ∨
    (∃ pre2, l2 = pre2 ++ x :: post ∧ pre = l1 ++ pre2) := by
  rcases List.append_eq_append_iff.mp h with ⟨a2, h1, h2⟩ | ⟨c2, h1, h2⟩
  · exact Or.inr ⟨a2, h2, h1⟩
  · cases c2 with
    | nil =>
      right
      refine ⟨[], ?_, ?_⟩
      · simpa using h2.symm
      · simpa using h1.symm
    | cons y c3 =>
      left
      simp only [List.cons_append, List.cons.injEq] at h2
      obtain ⟨rfl, h3⟩ := h2
      exact ⟨c3, h1, h3⟩

theorem probedBefore_of_noRun (A B : Ptr) (evs : List Event)
    (h : ∀ ev ∈ evs, ev.runOf ≠ some B) : ProbedBefore A B evs := by
  intro pre ev post heq hev
  exfalso
  refine h ev ?_ hev
  rw [heq]
  simp

theorem probedBefore_append (A B : Ptr) (evs new : List Event)
    (h1 : ProbedBefore A B evs) (h2 : ProbedBefore A B new) :
    ProbedBefore A B (evs ++ new) := by
  intro pre ev post heq hev
  rcases split_append evs new pre post ev heq with ⟨post2, h3, _⟩ | ⟨pre2, h3, h4⟩
  · exact h1 pre ev post2 h3 hev
  · rw [h4]
    exact List.mem_append_right _ (h2 pre2 ev post h3 hev)

/-- The events of an attempt on a package that runs its container: the run
comes after the Compiled probes of all its dependencies. -/
theorem probedBefore_attempt (A B pkg : Ptr) (deps : List Ptr) (stage rm : List Event)
    (run : Event) (hA : pkg = B → A ∈ deps) (hrun : run.runOf = some pkg)
    (hstage : ∀ ev ∈ stage, ev.isStaging = true) (hrm : ∀ ev ∈ rm, ev.runOf = none) :
    ProbedBefore A B
      ([Event.compilePackage pkg] ++ (deps.map compiledProbe ++ stage ++ run :: rm)) := by
  intro pre ev post heq hev
  have hfront : ∀ e ∈ [Event.compilePackage pkg] ++ (deps.map compiledProbe ++ stage),
      e.runOf = none := by
    intro e he
    rcases List.mem_append.mp he with he | he
    · cases List.mem_singleton.mp he; rfl
    · rcases List.mem_append.mp he with he | he
      · obtain ⟨d, _, hd⟩ := List.mem_map.mp he
        subst hd; rfl
      · have := hstage e he
        cases e <;> first | rfl | cases this
  have heq2 : ([Event.compilePackage pkg] ++ (deps.map compiledProbe ++ stage)) ++ run :: rm =
      pre ++ ev :: post := by
    rw [← heq]; simp
  rcases split_append _ _ pre post ev heq2 with ⟨post2, h3, _⟩ | ⟨pre2, h3, h4⟩
  · have h5 : ev.runOf = none := hfront ev (by rw [h3]; simp)
    rw [h5] at hev
    cases hev
  · cases pre2 with
    | nil =>
      simp only [List.nil_append, List.cons.injEq] at h3
      obtain ⟨h6, _⟩ := h3
      subst h6
      rw [hrun] at hev
      have hpkg : pkg = B := by injection hev
      rw [h4]
      simp only [List.append_nil, List.mem_append, List.mem_singleton, List.mem_map]
      right; left
      exact ⟨A, hA hpkg, rfl⟩
    | cons y pre3 =>
      simp only [List.cons_append, List.cons.injEq] at h3
      obtain ⟨_, h7⟩ := h3
      have h8 : ev.runOf = none := hrm ev (by rw [h7]; simp)
      rw [h8] at hev
      cases hev

theorem runOf_of_not_isRun (ev : Event) (h : ev.isRun = false) : ev.runOf = none := by
  cases ev <;> first | rfl | cases h

theorem removalEvents_runOf (env : Env) (w : World) (container : Option String) :
    ∀ ev ∈ removalEvents env w container, ev.runOf = none := by
  intro ev hev
  cases container with
  | none => cases hev
  | some id =>
    simp only [removalEvents, List.mem_singleton] at hev
    subst hev
    rfl

/-- Every step keeps this true: each container run for `B` comes after a
probe that found its dependency `A` Compiled. -/
theorem Step.step_probedBefore (env : Env) (A B : Ptr) (hAB : A ∈ (env.heap B).Dependencies)
    (a b : Worker) (h : Step env a b) (ha : ProbedBefore A B a.s.events) :
    ProbedBefore A B b.s.events := by
  cases h with
  | probe pkg st err hst =>
    refine probedBefore_append A B _ _ ha (probedBefore_of_noRun A B _ ?_)
    intro ev hev
    cases List.mem_singleton.mp hev
    intro h; cases h
  | sleep =>
    refine probedBefore_append A B _ _ ha (probedBefore_of_noRun A B _ ?_)
    intro ev hev
    cases List.mem_singleton.mp hev
    intro h; cases h
  | hasWork v => exact ha
  | attempt _ pkg hst hatt =>
    obtain ⟨_, r, sf, hc, hb⟩ := attemptPackage_spec env a b pkg hatt
    subst hb
    dsimp only
    rcases compilePackage_trace env _ sf pkg r hc with ⟨evs, h1, h2⟩ | ⟨stage, h1, h2, _, _⟩
    · rw [h1]
      dsimp only
      rw [List.append_assoc]
      refine probedBefore_append A B _ _ ha (probedBefore_of_noRun A B _ ?_)
      intro ev hev
      rcases List.mem_append.mp hev with hev | hev
      · cases List.mem_singleton.mp hev
        intro h; cases h
      · have := runOf_of_not_isRun ev (h2 ev hev).1
        intro h
        rw [this] at h
        cases h
    · rw [h1]
      dsimp only
      rw [List.append_assoc]
      refine probedBefore_append A B _ _ ha ?_
      refine probedBefore_attempt A B pkg _ stage _ _ ?_ rfl h2
        (removalEvents_runOf env _ _)
      intro hp
      rw [hp]
      exact hAB


theorem getPackageStatus_compiled_populated (env : Env) (c : Compilator) (w : World) (pkg : Ptr)
    (h : getPackageStatus env c w pkg = Except.ok (packageCompiled, none)) :
    Populated w (getPackageCompiledDir env c pkg) := by
  unfold getPackageStatus at h
  split at h
  · cases h
  · next u hl =>
    split at h
    · cases h
    · next hf =>
      have hl2 : c.packageLock pkg = some () := hl
      have hf2 : (c.packageCompiling pkg).getD false = false := by simpa using hf
      exact (getPackageStatus_compiled_iff env c w pkg hl2 hf2).mp
        (by unfold getPackageStatus; simp only [hl, hf]; exact h)

theorem noRunAfter_of_noRun (A B : Ptr) (l : List Event) (h : ∀ e ∈ l, e.runOf ≠ some B) :
    NoRunAfter A B l := by
  unfold NoRunAfter
  induction l with
  | nil => exact List.Pairwise.nil
  | cons x rest ih =>
    refine List.pairwise_cons.mpr ⟨?_, ih (fun e he => h e (List.mem_cons_of_mem _ he))⟩
    intro e2 _ hx
    exact h x (List.mem_cons_self _ _) hx.1

theorem noRunAfter_append (A B : Ptr) (l1 l2 : List Event) (h1 : NoRunAfter A B l1)
    (h2 : NoRunAfter A B l2)
    (h3 : ∀ e1 ∈ l1, ∀ e2 ∈ l2, ¬ (e1.runOf = some B ∧ e2.runOf = some A)) :
    NoRunAfter A B (l1 ++ l2) :=
  List.pairwise_append.mpr ⟨h1, h2, h3⟩

/-- The events of one attempt hold at most one container run, so no run
follows another among them. -/
theorem noRunAfter_attempt (A B : Ptr) (front rm : List Event) (run : Event)
    (hfront : ∀ e ∈ front, e.runOf = none) (hrm : ∀ e ∈ rm, e.runOf = none) :
    NoRunAfter A B (front ++ run :: rm) := by
  refine noRunAfter_append A B _ _ (noRunAfter_of_noRun A B _ ?_) ?_ ?_
  · intro e he h
    rw [hfront e he] at h
    cases h
  · refine List.pairwise_cons.mpr ⟨?_, noRunAfter_of_noRun A B _ ?_⟩
    · intro e2 he2 h
      rw [hrm e2 he2] at h
      cases h.2
    · intro e he h
      rw [hrm e he] at h
      cases h
  · intro e1 he1 e2 _ h
    rw [hfront e1 he1] at h
    cases h.1

theorem attempt_front_runOf (pkg : Ptr) (deps : List Ptr) (stage : List Event)
    (hstage : ∀ ev ∈ stage, ev.isStaging = true) :
    ∀ e ∈ [Event.compilePackage pkg] ++ (deps.map compiledProbe ++ stage), e.runOf = none := by
  intro e he
  rcases List.mem_append.mp he with he | he
  · cases List.mem_singleton.mp he; rfl
  · rcases List.mem_append.mp he with he | he
    · obtain ⟨d, _, hd⟩ := List.mem_map.mp he
      subst hd; rfl
    · have := hstage e he
      cases e <;> first | rfl | cases this

/-- Every step keeps this true, when the external calls made for the other
packages keep the output directory of `A` populated and `B` depends on `A`:
once a container has been run for `B` the output directory of `A` is
populated, and no run for `A` follows a run for `B`. -/
theorem Step.step_noRunAfter (env : Env) (A B : Ptr) (hAB : A ∈ (env.heap B).Dependencies)
    (c : Compilator)
    (hkeep : ∀ Q, Q ≠ A → ∀ w1 w2, ExtStep env c Q w1 w2 →
      Populated w1 (getPackageCompiledDir env c A) →
      Populated w2 (getPackageCompiledDir env c A))
    (a b : Worker) (h : Step env a b)
    (ha : a.s.c.site = c.site ∧
      ((∃ ev ∈ a.s.events, ev.runOf = some B) →
        Populated a.s.w (getPackageCompiledDir env c A)) ∧
      NoRunAfter A B a.s.events) :
    b.s.c.site = c.site ∧
      ((∃ ev ∈ b.s.events, ev.runOf = some B) →
        Populated b.s.w (getPackageCompiledDir env c A)) ∧
      NoRunAfter A B b.s.events := by
  obtain ⟨hdir, hJ, hK⟩ := ha
  have hlog : ∀ e : Event, e.runOf = none →
      ((∃ ev ∈ a.s.events ++ [e], ev.runOf = some B) →
        Populated a.s.w (getPackageCompiledDir env c A)) ∧
      NoRunAfter A B (a.s.events ++ [e]) := by
    intro e he
    refine ⟨?_, ?_⟩
    · rintro ⟨ev, hev, hrun⟩
      rcases List.mem_append.mp hev with hev | hev
      · exact hJ ⟨ev, hev, hrun⟩
      · cases List.mem_singleton.mp hev
        rw [he] at hrun
        cases hrun
    · refine noRunAfter_append A B _ _ hK (noRunAfter_of_noRun A B _ ?_) ?_
      · intro e2 he2 h2
        cases List.mem_singleton.mp he2
        rw [he] at h2
        cases h2
      · intro e1 _ e2 he2 h2
        cases List.mem_singleton.mp he2
        rw [he] at h2
        cases h2.2
  cases h with
  | probe pkg st err hst => exact ⟨hdir, hlog _ rfl⟩
  | sleep => exact ⟨hdir, hlog _ rfl⟩
  | hasWork v => exact ⟨hdir, hJ, hK⟩
  | attempt _ pkg hst hatt =>
    obtain ⟨_, r, sf, hc, hb⟩ := attemptPackage_spec env a b pkg hatt
    subst hb
    obtain ⟨_, hreach, _⟩ := compilePackage_evolves env _ sf pkg r hc
    have hkeepA : Populated a.s.w (getPackageCompiledDir env c A) →
        Populated sf.w (getPackageCompiledDir env c A) := by
      intro hp
      have hne : pkg ≠ A := by
        intro hpA
        subst hpA
        refine getPackageStatus_populated_ne_none env a.s.c a.s.w pkg ?_ hst
        rw [getPackageCompiledDir_site env c a.s.c pkg hdir]
        exact hp
      exact reach_keeps env c pkg _ (hkeep pkg hne)
        (@Reach.reach_site env c (a.s.c.withFlag pkg true) pkg _ _ hdir hreach) hp
    dsimp only at hreach ⊢
    refine ⟨hdir, ?_⟩
    rcases compilePackage_trace env _ sf pkg r hc with ⟨evs, h1, h2⟩ | ⟨stage, h1, h2, hdeps, _⟩
    · rw [h1]
      dsimp only
      rw [List.append_assoc]
      have hnr : ∀ e ∈ [Event.compilePackage pkg] ++ evs, e.runOf = none := by
        intro e he
        rcases List.mem_append.mp he with he | he
        · cases List.mem_singleton.mp he; rfl
        · exact runOf_of_not_isRun e (h2 e he).1
      refine ⟨?_, ?_⟩
      · rintro ⟨ev, hev, hrun⟩
        rcases List.mem_append.mp hev with hev | hev
        · exact hkeepA (hJ ⟨ev, hev, hrun⟩)
        · rw [hnr ev hev] at hrun
          cases hrun
      · refine noRunAfter_append A B _ _ hK (noRunAfter_of_noRun A B _ ?_) ?_
        · intro e he h
          rw [hnr e he] at h
          cases h
        · intro e1 _ e2 he2 h
          rw [hnr e2 he2] at h
          cases h.2
    · rw [h1]
      dsimp only
      rw [List.append_assoc]
      have hfront := attempt_front_runOf pkg (env.heap pkg).Dependencies stage h2
      have hrm := removalEvents_runOf env
        (buildResult env (stagedState env
          { c := a.s.c.withFlag pkg true, w := a.s.w,
            events := a.s.events ++ [Event.compilePackage pkg] } pkg) pkg).2
        (buildResult env (stagedState env
          { c := a.s.c.withFlag pkg true, w := a.s.w,
            events := a.s.events ++ [Event.compilePackage pkg] } pkg) pkg).1.container
      have hnew : ∀ e ∈ [Event.compilePackage pkg] ++
          ((env.heap pkg).Dependencies.map compiledProbe ++ stage ++
            buildEvent env (stagedState env
              { c := a.s.c.withFlag pkg true, w := a.s.w,
                events := a.s.events ++ [Event.compilePackage pkg] } pkg) pkg ::
              removalEvents env
                (buildResult env (stagedState env
                  { c := a.s.c.withFlag pkg true, w := a.s.w,
                    events := a.s.events ++ [Event.compilePackage pkg] } pkg) pkg).2
                (buildResult env (stagedState env
                  { c := a.s.c.withFlag pkg true, w := a.s.w,
                    events := a.s.events ++ [Event.compilePackage pkg] } pkg) pkg).1.container),
          ∀ q, e.runOf = some q → q = pkg := by
        intro e he q hq
        rw [← List.append_assoc] at he
        rcases List.mem_append.mp he with he | he
        · rw [hfront e he] at hq
          cases hq
        · rcases List.mem_cons.mp he with he | he
          · subst he
            unfold buildEvent Event.runOf at hq
            injection hq with hq
            exact hq.symm
          · rw [hrm e he] at hq
            cases hq
      refine ⟨?_, ?_⟩
      · rintro ⟨ev, hev, hrun⟩
        rcases List.mem_append.mp hev with hev | hev
        · exact hkeepA (hJ ⟨ev, hev, hrun⟩)
        · have hp := hnew ev hev B hrun
          subst hp
          have h3 := getPackageStatus_compiled_populated env _ _ A (hdeps A hAB)
          rw [getPackageCompiledDir_site env c (a.s.c.withFlag B true) A hdir] at h3
          exact hkeepA h3
      · refine noRunAfter_append A B _ _ hK ?_ ?_
        · have := noRunAfter_attempt A B _ _
            (buildEvent env (stagedState env
              { c := a.s.c.withFlag pkg true, w := a.s.w,
                events := a.s.events ++ [Event.compilePackage pkg] } pkg) pkg) hfront hrm
          rw [List.append_assoc] at this
          exact this
        · intro e1 he1 e2 he2 h
          have hp := hnew e2 he2 A h.2
          subst hp
          refine getPackageStatus_populated_ne_none env a.s.c a.s.w A ?_ hst
          rw [getPackageCompiledDir_site env c a.s.c A hdir]
          exact hJ ⟨e1, he1, h.1⟩


/-- With the goroutines one after the other (one worker, or several that do
not overlap), in every run of `Compile` (returned or cut short by the fuel) a
container is run for `B` only after a status probe found each direct
dependency `A` of `B` Compiled; and, on a host where the calls made for the
other packages keep the output directory of `A` populated, no container is
run for `A` after one was run for `B`. -/
theorem dependencies_first_in_sequence (env : Env) (fuel : Nat) (c : Compilator) (w : World)
    (workerCount : Int) (A B : Ptr) (hAB : A ∈ (env.heap B).Dependencies) :
    ProbedBefore A B (runEvents (Compile env fuel c w workerCount)) ∧
    ((∀ Q, Q ≠ A → ∀ w1 w2, ExtStep env c Q w1 w2 →
        Populated w1 (getPackageCompiledDir env c A) →
        Populated w2 (getPackageCompiledDir env c A)) →
      NoRunAfter A B (runEvents (Compile env fuel c w workerCount))) := by
  obtain ⟨wk1, hsteps, hevs, _⟩ := Compile_run env fuel c w workerCount
  rw [← hevs]
  refine ⟨?_, ?_⟩
  · exact Steps.steps_inv (fun wk : Worker => ProbedBefore A B wk.s.events)
      (fun a b hab ha => Step.step_probedBefore env A B hAB a b hab ha) hsteps
      (probedBefore_of_noRun A B [] (by intro ev hev; cases hev))
  · intro hkeep
    exact (Steps.steps_inv
      (fun wk : Worker =>
        wk.s.c.site = c.site ∧
        ((∃ ev ∈ wk.s.events, ev.runOf = some B) →
          Populated wk.s.w (getPackageCompiledDir env c A)) ∧
        NoRunAfter A B wk.s.events)
      (fun a b hab ha => Step.step_noRunAfter env A B hAB c hkeep a b hab ha) hsteps
      ⟨rfl, (by rintro ⟨ev, hev, _⟩; cases hev), List.Pairwise.nil⟩).2.2

/-- C6: two workers on the release `[A, B]`, in which `B` depends on `A`, on
an empty host work root.  Both workers probe `A` None before either sets its
flag (the race of C20).  Worker 0 then builds `A` and, having probed `A`
Compiled, builds `B`; worker 1, still holding its stale probe, sets the flag
of `A` and builds `A` again.  The container invocations of the run are `A`,
`B`, `A`: a container of `A` is invoked after the container of its dependent
`B`, so not every package comes after all of its direct dependencies. -/
theorem C6_dependency_built_again_after_its_dependent :
    ∃ p : Pool,
      Pool.run (exampleEnv (fun _ => 0) none) [0, 1, 0, 0, 0, 0, 0, 1, 1]
        (Pool.start orderedCompilator emptyWorld 2) = some p ∧
      1 ∈ ((exampleEnv (fun _ => 0) none).heap 2).Dependencies ∧
      p.s.events.filterMap Event.runOf = [1, 2, 1] ∧
      ¬ NoRunAfter 1 2 p.s.events ∧
      p.workers.map Goroutine.attempts = [none, none] ∧
      p.result = [] :=
  ⟨_, rfl, by decide, by decide, by unfold NoRunAfter; decide, rfl, rfl⟩

/-! ## A run in which everything succeeds (C5) -/

theorem populated_not_absentOrEmpty (w : World) (path : String) (h : Populated w path) :
    ¬ AbsentOrEmpty w path := by
  rintro (h2 | ⟨_, h3⟩)
  · rw [h.1] at h2; cases h2
  · rw [h.2] at h3; cases h3

/-- With its lock present, its flag clear and a probe that does not fail, a
package is Compiled when its output directory is populated and None when it
is not. -/
theorem status_of_sound (env : Env) (c : Compilator) (w : World) (pkg : Ptr)
    (hl : c.packageLock pkg = some ())
    (hf : (c.packageCompiling pkg).getD false = false)
    (hs : ProbeSound w (getPackageCompiledDir env c pkg)) :
    (Populated w (getPackageCompiledDir env c pkg) ∧
      getPackageStatus env c w pkg = Except.ok (packageCompiled, none)) ∨
    (¬ Populated w (getPackageCompiledDir env c pkg) ∧
      getPackageStatus env c w pkg = Except.ok (packageNone, none)) := by
  rcases hs with hp | ha
  · exact Or.inl ⟨hp, getPackageStatus_populated env c w pkg hl hf hp.1 hp.2⟩
  · right
    refine ⟨fun hp => populated_not_absentOrEmpty w _ hp ha, ?_⟩
    rcases ha with h | ⟨h1, h2⟩
    · exact getPackageStatus_absent env c w pkg hl hf h
    · exact getPackageStatus_empty env c w pkg hl hf h1 h2

/-- Success of every call depends on the compilator through its site only. -/
theorem AllSucceed.allSucceed_site {env : Env} {c c2 : Compilator} (hsite : c2.site = c.site)
    (hs : AllSucceed env c) : AllSucceed env c2 := by
  obtain ⟨R, H, D, B, l, f⟩ := c
  obtain ⟨R2, H2, D2, B2, l2, f2⟩ := c2
  simp only [Compilator.site, Prod.mk.injEq] at hsite
  obtain ⟨rfl, rfl, rfl, rfl⟩ := hsite
  exact ⟨hs.mkdirAllDependencies, hs.mkdirAllSource, hs.removeAll, hs.copyTree, hs.saveScript,
    hs.extract, hs.runInContainer, hs.removeContainer⟩

theorem Undisturbed.undisturbed_site {env : Env} {c c2 : Compilator} {path : String}
    (hsite : c2.site = c.site) (hund : Undisturbed env c path) : Undisturbed env c2 path :=
  fun pkg w1 w2 h => hund pkg w1 w2 (ExtStep.extStep_site hsite h)

theorem createCompilationDirStructure_ok (env : Env) (s : State) (hs : AllSucceed env s.c)
    (pkg : Ptr) : (createCompilationDirStructure env s pkg).1 = none := by
  unfold createCompilationDirStructure
  simp only
  split
  · next e w1 h =>
    have := hs.mkdirAllDependencies s.w pkg
    rw [h] at this
    cases this
  · next w1 h =>
    split
    · next e w2 h2 =>
      have := hs.mkdirAllSource w1 pkg
      rw [h2] at this
      cases this
    · rfl

theorem copyDependenciesLoop_ok (env : Env) (c : Compilator) (hs : AllSucceed env c) (pkg : Ptr)
    (deps : List Ptr) (hsub : ∀ d ∈ deps, d ∈ (env.heap pkg).Dependencies)
    (s : State) (hc : s.c = c) : (copyDependenciesLoop env pkg deps s).1 = none := by
  induction deps generalizing s with
  | nil => rfl
  | cons dep rest ih =>
    have hdep := hsub dep (List.mem_cons_self _ _)
    unfold copyDependenciesLoop
    simp only
    split
    · next e w1 h =>
      have := hs.removeAll s.w pkg dep hdep
      rw [← hc, h] at this
      cases this
    · next w1 h =>
      split
      · next e w2 h2 =>
        have := hs.copyTree w1 pkg dep hdep
        rw [← hc, h2] at this
        cases this
      · exact ih (fun d hd => hsub d (List.mem_cons_of_mem _ hd)) _ hc

theorem stagePackage_ok (env : Env) (s : State) (hs : AllSucceed env s.c) (pkg : Ptr) :
    (stagePackage env s pkg).1 = none := by
  unfold stagePackage
  have h1 := createCompilationDirStructure_ok env s hs pkg
  have hc1 := (createCompilationDirStructure_evolves env s pkg).1
  split
  · next e s1 heq => rw [heq] at h1; cases h1
  · next s1 heq =>
    rw [heq] at hc1
    have h2 := copyDependenciesLoop_ok env s.c hs pkg (env.heap pkg).Dependencies
      (fun _ hd => hd) s1 hc1
    have hc2 := (copyDependenciesLoop_evolves env pkg (env.heap pkg).Dependencies s1
      (fun _ hd => hd)).1
    unfold copyDependencies
    split
    · next e s2 heq2 => rw [heq2] at h2; cases h2
    · next s2 heq2 =>
      rw [heq2] at hc2
      have hc3 : s2.c = s.c := hc2.trans hc1
      simp only
      split
      · next e w3 h3 =>
        have := hs.saveScript s2.w pkg
        rw [← hc3, h3] at this
        cases this
      · next w3 h3 =>
        split
        · next e w4 h4 =>
          have := hs.extract w3 pkg
          rw [← hc3, h4] at this
          cases this
        · rfl

theorem checkDependencies_noerr (env : Env) (deps : List Ptr) (s : State)
    (h : ∀ d ∈ deps, ∃ st, getPackageStatus env s.c s.w d = Except.ok (st, none)) :
    ∃ (x : Option GoError) (sf : State), checkDependencies env deps s = Except.ok (x, sf) ∧
      (x = none ∨ x = some none) := by
  induction deps generalizing s with
  | nil => exact ⟨none, s, rfl, Or.inl rfl⟩
  | cons dep rest ih =>
    obtain ⟨st, hst⟩ := h dep (List.mem_cons_self _ _)
    unfold checkDependencies
    rw [hst]
    simp only
    split
    · exact ⟨_, _, rfl, Or.inr rfl⟩
    · exact ih (s.log (Event.getPackageStatus dep st none))
        (fun d hd => h d (List.mem_cons_of_mem _ hd))

/-- When every operation succeeds and no dependency probe fails, a build
attempt returns nil, and it leaves the output directory of the package
populated if every dependency was Compiled. -/
theorem compilePackage_success (env : Env) (s : State) (hs : AllSucceed env s.c) (pkg : Ptr)
    (hund : Undisturbed env s.c (getPackageCompiledDir env s.c pkg))
    (h : ∀ d ∈ (env.heap pkg).Dependencies,
      ∃ st, getPackageStatus env s.c s.w d = Except.ok (st, none)) :
    ∃ sf : State, compilePackage env s pkg = Except.ok (none, sf) ∧
      ((∀ d ∈ (env.heap pkg).Dependencies,
          getPackageStatus env s.c s.w d = Except.ok (packageCompiled, none)) →
        Populated sf.w (getPackageCompiledDir env s.c pkg)) := by
  by_cases hall : ∀ d ∈ (env.heap pkg).Dependencies,
      getPackageStatus env s.c s.w d = Except.ok (packageCompiled, none)
  · have hs2 : AllSucceed env (readyState env s pkg).c := hs
    rw [compilePackage_ready env s pkg hall (stagePackage_ok env _ hs2 pkg),
      runCompilation_result]
    have hc : (stagedState env s pkg).c = s.c :=
      ((stagePackage_evolves env (readyState env s pkg) pkg).1).trans rfl
    have hb : buildResult env (stagedState env s pkg) pkg =
        containerRun env s.c pkg (stagedState env s pkg).w := by
      rw [buildResult_eq, hc]
    obtain ⟨h1, h2, h3⟩ := hs.runInContainer (stagedState env s pkg).w pkg
    rw [← hb] at h1 h2 h3
    have hprim : primaryError (env.heap pkg).Name (buildResult env (stagedState env s pkg) pkg).1
        = none := by
      unfold primaryError
      rw [h1, h2]
      simp
    have hrem : removalError env (buildResult env (stagedState env s pkg) pkg).2
        (buildResult env (stagedState env s pkg) pkg).1.container = none := by
      cases hcont : (buildResult env (stagedState env s pkg) pkg).1.container with
      | none => rfl
      | some id =>
        have h5 := hs.removeContainer (stagedState env s pkg).w pkg id
          (by rw [← hb]; exact hcont)
        rw [← hb] at h5
        exact h5
    rw [hprim, hrem]
    refine ⟨_, rfl, fun _ => ?_⟩
    dsimp only
    have hr := removalWorld_reach env (stagedState env s pkg) pkg
    rw [hc] at hr
    exact reach_keeps env s.c pkg _ (fun w1 w2 hw => (hund pkg w1 w2 hw).1) hr h3
  · obtain ⟨x, sf, hx, hx2⟩ := checkDependencies_noerr env _ s h
    obtain ⟨_, _, _, h3, _⟩ := checkDependencies_spec env _ s sf x hx
    rcases hx2 with rfl | rfl
    · exact absurd (h3 rfl).2 hall
    · refine ⟨sf, ?_, fun hd => absurd hd hall⟩
      unfold compilePackage
      rw [hx]

theorem Reach.reach_any {env : Env} {c : Compilator} {pkg : Ptr} {w w2 : World}
    (h : Reach env c pkg w w2) : ReachAny env c w w2 := by
  induction h with
  | refl => exact Relation.ReflTransGen.refl
  | tail _ hbc ih => exact Relation.ReflTransGen.tail ih ⟨pkg, hbc⟩

theorem reach_sound (env : Env) (c : Compilator) (path : String) (hund : Undisturbed env c path)
    {w w2 : World} (h : ReachAny env c w w2) :
    (Populated w path → Populated w2 path) ∧ (ProbeSound w path → ProbeSound w2 path) := by
  induction h with
  | refl => exact ⟨fun h => h, fun h => h⟩
  | tail _ hbc ih =>
    obtain ⟨pkg, hstep⟩ := hbc
    exact ⟨fun h => (hund pkg _ _ hstep).1 (ih.1 h), fun h => (hund pkg _ _ hstep).2 (ih.2 h)⟩

theorem getPackageCompiledDir_withFlag (env : Env) (c : Compilator) (p q : Ptr) (v : Bool) :
    getPackageCompiledDir env (c.withFlag p v) q = getPackageCompiledDir env c q := rfl

theorem getPackageCompiledDir_eq (env : Env) (c : Compilator) (q : Ptr) (hostWorkDir : String)
    (h : c.HostWorkDir = hostWorkDir) :
    getPackageCompiledDir env c q = env.Join [hostWorkDir, (env.heap q).Name, "compiled"] := by
  unfold getPackageCompiledDir
  rw [h]

/-- Between attempts, a package of the release is Compiled when its output
directory is populated and None otherwise. -/
theorem ready_status (env : Env) (release : Release) (hostWorkDir : String) (c : Compilator)
    (w : World) (hr : Ready env release hostWorkDir c w) (p : Ptr)
    (hp : p ∈ release.Packages) :
    (Populated w (env.Join [hostWorkDir, (env.heap p).Name, "compiled"]) ∧
      getPackageStatus env c w p = Except.ok (packageCompiled, none)) ∨
    (¬ Populated w (env.Join [hostWorkDir, (env.heap p).Name, "compiled"]) ∧
      getPackageStatus env c w p = Except.ok (packageNone, none)) := by
  have h := status_of_sound env c w p (hr.locks p hp) (hr.flags p)
    (by rw [getPackageCompiledDir_eq env c p hostWorkDir hr.hostWorkDir_eq]; exact hr.sound p hp)
  rw [getPackageCompiledDir_eq env c p hostWorkDir hr.hostWorkDir_eq] at h
  exact h

/-- An attempt on a package of the release, in a run where everything
succeeds: it returns, adds no error, keeps the run ready for the next attempt,
and leaves the package's output directory populated if its dependencies'
directories were. -/
theorem attemptPackage_success (env : Env) (c0 : Compilator) (hs : AllSucceed env c0)
    (release : Release) (hostWorkDir : String) (rank : Ptr → Nat)
    (hacyclic : ∀ p ∈ release.Packages, ∀ d ∈ (env.heap p).Dependencies, rank d < rank p)
    (hclosed : ∀ p ∈ release.Packages, ∀ d ∈ (env.heap p).Dependencies, d ∈ release.Packages)
    (hund : ∀ p ∈ release.Packages,
      Undisturbed env c0 (env.Join [hostWorkDir, (env.heap p).Name, "compiled"]))
    (wk : Worker) (pkg : Ptr) (hpkg : pkg ∈ release.Packages)
    (hsite : wk.s.c.site = c0.site)
    (hr : Ready env release hostWorkDir wk.s.c wk.s.w) :
    ∃ wk1 : Worker, attemptPackage env wk pkg packageNone = Except.ok wk1 ∧
      wk1.result = wk.result ∧ wk1.hasWork = true ∧
      Ready env release hostWorkDir wk1.s.c wk1.s.w ∧ wk1.s.c.site = c0.site ∧
      ReachAny env c0 wk.s.w wk1.s.w ∧
      ((∀ d ∈ (env.heap pkg).Dependencies,
          Populated wk.s.w (env.Join [hostWorkDir, (env.heap d).Name, "compiled"])) →
        Populated wk1.s.w (env.Join [hostWorkDir, (env.heap pkg).Name, "compiled"])) := by
  have hlock := hr.locks pkg hpkg
  have hdep : ∀ d ∈ (env.heap pkg).Dependencies,
      (Populated wk.s.w (env.Join [hostWorkDir, (env.heap d).Name, "compiled"]) ∧
        getPackageStatus env (wk.s.c.withFlag pkg true) wk.s.w d =
          Except.ok (packageCompiled, none)) ∨
      (¬ Populated wk.s.w (env.Join [hostWorkDir, (env.heap d).Name, "compiled"]) ∧
        getPackageStatus env (wk.s.c.withFlag pkg true) wk.s.w d =
          Except.ok (packageNone, none)) := by
    intro d hd
    have hne : d ≠ pkg := by
      intro h
      have := hacyclic pkg hpkg d hd
      rw [h] at this
      exact Nat.lt_irrefl _ this
    have hf : (((wk.s.c.withFlag pkg true).packageCompiling d).getD false) = false := by
      simp only [Compilator.withFlag, mapSet, hne, if_false]
      exact hr.flags d
    have h := status_of_sound env (wk.s.c.withFlag pkg true) wk.s.w d
      (hr.locks d (hclosed pkg hpkg d hd)) hf
      (by
        rw [getPackageCompiledDir_withFlag,
          getPackageCompiledDir_eq env wk.s.c d hostWorkDir hr.hostWorkDir_eq]
        exact hr.sound d (hclosed pkg hpkg d hd))
    rw [getPackageCompiledDir_withFlag,
      getPackageCompiledDir_eq env wk.s.c d hostWorkDir hr.hostWorkDir_eq] at h
    exact h
  have hsite2 : (wk.s.c.withFlag pkg true).site = c0.site := hsite
  have hundpkg : Undisturbed env (wk.s.c.withFlag pkg true)
      (getPackageCompiledDir env (wk.s.c.withFlag pkg true) pkg) := by
    rw [getPackageCompiledDir_withFlag,
      getPackageCompiledDir_eq env wk.s.c pkg hostWorkDir hr.hostWorkDir_eq]
    exact Undisturbed.undisturbed_site hsite2 (hund pkg hpkg)
  obtain ⟨sf, hc, hpop⟩ := compilePackage_success env
    { c := wk.s.c.withFlag pkg true, w := wk.s.w,
      events := wk.s.events ++ [Event.compilePackage pkg] }
    (AllSucceed.allSucceed_site hsite2 hs) pkg hundpkg
    (by
      intro d hd
      rcases hdep d hd with ⟨_, h⟩ | ⟨_, h⟩
      · exact ⟨_, h⟩
      · exact ⟨_, h⟩)
  obtain ⟨hcc, hreach1, _⟩ := compilePackage_evolves env _ sf pkg none hc
  dsimp only at hcc hreach1
  have hreach : ReachAny env c0 wk.s.w sf.w :=
    (@Reach.reach_site env c0 (wk.s.c.withFlag pkg true) pkg _ _ hsite2 hreach1).reach_any
  have hlock2 : sf.c.packageLock pkg = some () := by rw [hcc]; exact hlock
  refine ⟨{ s := { sf with c := sf.c.withFlag pkg false }, result := wk.result,
            hasWork := true }, ?_, rfl, rfl, ?_, ?_, hreach, ?_⟩
  · unfold attemptPackage
    rw [setCompiling_eq _ _ _ hlock]
    simp only [if_true]
    have hc2 : compilePackage env
        { c := wk.s.c.withFlag pkg true, w := wk.s.w,
          events := wk.s.events ++ [Event.compilePackage pkg] } pkg = Except.ok (none, sf) := hc
    rw [hc2]
    simp only
    rw [setCompiling_eq _ _ _ hlock2]
  · dsimp only
    rw [hcc]
    refine ⟨hr.release_eq, hr.hostWorkDir_eq, hr.locks, ?_, ?_⟩
    · intro p
      by_cases hp : p = pkg
      · simp [Compilator.withFlag, mapSet, hp]
      · simp only [Compilator.withFlag, mapSet, hp, if_false]
        exact hr.flags p
    · intro p hp
      exact (reach_sound env c0 _ (hund p hp) hreach).2 (hr.sound p hp)
  · dsimp only
    rw [hcc]
    exact hsite
  · intro hall
    dsimp only
    have h := hpop (fun d hd => by
      rcases hdep d hd with ⟨_, h⟩ | ⟨hn, _⟩
      · exact h
      · exact absurd (hall d hd) hn)
    rw [getPackageCompiledDir_withFlag,
      getPackageCompiledDir_eq env wk.s.c pkg hostWorkDir hr.hostWorkDir_eq] at h
    exact h


/-- A scan in a run where everything succeeds: it runs to its end without an
error, and every package visited whose dependencies' output directories were
populated when the scan began has a populated output directory when it
ends. -/
theorem scanPackages_success (env : Env) (c0 : Compilator) (hs : AllSucceed env c0)
    (release : Release) (hostWorkDir : String) (rank : Ptr → Nat)
    (hacyclic : ∀ p ∈ release.Packages, ∀ d ∈ (env.heap p).Dependencies, rank d < rank p)
    (hclosed : ∀ p ∈ release.Packages, ∀ d ∈ (env.heap p).Dependencies, d ∈ release.Packages)
    (hund : ∀ p ∈ release.Packages,
      Undisturbed env c0 (env.Join [hostWorkDir, (env.heap p).Name, "compiled"]))
    (l : List Ptr) (hl : ∀ p ∈ l, p ∈ release.Packages) (wk : Worker)
    (hsite : wk.s.c.site = c0.site)
    (hr : Ready env release hostWorkDir wk.s.c wk.s.w) (hres : wk.result = []) :
    ∃ wk1 : Worker, scanPackages env l wk = Except.ok (LoopExit.completed, wk1) ∧
      wk1.result = [] ∧ Ready env release hostWorkDir wk1.s.c wk1.s.w ∧
      wk1.s.c.site = c0.site ∧ ReachAny env c0 wk.s.w wk1.s.w ∧
      ∀ p ∈ l,
        (∀ d ∈ (env.heap p).Dependencies,
          Populated wk.s.w (env.Join [hostWorkDir, (env.heap d).Name, "compiled"])) →
        Populated wk1.s.w (env.Join [hostWorkDir, (env.heap p).Name, "compiled"]) := by
  induction l generalizing wk with
  | nil =>
    exact ⟨wk, rfl, hres, hr, hsite, Relation.ReflTransGen.refl, by intro p hp; cases hp⟩
  | cons pkg rest ih =>
    have hpkg := hl pkg (List.mem_cons_self _ _)
    have hrest : ∀ p ∈ rest, p ∈ release.Packages :=
      fun p hp => hl p (List.mem_cons_of_mem _ hp)
    rcases ready_status env release hostWorkDir wk.s.c wk.s.w hr pkg hpkg with
      ⟨hpop, hst⟩ | ⟨_, hst⟩
    · obtain ⟨wk1, h1, h2, h3, hs1, h4, h5⟩ :=
        ih hrest { wk with s := wk.s.log (Event.getPackageStatus pkg packageCompiled none) }
          hsite hr hres
      refine ⟨wk1, ?_, h2, h3, hs1, h4, ?_⟩
      · unfold scanPackages
        rw [hst]
        have hne : ¬ packageCompiled = packageNone := by decide
        simp only [hne, if_false]
        exact h1
      · intro p hp hdeps
        rcases List.mem_cons.mp hp with rfl | hp
        · exact (reach_sound env c0 _ (hund p hpkg) h4).1 hpop
        · exact h5 p hp hdeps
    · obtain ⟨wk2, ha1, ha2, _, ha4, has, ha5, ha6⟩ := attemptPackage_success env c0 hs release
        hostWorkDir rank hacyclic hclosed hund
        { wk with s := wk.s.log (Event.getPackageStatus pkg packageNone none) } pkg hpkg hsite
        hr
      have hres2 : wk2.result = [] := by rw [ha2]; exact hres
      obtain ⟨wk1, h1, h2, h3, hs1, h4, h5⟩ := ih hrest wk2 has ha4 hres2
      refine ⟨wk1, ?_, h2, h3, hs1, Relation.ReflTransGen.trans ha5 h4, ?_⟩
      · unfold scanPackages
        rw [hst]
        simp only [if_true]
        rw [ha1]
        simp only [hres2, ne_eq, not_true_eq_false, if_false]
        exact h1
      · intro p hp hdeps
        rcases List.mem_cons.mp hp with rfl | hp
        · exact (reach_sound env c0 _ (hund p hpkg) h4).1 (ha6 hdeps)
        · refine h5 p hp ?_
          intro d hd
          exact (reach_sound env c0 _ (hund d (hclosed p (hrest p hp) d hd)) ha5).1
            (hdeps d hd)

theorem checkDone_sound (env : Env) (l : List Ptr) (s : State)
    (h : ∀ p ∈ l, ∃ st, getPackageStatus env s.c s.w p = Except.ok (st, none)) :
    ∃ (d : Bool) (evs : List Event),
      checkDone env l s = Except.ok (DoneCheck.done d, s.addEvents evs) ∧
      (d = true ↔
        ∀ p ∈ l, getPackageStatus env s.c s.w p = Except.ok (packageCompiled, none)) := by
  induction l generalizing s with
  | nil => exact ⟨true, [], by unfold checkDone; rw [addEvents_nil], by simp⟩
  | cons pkg rest ih =>
    obtain ⟨st, hst⟩ := h pkg (List.mem_cons_self _ _)
    unfold checkDone
    rw [hst]
    simp only
    split
    · next hne =>
      refine ⟨false, [Event.getPackageStatus pkg st none], rfl, ?_⟩
      constructor
      · intro h0; cases h0
      · intro hall
        have := hall pkg (List.mem_cons_self _ _)
        rw [hst] at this
        exact absurd (congrArg Prod.fst (Except.ok.inj this)) hne
    · next hne =>
      have hst2 : st = packageCompiled := by simpa using hne
      obtain ⟨d, evs, h2, h3⟩ := ih (s.log (Event.getPackageStatus pkg st none))
        (fun p hp => h p (List.mem_cons_of_mem _ hp))
      refine ⟨d, Event.getPackageStatus pkg st none :: evs, ?_, ?_⟩
      · rw [h2, log_eq_addEvents, addEvents_addEvents]
        rfl
      · rw [h3]
        constructor
        · intro hall p hp
          rcases List.mem_cons.mp hp with rfl | hp
          · rw [hst, hst2]
          · exact hall p hp
        · intro hall p hp
          exact hall p (List.mem_cons_of_mem _ hp)

/-- One pass of a worker in a run where everything succeeds: the packages of
rank up to `k` are built after it if those of rank below `k` were before, and
the worker either leaves its loop with every package Compiled or starts
another pass. -/
theorem workerPass_success (env : Env) (c0 : Compilator) (hs : AllSucceed env c0)
    (release : Release) (hostWorkDir : String) (rank : Ptr → Nat)
    (hacyclic : ∀ p ∈ release.Packages, ∀ d ∈ (env.heap p).Dependencies, rank d < rank p)
    (hclosed : ∀ p ∈ release.Packages, ∀ d ∈ (env.heap p).Dependencies, d ∈ release.Packages)
    (hund : ∀ p ∈ release.Packages,
      Undisturbed env c0 (env.Join [hostWorkDir, (env.heap p).Name, "compiled"]))
    (fuel k : Nat) (wk : Worker) (hsite : wk.s.c.site = c0.site)
    (hr : Ready env release hostWorkDir wk.s.c wk.s.w) (hres : wk.result = [])
    (hk : ∀ p ∈ release.Packages, rank p < k →
      Populated wk.s.w (env.Join [hostWorkDir, (env.heap p).Name, "compiled"])) :
    ∃ wk1 : Worker, wk1.result = [] ∧ Ready env release hostWorkDir wk1.s.c wk1.s.w ∧
      wk1.s.c.site = c0.site ∧
      (∀ p ∈ release.Packages, rank p < k + 1 →
        Populated wk1.s.w (env.Join [hostWorkDir, (env.heap p).Name, "compiled"])) ∧
      (((∀ p ∈ release.Packages,
            getPackageStatus env wk1.s.c wk1.s.w p = Except.ok (packageCompiled, none)) ∧
          workerLoop env (fuel + 1) wk = Except.ok wk1) ∨
        (¬ (∀ p ∈ release.Packages,
            getPackageStatus env wk1.s.c wk1.s.w p = Except.ok (packageCompiled, none)) ∧
          workerLoop env (fuel + 1) wk = workerLoop env fuel wk1)) := by
  obtain ⟨wk1, h1, h2, h3, hs1, _, h5⟩ := scanPackages_success env c0 hs release hostWorkDir
    rank hacyclic hclosed hund release.Packages (fun p hp => hp) { wk with hasWork := false }
    hsite hr hres
  have hlvl : ∀ p ∈ release.Packages, rank p < k + 1 →
      Populated wk1.s.w (env.Join [hostWorkDir, (env.heap p).Name, "compiled"]) := by
    intro p hp hrank
    refine h5 p hp ?_
    intro d hd
    have := hacyclic p hp d hd
    exact hk d (hclosed p hp d hd) (by omega)
  have hprobes : ∀ p ∈ release.Packages,
      ∃ st, getPackageStatus env wk1.s.c wk1.s.w p = Except.ok (st, none) := by
    intro p hp
    rcases ready_status env release hostWorkDir wk1.s.c wk1.s.w h3 p hp with ⟨_, h⟩ | ⟨_, h⟩
    · exact ⟨_, h⟩
    · exact ⟨_, h⟩
  obtain ⟨d, evs, hd1, hd2⟩ := checkDone_sound env release.Packages wk1.s hprobes
  have hloop : workerLoop env (fuel + 1) wk =
      if d then Except.ok { wk1 with s := wk1.s.addEvents evs }
      else if !wk1.hasWork then
        workerLoop env fuel
          { wk1 with s := (wk1.s.addEvents evs).log (Event.Sleep sleepTimeWhileCantCompileSec) }
      else workerLoop env fuel { wk1 with s := wk1.s.addEvents evs } := by
    conv_lhs => unfold workerLoop
    rw [hr.release_eq, h1]
    simp only [h2, ne_eq, not_true_eq_false, if_false]
    rw [h3.release_eq, hd1]
  cases d with
  | true =>
    refine ⟨{ wk1 with s := wk1.s.addEvents evs }, h2, h3, hs1, hlvl,
      Or.inl ⟨hd2.mp rfl, ?_⟩⟩
    rw [hloop]
    rfl
  | false =>
    have hnot : ¬ (∀ p ∈ release.Packages,
        getPackageStatus env wk1.s.c wk1.s.w p = Except.ok (packageCompiled, none)) := by
      intro hall
      have := hd2.mpr hall
      cases this
    cases hw : wk1.hasWork with
    | true =>
      refine ⟨{ wk1 with s := wk1.s.addEvents evs }, h2, h3, hs1, hlvl, Or.inr ⟨hnot, ?_⟩⟩
      rw [hloop]
      simp [hw]
    | false =>
      refine ⟨{ wk1 with
        s := State.log (wk1.s.addEvents evs) (Event.Sleep sleepTimeWhileCantCompileSec) },
        h2, h3, hs1, hlvl, Or.inr ⟨hnot, ?_⟩⟩
      rw [hloop]
      simp [hw]

/-- A worker in a run where everything succeeds: if the packages of rank
below `k` are built and the fuel covers the remaining ranks, the worker
returns with a nil aggregate and every package Compiled. -/
theorem workerLoop_success (env : Env) (c0 : Compilator) (hs : AllSucceed env c0)
    (release : Release) (hostWorkDir : String) (rank : Ptr → Nat)
    (hacyclic : ∀ p ∈ release.Packages, ∀ d ∈ (env.heap p).Dependencies, rank d < rank p)
    (hclosed : ∀ p ∈ release.Packages, ∀ d ∈ (env.heap p).Dependencies, d ∈ release.Packages)
    (hund : ∀ p ∈ release.Packages,
      Undisturbed env c0 (env.Join [hostWorkDir, (env.heap p).Name, "compiled"]))
    (B : Nat) (hB : ∀ p ∈ release.Packages, rank p < B) (fuel k : Nat) (wk : Worker)
    (hsite : wk.s.c.site = c0.site)
    (hr : Ready env release hostWorkDir wk.s.c wk.s.w) (hres : wk.result = [])
    (hfuel : B ≤ k + fuel)
    (hk : ∀ p ∈ release.Packages, rank p < k →
      Populated wk.s.w (env.Join [hostWorkDir, (env.heap p).Name, "compiled"])) :
    ∃ wk1 : Worker, workerLoop env (fuel + 1) wk = Except.ok wk1 ∧ wk1.result = [] ∧
      Ready env release hostWorkDir wk1.s.c wk1.s.w ∧
      ∀ p ∈ release.Packages,
        getPackageStatus env wk1.s.c wk1.s.w p = Except.ok (packageCompiled, none) := by
  induction fuel generalizing k wk with
  | zero =>
    obtain ⟨wk1, h1, h2, _, h3, h4⟩ := workerPass_success env c0 hs release hostWorkDir rank
      hacyclic hclosed hund 0 k wk hsite hr hres hk
    rcases h4 with ⟨h5, h6⟩ | ⟨h5, _⟩
    · exact ⟨wk1, h6, h1, h2, h5⟩
    · exfalso
      apply h5
      intro p hp
      have hpop := h3 p hp (by have := hB p hp; omega)
      rcases ready_status env release hostWorkDir wk1.s.c wk1.s.w h2 p hp with
        ⟨_, h⟩ | ⟨hn, _⟩
      · exact h
      · exact absurd hpop hn
  | succ f ih =>
    obtain ⟨wk1, h1, h2, hs1, h3, h4⟩ := workerPass_success env c0 hs release hostWorkDir rank
      hacyclic hclosed hund (f + 1) k wk hsite hr hres hk
    rcases h4 with ⟨h5, h6⟩ | ⟨_, h6⟩
    · exact ⟨wk1, h6, h1, h2, h5⟩
    · rw [h6]
      exact ih (k + 1) wk1 hs1 h2 h1 (by omega) h3

theorem registerPackages_fields (l : List Ptr) (c : Compilator) :
    (registerPackages l c).Release = c.Release ∧
    (registerPackages l c).HostWorkDir = c.HostWorkDir ∧
    (∀ p ∈ l, (registerPackages l c).packageLock p = some ()) ∧
    (∀ p, c.packageLock p = some () → (registerPackages l c).packageLock p = some ()) ∧
    ((∀ p, (c.packageCompiling p).getD false = false) →
      ∀ p, ((registerPackages l c).packageCompiling p).getD false = false) := by
  induction l generalizing c with
  | nil =>
    refine ⟨rfl, rfl, ?_, fun p h => h, fun h => h⟩
    intro p hp; cases hp
  | cons pkg rest ih =>
    unfold registerPackages
    obtain ⟨h1, h2, h3, h4, h5⟩ := ih
      { c with packageLock := mapSet c.packageLock pkg (),
               packageCompiling := mapSet c.packageCompiling pkg false }
    refine ⟨h1, h2, ?_, ?_, ?_⟩
    · intro p hp
      rcases List.mem_cons.mp hp with rfl | hp
      · exact h4 p (by simp [mapSet])
      · exact h3 p hp
    · intro p hp
      apply h4
      by_cases hq : p = pkg
      · simp [mapSet, hq]
      · simp only [mapSet, hq, if_false]
        exact hp
    · intro hf
      apply h5
      intro p
      by_cases hq : p = pkg
      · simp [mapSet, hq]
      · simp only [mapSet, hq, if_false]
        exact hf p

theorem NewCompilator_ready (env : Env) (release : Release)
    (hostWorkDir dockerRepository baseType : String) (w : World)
    (hsound : ∀ p ∈ release.Packages,
      ProbeSound w (env.Join [hostWorkDir, (env.heap p).Name, "compiled"])) :
    Ready env release hostWorkDir
      (NewCompilator release hostWorkDir dockerRepository baseType).1 w := by
  unfold NewCompilator
  obtain ⟨h1, h2, h3, _, h5⟩ := registerPackages_fields release.Packages
    { Release := release, HostWorkDir := hostWorkDir, DockerRepository := dockerRepository,
      BaseType := baseType, packageLock := fun _ => none, packageCompiling := fun _ => none }
  exact ⟨h1, h2, h3, h5 (fun _ => rfl), hsound⟩

theorem rank_bound (rank : Ptr → Nat) (l : List Ptr) : ∃ B, ∀ p ∈ l, rank p < B := by
  induction l with
  | nil => exact ⟨0, by intro p hp; cases hp⟩
  | cons x rest ih =>
    obtain ⟨B, hB⟩ := ih
    refine ⟨max B (rank x + 1), ?_⟩
    intro p hp
    rcases List.mem_cons.mp hp with rfl | hp
    · omega
    · have := hB p hp
      omega

/-- On the example host every operation succeeds when every build script
exits with code 0 and container removal does not fail. -/
theorem exampleEnv_allSucceed (c : Compilator) : AllSucceed (exampleEnv (fun _ => 0) none) c := by
  refine ⟨fun _ _ => rfl, fun _ _ => rfl, fun _ _ _ _ => rfl, fun _ _ _ _ => rfl,
    fun _ _ => rfl, fun _ _ => rfl, ?_, fun _ _ _ _ => rfl⟩
  intro w pkg
  refine ⟨rfl, rfl, ?_⟩
  simp [containerRun, exampleEnv, Populated, populate]

/-- On the volatile host every call succeeds. -/
theorem volatileEnv_allSucceed (c : Compilator) : AllSucceed volatileEnv c := by
  refine ⟨fun _ _ => rfl, fun _ _ => rfl, fun _ _ _ _ => rfl, fun _ _ _ _ => rfl,
    fun _ _ => rfl, fun _ _ => rfl, ?_, fun _ _ _ _ => rfl⟩
  intro w pkg
  refine ⟨rfl, rfl, ?_⟩
  simp [containerRun, volatileEnv, exampleEnv, Populated, populate]

/-- On the volatile host a build of package `1` returns nil and leaves
nothing on the host. -/
theorem volatile_compilePackage (s : State) :
    ∃ sf : State, compilePackage volatileEnv s 1 = Except.ok (none, sf) ∧ sf.c = s.c ∧
      sf.w = emptyWorld := by
  have hall : ∀ d ∈ (volatileEnv.heap 1).Dependencies,
      getPackageStatus volatileEnv s.c s.w d = Except.ok (packageCompiled, none) := by
    intro d hd
    cases hd
  have hs2 : AllSucceed volatileEnv (readyState volatileEnv s 1).c := volatileEnv_allSucceed _
  rw [compilePackage_ready volatileEnv s 1 hall (stagePackage_ok volatileEnv _ hs2 1),
    runCompilation_result]
  have hc : (stagedState volatileEnv s 1).c = s.c :=
    ((stagePackage_evolves volatileEnv (readyState volatileEnv s 1) 1).1).trans rfl
  exact ⟨_, rfl, hc, rfl⟩

/-- One pass of a worker on the volatile host: the package is probed None and
built, the removal of the container leaves nothing on the host, the
completion check finds the package not Compiled, and the next pass starts as
this one did. -/
theorem volatile_pass (fuel : Nat) (wk : Worker) (hI : VolatileIdle wk) :
    ∃ wk1, VolatileIdle wk1 ∧
      workerLoop volatileEnv (fuel + 1) wk = workerLoop volatileEnv fuel wk1 := by
  have hprobe : getPackageStatus volatileEnv wk.s.c wk.s.w 1 =
      Except.ok (packageNone, none) :=
    getPackageStatus_absent volatileEnv _ _ 1 hI.lock1 (hI.flags 1) (by rw [hI.host]; rfl)
  obtain ⟨sf, hcp, hcc, hw⟩ := volatile_compilePackage
    { c := wk.s.c.withFlag 1 true, w := wk.s.w,
      events := wk.s.events ++ [Event.getPackageStatus 1 packageNone none] ++
        [Event.compilePackage 1] }
  dsimp only at hcc
  have hl2 : sf.c.packageLock 1 = some () := by rw [hcc]; exact hI.lock1
  have hatt : attemptPackage volatileEnv
      { s := wk.s.log (Event.getPackageStatus 1 packageNone none), result := wk.result,
        hasWork := false } 1 packageNone =
      Except.ok { s := { sf with c := sf.c.withFlag 1 false }, result := wk.result,
                  hasWork := true } := by
    unfold attemptPackage
    have hl3 : (State.log wk.s (Event.getPackageStatus 1 packageNone none)).c.packageLock 1 =
        some () := hI.lock1
    rw [setCompiling_eq _ _ _ hl3]
    simp only [if_true]
    have hcp2 : compilePackage volatileEnv
        { c := (State.log wk.s (Event.getPackageStatus 1 packageNone none)).c.withFlag 1 true,
          w := (State.log wk.s (Event.getPackageStatus 1 packageNone none)).w,
          events := (State.log wk.s (Event.getPackageStatus 1 packageNone none)).events ++
            [Event.compilePackage 1] } 1 = Except.ok (none, sf) := hcp
    rw [hcp2]
    simp only
    rw [setCompiling_eq _ _ _ hl2]
  have hflags : ∀ p, (((sf.c.withFlag 1 false).packageCompiling p).getD false) = false := by
    intro p
    rw [hcc]
    show ((mapSet (mapSet wk.s.c.packageCompiling 1 true) 1 false) p).getD false = false
    unfold mapSet
    by_cases hp : p = 1
    · simp [hp]
    · simp only [hp, if_false]
      exact hI.flags p
  have hrel : (sf.c.withFlag 1 false).Release = soloRelease := by
    show sf.c.Release = soloRelease
    rw [hcc]
    exact hI.release_eq
  have hscan : scanPackages volatileEnv wk.s.c.Release.Packages { wk with hasWork := false } =
      Except.ok (LoopExit.completed,
        { s := { sf with c := sf.c.withFlag 1 false }, result := wk.result,
          hasWork := true }) := by
    rw [hI.release_eq]
    show scanPackages volatileEnv [1] _ = _
    unfold scanPackages
    have hprobe2 : getPackageStatus volatileEnv
        ({ wk with hasWork := false } : Worker).s.c ({ wk with hasWork := false } : Worker).s.w
        1 = Except.ok (packageNone, none) := hprobe
    rw [hprobe2]
    simp only [if_true]
    have hatt2 : attemptPackage volatileEnv
        { s := State.log ({ wk with hasWork := false } : Worker).s
            (Event.getPackageStatus 1 packageNone none),
          result := ({ wk with hasWork := false } : Worker).result,
          hasWork := ({ wk with hasWork := false } : Worker).hasWork } 1 packageNone =
        Except.ok { s := { sf with c := sf.c.withFlag 1 false }, result := wk.result,
                    hasWork := true } := hatt
    rw [hatt2]
    simp only [hI.result_nil, ne_eq, not_true_eq_false, if_false]
    unfold scanPackages
    rfl
  have hprobe3 : getPackageStatus volatileEnv (sf.c.withFlag 1 false) sf.w 1 =
      Except.ok (packageNone, none) :=
    getPackageStatus_absent volatileEnv _ _ 1 hl2 (hflags 1) (by rw [hw]; rfl)
  have hcd : checkDone volatileEnv soloRelease.Packages { sf with c := sf.c.withFlag 1 false } =
      Except.ok (DoneCheck.done false,
        State.log { sf with c := sf.c.withFlag 1 false }
          (Event.getPackageStatus 1 packageNone none)) := by
    show checkDone volatileEnv [1] _ = _
    unfold checkDone
    have hprobe4 : getPackageStatus volatileEnv
        ({ sf with c := sf.c.withFlag 1 false } : State).c
        ({ sf with c := sf.c.withFlag 1 false } : State).w 1 =
        Except.ok (packageNone, none) := hprobe3
    rw [hprobe4]
    rfl
  refine ⟨{ s := State.log { sf with c := sf.c.withFlag 1 false }
                (Event.getPackageStatus 1 packageNone none),
            result := wk.result, hasWork := true }, ?_, ?_⟩
  · exact
      { release_eq := hrel
        lock1 := hl2
        flags := hflags
        host := hw
        result_nil := hI.result_nil }
  · conv_lhs => unfold workerLoop
    rw [hscan]
    simp only [hI.result_nil, ne_eq, not_true_eq_false, if_false]
    have hrel2 : ({ sf with c := sf.c.withFlag 1 false } : State).c.Release = soloRelease :=
      hrel
    rw [hrel2, hcd]
    simp only [Bool.not_true, Bool.false_eq_true, if_false]

/-- On the volatile host the single worker never leaves its loop. -/
theorem volatile_workerLoop (fuel : Nat) (wk : Worker) (hI : VolatileIdle wk) :
    ∃ evs, workerLoop volatileEnv fuel wk = Except.error (Abort.outOfFuel evs) := by
  induction fuel generalizing wk with
  | zero => exact ⟨_, rfl⟩
  | succ fuel ih =>
    obtain ⟨wk1, hI1, h1⟩ := volatile_pass fuel wk hI
    rw [h1]
    exact ih wk1 hI1

/-- C5 as stated fails, in two ways.  First, on the example release (acyclic,
closed under dependencies) every staging step and every build succeeds, but
the output path of package `2` is a regular file: its status probe fails and
the run of `Compile` with one worker returns that error, with fuel 1 as with
fuel 9.  Second, on the volatile host every staging step and every build
succeeds as well (the container exits 0, leaves the output directory of its
package populated and is removed without error) and no status probe fails,
but the removal of the container takes the output with it: on the release of
the single package `1` the worker builds the package in every pass and never
finds it Compiled, so `Compile` with one worker does not terminate (whatever
the fuel, it runs out). -/
theorem C5_counterexample :
    ((∀ p ∈ exampleRelease.Packages,
      ∀ d ∈ ((exampleEnv (fun _ => 0) none).heap p).Dependencies,
        d < p ∧ d ∈ exampleRelease.Packages) ∧
    AllSucceed (exampleEnv (fun _ => 0) none) exampleCompilator ∧
    (∃ sf, Compile (exampleEnv (fun _ => 0) none) 1 exampleCompilator
        (putFile emptyWorld "/w/B/compiled") 1 =
      Except.ok
        (["Path /w/B/compiled (package path) points to a file. It should be a directory."],
          sf)) ∧
    (∃ sf, Compile (exampleEnv (fun _ => 0) none) 9 exampleCompilator
        (putFile emptyWorld "/w/B/compiled") 1 =
      Except.ok
        (["Path /w/B/compiled (package path) points to a file. It should be a directory."],
          sf))) ∧
    ((∀ p ∈ soloRelease.Packages,
      ∀ d ∈ (volatileEnv.heap p).Dependencies, d < p ∧ d ∈ soloRelease.Packages) ∧
    AllSucceed volatileEnv soloCompilator ∧
    (∀ p ∈ soloRelease.Packages,
      ProbeSound emptyWorld (getPackageCompiledDir volatileEnv soloCompilator p)) ∧
    ∀ fuel : Nat, ∃ evs : List Event,
      Compile volatileEnv fuel soloCompilator emptyWorld 1 =
        Except.error (Abort.outOfFuel evs)) := by
  refine ⟨⟨by decide, exampleEnv_allSucceed _, ⟨_, rfl⟩, ⟨_, rfl⟩⟩,
    by decide, volatileEnv_allSucceed _, fun _ _ => Or.inr (Or.inl rfl), ?_⟩
  intro fuel
  have hI : VolatileIdle (initialWorker soloCompilator emptyWorld) :=
    { release_eq := rfl, lock1 := rfl
      flags := (registerPackages_fields soloRelease.Packages
        { Release := soloRelease, HostWorkDir := "/w", DockerRepository := "repo",
          BaseType := "ubuntu", packageLock := fun _ => none,
          packageCompiling := fun _ => none }).2.2.2.2 (fun _ => rfl)
      host := rfl, result_nil := rfl }
  obtain ⟨evs, h⟩ := volatile_workerLoop fuel _ hI
  refine ⟨evs, ?_⟩
  unfold Compile
  have hone : (1 : Int).toNat = 0 + 1 := rfl
  rw [hone]
  unfold runWorkers
  have h2 : workerLoop volatileEnv fuel
      { s := { c := soloCompilator, w := emptyWorld, events := [] }, result := [],
        hasWork := false } = Except.error (Abort.outOfFuel evs) := h
  rw [h2]

/-- C5 (amended): take a release whose dependency graph is acyclic and whose
dependencies all belong to the release, and the compilator `NewCompilator`
builds for it.  Suppose that no output path has a failing status probe when
`Compile` is called; that every staging step and every build succeeds (each
call `compilePackage` makes, with the arguments the code gives it, returns no
error, the container exits 0 and leaves the output directory of its package
populated, and its removal returns no error); and that the host keeps the
output directories through those calls (none of them empties a populated
output directory or makes its probe fail).  Then `Compile` with one worker
terminates (every sufficient fuel gives the result), returns nil, and on
return every package of the release is Compiled. -/
theorem C5_compile_succeeds (env : Env) (release : Release)
    (hostWorkDir dockerRepository baseType : String) (w : World) (rank : Ptr → Nat)
    (hacyclic : ∀ p ∈ release.Packages, ∀ d ∈ (env.heap p).Dependencies, rank d < rank p)
    (hclosed : ∀ p ∈ release.Packages, ∀ d ∈ (env.heap p).Dependencies, d ∈ release.Packages)
    (hs : AllSucceed env (NewCompilator release hostWorkDir dockerRepository baseType).1)
    (hund : ∀ p ∈ release.Packages,
      Undisturbed env (NewCompilator release hostWorkDir dockerRepository baseType).1
        (env.Join [hostWorkDir, (env.heap p).Name, "compiled"]))
    (hsound : ∀ p ∈ release.Packages,
      ProbeSound w (env.Join [hostWorkDir, (env.heap p).Name, "compiled"])) :
    ∃ N : Nat, ∀ fuel : Nat, N ≤ fuel →
      ∃ sf : State,
        Compile env fuel (NewCompilator release hostWorkDir dockerRepository baseType).1 w 1 =
          Except.ok ([], sf) ∧
        ∀ p ∈ release.Packages,
          getPackageStatus env sf.c sf.w p = Except.ok (packageCompiled, none) := by
  obtain ⟨B, hB⟩ := rank_bound rank release.Packages
  refine ⟨B + 1, ?_⟩
  intro fuel hfuel
  obtain ⟨f, rfl⟩ : ∃ f, fuel = f + 1 := ⟨fuel - 1, by omega⟩
  have hr := NewCompilator_ready env release hostWorkDir dockerRepository baseType w hsound
  obtain ⟨wk1, h1, h2, h3, h4⟩ := workerLoop_success env
    (NewCompilator release hostWorkDir dockerRepository baseType).1 hs release hostWorkDir rank
    hacyclic hclosed hund B hB f 0
    { s := { c := (NewCompilator release hostWorkDir dockerRepository baseType).1, w := w,
             events := [] },
      result := [], hasWork := false } rfl hr rfl (by omega)
    (by intro p _ hp; omega)
  refine ⟨wk1.s, ?_, h4⟩
  unfold Compile
  have hone : (1 : Int).toNat = 0 + 1 := rfl
  rw [hone]
  unfold runWorkers
  rw [h1]
  simp only
  rw [h2]
  rfl

theorem C5_witness :
    ∃ N : Nat, ∀ fuel : Nat, N ≤ fuel →
      ∃ sf : State,
        Compile (diskEnv (fun _ => 0)) fuel
          (NewCompilator exampleRelease "/w" "repo" "ubuntu").1 emptyWorld 1 =
            Except.ok ([], sf) ∧
        ∀ p ∈ exampleRelease.Packages,
          getPackageStatus (diskEnv (fun _ => 0)) sf.c sf.w p =
            Except.ok (packageCompiled, none) :=
  C5_compile_succeeds (diskEnv (fun _ => 0)) exampleRelease "/w" "repo" "ubuntu"
    emptyWorld (fun p => p) (by decide) (by decide) (diskEnv_allSucceed _)
    (fun p _ => diskEnv_undisturbed _ _ rfl _ (exampleHeap_name p))
    (fun _ _ => Or.inr (Or.inl rfl))

/-! ## The container of an attempt is released (C11) -/

theorem probe_not_run_or_removal (ev : Event) (h : ev.isProbe = true) :
    ev.isRun = false ∧ ev.isRemoval = false := by
  cases ev <;> first | exact ⟨rfl, rfl⟩ | cases h

theorem staging_not_run_or_removal (ev : Event) (h : ev.isStaging = true) :
    ev.isRun = false ∧ ev.isRemoval = false := by
  cases ev <;> first | exact ⟨rfl, rfl⟩ | cases h

/-- C11: the events that a returning `compilePackage` adds are a front
without any container run or removal, followed, when the container was run,
by that run and then, exactly when the run handed back a container handle, by
one `RemoveContainer` on that handle's ID as the last event; this holds for
every answer of the run (success, non-zero exit code, error). -/
theorem C11_container_removed_exactly_once (env : Env) (s sf : State) (pkg : Ptr) (r : GoError)
    (h : compilePackage env s pkg = Except.ok (r, sf)) :
    ∃ front : List Event, (∀ ev ∈ front, ev.isRun = false ∧ ev.isRemoval = false) ∧
      (sf.events = s.events ++ front ∨
        ∃ (name image : String) (cmd : List String) (inPath outPath : String) (run : RunResult)
          (w : World),
          sf.events = s.events ++ front ++
            Event.RunInContainer pkg name image cmd inPath outPath run ::
              (match run.container with
                | some id => [Event.RemoveContainer id (env.RemoveContainer w id).1]
                | none => [])) := by
  have hst := stagePackage_evolves env (readyState env s pkg) pkg
  obtain ⟨_, _, stage, hstage, hstage2⟩ := hst
  have hfront : ∀ ev ∈ (env.heap pkg).Dependencies.map compiledProbe ++ stage,
      ev.isRun = false ∧ ev.isRemoval = false := by
    intro ev hev
    rcases List.mem_append.mp hev with hev | hev
    · obtain ⟨d, _, rfl⟩ := List.mem_map.mp hev
      exact ⟨rfl, rfl⟩
    · exact staging_not_run_or_removal ev (hstage2 ev hev)
  rcases compilePackage_cases env s sf pkg r h with ⟨_, probes, h1, h2⟩ | ⟨_, e, _, h2⟩ |
    ⟨_, _, h3⟩
  · exact ⟨probes, fun ev hev => probe_not_run_or_removal ev (h2 ev hev),
      Or.inl (by rw [h1]; rfl)⟩
  · rw [h2] at hstage
    refine ⟨_, hfront, Or.inl ?_⟩
    rw [hstage, ← List.append_assoc]; rfl
  · rw [runCompilation_result] at h3
    refine ⟨_, hfront, Or.inr ⟨getPackageContainerName env (stagedState env s pkg).c pkg,
      (stagedState env s pkg).c.DockerRepository ++ ":" ++
        BaseCompilationImageTag (stagedState env s pkg).c,
      ["bash", env.Join [ContainerInPath, "compile.sh"], (env.heap pkg).Name,
        (env.heap pkg).Version],
      getTargetPackageSourcesDir env (stagedState env s pkg).c pkg,
      getPackageCompiledDir env (stagedState env s pkg).c pkg,
      (buildResult env (stagedState env s pkg) pkg).1,
      (buildResult env (stagedState env s pkg) pkg).2, ?_⟩⟩
    have h4 := congrArg (fun x => x.2.events) h3
    simp only at h4
    rw [← h4]
    have h5 : (stagedState env s pkg).events =
        s.events ++ ((env.heap pkg).Dependencies.map compiledProbe ++ stage) := by
      unfold stagedState
      rw [hstage]
      simp only [readyState, State.addEvents, List.append_assoc]
      rfl
    rw [h5]
    unfold buildEvent
    cases (buildResult env (stagedState env s pkg) pkg).1.container <;> rfl

theorem C11_witness :
    ∃ front : List Event, (∀ ev ∈ front, ev.isRun = false ∧ ev.isRemoval = false) ∧
      ((runCompilation (exampleEnv (fun _ => 3) none)
          (stagedState (exampleEnv (fun _ => 3) none) (exampleState emptyWorld) 1) 1).2.events =
          (exampleState emptyWorld).events ++ front ∨
        ∃ (name image : String) (cmd : List String) (inPath outPath : String) (run : RunResult)
          (w : World),
          (runCompilation (exampleEnv (fun _ => 3) none)
            (stagedState (exampleEnv (fun _ => 3) none) (exampleState emptyWorld) 1) 1).2.events =
            (exampleState emptyWorld).events ++ front ++
              Event.RunInContainer 1 name image cmd inPath outPath run ::
                (match run.container with
                  | some id =>
                    [Event.RemoveContainer id
                      ((exampleEnv (fun _ => 3) none).RemoveContainer w id).1]
                  | none => [])) :=
  C11_container_removed_exactly_once (exampleEnv (fun _ => 3) none) (exampleState emptyWorld) _ 1
    (runCompilation (exampleEnv (fun _ => 3) none)
      (stagedState (exampleEnv (fun _ => 3) none) (exampleState emptyWorld) 1) 1).1 rfl

/-! ## The docker manager: binds and image lookup (C16, C17) -/

/-- The first call of `RunInContainer` creates the container, with the options
of lines 150-180. -/
theorem RunInContainer_creates (d : ImageManager) (containerName imageName : String)
    (cmd : List String) (inPath outPath : String) (keepContainer out err : Bool) :
    ∃ rest : List DockerCall,
      (d.RunInContainer containerName imageName cmd inPath outPath keepContainer out err).2 =
        DockerCall.CreateContainer (createContainerOptions d containerName imageName
          (if keepContainer then ["sleep", "365d"] else cmd) inPath outPath) :: rest := by
  unfold ImageManager.RunInContainer
  simp only
  split
  · exact ⟨_, rfl⟩
  · split
    · exact ⟨_, rfl⟩
    · split
      · exact ⟨_, rfl⟩
      · split
        · split <;> exact ⟨_, rfl⟩
        · unfold execInContainer
          simp only
          repeat' split
          all_goals exact ⟨_, rfl⟩

theorem outBind_not_readOnly (outPath : String) :
    ¬ readOnlyBind (outPath ++ ":" ++ ContainerOutPath) := by
  intro h
  have h1 : (":" ++ ContainerOutPath).data <:+ (outPath ++ ":" ++ ContainerOutPath).data := by
    refine ⟨outPath.data, ?_⟩
    simp [String.data_append]
  have h2 := List.suffix_of_suffix_length_le h h1 (by decide)
  revert h2
  decide

theorem inBind_readOnly (inPath : String) :
    readOnlyBind (inPath ++ ":" ++ ContainerInPath ++ ":ro") :=
  ⟨(inPath ++ ":" ++ ContainerInPath).data, by simp [String.data_append]⟩

theorem inBind_eq (inPath : String) :
    inPath ++ ":" ++ ContainerInPath ++ ":ro" = inPath ++ ":/fissile-in:ro" := by
  apply String.ext
  simp [String.data_append, ContainerInPath]

theorem outBind_eq (outPath : String) :
    outPath ++ ":" ++ ContainerOutPath = outPath ++ ":/fissile-out" := by
  apply String.ext
  simp [String.data_append, ContainerOutPath]

/-- C16: for all `inPath` and `outPath`, in both modes, the container that
`RunInContainer` creates has as bind mounts exactly `<inPath>:/fissile-in:ro`
if `inPath` is non-empty, followed by `<outPath>:/fissile-out` if `outPath` is
non-empty; the list has at most two entries, and a bind of the list ends in
`:ro` exactly when it is the input bind. -/
theorem C16_bind_mounts (d : ImageManager) (containerName imageName : String)
    (cmd : List String) (inPath outPath : String) (keepContainer out err : Bool) :
    ∃ (opts : CreateContainerOptions) (rest : List DockerCall),
      (d.RunInContainer containerName imageName cmd inPath outPath keepContainer out err).2 =
        DockerCall.CreateContainer opts :: rest ∧
      opts.HostConfig.Binds =
        (if inPath ≠ "" then [inPath ++ ":/fissile-in:ro"] else []) ++
          (if outPath ≠ "" then [outPath ++ ":/fissile-out"] else []) ∧
      opts.HostConfig.Binds.length ≤ 2 ∧
      ∀ b ∈ opts.HostConfig.Binds,
        readOnlyBind b ↔ (inPath ≠ "" ∧ b = inPath ++ ":/fissile-in:ro") := by
  obtain ⟨rest, h⟩ := RunInContainer_creates d containerName imageName cmd inPath outPath
    keepContainer out err
  refine ⟨_, rest, h, ?_, ?_, ?_⟩
  · show containerBinds inPath outPath = _
    unfold containerBinds
    rw [inBind_eq, outBind_eq]
  · show (containerBinds inPath outPath).length ≤ 2
    unfold containerBinds
    split <;> split <;> simp
  · show ∀ b ∈ containerBinds inPath outPath, _
    intro b hb
    unfold containerBinds at hb
    rcases List.mem_append.mp hb with hb | hb
    · split at hb
      · next hin =>
        have hb2 := List.mem_singleton.mp hb
        subst hb2
        exact ⟨fun _ => ⟨hin, inBind_eq inPath⟩, fun _ => inBind_readOnly inPath⟩
      · cases hb
    · split at hb
      · have hb2 := List.mem_singleton.mp hb
        subst hb2
        constructor
        · intro h1
          exact absurd h1 (outBind_not_readOnly outPath)
        · intro h1
          rw [h1.2, ← inBind_eq]
          exact inBind_readOnly inPath
      · cases hb

/-- C17: `FindImage` returns `(nil, ErrImageNotFound)` exactly when the
client's lookup answers the sentinel `ErrNoSuchImage`; for any other lookup
error it returns nil and an error made on the spot, hence different from
`ErrImageNotFound`, whose text names the image; and when the lookup has no
error it returns the client's image with a nil error. -/
theorem C17_find_image_absence_vs_failure (d : ImageManager) (imageName : String) :
    (d.FindImage imageName = (none, some ErrorValue.ErrImageNotFound) ↔
      (d.client.InspectImage imageName).2 = some ErrorValue.ErrNoSuchImage) ∧
    (∀ e, (d.client.InspectImage imageName).2 = some e → e ≠ ErrorValue.ErrNoSuchImage →
      ∃ text, d.FindImage imageName = (none, some (ErrorValue.made text)) ∧
        ErrorValue.made text ≠ ErrorValue.ErrImageNotFound ∧ Mentions text imageName ∧
        Mentions text e.Error) ∧
    (∀ image, d.client.InspectImage imageName = (image, none) →
      d.FindImage imageName = (image, none)) := by
  unfold ImageManager.FindImage
  rcases hI : d.client.InspectImage imageName with ⟨image, err⟩
  refine ⟨?_, ?_, ?_⟩
  · simp only
    split
    · next h => simp [h]
    · next h =>
      cases err with
      | none => simp
      | some e => simp [h]
  · intro e he hne
    simp only at he
    subst he
    refine ⟨"Error looking up image " ++ imageName ++ ": " ++ e.Error, ?_, ?_, ?_, ?_⟩
    · simp [hne]
    · intro h; cases h
    · exact ⟨"Error looking up image ".data, (": " ++ e.Error).data, by simp [String.data_append]⟩
    · exact Mentions.mentions_last _ _
  · intro image2 h
    cases h
    simp

theorem C17_witness :
    (exampleManager 0 none none).FindImage "repo:rel-7-cbase" =
      (none, some ErrorValue.ErrImageNotFound) :=
  (C17_find_image_absence_vs_failure (exampleManager 0 none none) "repo:rel-7-cbase").1.mpr rfl

/-! ## The docker manager: running a container (C12, C13, C14, C15) -/

theorem RunInContainer_create_failed (d : ImageManager) (containerName imageName : String)
    (cmd : List String) (inPath outPath : String) (keepContainer out err : Bool) (e : String)
    (h : d.client.CreateContainer (createContainerOptions d containerName imageName
      (if keepContainer then ["sleep", "365d"] else cmd) inPath outPath) = Except.error e) :
    d.RunInContainer containerName imageName cmd inPath outPath keepContainer out err =
      (Outcome.returned (-1) none (some e),
        [DockerCall.CreateContainer (createContainerOptions d containerName imageName
          (if keepContainer then ["sleep", "365d"] else cmd) inPath outPath)]) := by
  unfold ImageManager.RunInContainer
  simp only [h]

theorem RunInContainer_start_failed (d : ImageManager) (containerName imageName : String)
    (cmd : List String) (inPath outPath : String) (keepContainer out err : Bool) (c : Container)
    (e : String)
    (h : d.client.CreateContainer (createContainerOptions d containerName imageName
      (if keepContainer then ["sleep", "365d"] else cmd) inPath outPath) = Except.ok c)
    (ha : d.client.AttachToContainer c.ID = true)
    (hs : d.client.StartContainer c.ID = some e) :
    d.RunInContainer containerName imageName cmd inPath outPath keepContainer out err =
      (Outcome.returned (-1) (some c) (some e),
        [DockerCall.CreateContainer (createContainerOptions d containerName imageName
          (if keepContainer then ["sleep", "365d"] else cmd) inPath outPath),
          DockerCall.AttachToContainer c.ID out err, DockerCall.StartContainer c.ID]) := by
  unfold ImageManager.RunInContainer
  simp only [h, ha, hs]
  rfl

theorem RunInContainer_ephemeral (d : ImageManager) (containerName imageName : String)
    (cmd : List String) (inPath outPath : String) (out err : Bool) (c : Container)
    (h : d.client.CreateContainer (createContainerOptions d containerName imageName
      cmd inPath outPath) = Except.ok c)
    (ha : d.client.AttachToContainer c.ID = true)
    (hs : d.client.StartContainer c.ID = none) :
    d.RunInContainer containerName imageName cmd inPath outPath false out err =
      ((match d.client.WaitContainer c.ID with
        | (_, some e) => Outcome.returned (-1) (some c) (some e)
        | (exitCode, none) => Outcome.returned exitCode (some c) none),
        [DockerCall.CreateContainer (createContainerOptions d containerName imageName
          cmd inPath outPath),
          DockerCall.AttachToContainer c.ID out err, DockerCall.StartContainer c.ID,
          DockerCall.WaitContainer c.ID]) := by
  unfold ImageManager.RunInContainer
  have h2 : d.client.CreateContainer (createContainerOptions d containerName imageName
      (if false = true then ["sleep", "365d"] else cmd) inPath outPath) = Except.ok c := h
  simp only [h2, ha, hs]
  rcases d.client.WaitContainer c.ID with ⟨code, _ | e⟩ <;> rfl

theorem RunInContainer_keepAlive (d : ImageManager) (containerName imageName : String)
    (cmd : List String) (inPath outPath : String) (out err : Bool) (c : Container)
    (h : d.client.CreateContainer (createContainerOptions d containerName imageName
      ["sleep", "365d"] inPath outPath) = Except.ok c)
    (ha : d.client.AttachToContainer c.ID = true)
    (hs : d.client.StartContainer c.ID = none) :
    d.RunInContainer containerName imageName cmd inPath outPath true out err =
      execInContainer d c cmd out err
        [DockerCall.CreateContainer (createContainerOptions d containerName imageName
          ["sleep", "365d"] inPath outPath),
          DockerCall.AttachToContainer c.ID out err, DockerCall.StartContainer c.ID] := by
  unfold ImageManager.RunInContainer
  simp only [↓reduceIte, h, ha, hs, Bool.not_true, Bool.false_eq_true]

/-- C13: in ephemeral mode the container is created with `cmd` as its
command; when creation fails the result is `(-1, nil, err)`; when creation and
attach succeed, a failing start gives `(-1, container, err)`, a failing wait
gives `(-1, container, err)`, and a successful wait gives the exit code the
container reported, the container and a nil error. -/
theorem C13_ephemeral_results (d : ImageManager) (containerName imageName : String)
    (cmd : List String) (inPath outPath : String) (out err : Bool) :
    (∃ rest : List DockerCall,
      (d.RunInContainer containerName imageName cmd inPath outPath false out err).2 =
        DockerCall.CreateContainer
          (createContainerOptions d containerName imageName cmd inPath outPath) :: rest) ∧
    (createContainerOptions d containerName imageName cmd inPath outPath).Config.Cmd = cmd ∧
    (∀ e, d.client.CreateContainer
        (createContainerOptions d containerName imageName cmd inPath outPath) = Except.error e →
      (d.RunInContainer containerName imageName cmd inPath outPath false out err).1 =
        Outcome.returned (-1) none (some e)) ∧
    (∀ c, d.client.CreateContainer
        (createContainerOptions d containerName imageName cmd inPath outPath) = Except.ok c →
      d.client.AttachToContainer c.ID = true →
      (∀ e, d.client.StartContainer c.ID = some e →
        (d.RunInContainer containerName imageName cmd inPath outPath false out err).1 =
          Outcome.returned (-1) (some c) (some e)) ∧
      (d.client.StartContainer c.ID = none →
        (∀ code e, d.client.WaitContainer c.ID = (code, some e) →
          (d.RunInContainer containerName imageName cmd inPath outPath false out err).1 =
            Outcome.returned (-1) (some c) (some e)) ∧
        (∀ code, d.client.WaitContainer c.ID = (code, none) →
          (d.RunInContainer containerName imageName cmd inPath outPath false out err).1 =
            Outcome.returned code (some c) none))) := by
  refine ⟨RunInContainer_creates d containerName imageName cmd inPath outPath false out err,
    rfl, ?_, ?_⟩
  · intro e he
    rw [RunInContainer_create_failed d containerName imageName cmd inPath outPath false out err
      e he]
  · intro c hc ha
    refine ⟨?_, ?_⟩
    · intro e hs
      rw [RunInContainer_start_failed d containerName imageName cmd inPath outPath false out err
        c e hc ha hs]
    · intro hs
      rw [RunInContainer_ephemeral d containerName imageName cmd inPath outPath out err c hc ha
        hs]
      refine ⟨?_, ?_⟩
      · intro code e hw
        rw [hw]
      · intro code hw
        rw [hw]

theorem C13_witness :
    ((exampleManager 7 none none).RunInContainer "c" "img" ["make"] "/in" "/out" false
      true true).1 = Outcome.returned 7 (some { ID := "box" }) none :=
  ((((C13_ephemeral_results (exampleManager 7 none none) "c" "img" ["make"] "/in" "/out"
    true true).2.2.2 { ID := "box" } rfl rfl).2 rfl).2 7 rfl)

theorem C12_counterexample :
    (exampleManager 0 none none).RunInContainer "c" "img" ["true"] "" "" false false false =
      (Outcome.returned 0 (some { ID := "box" }) none,
        [DockerCall.CreateContainer
          (createContainerOptions (exampleManager 0 none none) "c" "img" ["true"] "" ""),
          DockerCall.AttachToContainer "box" false false, DockerCall.StartContainer "box",
          DockerCall.WaitContainer "box"]) ∧
    ∀ id force, DockerCall.RemoveContainer id force ∉
      ((exampleManager 0 none none).RunInContainer "c" "img" ["true"] "" "" false
        false false).2 := by
  refine ⟨rfl, ?_⟩
  intro id force h
  have h2 : DockerCall.RemoveContainer id force ∈
      [DockerCall.CreateContainer
          (createContainerOptions (exampleManager 0 none none) "c" "img" ["true"] "" ""),
          DockerCall.AttachToContainer "box" false false, DockerCall.StartContainer "box",
          DockerCall.WaitContainer "box"] := h
  simp at h2

/-- Ephemeral mode: no kill and no removal is called, and a nil error comes
with the exit code that `WaitContainer`, the last call, reported. -/
theorem RunInContainer_ephemeral_spec (d : ImageManager)
    (containerName imageName : String) (cmd : List String) (inPath outPath : String)
    (out err : Bool) :
    (∀ call ∈ (d.RunInContainer containerName imageName cmd inPath outPath false out err).2,
      call.isRemoval = false ∧ call.isKill = false) ∧
    (∀ code handle,
      (d.RunInContainer containerName imageName cmd inPath outPath false out err).1 =
        Outcome.returned code handle none →
      ∃ c front, handle = some c ∧ d.client.WaitContainer c.ID = (code, none) ∧
        (d.RunInContainer containerName imageName cmd inPath outPath false out err).2 =
          front ++ [DockerCall.WaitContainer c.ID]) := by
  cases hc : d.client.CreateContainer
      (createContainerOptions d containerName imageName cmd inPath outPath) with
  | error e =>
    rw [RunInContainer_create_failed d containerName imageName cmd inPath outPath false out err
      e hc]
    refine ⟨?_, ?_⟩
    · intro call hcall
      have := List.mem_singleton.mp hcall
      subst this
      exact ⟨rfl, rfl⟩
    · intro code handle h
      cases h
  | ok c =>
    cases ha : d.client.AttachToContainer c.ID with
    | false =>
      have h0 : d.RunInContainer containerName imageName cmd inPath outPath false out err =
          (Outcome.blocked,
            [DockerCall.CreateContainer
              (createContainerOptions d containerName imageName cmd inPath outPath),
              DockerCall.AttachToContainer c.ID out err]) := by
        unfold ImageManager.RunInContainer
        have h2 : d.client.CreateContainer (createContainerOptions d containerName imageName
          (if false = true then ["sleep", "365d"] else cmd) inPath outPath) = Except.ok c := hc
        simp only [h2, ha]
        rfl
      rw [h0]
      refine ⟨?_, ?_⟩
      · intro call hcall
        simp only [List.mem_cons, List.mem_singleton, List.not_mem_nil, or_false] at hcall
        rcases hcall with rfl | rfl <;> exact ⟨rfl, rfl⟩
      · intro code handle h
        cases h
    | true =>
      cases hs : d.client.StartContainer c.ID with
      | some e =>
        rw [RunInContainer_start_failed d containerName imageName cmd inPath outPath false out
          err c e hc ha hs]
        refine ⟨?_, ?_⟩
        · intro call hcall
          simp only [List.mem_cons, List.mem_singleton, List.not_mem_nil, or_false] at hcall
          rcases hcall with rfl | rfl | rfl <;> exact ⟨rfl, rfl⟩
        · intro code handle h
          cases h
      | none =>
        rw [RunInContainer_ephemeral d containerName imageName cmd inPath outPath out err c hc
          ha hs]
        refine ⟨?_, ?_⟩
        · intro call hcall
          simp only [List.mem_cons, List.mem_singleton, List.not_mem_nil, or_false] at hcall
          rcases hcall with rfl | rfl | rfl | rfl <;> exact ⟨rfl, rfl⟩
        · intro code handle h
          rcases hw : d.client.WaitContainer c.ID with ⟨code2, _ | e⟩
          · rw [hw] at h
            simp only [Outcome.returned.injEq] at h
            obtain ⟨h1, h2, _⟩ := h
            subst h1
            exact ⟨c, [DockerCall.CreateContainer
                (createContainerOptions d containerName imageName cmd inPath outPath),
              DockerCall.AttachToContainer c.ID out err, DockerCall.StartContainer c.ID],
              h2.symm, hw, rfl⟩
          · rw [hw] at h
            simp at h

/-- C12 (amended): in ephemeral mode `RunInContainer` makes no
`RemoveContainer` and no `KillContainer` call on any path, so the container
is left to the caller; and whenever it returns a nil error it has waited for
the container (`WaitContainer` is its last call) and the exit code it returns
is the one the wait reported, returned together with the handle. -/
theorem C12_ephemeral_waits_and_leaves_removal_to_caller (d : ImageManager)
    (containerName imageName : String) (cmd : List String) (inPath outPath : String)
    (out err : Bool) :
    (∀ call ∈ (d.RunInContainer containerName imageName cmd inPath outPath false out err).2,
      call.isRemoval = false ∧ call.isKill = false) ∧
    (∀ code handle,
      (d.RunInContainer containerName imageName cmd inPath outPath false out err).1 =
        Outcome.returned code handle none →
      ∃ c front, handle = some c ∧ d.client.WaitContainer c.ID = (code, none) ∧
        (d.RunInContainer containerName imageName cmd inPath outPath false out err).2 =
          front ++ [DockerCall.WaitContainer c.ID]) :=
  RunInContainer_ephemeral_spec d containerName imageName cmd inPath outPath out err

theorem C12_witness :
    ∃ c front, some ({ ID := "box" } : Container) = some c ∧
      (exampleManager 0 none none).client.WaitContainer c.ID = (0, none) ∧
      ((exampleManager 0 none none).RunInContainer "c" "img" ["true"] "" "" false
        false false).2 = front ++ [DockerCall.WaitContainer c.ID] :=
  (C12_ephemeral_waits_and_leaves_removal_to_caller (exampleManager 0 none none) "c" "img"
    ["true"] "" "" false false).2 0 (some { ID := "box" }) rfl

theorem execInContainer_failed (d : ImageManager) (c : Container) (cmd : List String)
    (out err : Bool) (calls : List DockerCall) (e : String)
    (h : execFailure d (["exec", "-i", c.ID] ++ cmd) out err = some e) :
    ∃ extra : List DockerCall,
      execInContainer d c cmd out err calls =
        (Outcome.returned (-1) (some c) (some e), calls ++ extra) ∧
      extra <+: [DockerCall.ExecStart "docker" (["exec", "-i", c.ID] ++ cmd),
        DockerCall.ExecWait "docker" (["exec", "-i", c.ID] ++ cmd)] := by
  unfold execFailure at h
  unfold execInContainer
  simp only
  split at h
  · next e1 h1 =>
    cases h
    exact ⟨[], by simp, List.nil_prefix⟩
  · next h1 =>
    split at h
    · next e2 h2 =>
      cases h
      exact ⟨[], by simp, List.nil_prefix⟩
    · next h2 =>
      split at h
      · next e3 h3 =>
        cases h
        exact ⟨[], by simp, List.nil_prefix⟩
      · next h3 =>
        split at h
        · next e4 h4 =>
          cases h
          exact ⟨[DockerCall.ExecStart "docker" (["exec", "-i", c.ID] ++ cmd)], rfl,
            ⟨[DockerCall.ExecWait "docker" (["exec", "-i", c.ID] ++ cmd)], rfl⟩⟩
        · next h4 =>
          rw [h]
          exact ⟨_, rfl, List.prefix_refl _⟩

theorem execInContainer_done (d : ImageManager) (c : Container) (cmd : List String)
    (out err : Bool) (calls : List DockerCall)
    (h : execFailure d (["exec", "-i", c.ID] ++ cmd) out err = none) :
    execInContainer d c cmd out err calls =
      match d.client.KillContainer c.ID with
      | some e =>
        (Outcome.returned (-1) (some c) (some e),
          calls ++ [DockerCall.ExecStart "docker" (["exec", "-i", c.ID] ++ cmd),
            DockerCall.ExecWait "docker" (["exec", "-i", c.ID] ++ cmd),
            DockerCall.KillContainer c.ID])
      | none =>
        (Outcome.returned 0 (some c) none,
          calls ++ [DockerCall.ExecStart "docker" (["exec", "-i", c.ID] ++ cmd),
            DockerCall.ExecWait "docker" (["exec", "-i", c.ID] ++ cmd),
            DockerCall.KillContainer c.ID, DockerCall.RemoveContainer c.ID true] ++
            match d.client.RemoveContainer c.ID true with
            | some e =>
              [DockerCall.Stderr
                ("fissile: unexpected condition: client.RemoveContainer failed, err:" ++
                  e ++ "\n")]
            | none => []) := by
  unfold execFailure at h
  unfold execInContainer
  simp only
  split at h
  · cases h
  · next h1 =>
    split at h
    · cases h
    · next h2 =>
      split at h
      · cases h
      · next h3 =>
        split at h
        · cases h
        · next h4 =>
          rw [h]
          simp only
          cases d.client.KillContainer c.ID with
          | some e => rfl
          | none =>
            simp only [ImageManager.RemoveContainer]
            cases d.client.RemoveContainer c.ID true with
            | some e => simp
            | none => simp

theorem RunInContainer_blocked (d : ImageManager) (containerName imageName : String)
    (cmd : List String) (inPath outPath : String) (keepContainer out err : Bool) (c : Container)
    (h : d.client.CreateContainer (createContainerOptions d containerName imageName
      (if keepContainer then ["sleep", "365d"] else cmd) inPath outPath) = Except.ok c)
    (ha : d.client.AttachToContainer c.ID = false) :
    d.RunInContainer containerName imageName cmd inPath outPath keepContainer out err =
      (Outcome.blocked,
        [DockerCall.CreateContainer (createContainerOptions d containerName imageName
          (if keepContainer then ["sleep", "365d"] else cmd) inPath outPath),
          DockerCall.AttachToContainer c.ID out err]) := by
  unfold ImageManager.RunInContainer
  simp only [h, ha]
  rfl

/-- Keep-alive mode after a successful start: if a step of the child process
fails, that error is returned and nothing is killed or removed; otherwise the
container is killed and, if the kill worked, removed. -/
theorem execInContainer_spec (d : ImageManager) (c : Container) (cmd : List String)
    (out err : Bool) (calls : List DockerCall)
    (hcalls : ∀ call ∈ calls, call.isKill = false ∧ call.isRemoval = false ∧
      ∀ name args, call ≠ DockerCall.ExecStart name args) :
    (∀ name args, DockerCall.ExecStart name args ∈ (execInContainer d c cmd out err calls).2 →
      name = "docker" ∧ args = ["exec", "-i", c.ID] ++ cmd) ∧
    (∀ e, execFailure d (["exec", "-i", c.ID] ++ cmd) out err = some e →
      (execInContainer d c cmd out err calls).1 = Outcome.returned (-1) (some c) (some e) ∧
      ∀ call ∈ (execInContainer d c cmd out err calls).2,
        call.isKill = false ∧ call.isRemoval = false) ∧
    (execFailure d (["exec", "-i", c.ID] ++ cmd) out err = none →
      DockerCall.ExecStart "docker" (["exec", "-i", c.ID] ++ cmd) ∈
        (execInContainer d c cmd out err calls).2 ∧
      DockerCall.KillContainer c.ID ∈ (execInContainer d c cmd out err calls).2 ∧
      (∀ e, d.client.KillContainer c.ID = some e →
        (execInContainer d c cmd out err calls).1 = Outcome.returned (-1) (some c) (some e) ∧
        ∀ call ∈ (execInContainer d c cmd out err calls).2, call.isRemoval = false) ∧
      (d.client.KillContainer c.ID = none →
        DockerCall.RemoveContainer c.ID true ∈ (execInContainer d c cmd out err calls).2 ∧
        (execInContainer d c cmd out err calls).1 = Outcome.returned 0 (some c) none)) := by
  cases hf : execFailure d (["exec", "-i", c.ID] ++ cmd) out err with
  | some e0 =>
    obtain ⟨extra, h1, h2⟩ := execInContainer_failed d c cmd out err calls e0 hf
    rw [h1]
    refine ⟨?_, ?_, ?_⟩
    · intro name args hmem
      rcases List.mem_append.mp hmem with hmem | hmem
      · exact absurd rfl ((hcalls _ hmem).2.2 name args)
      · have h3 := h2.subset hmem
        simp only [List.mem_cons, List.mem_singleton, List.not_mem_nil, or_false] at h3
        rcases h3 with h3 | h3
        · cases h3
          exact ⟨rfl, rfl⟩
        · cases h3
    · intro e he
      cases he
      refine ⟨rfl, ?_⟩
      intro call hmem
      rcases List.mem_append.mp hmem with hmem | hmem
      · exact ⟨(hcalls _ hmem).1, (hcalls _ hmem).2.1⟩
      · have h3 := h2.subset hmem
        simp only [List.mem_cons, List.mem_singleton, List.not_mem_nil, or_false] at h3
        rcases h3 with rfl | rfl <;> exact ⟨rfl, rfl⟩
    · intro h
      cases h
  | none =>
    rw [execInContainer_done d c cmd out err calls hf]
    refine ⟨?_, ?_, ?_⟩
    · intro name args hmem
      cases hk : d.client.KillContainer c.ID with
      | some e =>
        rw [hk] at hmem
        rcases List.mem_append.mp hmem with hmem | hmem
        · exact absurd rfl ((hcalls _ hmem).2.2 name args)
        · simp only [List.mem_cons, List.mem_singleton, List.not_mem_nil, or_false] at hmem
          rcases hmem with h3 | h3 | h3
          · cases h3
            exact ⟨rfl, rfl⟩
          · cases h3
          · cases h3
      | none =>
        rw [hk] at hmem
        rcases List.mem_append.mp hmem with hmem | hmem
        · rcases List.mem_append.mp hmem with hmem | hmem
          · exact absurd rfl ((hcalls _ hmem).2.2 name args)
          · simp only [List.mem_cons, List.mem_singleton, List.not_mem_nil, or_false] at hmem
            rcases hmem with h3 | h3 | h3 | h3
            · cases h3
              exact ⟨rfl, rfl⟩
            · cases h3
            · cases h3
            · cases h3
        · cases hr : d.client.RemoveContainer c.ID true with
          | some e =>
            rw [hr] at hmem
            have h3 := List.mem_singleton.mp hmem
            cases h3
          | none =>
            rw [hr] at hmem
            cases hmem
    · intro e he
      cases he
    · intro _
      cases hk : d.client.KillContainer c.ID with
      | some e =>
        refine ⟨by simp, by simp, ?_, ?_⟩
        · intro e2 he2
          cases he2
          refine ⟨rfl, ?_⟩
          intro call hmem
          rcases List.mem_append.mp hmem with hmem | hmem
          · exact (hcalls _ hmem).2.1
          · simp only [List.mem_cons, List.mem_singleton, List.not_mem_nil, or_false] at hmem
            rcases hmem with rfl | rfl | rfl <;> rfl
        · intro h
          cases h
      | none =>
        refine ⟨by simp, by simp, ?_, ?_⟩
        · intro e2 he2
          cases he2
        · intro _
          exact ⟨by simp, rfl⟩

theorem C14_counterexample :
    (exampleManager 0 (some "cannot kill") none).RunInContainer "c" "img" ["make"] "" "" true
        false false =
      (Outcome.returned (-1) (some { ID := "box" }) (some "cannot kill"),
        [DockerCall.CreateContainer
          (createContainerOptions (exampleManager 0 (some "cannot kill") none) "c" "img"
            ["sleep", "365d"] "" ""),
          DockerCall.AttachToContainer "box" false false, DockerCall.StartContainer "box",
          DockerCall.ExecStart "docker" ["exec", "-i", "box", "make"],
          DockerCall.ExecWait "docker" ["exec", "-i", "box", "make"],
          DockerCall.KillContainer "box"]) ∧
    execFailure (exampleManager 0 (some "cannot kill") none) ["exec", "-i", "box", "make"]
      false false = none :=
  ⟨rfl, rfl⟩

/-- C14 (amended): in keep-alive mode the container is created with the
command `["sleep", "365d"]`; once it is started, the only child process
started is `docker exec -i <containerID> <cmd...>`; if a step of that process
fails, the failure is returned as `(-1, container, err)` and the container is
neither killed nor removed; if the process completes, the container is
killed, and then either the kill fails and the result is
`(-1, container, err)` without any removal, or the kill works, the container
is removed with `RemoveContainer` and the result is exit code 0 with a nil
error. -/
theorem C14_keep_alive_exec (d : ImageManager) (containerName imageName : String)
    (cmd : List String) (inPath outPath : String) (out err : Bool) :
    (∃ rest : List DockerCall,
      (d.RunInContainer containerName imageName cmd inPath outPath true out err).2 =
        DockerCall.CreateContainer (createContainerOptions d containerName imageName
          ["sleep", "365d"] inPath outPath) :: rest) ∧
    (createContainerOptions d containerName imageName ["sleep", "365d"] inPath
      outPath).Config.Cmd = ["sleep", "365d"] ∧
    (∀ c, d.client.CreateContainer (createContainerOptions d containerName imageName
        ["sleep", "365d"] inPath outPath) = Except.ok c →
      d.client.AttachToContainer c.ID = true → d.client.StartContainer c.ID = none →
      (∀ name args, DockerCall.ExecStart name args ∈
          (d.RunInContainer containerName imageName cmd inPath outPath true out err).2 →
        name = "docker" ∧ args = ["exec", "-i", c.ID] ++ cmd) ∧
      (∀ e, execFailure d (["exec", "-i", c.ID] ++ cmd) out err = some e →
        (d.RunInContainer containerName imageName cmd inPath outPath true out err).1 =
          Outcome.returned (-1) (some c) (some e) ∧
        ∀ call ∈ (d.RunInContainer containerName imageName cmd inPath outPath true out err).2,
          call.isKill = false ∧ call.isRemoval = false) ∧
      (execFailure d (["exec", "-i", c.ID] ++ cmd) out err = none →
        DockerCall.ExecStart "docker" (["exec", "-i", c.ID] ++ cmd) ∈
          (d.RunInContainer containerName imageName cmd inPath outPath true out err).2 ∧
        DockerCall.KillContainer c.ID ∈
          (d.RunInContainer containerName imageName cmd inPath outPath true out err).2 ∧
        (∀ e, d.client.KillContainer c.ID = some e →
          (d.RunInContainer containerName imageName cmd inPath outPath true out err).1 =
            Outcome.returned (-1) (some c) (some e) ∧
          ∀ call ∈
              (d.RunInContainer containerName imageName cmd inPath outPath true out err).2,
            call.isRemoval = false) ∧
        (d.client.KillContainer c.ID = none →
          DockerCall.RemoveContainer c.ID true ∈
            (d.RunInContainer containerName imageName cmd inPath outPath true out err).2 ∧
          (d.RunInContainer containerName imageName cmd inPath outPath true out err).1 =
            Outcome.returned 0 (some c) none))) := by
  refine ⟨RunInContainer_creates d containerName imageName cmd inPath outPath true out err,
    rfl, ?_⟩
  intro c hc ha hs
  rw [RunInContainer_keepAlive d containerName imageName cmd inPath outPath out err c hc ha hs]
  apply execInContainer_spec
  intro call hmem
  simp only [List.mem_cons, List.mem_singleton, List.not_mem_nil, or_false] at hmem
  rcases hmem with rfl | rfl | rfl <;> refine ⟨rfl, rfl, ?_⟩ <;> intro name args h <;> cases h

theorem C14_witness :
    DockerCall.RemoveContainer "box" true ∈
        ((exampleManager 0 none none).RunInContainer "c" "img" ["make"] "/in" "/out" true
          true true).2 ∧
      ((exampleManager 0 none none).RunInContainer "c" "img" ["make"] "/in" "/out" true
        true true).1 = Outcome.returned 0 (some { ID := "box" }) none :=
  ((((C14_keep_alive_exec (exampleManager 0 none none) "c" "img" ["make"] "/in" "/out"
    true true).2.2 { ID := "box" } rfl rfl rfl).2.2 rfl).2.2.2 rfl)

theorem C15_counterexample :
    (exampleManager 0 none (some "device busy")).RunInContainer "c" "img" ["make"] "" "" true
        false false =
      (Outcome.returned 0 (some { ID := "box" }) none,
        [DockerCall.CreateContainer
          (createContainerOptions (exampleManager 0 none (some "device busy")) "c" "img"
            ["sleep", "365d"] "" ""),
          DockerCall.AttachToContainer "box" false false, DockerCall.StartContainer "box",
          DockerCall.ExecStart "docker" ["exec", "-i", "box", "make"],
          DockerCall.ExecWait "docker" ["exec", "-i", "box", "make"],
          DockerCall.KillContainer "box", DockerCall.RemoveContainer "box" true,
          DockerCall.Stderr
            "fissile: unexpected condition: client.RemoveContainer failed, err:device busy\n"]) ∧
    (exampleManager 0 none (some "device busy")).RemoveContainer "box" = some "device busy" :=
  ⟨rfl, rfl⟩

/-- C15 (amended): `RunInContainer` calls `RemoveContainer` only in keep-alive
mode, with `Force`, on the container it created, after the child process and
the kill succeeded; whatever that removal answers, the result is exit code 0,
the container and a nil error, and when the removal fails with `e` the
failure is written to standard error instead of being returned. -/
theorem C15_removal_error_goes_to_stderr (d : ImageManager)
    (containerName imageName : String) (cmd : List String) (inPath outPath : String)
    (keepContainer out err : Bool) (id : String) (force : Bool)
    (h : DockerCall.RemoveContainer id force ∈
      (d.RunInContainer containerName imageName cmd inPath outPath keepContainer out err).2) :
    keepContainer = true ∧ force = true ∧
    (∃ c, c.ID = id ∧
      (d.RunInContainer containerName imageName cmd inPath outPath keepContainer out err).1 =
        Outcome.returned 0 (some c) none) ∧
    ∀ e, d.RemoveContainer id = some e →
      DockerCall.Stderr
        ("fissile: unexpected condition: client.RemoveContainer failed, err:" ++ e ++ "\n") ∈
        (d.RunInContainer containerName imageName cmd inPath outPath keepContainer out err).2 := by
  cases keepContainer with
  | false =>
    have h2 := (RunInContainer_ephemeral_spec d containerName imageName cmd inPath outPath out
      err).1 _ h
    cases h2.1
  | true =>
    revert h
    cases hc : d.client.CreateContainer
        (createContainerOptions d containerName imageName ["sleep", "365d"] inPath outPath) with
    | error e0 =>
      rw [RunInContainer_create_failed d containerName imageName cmd inPath outPath true out err
        e0 hc]
      intro h
      simp at h
    | ok c =>
      cases ha : d.client.AttachToContainer c.ID with
      | false =>
        rw [RunInContainer_blocked d containerName imageName cmd inPath outPath true out err
          c hc ha]
        intro h
        simp at h
      | true =>
        cases hs : d.client.StartContainer c.ID with
        | some e0 =>
          rw [RunInContainer_start_failed d containerName imageName cmd inPath outPath true out
            err c e0 hc ha hs]
          intro h
          simp at h
        | none =>
          rw [RunInContainer_keepAlive d containerName imageName cmd inPath outPath out err c
            hc ha hs]
          cases hf : execFailure d (["exec", "-i", c.ID] ++ cmd) out err with
          | some e0 =>
            obtain ⟨extra, h1, h2⟩ := execInContainer_failed d c cmd out err
              [DockerCall.CreateContainer (createContainerOptions d containerName imageName
                ["sleep", "365d"] inPath outPath),
                DockerCall.AttachToContainer c.ID out err, DockerCall.StartContainer c.ID] e0 hf
            rw [h1]
            intro h
            rcases List.mem_append.mp h with h | h
            · simp at h
            · have h3 := h2.subset h
              simp at h3
          | none =>
            rw [execInContainer_done d c cmd out err _ hf]
            cases hk : d.client.KillContainer c.ID with
            | some e0 =>
              intro h
              simp at h
            | none =>
              intro h
              have hid : id = c.ID ∧ force = true := by
                cases hr : d.client.RemoveContainer c.ID true with
                | some e1 =>
                  rw [hr] at h
                  simp at h
                  exact h
                | none =>
                  rw [hr] at h
                  simp at h
                  exact h
              obtain ⟨rfl, rfl⟩ := hid
              refine ⟨rfl, rfl, ⟨c, rfl, rfl⟩, ?_⟩
              intro e he
              have he2 : d.client.RemoveContainer c.ID true = some e := he
              rw [he2]
              simp

theorem C15_witness :
    true = true ∧ true = true ∧
    (∃ c : Container, c.ID = "box" ∧
      ((exampleManager 0 none (some "device busy")).RunInContainer "c" "img" ["make"] "" ""
        true false false).1 = Outcome.returned 0 (some c) none) ∧
    ∀ e, (exampleManager 0 none (some "device busy")).RemoveContainer "box" = some e →
      DockerCall.Stderr
        ("fissile: unexpected condition: client.RemoveContainer failed, err:" ++ e ++ "\n") ∈
        ((exampleManager 0 none (some "device busy")).RunInContainer "c" "img" ["make"] "" ""
          true false false).2 :=
  C15_removal_error_goes_to_stderr (exampleManager 0 none (some "device busy")) "c" "img"
    ["make"] "" "" true false false "box" true (by decide)

/-! ## The compilation base image (C18, C19) -/

theorem removeBaseContainer_eq (env : BaseEnv) (d : Daemon) (container : Option String)
    (image : Option Image) (err : GoError) (events : List BaseEvent) :
    removeBaseContainer env d container image err events =
      (BaseOutcome.returned image
          (match container with
            | none => err
            | some id =>
              match (env.RemoveContainer d id).1 with
              | none => err
              | some removeErr =>
                match err with
                | none => some removeErr
                | some e =>
                  some ("Image creation error: " ++ e ++ ". Image removal error: " ++
                    removeErr ++ ".")),
        (match container with
          | none => d
          | some id => (env.RemoveContainer d id).2),
        events ++
          (match container with
            | none => []
            | some id => [BaseEvent.RemoveContainer id (env.RemoveContainer d id).1])) := by
  unfold removeBaseContainer
  cases container with
  | none => simp
  | some id =>
    simp only
    rcases h : env.RemoveContainer d id with ⟨_ | removeErr, d1⟩
    · rfl
    · rfl

/-- The error that the deferred removal leaves still mentions what the
pending error mentioned. -/
theorem removeBaseContainer_mentions (env : BaseEnv) (d : Daemon) (container : Option String)
    (image : Option Image) (e sub : String) (events : List BaseEvent) (h : Mentions e sub) :
    ∃ msg, (removeBaseContainer env d container image (some e) events).1 =
      BaseOutcome.returned image (some msg) ∧ Mentions msg sub := by
  rw [removeBaseContainer_eq]
  cases container with
  | none => exact ⟨e, rfl, h⟩
  | some id =>
    simp only
    cases (env.RemoveContainer d id).1 with
    | none => exact ⟨e, rfl, h⟩
    | some removeErr =>
      refine ⟨_, rfl, Mentions.mentions_trans ?_ h⟩
      exact ⟨"Image creation error: ".data, (". Image removal error: " ++ removeErr ++ ".").data,
        by simp [String.data_append]⟩

theorem removeBaseContainer_events (env : BaseEnv) (d : Daemon) (container : Option String)
    (image : Option Image) (err : GoError) (events : List BaseEvent) :
    ∃ extra : List BaseEvent,
      (removeBaseContainer env d container image err events).2.2 = events ++ extra ∧
      ∀ ev ∈ extra, ev.isBuild = false := by
  rw [removeBaseContainer_eq]
  refine ⟨_, rfl, ?_⟩
  intro ev hev
  cases container with
  | none => cases hev
  | some id =>
    have := List.mem_singleton.mp hev
    subst this
    rfl

theorem isCreateImage_of_not_isBuild (ev : BaseEvent) (h : ev.isBuild = false) :
    ev.isCreateImage = false := by
  cases ev <;> first | rfl | cases h

theorem buildBaseImage_image (env : BaseEnv) (c : Compilator) (d d1 : Daemon)
    (baseImageName tempScriptDir containerScriptPath : String) (events evs : List BaseEvent)
    (image : Image) (err : GoError)
    (h : buildBaseImage env c d baseImageName tempScriptDir containerScriptPath events =
      (BaseOutcome.returned (some image) err, d1, evs)) :
    ∃ d0 id d2, env.CreateImage d0 id c.DockerRepository (BaseCompilationImageTag c) "" [] =
      ((some image, none), d2) ∧ d1 = (env.RemoveContainer d2 id).2 := by
  rcases hrun : env.RunInContainer d (BaseCompilationContainerName c) baseImageName
    ["bash", "-c", containerScriptPath] tempScriptDir "" with ⟨r, dR⟩
  unfold buildBaseImage at h
  simp only [hrun] at h
  cases he : r.err with
  | some e =>
    simp [he, removeBaseContainer_eq] at h
  | none =>
    simp only [he] at h
    by_cases hx : r.exitCode = 0
    · simp only [hx, ne_eq, not_true_eq_false, if_false] at h
      cases hcont : r.container with
      | none =>
        simp [hcont] at h
      | some id =>
        simp only [hcont] at h
        rcases hci : env.CreateImage dR id c.DockerRepository (BaseCompilationImageTag c) "" []
          with ⟨⟨img, _ | e2⟩, d2⟩
        · simp only [hci, removeBaseContainer_eq, Prod.mk.injEq, BaseOutcome.returned.injEq]
            at h
          obtain ⟨⟨h1, _⟩, h2, _⟩ := h
          subst h1
          exact ⟨dR, id, d2, hci, h2.symm⟩
        · simp [hci, removeBaseContainer_eq] at h
    · simp [hx, removeBaseContainer_eq] at h

/-- C18: if `FindImage` finds an image under
`<DockerRepository>:<Release.Name>-<Release.Version>-cbase`,
`CreateCompilationBase` returns that image with a nil error, leaves the
daemon as it is and makes no other call (no container run, no commit).  Hence,
on a host where a committed image is found under its name and the removal of
a container does not make it disappear, a call that returned an image is
followed by a call that returns the same image with a nil error after the
lookup alone. -/
theorem C18_existing_base_image_is_returned (env : BaseEnv) (c : Compilator) (d : Daemon)
    (baseImageName : String) :
    (∀ image,
      d.FindImage (c.DockerRepository ++ ":" ++
        (c.Release.Name ++ "-" ++ c.Release.Version ++ "-cbase")) = (some image, none) →
      CreateCompilationBase env c d baseImageName =
        (BaseOutcome.returned (some image) none, d,
          [BaseEvent.FindImage (c.DockerRepository ++ ":" ++
            (c.Release.Name ++ "-" ++ c.Release.Version ++ "-cbase"))])) ∧
    ((∀ d0 id image d2,
        env.CreateImage d0 id c.DockerRepository
          (c.Release.Name ++ "-" ++ c.Release.Version ++ "-cbase") "" [] =
          ((some image, none), d2) →
        d2.FindImage (c.DockerRepository ++ ":" ++
          (c.Release.Name ++ "-" ++ c.Release.Version ++ "-cbase")) = (some image, none)) →
      (∀ (d0 : Daemon) id image,
        d0.FindImage (c.DockerRepository ++ ":" ++
          (c.Release.Name ++ "-" ++ c.Release.Version ++ "-cbase")) = (some image, none) →
        (env.RemoveContainer d0 id).2.FindImage (c.DockerRepository ++ ":" ++
          (c.Release.Name ++ "-" ++ c.Release.Version ++ "-cbase")) = (some image, none)) →
      ∀ image err d1 evs otherBase,
        CreateCompilationBase env c d baseImageName =
          (BaseOutcome.returned (some image) err, d1, evs) →
        CreateCompilationBase env c d1 otherBase =
          (BaseOutcome.returned (some image) none, d1,
            [BaseEvent.FindImage (c.DockerRepository ++ ":" ++
              (c.Release.Name ++ "-" ++ c.Release.Version ++ "-cbase"))])) := by
  have hfound : ∀ (d0 : Daemon) (base : String) (image : Image),
      d0.FindImage (c.DockerRepository ++ ":" ++
        (c.Release.Name ++ "-" ++ c.Release.Version ++ "-cbase")) = (some image, none) →
      CreateCompilationBase env c d0 base =
        (BaseOutcome.returned (some image) none, d0,
          [BaseEvent.FindImage (c.DockerRepository ++ ":" ++
            (c.Release.Name ++ "-" ++ c.Release.Version ++ "-cbase"))]) := by
    intro d0 base image h
    unfold CreateCompilationBase
    simp only [BaseCompilationImageTag, h]
  refine ⟨hfound d baseImageName, ?_⟩
  intro hcommit hkeep image err d1 evs otherBase h
  apply hfound
  have hbuild : ∀ (x : Option Image) (e0 : String),
      d.FindImage (c.DockerRepository ++ ":" ++ BaseCompilationImageTag c) = (x, some e0) →
      d1.FindImage (c.DockerRepository ++ ":" ++
        (c.Release.Name ++ "-" ++ c.Release.Version ++ "-cbase")) = (some image, none) := by
    intro x e0 hf
    unfold CreateCompilationBase at h
    simp only [hf] at h
    rcases ht : env.TempDir "" "fissile-compilation" with ⟨tempScriptDir, _ | e1⟩
    · simp only [ht] at h
      cases hs : env.SaveScript c.BaseType env.PreprequisitesScript
          (env.Join [tempScriptDir, "compilation-prerequisites.sh"]) with
      | some e2 => simp [hs] at h
      | none =>
        simp only [hs] at h
        obtain ⟨d0, id, d2, hci, hd1⟩ := buildBaseImage_image env c d d1 _ _ _ _ _ _ _ h
        rw [hd1]
        exact hkeep d2 id image (hcommit _ _ _ _ hci)
    · simp [ht] at h
  rcases hf : d.FindImage (c.DockerRepository ++ ":" ++ BaseCompilationImageTag c) with
    ⟨_ | image0, _ | e0⟩
  · unfold CreateCompilationBase at h
    simp [hf] at h
  · exact hbuild _ _ hf
  · unfold CreateCompilationBase at h
    simp only [hf, Prod.mk.injEq, BaseOutcome.returned.injEq, Option.some.injEq] at h
    obtain ⟨⟨h1, _⟩, h2, _⟩ := h
    subst h1
    subst h2
    exact hf
  · exact hbuild _ _ hf

theorem C18_witness :
    CreateCompilationBase (exampleBaseEnv 0 none) exampleCompilator
        (CreateCompilationBase (exampleBaseEnv 0 none) exampleCompilator exampleDaemon
          "ubuntu:14.04").2.1 "ubuntu:14.04" =
      (BaseOutcome.returned (some { ID := "img" }) none,
        (CreateCompilationBase (exampleBaseEnv 0 none) exampleCompilator exampleDaemon
          "ubuntu:14.04").2.1,
        [BaseEvent.FindImage (exampleCompilator.DockerRepository ++ ":" ++
          (exampleCompilator.Release.Name ++ "-" ++ exampleCompilator.Release.Version ++
            "-cbase"))]) :=
  (C18_existing_base_image_is_returned (exampleBaseEnv 0 none) exampleCompilator exampleDaemon
    "ubuntu:14.04").2
    (by
      intro d0 id image d2 h
      simp only [exampleBaseEnv, Prod.mk.injEq, Option.some.injEq, and_true] at h
      obtain ⟨h1, h2⟩ := h
      subst h1
      subst h2
      simp [commitImage])
    (by intro d0 id image h; exact h)
    { ID := "img" } none _ _ "ubuntu:14.04" rfl

/-- The events and the result of the build flow: the run, then what follows
it; after a run with an error or a non-zero exit code nothing is committed and
the error returned mentions the failure. -/
theorem buildBaseImage_run (env : BaseEnv) (c : Compilator) (d : Daemon)
    (baseImageName tempScriptDir containerScriptPath : String) (events : List BaseEvent) :
    ∃ rest : List BaseEvent,
      (buildBaseImage env c d baseImageName tempScriptDir containerScriptPath events).2.2 =
        events ++ BaseEvent.RunInContainer (BaseCompilationContainerName c) baseImageName
          ["bash", "-c", containerScriptPath] tempScriptDir ""
          (env.RunInContainer d (BaseCompilationContainerName c) baseImageName
            ["bash", "-c", containerScriptPath] tempScriptDir "").1 :: rest ∧
      (∀ ev ∈ rest, ev.isRun = false) ∧
      (((env.RunInContainer d (BaseCompilationContainerName c) baseImageName
            ["bash", "-c", containerScriptPath] tempScriptDir "").1.err ≠ none ∨
          (env.RunInContainer d (BaseCompilationContainerName c) baseImageName
            ["bash", "-c", containerScriptPath] tempScriptDir "").1.exitCode ≠ 0) →
        (∀ ev ∈ rest, ev.isCreateImage = false) ∧
        ∃ msg,
          (buildBaseImage env c d baseImageName tempScriptDir containerScriptPath events).1 =
            BaseOutcome.returned none (some msg) ∧
          (∀ e, (env.RunInContainer d (BaseCompilationContainerName c) baseImageName
            ["bash", "-c", containerScriptPath] tempScriptDir "").1.err = some e →
            Mentions msg e) ∧
          ((env.RunInContainer d (BaseCompilationContainerName c) baseImageName
            ["bash", "-c", containerScriptPath] tempScriptDir "").1.err = none →
            Mentions msg (toString (env.RunInContainer d (BaseCompilationContainerName c)
              baseImageName ["bash", "-c", containerScriptPath] tempScriptDir
              "").1.exitCode))) := by
  rcases hrun : env.RunInContainer d (BaseCompilationContainerName c) baseImageName
    ["bash", "-c", containerScriptPath] tempScriptDir "" with ⟨r, dR⟩
  unfold buildBaseImage
  simp only [hrun]
  cases he : r.err with
  | some e =>
    simp only
    obtain ⟨extra, h1, h2⟩ := removeBaseContainer_events env dR r.container none
      (some ("Error running script: " ++ e))
      (events ++ [BaseEvent.RunInContainer (BaseCompilationContainerName c) baseImageName
        ["bash", "-c", containerScriptPath] tempScriptDir "" r])
    obtain ⟨msg, h3, h4⟩ := removeBaseContainer_mentions env dR r.container none
      ("Error running script: " ++ e) e
      (events ++ [BaseEvent.RunInContainer (BaseCompilationContainerName c) baseImageName
        ["bash", "-c", containerScriptPath] tempScriptDir "" r])
      (Mentions.mentions_last _ _)
    refine ⟨extra, by rw [h1]; simp, ?_, ?_⟩
    · intro ev hev
      have := h2 ev hev
      cases ev <;> first | rfl | cases this
    · intro _
      refine ⟨fun ev hev => isCreateImage_of_not_isBuild ev (h2 ev hev), msg, h3, ?_, ?_⟩
      · intro e2 he2
        cases he2
        exact h4
      · intro h5
        cases h5
  | none =>
    simp only
    by_cases hx : r.exitCode = 0
    · simp only [hx, ne_eq, not_true_eq_false, if_false]
      cases hcont : r.container with
      | none =>
        refine ⟨[], by simp, by simp, ?_⟩
        intro h
        simp at h
      | some id =>
        simp only
        rcases hci : env.CreateImage dR id c.DockerRepository (BaseCompilationImageTag c) "" []
          with ⟨⟨img, _ | e2⟩, d2⟩
        · simp only
          obtain ⟨extra, h1, h2⟩ := removeBaseContainer_events env d2 (some id) img none
            (events ++ [BaseEvent.RunInContainer (BaseCompilationContainerName c) baseImageName
              ["bash", "-c", containerScriptPath] tempScriptDir "" r] ++
              [BaseEvent.CreateImage id c.DockerRepository (BaseCompilationImageTag c) "" []])
          refine ⟨BaseEvent.CreateImage id c.DockerRepository (BaseCompilationImageTag c) ""
            [] :: extra, by rw [h1]; simp, ?_, ?_⟩
          · intro ev hev
            rcases List.mem_cons.mp hev with rfl | hev
            · rfl
            · have := h2 ev hev
              cases ev <;> first | rfl | cases this
          · intro h
            simp at h
        · simp only
          obtain ⟨extra, h1, h2⟩ := removeBaseContainer_events env d2 (some id) none
            (some ("Error creating image " ++ e2))
            (events ++ [BaseEvent.RunInContainer (BaseCompilationContainerName c) baseImageName
              ["bash", "-c", containerScriptPath] tempScriptDir "" r] ++
              [BaseEvent.CreateImage id c.DockerRepository (BaseCompilationImageTag c) "" []])
          refine ⟨BaseEvent.CreateImage id c.DockerRepository (BaseCompilationImageTag c) ""
            [] :: extra, by rw [h1]; simp, ?_, ?_⟩
          · intro ev hev
            rcases List.mem_cons.mp hev with rfl | hev
            · rfl
            · have := h2 ev hev
              cases ev <;> first | rfl | cases this
          · intro h
            simp at h
    · simp only [ne_eq, hx, not_false_eq_true, if_true]
      obtain ⟨extra, h1, h2⟩ := removeBaseContainer_events env dR r.container none
        (some ("Error - script script exited with code " ++ toString r.exitCode))
        (events ++ [BaseEvent.RunInContainer (BaseCompilationContainerName c) baseImageName
          ["bash", "-c", containerScriptPath] tempScriptDir "" r])
      obtain ⟨msg, h3, h4⟩ := removeBaseContainer_mentions env dR r.container none
        ("Error - script script exited with code " ++ toString r.exitCode)
        (toString r.exitCode)
        (events ++ [BaseEvent.RunInContainer (BaseCompilationContainerName c) baseImageName
          ["bash", "-c", containerScriptPath] tempScriptDir "" r])
        (Mentions.mentions_last _ _)
      refine ⟨extra, by rw [h1]; simp, ?_, ?_⟩
      · intro ev hev
        have := h2 ev hev
        cases ev <;> first | rfl | cases this
      · intro _
        refine ⟨fun ev hev => isCreateImage_of_not_isBuild ev (h2 ev hev), msg, h3, ?_, ?_⟩
        · intro e2 he2
          cases he2
        · intro _
          exact h4

/-- The two shapes of a call of `CreateCompilationBase`: it ends before the
container run, or it goes through the build flow after the lookup, the
temporary directory and the script. -/
theorem CreateCompilationBase_shape (env : BaseEnv) (c : Compilator) (d : Daemon)
    (baseImageName : String) :
    (∀ ev ∈ (CreateCompilationBase env c d baseImageName).2.2, ev.isBuild = false) ∨
    ∃ (tempScriptDir : String) (events : List BaseEvent),
      (∀ ev ∈ events, ev.isBuild = false) ∧
      CreateCompilationBase env c d baseImageName =
        buildBaseImage env c d baseImageName tempScriptDir
          (env.Join [ContainerInPath, "compilation-prerequisites.sh"]) events := by
  unfold CreateCompilationBase
  simp only
  split
  · left
    intro ev hev
    have := List.mem_singleton.mp hev
    subst this
    rfl
  · left
    intro ev hev
    have := List.mem_singleton.mp hev
    subst this
    rfl
  · split
    · left
      intro ev hev
      simp only [List.mem_cons, List.mem_singleton, List.not_mem_nil, or_false] at hev
      rcases hev with rfl | rfl <;> rfl
    · next tempScriptDir _ =>
      split
      · left
        intro ev hev
        simp only [List.mem_cons, List.mem_singleton, List.not_mem_nil, or_false] at hev
        rcases hev with rfl | rfl | rfl <;> rfl
      · right
        refine ⟨tempScriptDir, _, ?_, rfl⟩
        intro ev hev
        simp only [List.mem_cons, List.mem_singleton, List.not_mem_nil, or_false] at hev
        rcases hev with rfl | rfl | rfl <;> rfl

/-- C19: in every call of `CreateCompilationBase`, if the container run
answered an error or a non-zero exit code, the call returns a nil image and a
non-nil error whose text mentions the run's error, or the exit code when
there was no error, and no `CreateImage` call is made; and every `CreateImage`
call comes after a container run that answered a nil error and exit code 0. -/
theorem C19_failed_bootstrap_commits_nothing (env : BaseEnv) (c : Compilator) (d : Daemon)
    (baseImageName : String) :
    (∀ name image cmd inPath outPath r,
      BaseEvent.RunInContainer name image cmd inPath outPath r ∈
        (CreateCompilationBase env c d baseImageName).2.2 →
      (r.err ≠ none ∨ r.exitCode ≠ 0) →
      (∃ msg, (CreateCompilationBase env c d baseImageName).1 =
          BaseOutcome.returned none (some msg) ∧
        (∀ e, r.err = some e → Mentions msg e) ∧
        (r.err = none → Mentions msg (toString r.exitCode))) ∧
      ∀ ev ∈ (CreateCompilationBase env c d baseImageName).2.2, ev.isCreateImage = false) ∧
    (∀ pre post id repository tag message cmd,
      (CreateCompilationBase env c d baseImageName).2.2 =
        pre ++ BaseEvent.CreateImage id repository tag message cmd :: post →
      ∃ name image cmd2 inPath outPath r,
        BaseEvent.RunInContainer name image cmd2 inPath outPath r ∈ pre ∧
        r.err = none ∧ r.exitCode = 0) := by
  rcases CreateCompilationBase_shape env c d baseImageName with hno | ⟨temp, events, hev, heq⟩
  · refine ⟨?_, ?_⟩
    · intro name image cmd inPath outPath r hmem _
      cases hno _ hmem
    · intro pre post id repository tag message cmd h
      have := hno (BaseEvent.CreateImage id repository tag message cmd) (by rw [h]; simp)
      cases this
  · rw [heq]
    obtain ⟨rest, h1, h2, h3⟩ := buildBaseImage_run env c d baseImageName temp
      (env.Join [ContainerInPath, "compilation-prerequisites.sh"]) events
    refine ⟨?_, ?_⟩
    · intro name image cmd inPath outPath r hmem hbad
      rw [h1] at hmem
      have hr : r = (env.RunInContainer d (BaseCompilationContainerName c) baseImageName
          ["bash", "-c", env.Join [ContainerInPath, "compilation-prerequisites.sh"]] temp
          "").1 := by
        rcases List.mem_append.mp hmem with hmem | hmem
        · cases hev _ hmem
        · rcases List.mem_cons.mp hmem with hmem | hmem
          · cases hmem
            rfl
          · cases h2 _ hmem
      subst hr
      obtain ⟨h4, h5⟩ := h3 hbad
      refine ⟨h5, ?_⟩
      intro ev hmem2
      rw [h1] at hmem2
      rcases List.mem_append.mp hmem2 with hmem2 | hmem2
      · exact isCreateImage_of_not_isBuild ev (hev ev hmem2)
      · rcases List.mem_cons.mp hmem2 with hmem2 | hmem2
        · subst hmem2
          rfl
        · exact h4 ev hmem2
    · intro pre post id repository tag message cmd h
      rw [h1] at h
      by_cases hbad : (env.RunInContainer d (BaseCompilationContainerName c) baseImageName
          ["bash", "-c", env.Join [ContainerInPath, "compilation-prerequisites.sh"]] temp
          "").1.err ≠ none ∨
        (env.RunInContainer d (BaseCompilationContainerName c) baseImageName
          ["bash", "-c", env.Join [ContainerInPath, "compilation-prerequisites.sh"]] temp
          "").1.exitCode ≠ 0
      · exfalso
        have hmem : BaseEvent.CreateImage id repository tag message cmd ∈
            events ++ BaseEvent.RunInContainer (BaseCompilationContainerName c) baseImageName
              ["bash", "-c", env.Join [ContainerInPath, "compilation-prerequisites.sh"]] temp ""
              (env.RunInContainer d (BaseCompilationContainerName c) baseImageName
                ["bash", "-c", env.Join [ContainerInPath, "compilation-prerequisites.sh"]] temp
                "").1 :: rest := by
          rw [h]; simp
        rcases List.mem_append.mp hmem with hmem | hmem
        · cases hev _ hmem
        · rcases List.mem_cons.mp hmem with hmem | hmem
          · cases hmem
          · cases (h3 hbad).1 _ hmem
      · have hgood := not_or.mp hbad
        rcases split_append _ _ _ _ _ h with ⟨post2, h4, _⟩ | ⟨pre2, h4, h5⟩
        · exfalso
          have := hev (BaseEvent.CreateImage id repository tag message cmd) (by rw [h4]; simp)
          cases this
        · cases pre2 with
          | nil =>
            simp only [List.nil_append, List.cons.injEq] at h4
            cases h4.1
          | cons x pre3 =>
            simp only [List.cons_append, List.cons.injEq] at h4
            refine ⟨BaseCompilationContainerName c, baseImageName,
              ["bash", "-c", env.Join [ContainerInPath, "compilation-prerequisites.sh"]], temp,
              "", _, ?_, not_not.mp hgood.1, not_not.mp hgood.2⟩
            rw [h5, ← h4.1]
            simp

theorem C19_witness :
    (∃ msg, (CreateCompilationBase (exampleBaseEnv 3 none) exampleCompilator exampleDaemon
        "ubuntu:14.04").1 = BaseOutcome.returned none (some msg) ∧
      (∀ e, (none : GoError) = some e → Mentions msg e) ∧
      ((none : GoError) = none → Mentions msg (toString (3 : Int)))) ∧
    ∀ ev ∈ (CreateCompilationBase (exampleBaseEnv 3 none) exampleCompilator exampleDaemon
      "ubuntu:14.04").2.2, ev.isCreateImage = false :=
  (C19_failed_bootstrap_commits_nothing (exampleBaseEnv 3 none) exampleCompilator exampleDaemon
    "ubuntu:14.04").1 "repo-rel-7-cbase" "ubuntu:14.04"
    ["bash", "-c", "/fissile-in/compilation-prerequisites.sh"] "/tmp/fissile-compilation" ""
    { exitCode := 3, container := some "base-box", err := none } (by decide)
    (Or.inr (by decide))

/-! ## Two workers in the same attempt (C20) -/

/-- C20: two workers on the example release, on an empty host.  Each probes
package `2` before the other sets its flag, and both are then inside the
attempt for package `2` with the flag set; the same happens for package `1`,
and when both attempts are carried out the container of package `1` is run
twice. -/
theorem C20_two_workers_inside_the_same_attempt :
    ∃ p q r : Pool,
      Pool.run (exampleEnv (fun _ => 0) none) [0, 1, 0, 1]
        (Pool.start exampleCompilator emptyWorld 2) = some p ∧
      p.workers.map Goroutine.attempts = [some 2, some 2] ∧
      p.s.c.packageCompiling 2 = some true ∧
      Pool.run (exampleEnv (fun _ => 0) none) [0, 1, 0, 1, 0, 1] p = some q ∧
      q.workers.map Goroutine.attempts = [some 1, some 1] ∧
      q.s.c.packageCompiling 1 = some true ∧
      Pool.run (exampleEnv (fun _ => 0) none) [0, 1] q = some r ∧
      (r.s.events.filter Event.isRun).map Event.runOf = [some 1, some 1] ∧
      r.result = [] :=
  ⟨_, _, _, rfl, rfl, rfl, rfl, rfl, rfl, rfl, rfl, rfl⟩

/-! ## The coordination maps and the names (C21, C22) -/

theorem registerPackages_maps (l : List Ptr) (c : Compilator) (p : Ptr) :
    (registerPackages l c).packageLock p = (if p ∈ l then some () else c.packageLock p) ∧
    (registerPackages l c).packageCompiling p =
      (if p ∈ l then some false else c.packageCompiling p) := by
  induction l generalizing c with
  | nil => simp [registerPackages]
  | cons q rest ih =>
    unfold registerPackages
    obtain ⟨h1, h2⟩ := ih
      { c with packageLock := mapSet c.packageLock q (),
               packageCompiling := mapSet c.packageCompiling q false }
    rw [h1, h2]
    by_cases hr : p ∈ rest
    · simp [hr]
    · by_cases hq : p = q
      · simp [hq, mapSet]
      · simp [hr, hq, mapSet]

/-- No step of a run adds or removes a key of the two maps, provided every
locked package has a flag entry. -/
theorem Step.step_sameKeys {env : Env} (c0 : Compilator)
    (hc0 : ∀ p, c0.packageLock p = some () → (c0.packageCompiling p).isSome = true)
    (a b : Worker) (h : Step env a b) (ha : sameKeys c0 a.s.c) : sameKeys c0 b.s.c := by
  cases h with
  | probe pkg st err hst => exact ha
  | attempt _ pkg hst hatt =>
    obtain ⟨hl, r, sf, _, hb⟩ := attemptPackage_spec env a b pkg hatt
    subst hb
    intro p
    refine ⟨(ha p).1, ?_⟩
    show (mapSet (mapSet a.s.c.packageCompiling pkg true) pkg false p).isSome = _
    unfold mapSet
    by_cases hp : p = pkg
    · subst hp
      simp only [if_true]
      rw [hc0 p ((ha p).1 ▸ hl)]
      rfl
    · simp only [hp, if_false]
      exact (ha p).2
  | sleep => exact ha
  | hasWork b => exact ha

/-- C21: `NewCompilator` returns a nil error and a compilator whose lock map
holds a lock exactly for the packages of the release and whose flag map holds
`false` exactly for them; in every state a run of `Compile` on that
compilator goes through, and in the state it returns, the lock map is the same
and the flag map has the same keys. -/
theorem C21_coordination_maps_are_fixed (env : Env) (release : Release)
    (hostWorkDir dockerRepository baseType : String) :
    (NewCompilator release hostWorkDir dockerRepository baseType).2 = none ∧
    (∀ p, (NewCompilator release hostWorkDir dockerRepository baseType).1.packageLock p =
      (if p ∈ release.Packages then some () else none)) ∧
    (∀ p, (NewCompilator release hostWorkDir dockerRepository baseType).1.packageCompiling p =
      (if p ∈ release.Packages then some false else none)) ∧
    (∀ (w : World) (wk : Worker),
      Steps env
        (initialWorker (NewCompilator release hostWorkDir dockerRepository baseType).1 w) wk →
      ∀ p, wk.s.c.packageLock p = (if p ∈ release.Packages then some () else none) ∧
        ((wk.s.c.packageCompiling p).isSome = true ↔ p ∈ release.Packages)) ∧
    (∀ (fuel : Nat) (w : World) (workerCount : Int) (result : List String) (sf : State),
      Compile env fuel (NewCompilator release hostWorkDir dockerRepository baseType).1 w
        workerCount = Except.ok (result, sf) →
      ∀ p, sf.c.packageLock p = (if p ∈ release.Packages then some () else none) ∧
        ((sf.c.packageCompiling p).isSome = true ↔ p ∈ release.Packages)) := by
  have hL : ∀ p, (NewCompilator release hostWorkDir dockerRepository baseType).1.packageLock p =
      (if p ∈ release.Packages then some () else none) := by
    intro p
    exact (registerPackages_maps release.Packages _ p).1
  have hF : ∀ p,
      (NewCompilator release hostWorkDir dockerRepository baseType).1.packageCompiling p =
      (if p ∈ release.Packages then some false else none) := by
    intro p
    exact (registerPackages_maps release.Packages _ p).2
  have hc0 : ∀ p,
      (NewCompilator release hostWorkDir dockerRepository baseType).1.packageLock p = some () →
      ((NewCompilator release hostWorkDir dockerRepository baseType).1.packageCompiling p).isSome
        = true := by
    intro p hp
    rw [hL] at hp
    rw [hF]
    by_cases hmem : p ∈ release.Packages
    · simp [hmem]
    · simp [hmem] at hp
  have hsteps : ∀ (w : World) (wk : Worker),
      Steps env
        (initialWorker (NewCompilator release hostWorkDir dockerRepository baseType).1 w) wk →
      ∀ p, wk.s.c.packageLock p = (if p ∈ release.Packages then some () else none) ∧
        ((wk.s.c.packageCompiling p).isSome = true ↔ p ∈ release.Packages) := by
    intro w wk h p
    have hk := Steps.steps_inv
      (fun x => sameKeys (NewCompilator release hostWorkDir dockerRepository baseType).1 x.s.c)
      (fun a b hab ha => Step.step_sameKeys _ hc0 a b hab ha) h (fun q => ⟨rfl, rfl⟩)
    obtain ⟨h1, h2⟩ := hk p
    refine ⟨h1.trans (hL p), ?_⟩
    rw [h2, hF]
    by_cases hmem : p ∈ release.Packages <;> simp [hmem]
  refine ⟨rfl, hL, hF, hsteps, ?_⟩
  intro fuel w workerCount result sf h
  obtain ⟨hw, hst⟩ := runWorkers_steps env fuel _ _ _ _ _ h
  exact hsteps w _ hst

theorem C21_witness :
    exampleCompilator.packageLock 1 = some () ∧ exampleCompilator.packageLock 3 = none ∧
    exampleCompilator.packageCompiling 2 = some false :=
  ⟨(C21_coordination_maps_are_fixed (exampleEnv (fun _ => 0) none) exampleRelease "/w" "repo"
      "ubuntu").2.1 1,
    (C21_coordination_maps_are_fixed (exampleEnv (fun _ => 0) none) exampleRelease "/w" "repo"
      "ubuntu").2.1 3,
    (C21_coordination_maps_are_fixed (exampleEnv (fun _ => 0) none) exampleRelease "/w" "repo"
      "ubuntu").2.2.1 2⟩

/-- C22: the base image tag is `<Release.Name>-<Release.Version>-cbase`, the
base container name is `<DockerRepository>-<Release.Name>-<Release.Version>-cbase`,
which is the repository and a hyphen before the image tag, and the container
name of a package is
`<DockerRepository>-<Release.Name>-<Release.Version>-pkg-<pkg.Name>`; on the
example release these are `rel-7-cbase`, `repo-rel-7-cbase` and
`repo-rel-7-pkg-A`. -/
theorem C22_naming_conventions (env : Env) (c : Compilator) (pkg : Ptr) :
    BaseCompilationImageTag c = c.Release.Name ++ "-" ++ c.Release.Version ++ "-cbase" ∧
    BaseCompilationContainerName c =
      c.DockerRepository ++ "-" ++ c.Release.Name ++ "-" ++ c.Release.Version ++ "-cbase" ∧
    BaseCompilationContainerName c = c.DockerRepository ++ "-" ++ BaseCompilationImageTag c ∧
    getPackageContainerName env c pkg =
      c.DockerRepository ++ "-" ++ c.Release.Name ++ "-" ++ c.Release.Version ++ "-pkg-" ++
        (env.heap pkg).Name ∧
    BaseCompilationImageTag exampleCompilator = "rel-7-cbase" ∧
    BaseCompilationContainerName exampleCompilator = "repo-rel-7-cbase" ∧
    getPackageContainerName (exampleEnv (fun _ => 0) none) exampleCompilator 1 =
      "repo-rel-7-pkg-A" := by
  refine ⟨rfl, rfl, ?_, rfl, by decide, by decide, by decide⟩
  unfold BaseCompilationContainerName BaseCompilationImageTag
  simp only [String.append_assoc]

/-! ## No worker, no work (C28) -/

theorem Step.step_release {env : Env} (a b : Worker) (h : Step env a b) :
    b.s.c.Release = a.s.c.Release := by
  cases h with
  | probe pkg st err hst => rfl
  | attempt _ pkg hst hatt =>
    obtain ⟨_, r, sf, _, hb⟩ := attemptPackage_spec env a b pkg hatt
    subst hb
    rfl
  | sleep => rfl
  | hasWork b => rfl

theorem Steps.steps_release {env : Env} {a b : Worker} (h : Steps env a b) :
    b.s.c.Release = a.s.c.Release :=
  Steps.steps_inv (fun x => x.s.c.Release = a.s.c.Release)
    (fun x y hxy hx => (Step.step_release x y hxy).trans hx) h rfl

/-- A scan left by `return` has put a probe error into the aggregate. -/
theorem scanPackages_returned (env : Env) (l : List Ptr) (wk wk1 : Worker)
    (h : scanPackages env l wk = Except.ok (LoopExit.returned, wk1)) : wk1.result ≠ [] := by
  induction l generalizing wk with
  | nil =>
    unfold scanPackages at h
    cases h
  | cons pkg rest ih =>
    unfold scanPackages at h
    split at h
    · cases h
    · cases h
      simp
    · split at h
      · split at h
        · cases h
        · split at h
          · cases h
          · exact ih _ h
      · exact ih _ h

/-- A completion check that ends with `done` still true has probed every
package Compiled, and changed neither the compilator nor the host. -/
theorem checkDone_done (env : Env) (l : List Ptr) (s s2 : State)
    (h : checkDone env l s = Except.ok (DoneCheck.done true, s2)) :
    s2.c = s.c ∧ s2.w = s.w ∧
    ∀ p ∈ l, getPackageStatus env s.c s.w p = Except.ok (packageCompiled, none) := by
  induction l generalizing s with
  | nil =>
    unfold checkDone at h
    cases h
    exact ⟨rfl, rfl, by simp⟩
  | cons pkg rest ih =>
    unfold checkDone at h
    split at h
    · cases h
    · cases h
    · next pkgState hst =>
      split at h
      · cases h
      · next hc =>
        have hc2 : pkgState = packageCompiled := not_not.mp hc
        subst hc2
        obtain ⟨h1, h2, h3⟩ := ih _ h
        refine ⟨h1, h2, ?_⟩
        intro p hp
        rcases List.mem_cons.mp hp with rfl | hp
        · exact hst
        · exact h3 p hp

/-- A worker that returns with the aggregate still nil has just probed every
package of the release Compiled. -/
theorem workerLoop_nil_result (env : Env) (fuel : Nat) (wk wkf : Worker)
    (h : workerLoop env fuel wk = Except.ok wkf) (hres : wkf.result = []) :
    ∀ p ∈ wkf.s.c.Release.Packages,
      getPackageStatus env wkf.s.c wkf.s.w p = Except.ok (packageCompiled, none) := by
  induction fuel generalizing wk with
  | zero =>
    unfold workerLoop at h
    cases h
  | succ fuel ih =>
    unfold workerLoop at h
    split at h
    · cases h
    · next wk1 hscan =>
      cases h
      exact absurd hres (scanPackages_returned env _ _ _ hscan)
    · next x wk1 hx hscan =>
      split at h
      · next hne =>
        cases h
        exact absurd hres hne
      · split at h
        · cases h
        · cases h
          simp at hres
        · next d s2 hcd =>
          split at h
          · next hd =>
            cases h
            subst hd
            obtain ⟨h1, h2, h3⟩ := checkDone_done env _ _ _ hcd
            intro p hp
            show getPackageStatus env s2.c s2.w p = _
            rw [h1, h2]
            apply h3
            have : s2.c.Release = wk1.s.c.Release := by rw [h1]
            rw [← this]
            exact hp
          · split at h
            · exact ih _ h
            · exact ih _ h

theorem runWorkers_nil_result (env : Env) (fuel n : Nat) (s sf : State) (result : List String)
    (h : runWorkers env fuel (n + 1) s result = Except.ok ([], sf)) :
    ∀ p ∈ sf.c.Release.Packages,
      getPackageStatus env sf.c sf.w p = Except.ok (packageCompiled, none) := by
  induction n generalizing s result with
  | zero =>
    unfold runWorkers at h
    split at h
    · cases h
    · next wk hwk =>
      unfold runWorkers at h
      have h2 := Except.ok.inj h
      have hr : wk.result = [] := congrArg Prod.fst h2
      have hs : wk.s = sf := congrArg Prod.snd h2
      subst hs
      exact workerLoop_nil_result env fuel _ _ hwk hr
  | succ n ih =>
    unfold runWorkers at h
    split at h
    · cases h
    · next wk hwk => exact ih _ _ h

/-- C28: with `workerCount <= 0`, `Compile` returns nil at once, with no
event at all, whatever the state of the packages (on the example release
nothing is compiled and package `A` is still None); with `workerCount >= 1`, a
nil result comes only after a completion check that probed every package of
the release Compiled in the state the run leaves. -/
theorem C28_no_worker_no_work (env : Env) (fuel : Nat) (c : Compilator) (w : World) :
    (∀ workerCount : Int, workerCount ≤ 0 →
      Compile env fuel c w workerCount = Except.ok ([], { c := c, w := w, events := [] })) ∧
    (Compile (exampleEnv (fun _ => 0) none) 0 exampleCompilator emptyWorld 0 =
        Except.ok ([], exampleState emptyWorld) ∧
      getPackageStatus (exampleEnv (fun _ => 0) none) exampleCompilator emptyWorld 1 =
        Except.ok (packageNone, none)) ∧
    (∀ (workerCount : Int) (sf : State), 1 ≤ workerCount →
      Compile env fuel c w workerCount = Except.ok ([], sf) →
      ∀ p ∈ c.Release.Packages,
        getPackageStatus env sf.c sf.w p = Except.ok (packageCompiled, none)) := by
  refine ⟨?_, ⟨rfl, rfl⟩, ?_⟩
  · intro workerCount h
    unfold Compile
    rw [Int.toNat_eq_zero.mpr h]
    rfl
  · intro workerCount sf h1 h
    have hrel : sf.c.Release = c.Release := by
      obtain ⟨hw, hst⟩ := runWorkers_steps env fuel _ _ _ _ _ h
      exact Steps.steps_release hst
    unfold Compile at h
    obtain ⟨n, hn⟩ : ∃ n, workerCount.toNat = n + 1 := by
      refine ⟨workerCount.toNat - 1, ?_⟩
      omega
    rw [hn] at h
    rw [← hrel]
    exact runWorkers_nil_result env fuel n _ _ _ h

theorem C28_witness :
    Compile (exampleEnv (fun _ => 0) none) 5 exampleCompilator emptyWorld (-2) =
      Except.ok ([], { c := exampleCompilator, w := emptyWorld, events := [] }) :=
  (C28_no_worker_no_work (exampleEnv (fun _ => 0) none) 5 exampleCompilator emptyWorld).1 (-2)
    (by decide)

/-! ## Any lookup error starts the build flow (C29) -/

theorem CreateCompilationBase_lookup_failed (env : BaseEnv) (c : Compilator) (d : Daemon)
    (baseImageName : String) (x : Option Image) (e : String)
    (h : d.FindImage (c.DockerRepository ++ ":" ++ BaseCompilationImageTag c) = (x, some e)) :
    CreateCompilationBase env c d baseImageName =
      match env.TempDir "" "fissile-compilation" with
      | (tempScriptDir, some err) =>
        (BaseOutcome.returned none
          (some ("Could not create temp dir " ++ tempScriptDir ++ ": " ++ err)), d,
          [BaseEvent.FindImage (c.DockerRepository ++ ":" ++ BaseCompilationImageTag c),
            BaseEvent.TempDir "" "fissile-compilation"])
      | (tempScriptDir, none) =>
        match env.SaveScript c.BaseType env.PreprequisitesScript
            (env.Join [tempScriptDir, "compilation-prerequisites.sh"]) with
        | some err =>
          (BaseOutcome.returned none (some ("Error saving script asset: " ++ err)), d,
            [BaseEvent.FindImage (c.DockerRepository ++ ":" ++ BaseCompilationImageTag c),
              BaseEvent.TempDir "" "fissile-compilation",
              BaseEvent.SaveScript c.BaseType env.PreprequisitesScript
                (env.Join [tempScriptDir, "compilation-prerequisites.sh"])])
        | none =>
          buildBaseImage env c d baseImageName tempScriptDir
            (env.Join [ContainerInPath, "compilation-prerequisites.sh"])
            [BaseEvent.FindImage (c.DockerRepository ++ ":" ++ BaseCompilationImageTag c),
              BaseEvent.TempDir "" "fissile-compilation",
              BaseEvent.SaveScript c.BaseType env.PreprequisitesScript
                (env.Join [tempScriptDir, "compilation-prerequisites.sh"])] := by
  unfold CreateCompilationBase
  cases x <;> simp only [h]

theorem buildBaseImage_prefix (env : BaseEnv) (c : Compilator) (d : Daemon)
    (baseImageName tempScriptDir containerScriptPath : String) (events : List BaseEvent) :
    ∃ rest, (buildBaseImage env c d baseImageName tempScriptDir containerScriptPath
      events).2.2 = events ++ rest := by
  obtain ⟨rest, h, _⟩ := buildBaseImage_run env c d baseImageName tempScriptDir
    containerScriptPath events
  exact ⟨_, h⟩

/-- The text `FindImage` of `docker/docker.go` gives whenever the client's
lookup has an error, sentinel or not. -/
theorem daemonOf_lookup_error (m : ImageManager) (imageName : String) (err : ErrorValue)
    (h : (m.client.InspectImage imageName).2 = some err) :
    ∃ e, (daemonOf m).FindImage imageName = (none, some e) := by
  have hF : ∃ ev, m.FindImage imageName = (none, some ev) := by
    rcases hI : m.client.InspectImage imageName with ⟨image, err2⟩
    rw [hI] at h
    have h2 : err2 = some err := h
    subst h2
    unfold ImageManager.FindImage
    simp only [hI]
    split
    · exact ⟨_, rfl⟩
    · exact ⟨_, rfl⟩
  obtain ⟨ev, hev⟩ := hF
  refine ⟨ev.Error, ?_⟩
  show ((m.FindImage imageName).1, (m.FindImage imageName).2.map ErrorValue.Error) = _
  rw [hev]
  rfl

/-- C29: whenever `FindImage` answers an error for the base image name,
whatever the error, `CreateCompilationBase` goes on to the build flow: its
next call is `ioutil.TempDir`, and its results are those of the build flow,
in which the lookup error does not occur; with the manager of
`docker/docker.go` this is so for the sentinel `ErrImageNotFound` and for
every other lookup failure alike. -/
theorem C29_any_lookup_error_starts_the_build (env : BaseEnv) (c : Compilator) (d : Daemon)
    (baseImageName : String) (x : Option Image) (e : String)
    (h : d.FindImage (c.DockerRepository ++ ":" ++ BaseCompilationImageTag c) = (x, some e)) :
    (∃ rest, (CreateCompilationBase env c d baseImageName).2.2 =
      BaseEvent.FindImage (c.DockerRepository ++ ":" ++ BaseCompilationImageTag c) ::
        BaseEvent.TempDir "" "fissile-compilation" :: rest) ∧
    (∀ tempScriptDir, env.TempDir "" "fissile-compilation" = (tempScriptDir, none) →
      env.SaveScript c.BaseType env.PreprequisitesScript
        (env.Join [tempScriptDir, "compilation-prerequisites.sh"]) = none →
      CreateCompilationBase env c d baseImageName =
        buildBaseImage env c d baseImageName tempScriptDir
          (env.Join [ContainerInPath, "compilation-prerequisites.sh"])
          [BaseEvent.FindImage (c.DockerRepository ++ ":" ++ BaseCompilationImageTag c),
            BaseEvent.TempDir "" "fissile-compilation",
            BaseEvent.SaveScript c.BaseType env.PreprequisitesScript
              (env.Join [tempScriptDir, "compilation-prerequisites.sh"])]) ∧
    (∀ (m : ImageManager) (err : ErrorValue),
      (m.client.InspectImage (c.DockerRepository ++ ":" ++ BaseCompilationImageTag c)).2 =
        some err →
      ∃ rest, (CreateCompilationBase env c (daemonOf m) baseImageName).2.2 =
        BaseEvent.FindImage (c.DockerRepository ++ ":" ++ BaseCompilationImageTag c) ::
          BaseEvent.TempDir "" "fissile-compilation" :: rest) := by
  have hstart : ∀ (d0 : Daemon) (x0 : Option Image) (e0 : String),
      d0.FindImage (c.DockerRepository ++ ":" ++ BaseCompilationImageTag c) = (x0, some e0) →
      ∃ rest, (CreateCompilationBase env c d0 baseImageName).2.2 =
        BaseEvent.FindImage (c.DockerRepository ++ ":" ++ BaseCompilationImageTag c) ::
          BaseEvent.TempDir "" "fissile-compilation" :: rest := by
    intro d0 x0 e0 h0
    rw [CreateCompilationBase_lookup_failed env c d0 baseImageName x0 e0 h0]
    rcases ht : env.TempDir "" "fissile-compilation" with ⟨tempScriptDir, _ | e1⟩
    · simp only
      cases hs : env.SaveScript c.BaseType env.PreprequisitesScript
          (env.Join [tempScriptDir, "compilation-prerequisites.sh"]) with
      | some e2 => exact ⟨_, rfl⟩
      | none =>
        simp only
        obtain ⟨rest, hrest⟩ := buildBaseImage_prefix env c d0 baseImageName tempScriptDir
          (env.Join [ContainerInPath, "compilation-prerequisites.sh"])
          [BaseEvent.FindImage (c.DockerRepository ++ ":" ++ BaseCompilationImageTag c),
            BaseEvent.TempDir "" "fissile-compilation",
            BaseEvent.SaveScript c.BaseType env.PreprequisitesScript
              (env.Join [tempScriptDir, "compilation-prerequisites.sh"])]
        rw [hrest]
        exact ⟨_, rfl⟩
    · exact ⟨_, rfl⟩
  refine ⟨hstart d x e h, ?_, ?_⟩
  · intro tempScriptDir ht hs
    rw [CreateCompilationBase_lookup_failed env c d baseImageName x e h, ht]
    simp only [hs]
  · intro m err hm
    obtain ⟨e0, he0⟩ := daemonOf_lookup_error m _ err hm
    exact hstart (daemonOf m) none e0 he0

theorem C29_witness :
    CreateCompilationBase (exampleBaseEnv 0 none) exampleCompilator (daemonOf brokenManager)
        "ubuntu:14.04" =
      buildBaseImage (exampleBaseEnv 0 none) exampleCompilator (daemonOf brokenManager)
        "ubuntu:14.04" "/tmp/fissile-compilation"
        ((exampleBaseEnv 0 none).Join [ContainerInPath, "compilation-prerequisites.sh"])
        [BaseEvent.FindImage (exampleCompilator.DockerRepository ++ ":" ++
            BaseCompilationImageTag exampleCompilator),
          BaseEvent.TempDir "" "fissile-compilation",
          BaseEvent.SaveScript exampleCompilator.BaseType
            (exampleBaseEnv 0 none).PreprequisitesScript
            ((exampleBaseEnv 0 none).Join
              ["/tmp/fissile-compilation", "compilation-prerequisites.sh"])] ∧
    (CreateCompilationBase (exampleBaseEnv 0 none) exampleCompilator (daemonOf brokenManager)
        "ubuntu:14.04").1 = BaseOutcome.returned (some { ID := "img" }) none :=
  ⟨(C29_any_lookup_error_starts_the_build (exampleBaseEnv 0 none) exampleCompilator
      (daemonOf brokenManager) "ubuntu:14.04" none
      "Error looking up image repo:rel-7-cbase: connection refused" rfl).2.1
      "/tmp/fissile-compilation" rfl rfl, rfl⟩

/-! ## A failed attempt ends the scan (C25) -/

/-- A scan that completes on a first stretch of packages goes on with the
rest from the state it reached. -/
theorem scanPackages_append (env : Env) (pre l : List Ptr) (wk0 wk : Worker)
    (h : scanPackages env pre wk0 = Except.ok (LoopExit.completed, wk)) :
    scanPackages env (pre ++ l) wk0 = scanPackages env l wk := by
  induction pre generalizing wk0 with
  | nil =>
    unfold scanPackages at h
    cases h
    rfl
  | cons pkg rest ih =>
    unfold scanPackages at h
    rw [List.cons_append]
    conv_lhs => unfold scanPackages
    rcases hst : getPackageStatus env wk0.s.c wk0.s.w pkg with a | ⟨pkgState, _ | workerErr⟩
    · rw [hst] at h
      cases h
    · rw [hst] at h
      simp only at h ⊢
      by_cases hnone : pkgState = packageNone
      · subst hnone
        simp only [if_true] at h ⊢
        cases hatt : attemptPackage env
            { wk0 with s := wk0.s.log (Event.getPackageStatus pkg packageNone none) } pkg
            packageNone with
        | error a =>
          rw [hatt] at h
          cases h
        | ok wk1 =>
          rw [hatt] at h
          simp only at h ⊢
          by_cases hres : wk1.result = []
          · simp only [hres, ne_eq, not_true_eq_false, if_false] at h ⊢
            exact ih _ h
          · simp only [hres, ne_eq, not_false_eq_true, if_true] at h
            cases h
      · simp only [hnone, if_false] at h ⊢
        exact ih _ h
    · rw [hst] at h
      cases h

/-- A probe that answers was made on a package that has its lock. -/
theorem getPackageStatus_locked (env : Env) (c : Compilator) (w : World) (pkg : Ptr)
    (r : Nat × GoError) (h : getPackageStatus env c w pkg = Except.ok r) :
    c.packageLock pkg = some () := by
  cases hl : c.packageLock pkg with
  | some u => rfl
  | none =>
    unfold getPackageStatus at h
    simp only [hl] at h
    cases h

/-- A scan that meets no package probed None and no failing probe makes no
attempt and never looks at the aggregate: whatever the aggregate holds, it
probes every package of the list, in order, and runs to its end. -/
theorem scanPackages_no_attempt (env : Env) (l : List Ptr) (wk : Worker)
    (h : ∀ p ∈ l, ∃ st, getPackageStatus env wk.s.c wk.s.w p = Except.ok (st, none) ∧
      st ≠ packageNone) :
    ∃ evs : List Event,
      scanPackages env l wk = Except.ok (LoopExit.completed, { wk with s := wk.s.addEvents evs }) ∧
      evs.map Event.probeOf = l.map some := by
  induction l generalizing wk with
  | nil =>
    refine ⟨[], ?_, rfl⟩
    unfold scanPackages
    rw [addEvents_nil]
  | cons pkg rest ih =>
    obtain ⟨st, hst, hne⟩ := h pkg (List.mem_cons_self _ _)
    obtain ⟨evs, h1, h2⟩ := ih { wk with s := wk.s.log (Event.getPackageStatus pkg st none) }
      (fun p hp => h p (List.mem_cons_of_mem _ hp))
    refine ⟨Event.getPackageStatus pkg st none :: evs, ?_, ?_⟩
    · unfold scanPackages
      rw [hst]
      simp only [hne, if_false]
      rw [h1]
      simp only [log_eq_addEvents, addEvents_addEvents]
      rfl
    · rw [List.map_cons, List.map_cons, h2]
      rfl

/-- When, in a scan pass, the packages before `pkg` have been scanned, `pkg`
is probed None and `compilePackage(pkg)` returns the error `e`, the worker
clears the flag, appends `e` to the aggregate, leaves the scan at once and
returns in the state `compilePackage` left. -/
theorem failed_attempt_returns (env : Env) (fuel : Nat) (wk0 wk : Worker) (pre rest : List Ptr)
    (pkg : Ptr) (e : String) (s2 : State)
    (hrel : wk0.s.c.Release.Packages = pre ++ pkg :: rest)
    (hpre : scanPackages env pre { wk0 with hasWork := false } =
      Except.ok (LoopExit.completed, wk))
    (hst : getPackageStatus env wk.s.c wk.s.w pkg = Except.ok (packageNone, none))
    (hcp : compilePackage env
      { c := wk.s.c.withFlag pkg true, w := wk.s.w,
        events := wk.s.events ++ [Event.getPackageStatus pkg packageNone none] ++
          [Event.compilePackage pkg] } pkg = Except.ok (some e, s2)) :
    scanPackages env (pkg :: rest) wk =
      Except.ok (LoopExit.broke,
        { s := { s2 with c := s2.c.withFlag pkg false }, result := wk.result ++ [e],
          hasWork := true }) ∧
    workerLoop env (fuel + 1) wk0 =
      Except.ok
        { s := { s2 with c := s2.c.withFlag pkg false }, result := wk.result ++ [e],
          hasWork := true } := by
  have hl := getPackageStatus_locked env _ _ _ _ hst
  have hcc : s2.c = wk.s.c.withFlag pkg true := (compilePackage_evolves env _ s2 pkg _ hcp).1
  have hl2 : s2.c.packageLock pkg = some () := by rw [hcc]; exact hl
  have hatt : attemptPackage env
      { wk with s := wk.s.log (Event.getPackageStatus pkg packageNone none) } pkg
      packageNone =
      Except.ok { s := { s2 with c := s2.c.withFlag pkg false }, result := wk.result ++ [e],
                  hasWork := true } := by
    unfold attemptPackage
    have hl3 : (State.log wk.s (Event.getPackageStatus pkg packageNone none)).c.packageLock
        pkg = some () := hl
    rw [setCompiling_eq _ _ _ hl3]
    simp only [if_true]
    have hcp2 : compilePackage env
        { c := (State.log wk.s (Event.getPackageStatus pkg packageNone none)).c.withFlag pkg
            true,
          w := (State.log wk.s (Event.getPackageStatus pkg packageNone none)).w,
          events := (State.log wk.s (Event.getPackageStatus pkg packageNone none)).events ++
            [Event.compilePackage pkg] } pkg = Except.ok (some e, s2) := hcp
    rw [hcp2]
    simp only
    rw [setCompiling_eq _ _ _ hl2]
  have h1 : scanPackages env (pkg :: rest) wk =
      Except.ok (LoopExit.broke,
        { s := { s2 with c := s2.c.withFlag pkg false }, result := wk.result ++ [e],
          hasWork := true }) := by
    unfold scanPackages
    simp only [hst, if_true, hatt, ne_eq, List.append_eq_nil, List.cons_ne_self, and_false,
      not_false_eq_true]
  refine ⟨h1, ?_⟩
  unfold workerLoop
  rw [hrel, scanPackages_append env pre (pkg :: rest) _ wk hpre, h1]
  simp only [ne_eq, List.append_eq_nil, List.cons_ne_self, and_false, not_false_eq_true,
    if_true]

theorem C25_counterexample :
    ∃ sf, Compile (exampleEnv (fun _ => 3) none) 1 orderedCompilator emptyWorld 1 =
        Except.ok (["Error - compilation for package A exited with code 3"], sf) ∧
      some 2 ∉ sf.events.map Event.probeOf :=
  ⟨_, rfl, by decide⟩

/-- C25 (amended).  First part: when, in a scan pass, the packages before
`pkg` have been scanned, `pkg` is probed None and `compilePackage(pkg)`
returns the error `e`, the worker clears the flag, appends `e` to the
aggregate and leaves the scan at once (line 133): the state it leaves is the
one `compilePackage` left, so no package after `pkg` is visited, no
completion check is made, and the worker returns without another pass.
Second part: a worker whose scan makes no attempt (every package of the
release is probed without error and none is None) does not look at the
aggregate during the scan: even with the aggregate already non-nil it probes
every package of the release, in release order, and only then leaves its
loop (line 138), without a completion check. -/
theorem C25_failed_attempt_ends_the_scan (env : Env) :
    (∀ (fuel : Nat) (wk0 wk : Worker) (pre rest : List Ptr) (pkg : Ptr) (e : String)
        (s2 : State),
      wk0.s.c.Release.Packages = pre ++ pkg :: rest →
      scanPackages env pre { wk0 with hasWork := false } = Except.ok (LoopExit.completed, wk) →
      getPackageStatus env wk.s.c wk.s.w pkg = Except.ok (packageNone, none) →
      compilePackage env
        { c := wk.s.c.withFlag pkg true, w := wk.s.w,
          events := wk.s.events ++ [Event.getPackageStatus pkg packageNone none] ++
            [Event.compilePackage pkg] } pkg = Except.ok (some e, s2) →
      scanPackages env (pkg :: rest) wk =
        Except.ok (LoopExit.broke,
          { s := { s2 with c := s2.c.withFlag pkg false }, result := wk.result ++ [e],
            hasWork := true }) ∧
      workerLoop env (fuel + 1) wk0 =
        Except.ok
          { s := { s2 with c := s2.c.withFlag pkg false }, result := wk.result ++ [e],
            hasWork := true }) ∧
    (∀ (fuel : Nat) (wk0 : Worker),
      wk0.result ≠ [] →
      (∀ p ∈ wk0.s.c.Release.Packages,
        ∃ st, getPackageStatus env wk0.s.c wk0.s.w p = Except.ok (st, none) ∧
          st ≠ packageNone) →
      ∃ evs : List Event,
        evs.map Event.probeOf = wk0.s.c.Release.Packages.map some ∧
        scanPackages env wk0.s.c.Release.Packages { wk0 with hasWork := false } =
          Except.ok (LoopExit.completed,
            { s := wk0.s.addEvents evs, result := wk0.result, hasWork := false }) ∧
        workerLoop env (fuel + 1) wk0 =
          Except.ok { s := wk0.s.addEvents evs, result := wk0.result, hasWork := false }) := by
  refine ⟨?_, ?_⟩
  · intro fuel wk0 wk pre rest pkg e s2 hrel hpre hst hcp
    exact failed_attempt_returns env fuel wk0 wk pre rest pkg e s2 hrel hpre hst hcp
  · intro fuel wk0 hres hall
    obtain ⟨evs, h1, h2⟩ := scanPackages_no_attempt env wk0.s.c.Release.Packages
      { wk0 with hasWork := false } hall
    refine ⟨evs, h2, h1, ?_⟩
    unfold workerLoop
    rw [h1]
    simp only [hres, ne_eq, not_false_eq_true, if_true]

theorem C25_witness :
    (∃ wk1 : Worker,
      workerLoop (exampleEnv (fun _ => 3) none) 1 (initialWorker orderedCompilator emptyWorld) =
        Except.ok wk1 ∧
      wk1.result = ["Error - compilation for package A exited with code 3"] ∧
      some 2 ∉ wk1.s.events.map Event.probeOf) ∧
    (∃ evs : List Event,
      evs.map Event.probeOf = [some 1, some 2] ∧
      workerLoop (exampleEnv (fun _ => 0) none) 1
        { s := { c := orderedCompilator,
                 w := populate (populate emptyWorld "/w/A/compiled") "/w/B/compiled",
                 events := [] },
          result := ["an error of another worker"], hasWork := false } =
        Except.ok
          { s := State.addEvents
              { c := orderedCompilator,
                w := populate (populate emptyWorld "/w/A/compiled") "/w/B/compiled",
                events := [] } evs,
            result := ["an error of another worker"], hasWork := false }) :=
  ⟨⟨_, ((C25_failed_attempt_ends_the_scan (exampleEnv (fun _ => 3) none)).1 0
      (initialWorker orderedCompilator emptyWorld) (initialWorker orderedCompilator emptyWorld)
      [] [2] 1 "Error - compilation for package A exited with code 3" _ rfl rfl rfl rfl).2,
    rfl, by decide⟩,
   (by
    obtain ⟨evs, h1, _, h3⟩ :=
      (C25_failed_attempt_ends_the_scan (exampleEnv (fun _ => 0) none)).2 0
        { s := { c := orderedCompilator,
                 w := populate (populate emptyWorld "/w/A/compiled") "/w/B/compiled",
                 events := [] },
          result := ["an error of another worker"], hasWork := false }
        (by decide)
        (by
          intro p hp
          have hl : orderedCompilator.Release.Packages = [1, 2] := rfl
          rw [hl] at hp
          rcases List.mem_cons.mp hp with rfl | hp
          · exact ⟨packageCompiled, rfl, by decide⟩
          · rcases List.mem_cons.mp hp with rfl | hp
            · exact ⟨packageCompiled, rfl, by decide⟩
            · cases hp)
    exact ⟨evs, h1, h3⟩)⟩

/-! ## The flag around an attempt (C26) -/

/-- An attempt leaves every flag that was not set not set. -/
theorem Step.step_flags {env : Env} (a b : Worker) (h : Step env a b)
    (ha : ∀ p, (a.s.c.packageCompiling p).getD false = false) :
    ∀ p, (b.s.c.packageCompiling p).getD false = false := by
  cases h with
  | probe pkg st err hst => exact ha
  | attempt _ pkg hst hatt =>
    obtain ⟨_, r, sf, _, hb⟩ := attemptPackage_spec env a b pkg hatt
    subst hb
    intro p
    show ((mapSet (mapSet a.s.c.packageCompiling pkg true) pkg false) p).getD false = false
    unfold mapSet
    by_cases hp : p = pkg
    · simp [hp]
    · simp only [hp, if_false]
      exact ha p
  | sleep => exact ha
  | hasWork b => exact ha

theorem C26_counterexample :
    ∃ p : Pool,
      Pool.run (exampleEnv (fun _ => 0) none) [0, 1, 0, 1, 0]
        (Pool.start exampleCompilator emptyWorld 2) = some p ∧
      p.workers.map Goroutine.attempts = [none, some 2] ∧
      p.s.c.packageCompiling 2 = some false :=
  ⟨_, rfl, rfl, rfl⟩

/-- C26 (amended): an attempt on `pkg` first writes `true` into the flag of
`pkg`, which needs the lock of `pkg`, then calls `compilePackage` with that
compilator, and `compilePackage` writes no flag, so the flag is true when it
returns unless another worker wrote it meanwhile; after the attempt, whatever
`compilePackage` returned, the flag of `pkg` is false and the flag of every
other package is what it was; and when `Compile` returns on a compilator whose
flags were all clear, every flag is clear. -/
theorem C26_flag_is_set_around_the_attempt (env : Env) :
    (∀ (wk wk1 : Worker) (pkg : Ptr),
      attemptPackage env wk pkg packageNone = Except.ok wk1 →
      wk.s.c.packageLock pkg = some () ∧
      ∃ (r : GoError) (sf : State),
        compilePackage env
          { c := wk.s.c.withFlag pkg true, w := wk.s.w,
            events := wk.s.events ++ [Event.compilePackage pkg] } pkg = Except.ok (r, sf) ∧
        (wk.s.c.withFlag pkg true).packageCompiling pkg = some true ∧
        sf.c = wk.s.c.withFlag pkg true ∧
        wk1.result = wk.result ++ r.toList ∧
        wk1.s.c.packageCompiling pkg = some false ∧
        (∀ q, q ≠ pkg → wk1.s.c.packageCompiling q = wk.s.c.packageCompiling q) ∧
        wk1.s.c.packageLock = wk.s.c.packageLock) ∧
    (∀ (fuel : Nat) (c : Compilator) (w : World) (workerCount : Int) (result : List String)
        (sf : State),
      (∀ p, (c.packageCompiling p).getD false = false) →
      Compile env fuel c w workerCount = Except.ok (result, sf) →
      ∀ p, (sf.c.packageCompiling p).getD false = false) := by
  refine ⟨?_, ?_⟩
  · intro wk wk1 pkg h
    obtain ⟨hl, r, sf, hcp, hb⟩ := attemptPackage_spec env wk wk1 pkg h
    refine ⟨hl, r, sf, hcp, ?_, (compilePackage_evolves env _ sf pkg r hcp).1, ?_, ?_, ?_, ?_⟩
    · show mapSet wk.s.c.packageCompiling pkg true pkg = some true
      simp [mapSet]
    · rw [hb]
    · rw [hb]
      show mapSet (mapSet wk.s.c.packageCompiling pkg true) pkg false pkg = some false
      simp [mapSet]
    · intro q hq
      rw [hb]
      show mapSet (mapSet wk.s.c.packageCompiling pkg true) pkg false q = _
      simp [mapSet, hq]
    · rw [hb]
      rfl
  · intro fuel c w workerCount result sf hc h
    obtain ⟨hw, hst⟩ := runWorkers_steps env fuel _ _ _ _ _ h
    exact Steps.steps_inv (fun x => ∀ p, (x.s.c.packageCompiling p).getD false = false)
      (fun a b hab ha => Step.step_flags a b hab ha) hst hc

theorem C26_witness :
    ∃ sf, Compile (exampleEnv (fun _ => 0) none) 3 exampleCompilator emptyWorld 1 =
        Except.ok ([], sf) ∧
      (sf.c.packageCompiling 1).getD false = false ∧
      (sf.c.packageCompiling 2).getD false = false :=
  ⟨_, rfl,
    (C26_flag_is_set_around_the_attempt (exampleEnv (fun _ => 0) none)).2 3 exampleCompilator
      emptyWorld 1 [] _
      ((registerPackages_fields exampleRelease.Packages
        { Release := exampleRelease, HostWorkDir := "/w", DockerRepository := "repo",
          BaseType := "ubuntu", packageLock := fun _ => none,
          packageCompiling := fun _ => none }).2.2.2.2 (fun _ => rfl)) rfl 1,
    (C26_flag_is_set_around_the_attempt (exampleEnv (fun _ => 0) none)).2 3 exampleCompilator
      emptyWorld 1 [] _
      ((registerPackages_fields exampleRelease.Packages
        { Release := exampleRelease, HostWorkDir := "/w", DockerRepository := "repo",
          BaseType := "ubuntu", packageLock := fun _ => none,
          packageCompiling := fun _ => none }).2.2.2.2 (fun _ => rfl)) rfl 2⟩

/-! ## What follows a failed container run (C27) -/

theorem NoFailedRun.noFailedRun_ends {evs : List Event} (h : NoFailedRun evs) :
    EndsAtFailure evs := by
  intro pre ev post heq hev
  have := h ev (by rw [heq]; simp)
  rw [this] at hev
  cases hev

theorem NoFailedRun.noFailedRun_append {a b : List Event} (ha : NoFailedRun a)
    (hb : NoFailedRun b) : NoFailedRun (a ++ b) := by
  intro ev hev
  rcases List.mem_append.mp hev with h | h
  · exact ha ev h
  · exact hb ev h

theorem isFailedRun_of_not_isRun (ev : Event) (h : ev.isRun = false) :
    ev.isFailedRun = false := by
  cases ev <;> first | rfl | cases h

theorem primaryError_of_failed (name : String) (r : RunResult)
    (h : (r.err.isSome || r.exitCode != 0) = true) : primaryError name r ≠ none := by
  unfold primaryError
  cases he : r.err with
  | some e => simp
  | none =>
    rw [he] at h
    simp only [Option.isSome_none, Bool.false_or, bne_iff_ne, ne_eq] at h
    simp [h]

theorem mergeRemoval_ne_none (err removeErr : GoError) (h : err ≠ none) :
    mergeRemoval err removeErr ≠ none := by
  unfold mergeRemoval
  cases removeErr with
  | none => exact h
  | some re =>
    cases err with
    | none => exact absurd rfl h
    | some e => simp

/-- An attempt that starts from events without a failed run either adds none,
or adds one followed by the removal alone and leaves the aggregate non-nil. -/
theorem attemptPackage_ends (env : Env) (wk wk1 : Worker) (pkg : Ptr)
    (h : attemptPackage env wk pkg packageNone = Except.ok wk1)
    (hclean : NoFailedRun wk.s.events) :
    EndsAtFailure wk1.s.events ∧ (wk1.result = [] → NoFailedRun wk1.s.events) := by
  obtain ⟨_, r, sf, hcp, hb⟩ := attemptPackage_spec env wk wk1 pkg h
  have hclean2 : NoFailedRun (wk.s.events ++ [Event.compilePackage pkg]) := by
    apply NoFailedRun.noFailedRun_append hclean
    intro ev hev
    have := List.mem_singleton.mp hev
    subst this
    rfl
  have hev1 : wk1.s.events = sf.events := by rw [hb]
  have hres1 : wk1.result = wk.result ++ r.toList := by rw [hb]
  rw [hev1, hres1]
  rcases compilePackage_trace env _ sf pkg r hcp with ⟨evs, h1, h2⟩ | ⟨stage, h1, h2, _, h4⟩
  · have hc : NoFailedRun sf.events := by
      rw [h1]
      exact NoFailedRun.noFailedRun_append hclean2
        (fun ev hev => isFailedRun_of_not_isRun ev (h2 ev hev).1)
    exact ⟨hc.noFailedRun_ends, fun _ => hc⟩
  · have hfront : NoFailedRun (wk.s.events ++ [Event.compilePackage pkg] ++
        ((env.heap pkg).Dependencies.map compiledProbe ++ stage)) := by
      apply NoFailedRun.noFailedRun_append hclean2
      intro ev hev
      rcases List.mem_append.mp hev with hev | hev
      · obtain ⟨d, _, rfl⟩ := List.mem_map.mp hev
        rfl
      · have := h2 ev hev
        cases ev <;> first | rfl | cases this
    have hrem : ∀ ev ∈ removalEvents env
        (buildResult env (stagedState env
          { c := wk.s.c.withFlag pkg true, w := wk.s.w,
            events := wk.s.events ++ [Event.compilePackage pkg] } pkg) pkg).2
        (buildResult env (stagedState env
          { c := wk.s.c.withFlag pkg true, w := wk.s.w,
            events := wk.s.events ++ [Event.compilePackage pkg] } pkg) pkg).1.container,
        ev.isRemoval = true ∧ ev.isFailedRun = false := by
      intro ev hev
      cases hcont : (buildResult env (stagedState env
          { c := wk.s.c.withFlag pkg true, w := wk.s.w,
            events := wk.s.events ++ [Event.compilePackage pkg] } pkg) pkg).1.container with
      | none =>
        rw [hcont] at hev
        cases hev
      | some id =>
        rw [hcont] at hev
        simp only [removalEvents, List.mem_singleton] at hev
        subst hev
        exact ⟨rfl, rfl⟩
    have hshape : sf.events =
        (wk.s.events ++ [Event.compilePackage pkg] ++
          ((env.heap pkg).Dependencies.map compiledProbe ++ stage)) ++
        buildEvent env (stagedState env
          { c := wk.s.c.withFlag pkg true, w := wk.s.w,
            events := wk.s.events ++ [Event.compilePackage pkg] } pkg) pkg ::
        removalEvents env
          (buildResult env (stagedState env
            { c := wk.s.c.withFlag pkg true, w := wk.s.w,
              events := wk.s.events ++ [Event.compilePackage pkg] } pkg) pkg).2
          (buildResult env (stagedState env
            { c := wk.s.c.withFlag pkg true, w := wk.s.w,
              events := wk.s.events ++ [Event.compilePackage pkg] } pkg) pkg).1.container := by
      rw [h1]
      simp only [List.append_assoc]
    by_cases hbad : (buildEvent env (stagedState env
          { c := wk.s.c.withFlag pkg true, w := wk.s.w,
            events := wk.s.events ++ [Event.compilePackage pkg] } pkg) pkg).isFailedRun = true
    · refine ⟨?_, ?_⟩
      · intro pre ev post heq hev
        rw [hshape] at heq
        rcases split_append _ _ _ _ _ heq with ⟨post2, h5, _⟩ | ⟨pre2, h5, _⟩
        · have := hfront ev (by rw [h5]; simp)
          rw [this] at hev
          cases hev
        · cases pre2 with
          | nil =>
            simp only [List.nil_append, List.cons.injEq] at h5
            intro ev2 hev2
            rw [← h5.2] at hev2
            exact (hrem ev2 hev2).1
          | cons y pre3 =>
            simp only [List.cons_append, List.cons.injEq] at h5
            have := (hrem ev (by rw [h5.2]; simp)).2
            rw [this] at hev
            cases hev
      · intro hnil
        exfalso
        have hr : r ≠ none := by
          rw [h4]
          apply mergeRemoval_ne_none
          apply primaryError_of_failed
          exact hbad
        cases r with
        | none => exact hr rfl
        | some e => simp at hnil
    · have hc : NoFailedRun sf.events := by
        rw [hshape]
        apply NoFailedRun.noFailedRun_append hfront
        intro ev hev
        rcases List.mem_cons.mp hev with rfl | hev
        · simpa using hbad
        · exact (hrem ev hev).2
      exact ⟨hc.noFailedRun_ends, fun _ => hc⟩

theorem noFailedRun_log (s : State) (ev : Event) (h : NoFailedRun s.events)
    (hev : ev.isFailedRun = false) : NoFailedRun (s.log ev).events := by
  intro x hx
  rcases List.mem_append.mp hx with hx | hx
  · exact h x hx
  · have := List.mem_singleton.mp hx
    subst this
    exact hev

theorem scanPackages_ends (env : Env) (l : List Ptr) (wk wk1 : Worker) (x : LoopExit)
    (h : scanPackages env l wk = Except.ok (x, wk1)) (hclean : NoFailedRun wk.s.events) :
    EndsAtFailure wk1.s.events ∧ (wk1.result = [] → NoFailedRun wk1.s.events) := by
  induction l generalizing wk with
  | nil =>
    unfold scanPackages at h
    cases h
    exact ⟨hclean.noFailedRun_ends, fun _ => hclean⟩
  | cons pkg rest ih =>
    unfold scanPackages at h
    rcases hst : getPackageStatus env wk.s.c wk.s.w pkg with a | ⟨pkgState, _ | workerErr⟩
    · rw [hst] at h
      cases h
    · rw [hst] at h
      simp only at h
      have hlog : NoFailedRun (wk.s.log (Event.getPackageStatus pkg pkgState none)).events :=
        noFailedRun_log _ _ hclean rfl
      by_cases hnone : pkgState = packageNone
      · subst hnone
        simp only [if_true] at h
        cases hatt : attemptPackage env
            { wk with s := wk.s.log (Event.getPackageStatus pkg packageNone none) } pkg
            packageNone with
        | error a =>
          rw [hatt] at h
          cases h
        | ok wk2 =>
          rw [hatt] at h
          simp only at h
          have h2 := attemptPackage_ends env _ wk2 pkg hatt hlog
          by_cases hres : wk2.result = []
          · simp only [hres, ne_eq, not_true_eq_false, if_false] at h
            exact ih _ h (h2.2 hres)
          · simp only [hres, ne_eq, not_false_eq_true, if_true] at h
            cases h
            exact h2
      · simp only [hnone, if_false] at h
        exact ih _ h hlog
    · rw [hst] at h
      cases h
      have hlog : NoFailedRun
          (wk.s.log (Event.getPackageStatus pkg pkgState (some workerErr))).events :=
        noFailedRun_log _ _ hclean rfl
      exact ⟨hlog.noFailedRun_ends, fun _ => hlog⟩

theorem checkDone_noFailedRun (env : Env) (l : List Ptr) (s s2 : State) (d : DoneCheck)
    (h : checkDone env l s = Except.ok (d, s2)) (hclean : NoFailedRun s.events) :
    NoFailedRun s2.events := by
  induction l generalizing s with
  | nil =>
    unfold checkDone at h
    cases h
    exact hclean
  | cons pkg rest ih =>
    unfold checkDone at h
    split at h
    · cases h
    · cases h
      exact noFailedRun_log _ _ hclean rfl
    · split at h
      · cases h
        exact noFailedRun_log _ _ hclean rfl
      · exact ih _ h (noFailedRun_log _ _ hclean rfl)

theorem workerLoop_ends (env : Env) (fuel : Nat) (wk wkf : Worker)
    (h : workerLoop env fuel wk = Except.ok wkf) (hclean : NoFailedRun wk.s.events) :
    EndsAtFailure wkf.s.events ∧ (wkf.result = [] → NoFailedRun wkf.s.events) := by
  induction fuel generalizing wk with
  | zero =>
    unfold workerLoop at h
    cases h
  | succ fuel ih =>
    unfold workerLoop at h
    split at h
    · cases h
    · next wk1 hscan =>
      cases h
      exact scanPackages_ends env _ _ _ _ hscan hclean
    · next x wk1 hx hscan =>
      have h2 := scanPackages_ends env _ _ _ _ hscan hclean
      split at h
      · cases h
        exact h2
      · next hres =>
        have hres2 : wk1.result = [] := not_not.mp hres
        have hc1 := h2.2 hres2
        split at h
        · cases h
        · next workerErr s2 hcd =>
          cases h
          have hc2 := checkDone_noFailedRun env _ _ _ _ hcd hc1
          exact ⟨hc2.noFailedRun_ends, fun _ => hc2⟩
        · next d s2 hcd =>
          have hc2 := checkDone_noFailedRun env _ _ _ _ hcd hc1
          split at h
          · cases h
            exact ⟨hc2.noFailedRun_ends, fun _ => hc2⟩
          · split at h
            · exact ih _ h (noFailedRun_log _ _ hc2 rfl)
            · exact ih _ h hc2

/-! ## Locks are never missing on a closed release (C30) -/

theorem getPackageStatus_ok (env : Env) (c : Compilator) (w : World) (pkg : Ptr)
    (hl : c.packageLock pkg = some ()) : ∃ r, getPackageStatus env c w pkg = Except.ok r := by
  cases h : getPackageStatus env c w pkg with
  | ok r => exact ⟨r, rfl⟩
  | error a =>
    exfalso
    unfold getPackageStatus at h
    simp only [hl] at h
    repeat' split at h
    all_goals cases h

theorem getPackageStatus_nilMutex (env : Env) (c : Compilator) (w : World) (pkg : Ptr)
    (hl : c.packageLock pkg = none) :
    getPackageStatus env c w pkg = Except.error Abort.nilMutex := by
  unfold getPackageStatus
  simp only [hl]

theorem checkDependencies_ok (env : Env) (deps : List Ptr) (s : State)
    (hl : ∀ d ∈ deps, s.c.packageLock d = some ()) :
    ∃ r, checkDependencies env deps s = Except.ok r := by
  induction deps generalizing s with
  | nil => exact ⟨_, rfl⟩
  | cons dep rest ih =>
    unfold checkDependencies
    obtain ⟨⟨st, err⟩, hst⟩ := getPackageStatus_ok env s.c s.w dep
      (hl dep (List.mem_cons_self _ _))
    rw [hst]
    cases err with
    | some e => exact ⟨_, rfl⟩
    | none =>
      simp only
      split
      · exact ⟨_, rfl⟩
      · exact ih _ (fun d hd => hl d (List.mem_cons_of_mem _ hd))

theorem compilePackage_ok (env : Env) (s : State) (pkg : Ptr)
    (hl : ∀ d ∈ (env.heap pkg).Dependencies, s.c.packageLock d = some ()) :
    ∃ r, compilePackage env s pkg = Except.ok r := by
  unfold compilePackage
  obtain ⟨⟨x, s0⟩, hcd⟩ := checkDependencies_ok env _ s hl
  rw [hcd]
  cases x with
  | some r => exact ⟨_, rfl⟩
  | none =>
    simp only
    split
    · exact ⟨_, rfl⟩
    · exact ⟨_, rfl⟩

theorem attemptPackage_ok (env : Env) (wk : Worker) (pkg : Ptr)
    (hl : wk.s.c.packageLock pkg = some ())
    (hd : ∀ d ∈ (env.heap pkg).Dependencies, wk.s.c.packageLock d = some ()) :
    ∃ wk1, attemptPackage env wk pkg packageNone = Except.ok wk1 := by
  unfold attemptPackage
  rw [setCompiling_eq wk.s.c pkg true hl]
  simp only [if_true]
  obtain ⟨⟨r, s2⟩, hcp⟩ := compilePackage_ok env
    { wk.s with c := wk.s.c.withFlag pkg true,
                events := wk.s.events ++ [Event.compilePackage pkg] } pkg hd
  rw [hcp]
  simp only
  have hc : s2.c = wk.s.c.withFlag pkg true := (compilePackage_evolves env _ s2 pkg r hcp).1
  have hl2 : s2.c.packageLock pkg = some () := by rw [hc]; exact hl
  rw [setCompiling_eq s2.c pkg false hl2]
  exact ⟨_, rfl⟩

theorem Step.step_lock {env : Env} (a b : Worker) (h : Step env a b) :
    b.s.c.packageLock = a.s.c.packageLock := by
  cases h with
  | probe pkg st err hst => rfl
  | attempt _ pkg hst hatt =>
    obtain ⟨_, r, sf, _, hb⟩ := attemptPackage_spec env a b pkg hatt
    subst hb
    rfl
  | sleep => rfl
  | hasWork b => rfl

theorem Steps.steps_lock {env : Env} {a b : Worker} (h : Steps env a b) :
    b.s.c.packageLock = a.s.c.packageLock :=
  Steps.steps_inv (fun x => x.s.c.packageLock = a.s.c.packageLock)
    (fun x y hxy hx => (Step.step_lock x y hxy).trans hx) h rfl

theorem Locked.locked_of_lock {env : Env} {pkgs : List Ptr} {c c2 : Compilator}
    (h : Locked env pkgs c) (heq : c2.packageLock = c.packageLock) : Locked env pkgs c2 := by
  intro p hp
  rw [heq]
  exact h p hp

theorem scanPackages_ok (env : Env) (l : List Ptr) (wk : Worker)
    (hl : Locked env l wk.s.c) : ∃ r, scanPackages env l wk = Except.ok r := by
  induction l generalizing wk with
  | nil => exact ⟨_, rfl⟩
  | cons pkg rest ih =>
    have hrest : Locked env rest wk.s.c := fun p hp => hl p (List.mem_cons_of_mem _ hp)
    obtain ⟨hp1, hp2⟩ := hl pkg (List.mem_cons_self _ _)
    unfold scanPackages
    obtain ⟨⟨st, err⟩, hst⟩ := getPackageStatus_ok env wk.s.c wk.s.w pkg hp1
    rw [hst]
    cases err with
    | some e => exact ⟨_, rfl⟩
    | none =>
      simp only
      by_cases hnone : st = packageNone
      · subst hnone
        simp only [if_true]
        obtain ⟨wk1, hatt⟩ := attemptPackage_ok env
          { wk with s := wk.s.log (Event.getPackageStatus pkg packageNone none) } pkg hp1 hp2
        rw [hatt]
        simp only
        split
        · exact ⟨_, rfl⟩
        · apply ih
          apply hrest.locked_of_lock
          obtain ⟨_, r, sf, _, hb⟩ := attemptPackage_spec env _ wk1 pkg hatt
          rw [hb]
          rfl
      · simp only [hnone, if_false]
        exact ih _ hrest

theorem checkDone_ok (env : Env) (l : List Ptr) (s : State)
    (hl : ∀ p ∈ l, s.c.packageLock p = some ()) : ∃ r, checkDone env l s = Except.ok r := by
  induction l generalizing s with
  | nil => exact ⟨_, rfl⟩
  | cons pkg rest ih =>
    unfold checkDone
    obtain ⟨⟨st, err⟩, hst⟩ := getPackageStatus_ok env s.c s.w pkg
      (hl pkg (List.mem_cons_self _ _))
    rw [hst]
    cases err with
    | some e => exact ⟨_, rfl⟩
    | none =>
      simp only
      split
      · exact ⟨_, rfl⟩
      · exact ih _ (fun p hp => hl p (List.mem_cons_of_mem _ hp))

/-- A worker on a compilator that holds the locks of its packages and of
their dependencies returns or runs out of fuel; it never locks a nil mutex. -/
theorem workerLoop_noPanic (env : Env) (fuel : Nat) (wk : Worker)
    (hl : Locked env wk.s.c.Release.Packages wk.s.c) :
    (∃ wk1, workerLoop env fuel wk = Except.ok wk1) ∨
    (∃ evs, workerLoop env fuel wk = Except.error (Abort.outOfFuel evs)) := by
  induction fuel generalizing wk with
  | zero => exact Or.inr ⟨_, rfl⟩
  | succ fuel ih =>
    unfold workerLoop
    obtain ⟨⟨x, wk1⟩, hscan⟩ := scanPackages_ok env wk.s.c.Release.Packages
      { wk with hasWork := false } hl
    have hsteps := scanPackages_steps env _ _ _ _ hscan
    have hlock1 : wk1.s.c.packageLock = wk.s.c.packageLock :=
      @Steps.steps_lock env { wk with hasWork := false } wk1 hsteps
    have hrel1 : wk1.s.c.Release = wk.s.c.Release :=
      @Steps.steps_release env { wk with hasWork := false } wk1 hsteps
    have hl1 : Locked env wk1.s.c.Release.Packages wk1.s.c := by
      rw [hrel1]
      exact hl.locked_of_lock hlock1
    rw [hscan]
    have hrest : (∃ wk2,
        (if wk1.result ≠ [] then Except.ok wk1
          else
            match checkDone env wk1.s.c.Release.Packages wk1.s with
            | Except.error a => Except.error a
            | Except.ok (DoneCheck.returned workerErr, s2) =>
              Except.ok { wk1 with s := s2, result := wk1.result ++ [workerErr] }
            | Except.ok (DoneCheck.done d, s2) =>
              if d then Except.ok { wk1 with s := s2 }
              else if !wk1.hasWork then
                workerLoop env fuel
                  { wk1 with s := s2.log (Event.Sleep sleepTimeWhileCantCompileSec) }
              else workerLoop env fuel { wk1 with s := s2 }) = Except.ok wk2) ∨
        (∃ evs,
        (if wk1.result ≠ [] then Except.ok wk1
          else
            match checkDone env wk1.s.c.Release.Packages wk1.s with
            | Except.error a => Except.error a
            | Except.ok (DoneCheck.returned workerErr, s2) =>
              Except.ok { wk1 with s := s2, result := wk1.result ++ [workerErr] }
            | Except.ok (DoneCheck.done d, s2) =>
              if d then Except.ok { wk1 with s := s2 }
              else if !wk1.hasWork then
                workerLoop env fuel
                  { wk1 with s := s2.log (Event.Sleep sleepTimeWhileCantCompileSec) }
              else workerLoop env fuel { wk1 with s := s2 }) =
          Except.error (Abort.outOfFuel evs)) := by
      split
      · exact Or.inl ⟨_, rfl⟩
      · obtain ⟨⟨d, s2⟩, hcd⟩ := checkDone_ok env wk1.s.c.Release.Packages wk1.s
          (fun p hp => (hl1 p hp).1)
        have hsteps2 := checkDone_steps env _ _ _ _ wk1.result wk1.hasWork hcd
        have hlock2 : s2.c.packageLock = wk1.s.c.packageLock :=
          @Steps.steps_lock env _ _ hsteps2
        have hrel2 : s2.c.Release = wk1.s.c.Release := @Steps.steps_release env _ _ hsteps2
        have hl2 : Locked env s2.c.Release.Packages s2.c := by
          rw [hrel2]
          exact hl1.locked_of_lock hlock2
        rw [hcd]
        cases d with
        | returned workerErr => exact Or.inl ⟨_, rfl⟩
        | done d =>
          simp only
          split
          · exact Or.inl ⟨_, rfl⟩
          · split
            · exact ih _ hl2
            · exact ih _ hl2
    cases x with
    | returned => exact Or.inl ⟨_, rfl⟩
    | completed => exact hrest
    | broke => exact hrest

theorem runWorkers_noPanic (env : Env) (fuel n : Nat) (s : State) (result : List String)
    (hl : Locked env s.c.Release.Packages s.c) :
    runWorkers env fuel n s result ≠ Except.error Abort.nilMutex := by
  induction n generalizing s result with
  | zero =>
    intro h
    cases h
  | succ n ih =>
    unfold runWorkers
    rcases workerLoop_noPanic env fuel { s := s, result := result, hasWork := false } hl with
      ⟨wk1, h1⟩ | ⟨evs, h1⟩
    · rw [h1]
      simp only
      apply ih
      have hsteps := workerLoop_steps env fuel _ _ h1
      have hlock : wk1.s.c.packageLock = s.c.packageLock := @Steps.steps_lock env _ _ hsteps
      have hrel : wk1.s.c.Release = s.c.Release := @Steps.steps_release env _ _ hsteps
      rw [hrel]
      exact hl.locked_of_lock hlock
    · rw [h1]
      intro h
      cases h

theorem checkDependencies_nilMutex (env : Env) (pre post : List Ptr) (D : Ptr) (s : State)
    (hpre : ∀ d ∈ pre, getPackageStatus env s.c s.w d = Except.ok (packageCompiled, none))
    (hD : s.c.packageLock D = none) :
    checkDependencies env (pre ++ D :: post) s = Except.error Abort.nilMutex := by
  induction pre generalizing s with
  | nil =>
    rw [List.nil_append]
    unfold checkDependencies
    rw [getPackageStatus_nilMutex env s.c s.w D hD]
  | cons d rest ih =>
    rw [List.cons_append]
    unfold checkDependencies
    rw [hpre d (List.mem_cons_self _ _)]
    simp only [ne_eq, not_true_eq_false, if_false]
    exact ih _ (fun x hx => hpre x (List.mem_cons_of_mem _ hx)) hD

/-- C30: on the compilator `NewCompilator` builds for a release in which
every dependency of every package is a package of the release, `Compile`
never locks a missing mutex, and in every state of a run the probe and
`compilePackage` of every package of the release return; conversely a package
outside the release has no lock, its probe dereferences the nil mutex instead
of returning a status, and so does `compilePackage` of a package that reaches
it in its dependency list. -/
theorem C30_locks_cover_a_closed_release (env : Env) (release : Release)
    (hostWorkDir dockerRepository baseType : String) :
    (Closed env release →
      (∀ (fuel : Nat) (w : World) (workerCount : Int),
        Compile env fuel (NewCompilator release hostWorkDir dockerRepository baseType).1 w
          workerCount ≠ Except.error Abort.nilMutex) ∧
      (∀ (w : World) (wk : Worker),
        Steps env
          (initialWorker (NewCompilator release hostWorkDir dockerRepository baseType).1 w) wk →
        ∀ p ∈ release.Packages,
          (∃ r, getPackageStatus env wk.s.c wk.s.w p = Except.ok r) ∧
          (∃ r, compilePackage env wk.s p = Except.ok r))) ∧
    (∀ D, D ∉ release.Packages →
      (∀ w, getPackageStatus env
        (NewCompilator release hostWorkDir dockerRepository baseType).1 w D =
          Except.error Abort.nilMutex) ∧
      (∀ (s : State) (P : Ptr) (pre post : List Ptr),
        s.c.packageLock =
          (NewCompilator release hostWorkDir dockerRepository baseType).1.packageLock →
        (env.heap P).Dependencies = pre ++ D :: post →
        (∀ d ∈ pre, getPackageStatus env s.c s.w d = Except.ok (packageCompiled, none)) →
        compilePackage env s P = Except.error Abort.nilMutex)) := by
  have hL : ∀ p, (NewCompilator release hostWorkDir dockerRepository baseType).1.packageLock p =
      (if p ∈ release.Packages then some () else none) :=
    fun p => (registerPackages_maps release.Packages _ p).1
  have hR : (NewCompilator release hostWorkDir dockerRepository baseType).1.Release = release :=
    (registerPackages_fields release.Packages _).1
  refine ⟨?_, ?_⟩
  · intro hclosed
    have hlocked : Locked env release.Packages
        (NewCompilator release hostWorkDir dockerRepository baseType).1 := by
      intro p hp
      refine ⟨by rw [hL]; simp [hp], ?_⟩
      intro d hd
      rw [hL]
      simp [hclosed p hp d hd]
    refine ⟨?_, ?_⟩
    · intro fuel w workerCount
      unfold Compile
      apply runWorkers_noPanic
      show Locked env (NewCompilator release hostWorkDir dockerRepository
        baseType).1.Release.Packages _
      rw [hR]
      exact hlocked
    · intro w wk hsteps p hp
      have hlock : wk.s.c.packageLock =
          (NewCompilator release hostWorkDir dockerRepository baseType).1.packageLock :=
        Steps.steps_lock hsteps
      have hlk : Locked env release.Packages wk.s.c := hlocked.locked_of_lock hlock
      exact ⟨getPackageStatus_ok env _ _ p (hlk p hp).1, compilePackage_ok env _ p (hlk p hp).2⟩
  · intro D hD
    have hnone : (NewCompilator release hostWorkDir dockerRepository baseType).1.packageLock D =
        none := by
      rw [hL]
      simp [hD]
    refine ⟨fun w => getPackageStatus_nilMutex env _ w D hnone, ?_⟩
    intro s P pre post hs hdeps hpre
    unfold compilePackage
    rw [hdeps, checkDependencies_nilMutex env pre post D s hpre (by rw [hs]; exact hnone)]

theorem C30_witness :
    (∀ w, getPackageStatus (exampleEnv (fun _ => 0) none) openCompilator w 3 =
      Except.error Abort.nilMutex) ∧
    compilePackage (exampleEnv (fun _ => 0) none)
      { c := openCompilator, w := emptyWorld, events := [] } 4 = Except.error Abort.nilMutex ∧
    Compile (exampleEnv (fun _ => 0) none) 3 openCompilator emptyWorld 1 =
      Except.error Abort.nilMutex :=
  ⟨((C30_locks_cover_a_closed_release (exampleEnv (fun _ => 0) none) openRelease "/w" "repo"
      "ubuntu").2 3 (by decide)).1,
    ((C30_locks_cover_a_closed_release (exampleEnv (fun _ => 0) none) openRelease "/w" "repo"
      "ubuntu").2 3 (by decide)).2 { c := openCompilator, w := emptyWorld, events := [] } 4 []
      [1] rfl rfl (by intro d hd; cases hd),
    rfl⟩

/-! ## A pass of no-op attempts is not followed by the backoff (C24) -/

/-- An attempt on a package whose first dependency is probed not Compiled
does nothing but that probe, and still sets `hasWork` (line 123). -/
theorem attemptPackage_noop (env : Env) (wk : Worker) (pkg D : Ptr) (post : List Ptr) (st : Nat)
    (hl : wk.s.c.packageLock pkg = some ())
    (hdeps : (env.heap pkg).Dependencies = D :: post)
    (hD : getPackageStatus env (wk.s.c.withFlag pkg true) wk.s.w D = Except.ok (st, none))
    (hst : st ≠ packageCompiled) :
    attemptPackage env wk pkg packageNone =
      Except.ok
        { s := { c := (wk.s.c.withFlag pkg true).withFlag pkg false, w := wk.s.w,
                 events := wk.s.events ++ [Event.compilePackage pkg] ++
                   [Event.getPackageStatus D st none] },
          result := wk.result, hasWork := true } := by
  have hcp : compilePackage env
      { wk.s with c := wk.s.c.withFlag pkg true,
                  events := wk.s.events ++ [Event.compilePackage pkg] } pkg =
      Except.ok (none,
        { c := wk.s.c.withFlag pkg true, w := wk.s.w,
          events := wk.s.events ++ [Event.compilePackage pkg] ++
            [Event.getPackageStatus D st none] }) := by
    unfold compilePackage
    rw [hdeps]
    unfold checkDependencies
    have hD2 : getPackageStatus env
        ({ wk.s with c := wk.s.c.withFlag pkg true,
                     events := wk.s.events ++ [Event.compilePackage pkg] } : State).c
        ({ wk.s with c := wk.s.c.withFlag pkg true,
                     events := wk.s.events ++ [Event.compilePackage pkg] } : State).w D =
        Except.ok (st, none) := hD
    rw [hD2]
    simp only [hst, ne_eq, not_false_eq_true, if_true]
    rfl
  unfold attemptPackage
  rw [setCompiling_eq wk.s.c pkg true hl]
  simp only [if_true]
  rw [hcp]
  simp only
  rw [setCompiling_eq (wk.s.c.withFlag pkg true) pkg false hl]

theorem withFlag_flags_clear (c : Compilator) (pkg : Ptr)
    (h : ∀ p, (c.packageCompiling p).getD false = false) :
    ∀ p, (((c.withFlag pkg true).withFlag pkg false).packageCompiling p).getD false = false := by
  intro p
  show ((mapSet (mapSet c.packageCompiling pkg true) pkg false) p).getD false = false
  unfold mapSet
  by_cases hp : p = pkg
  · simp [hp]
  · simp only [hp, if_false]
    exact h p

theorem withFlag_other_clear (c : Compilator) (pkg D : Ptr) (hne : D ≠ pkg)
    (h : ∀ p, (c.packageCompiling p).getD false = false) :
    (((c.withFlag pkg true)).packageCompiling D).getD false = false := by
  show ((mapSet c.packageCompiling pkg true) D).getD false = false
  unfold mapSet
  simp only [hne, if_false]
  exact h D

/-- On the cyclic example the scan of a package is a probe that finds it
None and an attempt that stops at its dependency; the worker is as before,
with `hasWork` set and no sleep logged. -/
theorem cyclic_scan_one (wk : Worker) (pkg D : Ptr) (rest : List Ptr)
    (hI : CyclicIdle wk) (hlp : wk.s.c.packageLock pkg = some ())
    (hlD : wk.s.c.packageLock D = some ()) (hne : D ≠ pkg)
    (hdeps : (cyclicEnv.heap pkg).Dependencies = [D]) :
    ∃ wk1, scanPackages cyclicEnv (pkg :: rest) wk = scanPackages cyclicEnv rest wk1 ∧
      CyclicIdle wk1 ∧ wk1.hasWork = true := by
  have hw : wk.s.w = emptyWorld := hI.host
  have hprobe : getPackageStatus cyclicEnv wk.s.c wk.s.w pkg =
      Except.ok (packageNone, none) :=
    getPackageStatus_absent cyclicEnv _ _ pkg hlp (hI.flags pkg) (by rw [hw]; rfl)
  have hD : getPackageStatus cyclicEnv (wk.s.c.withFlag pkg true) wk.s.w D =
      Except.ok (packageNone, none) :=
    getPackageStatus_absent cyclicEnv _ _ D hlD (withFlag_other_clear _ pkg D hne hI.flags)
      (by rw [hw]; rfl)
  have hatt := attemptPackage_noop cyclicEnv
    { wk with s := wk.s.log (Event.getPackageStatus pkg packageNone none) } pkg D []
    packageNone hlp hdeps hD (by decide)
  refine ⟨{ s := { c := (wk.s.c.withFlag pkg true).withFlag pkg false, w := wk.s.w,
                   events := wk.s.events ++ [Event.getPackageStatus pkg packageNone none] ++
                     [Event.compilePackage pkg] ++ [Event.getPackageStatus D packageNone none] },
            result := wk.result, hasWork := true }, ?_, ?_, ?_⟩
  · conv_lhs => unfold scanPackages
    rw [hprobe]
    simp only [if_true]
    rw [hatt]
    simp only [hI.result_nil, ne_eq, not_true_eq_false, if_false]
    rfl
  · exact
      { release_eq := hI.release_eq
        lock1 := hI.lock1
        lock2 := hI.lock2
        flags := withFlag_flags_clear _ pkg hI.flags
        host := hI.host
        result_nil := hI.result_nil
        awake := by
          intro ev hev
          simp only [State.log, List.mem_append, List.mem_singleton] at hev
          rcases hev with ((hev | hev) | hev) | hev
          · exact hI.awake ev hev
          · subst hev; rfl
          · subst hev; rfl
          · subst hev; rfl }
  · rfl

/-- One pass of a worker on the cyclic example: two no-op attempts, a
completion check that stops at the first package, and the next pass without a
sleep. -/
theorem cyclic_pass (fuel : Nat) (wk : Worker) (hI : CyclicIdle wk) :
    ∃ wk1, CyclicIdle wk1 ∧ workerLoop cyclicEnv (fuel + 1) wk = workerLoop cyclicEnv fuel wk1 := by
  have hI0 : CyclicIdle { wk with hasWork := false } :=
    { release_eq := hI.release_eq, lock1 := hI.lock1, lock2 := hI.lock2, flags := hI.flags,
      host := hI.host, result_nil := hI.result_nil, awake := hI.awake }
  obtain ⟨wk1, h1, hI1, _⟩ := cyclic_scan_one { wk with hasWork := false } 1 2 [2] hI0
    hI.lock1 hI.lock2 (by decide) rfl
  obtain ⟨wk2, h2, hI2, hw2⟩ := cyclic_scan_one wk1 2 1 [] hI1 hI1.lock2 hI1.lock1
    (by decide) rfl
  have hscan : scanPackages cyclicEnv wk.s.c.Release.Packages { wk with hasWork := false } =
      Except.ok (LoopExit.completed, wk2) := by
    rw [hI.release_eq]
    show scanPackages cyclicEnv [1, 2] _ = _
    rw [h1, h2]
    rfl
  have hprobe : getPackageStatus cyclicEnv wk2.s.c wk2.s.w 1 = Except.ok (packageNone, none) :=
    getPackageStatus_absent cyclicEnv _ _ 1 hI2.lock1 (hI2.flags 1) (by rw [hI2.host]; rfl)
  have hcd : checkDone cyclicEnv wk2.s.c.Release.Packages wk2.s =
      Except.ok (DoneCheck.done false,
        wk2.s.log (Event.getPackageStatus 1 packageNone none)) := by
    rw [hI2.release_eq]
    show checkDone cyclicEnv [1, 2] _ = _
    unfold checkDone
    rw [hprobe]
    rfl
  refine ⟨{ wk2 with s := wk2.s.log (Event.getPackageStatus 1 packageNone none) }, ?_, ?_⟩
  · exact
      { release_eq := hI2.release_eq, lock1 := hI2.lock1, lock2 := hI2.lock2,
        flags := hI2.flags, host := hI2.host, result_nil := hI2.result_nil
        awake := by
          intro ev hev
          simp only [State.log, List.mem_append, List.mem_singleton] at hev
          rcases hev with hev | hev
          · exact hI2.awake ev hev
          · subst hev; rfl }
  · conv_lhs => unfold workerLoop
    rw [hscan]
    simp only [hI2.result_nil, ne_eq, not_true_eq_false, if_false]
    rw [hcd]
    simp only [hw2, Bool.not_true, Bool.false_eq_true, if_false]

theorem cyclic_workerLoop (fuel : Nat) (wk : Worker) (hI : CyclicIdle wk) :
    ∃ evs, workerLoop cyclicEnv fuel wk = Except.error (Abort.outOfFuel evs) ∧
      ∀ ev ∈ evs, ev.isSleep = false := by
  induction fuel generalizing wk with
  | zero => exact ⟨_, rfl, hI.awake⟩
  | succ fuel ih =>
    obtain ⟨wk1, hI1, h1⟩ := cyclic_pass fuel wk hI
    rw [h1]
    exact ih wk1 hI1

/-- C24: on the cyclic example (package `A` depends on `B` and `B` on `A`,
nothing compiled) a single worker, for every number of passes, only makes
passes of two no-op attempts each and never reaches the backoff sleep: the
run is out of fuel after events that hold no `Sleep`, and after two passes
they are the fourteen events of two scans and two completion checks. -/
theorem C24_noop_passes_never_sleep :
    (∀ fuel, ∃ evs,
      Compile cyclicEnv fuel orderedCompilator emptyWorld 1 =
        Except.error (Abort.outOfFuel evs) ∧
      ∀ ev ∈ evs, ev.isSleep = false) ∧
    runEvents (Compile cyclicEnv 2 orderedCompilator emptyWorld 1) =
      [Event.getPackageStatus 1 packageNone none, Event.compilePackage 1,
        Event.getPackageStatus 2 packageNone none,
        Event.getPackageStatus 2 packageNone none, Event.compilePackage 2,
        Event.getPackageStatus 1 packageNone none,
        Event.getPackageStatus 1 packageNone none,
        Event.getPackageStatus 1 packageNone none, Event.compilePackage 1,
        Event.getPackageStatus 2 packageNone none,
        Event.getPackageStatus 2 packageNone none, Event.compilePackage 2,
        Event.getPackageStatus 1 packageNone none,
        Event.getPackageStatus 1 packageNone none] := by
  refine ⟨?_, rfl⟩
  intro fuel
  have hI : CyclicIdle (initialWorker orderedCompilator emptyWorld) :=
    { release_eq := rfl, lock1 := rfl, lock2 := rfl
      flags := (registerPackages_fields orderedRelease.Packages
        { Release := orderedRelease, HostWorkDir := "/w", DockerRepository := "repo",
          BaseType := "ubuntu", packageLock := fun _ => none,
          packageCompiling := fun _ => none }).2.2.2.2 (fun _ => rfl)
      host := rfl, result_nil := rfl
      awake := by intro ev hev; cases hev }
  obtain ⟨evs, h1, h2⟩ := cyclic_workerLoop fuel _ hI
  refine ⟨evs, ?_, h2⟩
  unfold Compile
  have h3 : (1 : Int).toNat = 1 := rfl
  rw [h3]
  unfold runWorkers
  have h4 : workerLoop cyclicEnv fuel
      { s := { c := orderedCompilator, w := emptyWorld, events := [] }, result := [],
        hasWork := false } = Except.error (Abort.outOfFuel evs) := h1
  rw [h4]

/-! ## No retry by the same worker (C27) -/

/-- A worker that runs out of fuel has seen no failed container run: after a
failed run it would have returned. -/
theorem workerLoop_outOfFuel_clean (env : Env) (fuel : Nat) (wk : Worker) (evs : List Event)
    (h : workerLoop env fuel wk = Except.error (Abort.outOfFuel evs))
    (hclean : NoFailedRun wk.s.events) : NoFailedRun evs := by
  induction fuel generalizing wk with
  | zero =>
    unfold workerLoop at h
    cases h
    exact hclean
  | succ fuel ih =>
    unfold workerLoop at h
    split at h
    · next a hscan =>
      cases h
      cases scanPackages_error env _ _ _ hscan
    · cases h
    · next x wk1 _ hscan =>
      have h2 := scanPackages_ends env _ _ _ _ hscan hclean
      split at h
      · cases h
      · next hres =>
        have hres2 : wk1.result = [] := not_not.mp hres
        have hc1 := h2.2 hres2
        split at h
        · next a hcd =>
          cases h
          cases checkDone_error env _ _ _ hcd
        · cases h
        · next d s2 hcd =>
          have hc2 := checkDone_noFailedRun env _ _ _ _ hcd hc1
          split at h
          · cases h
          · split at h
            · exact ih _ h (noFailedRun_log _ _ hc2 rfl)
            · exact ih _ h hc2

theorem C27_counterexample :
    ∃ result sf, Compile (exampleEnv (fun _ => 3) none) 1 orderedCompilator emptyWorld 2 =
        Except.ok (result, sf) ∧
      (sf.events.filter Event.isFailedRun).map Event.runOf = [some 1, some 1] ∧
      result = ["Error - compilation for package A exited with code 3",
        "Error - compilation for package A exited with code 3"] :=
  ⟨_, _, rfl, rfl, rfl⟩

/-- C27 (amended), in four parts.  (1) The worker whose attempt failed makes
no retry: when `compilePackage(pkg)` returns an error the worker appends it
and returns at once, in the state `compilePackage` left with the flag of
`pkg` cleared; in that state `pkg` is probed None if its output directory is
absent or empty.  (2) With a single
worker, a run in which a container run answered an error or a non-zero exit
code has returned, its result is non-nil, and nothing follows the failed run
in its events but the removal of its container, so the package is not
attempted again in that invocation; on a compilator that holds the locks of
its packages and of their dependencies the run cannot have panicked instead.
(3) The failure is not persisted: in the state an invocation leaves (started
with every flag clear), a package with its lock whose output directory is
absent or empty is probed None.  (4) A worker whose scan comes to a package
probed None attempts it, whatever the aggregate holds and whatever happened
to the package before: it sets the flag and calls `compilePackage`, and only
then looks at the aggregate. -/
theorem C27_no_retry_by_the_same_worker (env : Env) :
    (∀ (fuel : Nat) (wk0 wk : Worker) (pre rest : List Ptr) (pkg : Ptr) (e : String)
        (s2 : State),
      wk0.s.c.Release.Packages = pre ++ pkg :: rest →
      scanPackages env pre { wk0 with hasWork := false } = Except.ok (LoopExit.completed, wk) →
      getPackageStatus env wk.s.c wk.s.w pkg = Except.ok (packageNone, none) →
      compilePackage env
        { c := wk.s.c.withFlag pkg true, w := wk.s.w,
          events := wk.s.events ++ [Event.getPackageStatus pkg packageNone none] ++
            [Event.compilePackage pkg] } pkg = Except.ok (some e, s2) →
      workerLoop env (fuel + 1) wk0 =
        Except.ok
          { s := { s2 with c := s2.c.withFlag pkg false }, result := wk.result ++ [e],
            hasWork := true } ∧
      (AbsentOrEmpty s2.w (getPackageCompiledDir env s2.c pkg) →
        getPackageStatus env (s2.c.withFlag pkg false) s2.w pkg =
          Except.ok (packageNone, none))) ∧
    (∀ (fuel : Nat) (c : Compilator) (w : World),
      (Locked env c.Release.Packages c →
        Compile env fuel c w 1 ≠ Except.error Abort.nilMutex) ∧
      ((∃ ev ∈ runEvents (Compile env fuel c w 1), ev.isFailedRun = true) →
        ∃ (result : List String) (sf : State),
          Compile env fuel c w 1 = Except.ok (result, sf) ∧ result ≠ [] ∧
          EndsAtFailure sf.events)) ∧
    (∀ (fuel : Nat) (c : Compilator) (w : World) (workerCount : Int) (result : List String)
        (sf : State) (p : Ptr),
      (∀ q, (c.packageCompiling q).getD false = false) →
      Compile env fuel c w workerCount = Except.ok (result, sf) →
      sf.c.packageLock p = some () →
      AbsentOrEmpty sf.w (getPackageCompiledDir env sf.c p) →
      getPackageStatus env sf.c sf.w p = Except.ok (packageNone, none)) ∧
    (∀ (wk : Worker) (pkg : Ptr) (rest : List Ptr),
      getPackageStatus env wk.s.c wk.s.w pkg = Except.ok (packageNone, none) →
      scanPackages env (pkg :: rest) wk =
        match compilePackage env
            { c := wk.s.c.withFlag pkg true, w := wk.s.w,
              events := wk.s.events ++ [Event.getPackageStatus pkg packageNone none] ++
                [Event.compilePackage pkg] } pkg with
        | Except.error a => Except.error a
        | Except.ok (workerErr, s2) =>
          if wk.result ++ workerErr.toList ≠ [] then
            Except.ok (LoopExit.broke,
              { s := { s2 with c := s2.c.withFlag pkg false },
                result := wk.result ++ workerErr.toList, hasWork := true })
          else
            scanPackages env rest
              { s := { s2 with c := s2.c.withFlag pkg false },
                result := wk.result ++ workerErr.toList, hasWork := true }) := by
  refine ⟨?_, ?_, ?_, ?_⟩
  · intro fuel wk0 wk pre rest pkg e s2 hrel hpre hst hcp
    refine ⟨(failed_attempt_returns env fuel wk0 wk pre rest pkg e s2 hrel hpre hst hcp).2, ?_⟩
    intro hdir
    have hl := getPackageStatus_locked env _ _ _ _ hst
    have hcc : s2.c = wk.s.c.withFlag pkg true := (compilePackage_evolves env _ s2 pkg _ hcp).1
    have hl2 : (s2.c.withFlag pkg false).packageLock pkg = some () := by
      show s2.c.packageLock pkg = some ()
      rw [hcc]
      exact hl
    have hf : (((s2.c.withFlag pkg false).packageCompiling pkg).getD false) = false := by
      simp [Compilator.withFlag, mapSet]
    rcases hdir with hdir | ⟨hd1, hd2⟩
    · exact getPackageStatus_absent env _ s2.w pkg hl2 hf hdir
    · exact getPackageStatus_empty env _ s2.w pkg hl2 hf hd1 hd2
  · intro fuel c w
    refine ⟨?_, ?_⟩
    · intro hl
      unfold Compile
      exact runWorkers_noPanic env fuel _ { c := c, w := w, events := [] } [] hl
    · rintro ⟨ev, hev, hbad⟩
      unfold Compile at hev ⊢
      have h1 : (1 : Int).toNat = 1 := rfl
      rw [h1] at hev ⊢
      unfold runWorkers at hev ⊢
      cases hwk : workerLoop env fuel
          { s := { c := c, w := w, events := [] }, result := [], hasWork := false } with
      | error a =>
        rw [hwk] at hev
        cases a with
        | nilMutex => cases hev
        | outOfFuel evs =>
          have hc := workerLoop_outOfFuel_clean env fuel _ evs hwk
            (by intro x hx; cases hx)
          have := hc ev hev
          rw [this] at hbad
          cases hbad
      | ok wk =>
        rw [hwk] at hev
        simp only at hev ⊢
        unfold runWorkers at hev ⊢
        obtain ⟨h3, h4⟩ := workerLoop_ends env fuel _ wk hwk (by intro x hx; cases hx)
        refine ⟨wk.result, wk.s, rfl, ?_, h3⟩
        intro hnil
        have := h4 hnil ev hev
        rw [this] at hbad
        cases hbad
  · intro fuel c w workerCount result sf p hc h hl hdir
    obtain ⟨hw, hst⟩ := runWorkers_steps env fuel _ _ _ _ _ h
    have hflags := Steps.steps_inv (fun x => ∀ q, (x.s.c.packageCompiling q).getD false = false)
      (fun a b hab ha => Step.step_flags a b hab ha) hst hc
    rcases hdir with hdir | ⟨hd1, hd2⟩
    · exact getPackageStatus_absent env sf.c sf.w p hl (hflags p) hdir
    · exact getPackageStatus_empty env sf.c sf.w p hl (hflags p) hd1 hd2
  · intro wk pkg rest hst
    have hl := getPackageStatus_locked env _ _ _ _ hst
    have hl3 : (State.log wk.s (Event.getPackageStatus pkg packageNone none)).c.packageLock
        pkg = some () := hl
    cases hcp : compilePackage env
        { c := wk.s.c.withFlag pkg true, w := wk.s.w,
          events := wk.s.events ++ [Event.getPackageStatus pkg packageNone none] ++
            [Event.compilePackage pkg] } pkg with
    | error a =>
      have hcp2 : compilePackage env
          { c := (State.log wk.s (Event.getPackageStatus pkg packageNone none)).c.withFlag pkg
              true,
            w := (State.log wk.s (Event.getPackageStatus pkg packageNone none)).w,
            events := (State.log wk.s (Event.getPackageStatus pkg packageNone none)).events ++
              [Event.compilePackage pkg] } pkg = Except.error a := hcp
      unfold scanPackages
      simp only [hst, if_true]
      unfold attemptPackage
      rw [setCompiling_eq _ _ _ hl3]
      simp only [if_true]
      rw [hcp2]
    | ok x =>
      obtain ⟨workerErr, s2⟩ := x
      have hcp2 : compilePackage env
          { c := (State.log wk.s (Event.getPackageStatus pkg packageNone none)).c.withFlag pkg
              true,
            w := (State.log wk.s (Event.getPackageStatus pkg packageNone none)).w,
            events := (State.log wk.s (Event.getPackageStatus pkg packageNone none)).events ++
              [Event.compilePackage pkg] } pkg = Except.ok (workerErr, s2) := hcp
      have hcc : s2.c = wk.s.c.withFlag pkg true :=
        (compilePackage_evolves env _ s2 pkg _ hcp).1
      have hl2 : s2.c.packageLock pkg = some () := by rw [hcc]; exact hl
      conv_lhs => unfold scanPackages
      simp only [hst, if_true]
      unfold attemptPackage
      rw [setCompiling_eq _ _ _ hl3]
      simp only [if_true]
      rw [hcp2]
      simp only
      rw [setCompiling_eq _ _ _ hl2]
      cases workerErr with
      | none => simp
      | some e => simp

theorem C27_witness :
    (∃ (result : List String) (sf : State),
      Compile (exampleEnv (fun _ => 3) none) 1 orderedCompilator emptyWorld 1 =
        Except.ok (result, sf) ∧ result ≠ [] ∧ EndsAtFailure sf.events) ∧
    (∃ (result result2 : List String) (sf sf2 : State),
      Compile (exampleEnv (fun _ => 3) none) 1 orderedCompilator emptyWorld 1 =
        Except.ok (result, sf) ∧
      (sf.events.filter Event.isRun).map Event.runOf = [some 1] ∧
      Compile (exampleEnv (fun _ => 3) none) 1 sf.c sf.w 1 = Except.ok (result2, sf2) ∧
      (sf2.events.filter Event.isRun).map Event.runOf = [some 1]) :=
  ⟨((C27_no_retry_by_the_same_worker (exampleEnv (fun _ => 3) none)).2.1 1 orderedCompilator
      emptyWorld).2
      ⟨Event.RunInContainer 1 "repo-rel-7-pkg-A" "repo:rel-7-cbase"
          ["bash", "/fissile-in/compile.sh", "A", "1"] "/w/A/sources" "/w/A/compiled"
          { exitCode := 3, container := some "id-repo-rel-7-pkg-A", err := none },
        by decide, rfl⟩,
    ⟨_, _, _, _, rfl, rfl, rfl, rfl⟩⟩

end Fissile
